import Mathlib

/-!
Console host input stream (`src/src/host/stream.cpp`)

A shallow embedding of the cooked-read line editor (`ProcessCookedReadInput`), the
cell-width routines (`RetrieveTotalNumberOfSpaces`, `RetrieveNumberOfSpaces`) and the
stream character extractor (`GetChar`), followed by theorems about them.

Conventions of the embedding

* `WCHAR`, `ULONG` and `DWORD` values are natural numbers (`Nat`), `SHORT` and
  `NTSTATUS` values are integers (`Int`). `ULONG`/`DWORD` results are reduced modulo
  `2^32` after every arithmetic step the C code performs on them, `SHORT` results
  are wrapped to sixteen bits, `size_t` arithmetic is reduced modulo `2^64`.
* Memory is addressed in `WCHAR` units relative to `BackupLimit`, the base of the
  line buffer: `BackupLimit i` is the code unit at `BackupLimit[i]`. The index is an
  integer because the routine evaluates `BufPtr[-1]`. `BufPtr` is kept as its offset
  from `BackupLimit`, separately from `CurrentPosition`, as in the C structure.
  Byte counts that address the buffer (`BytesRead`) are whole numbers of `WCHAR`s.
* Routines, tables and macros that live outside `stream.cpp` (the screen writer, the
  cursor, the word-delimiter table, key codes of the extended edit keys) are fields
  of the `Host` record, so every theorem holds for every implementation of them.
-/

namespace Stream

/-! ## Machine integers -/

/-- Memory seen through a `WCHAR` pointer: the code unit at each offset from the base. -/
abbrev Mem := Int → Nat

/-- Reduction of an arithmetic result to `ULONG`. -/
def toULONG (n : Nat) : Nat := n % 2 ^ 32

/-- Subtraction of `ULONG` values, with wrap-around. -/
def subULONG (a b : Nat) : Nat := ((2 ^ 32 - b % 2 ^ 32) + a) % 2 ^ 32

/-- Subtraction in `size_t` (the type of `sizeof`), with wrap-around. -/
def subSizeT (a b : Nat) : Nat := ((2 ^ 64 - b % 2 ^ 64) + a) % 2 ^ 64

/-- The cast `(SHORT)` of an integer value. -/
def toSHORT (n : Int) : Int := (n + 32768) % 65536 - 32768

/-- The value of `sizeof(WCHAR)`. -/
def sizeof_WCHAR : Nat := 2

def UNICODE_BACKSPACE : Nat := 0x08
def UNICODE_TAB : Nat := 0x09
def UNICODE_LINEFEED : Nat := 0x0A
def UNICODE_CARRIAGERETURN : Nat := 0x0D
def UNICODE_SPACE : Nat := 0x20

def STATUS_SUCCESS : Int := 0

/-- The macro `NT_SUCCESS`. -/
def NT_SUCCESS (s : Int) : Bool := decide (0 ≤ s)

/-! ## Cell widths -/

/-- Character classes consulted by the cell-width routines; `IS_CONTROL_CHAR` is a macro
and `IsCharFullWidth` a routine of the codepage layer, both declared outside `stream.cpp`. -/
structure CharTables where
  IS_CONTROL_CHAR : Nat → Bool
  IsCharFullWidth : Nat → Bool

/-- Modelled from the spec: the macro `NUMBER_OF_SPACES_IN_TAB`, which `stream.cpp` uses and
a header outside it defines. "TAB expands to the count of spaces to the next 8-cell stop
from the current column." -/
def NUMBER_OF_SPACES_IN_TAB (XPosition : Int) : Nat := (8 - XPosition % 8).toNat

/-- The locals `(XPosition, NumSpaces)` of `RetrieveTotalNumberOfSpaces` after the first
`k` passes of its `for` loop. -/
def totalSpacesLoop (t : CharTables) (sOriginalCursorPositionX : Int) (pwchBuffer : Mem) :
    Nat → Int × Nat
  | 0 => (sOriginalCursorPositionX, 0)
  | i + 1 =>
    let st := totalSpacesLoop t sOriginalCursorPositionX pwchBuffer i
    let XPosition := st.1
    let NumSpaces := st.2
    let Char := pwchBuffer i
    let NumSpacesForChar : Nat :=
      if Char = UNICODE_TAB then NUMBER_OF_SPACES_IN_TAB XPosition
      else if t.IS_CONTROL_CHAR Char = true then 2
      else if t.IsCharFullWidth Char = true then 2
      else 1
    (toSHORT (XPosition + NumSpacesForChar), toULONG (NumSpaces + NumSpacesForChar))

/-- `RetrieveTotalNumberOfSpaces`: the number of screen cells taken by the first
`ulCurrentPosition` characters of the buffer. -/
def RetrieveTotalNumberOfSpaces (t : CharTables) (sOriginalCursorPositionX : Int)
    (pwchBuffer : Mem) (ulCurrentPosition : Nat) : Nat :=
  (totalSpacesLoop t sOriginalCursorPositionX pwchBuffer ulCurrentPosition).2

/-- The locals `(XPosition, NumSpaces)` of the TAB branch of `RetrieveNumberOfSpaces`
after the first `k` passes of its `for` loop. -/
def numberOfSpacesLoop (t : CharTables) (sOriginalCursorPositionX : Int) (pwchBuffer : Mem) :
    Nat → Int × Nat
  | 0 => (sOriginalCursorPositionX, 0)
  | i + 1 =>
    let st := numberOfSpacesLoop t sOriginalCursorPositionX pwchBuffer i
    let XPosition := st.1
    let Char := pwchBuffer i
    let NumSpaces : Nat :=
      if Char = UNICODE_TAB then NUMBER_OF_SPACES_IN_TAB XPosition
      else if t.IS_CONTROL_CHAR Char = true then 2
      else if t.IsCharFullWidth Char = true then 2
      else 1
    (toSHORT (XPosition + NumSpaces), NumSpaces)

/-- `RetrieveNumberOfSpaces`: the number of screen cells taken by the character at index
`ulCurrentPosition`. The loop of the TAB branch runs for `i = 0 .. ulCurrentPosition`. -/
def RetrieveNumberOfSpaces (t : CharTables) (sOriginalCursorPositionX : Int)
    (pwchBuffer : Mem) (ulCurrentPosition : Nat) : Nat :=
  let Char := pwchBuffer ulCurrentPosition
  if Char = UNICODE_TAB then
    (numberOfSpacesLoop t sOriginalCursorPositionX pwchBuffer (ulCurrentPosition + 1)).2
  else if t.IS_CONTROL_CHAR Char = true then 2
  else if t.IsCharFullWidth Char = true then 2
  else 1

/-! ## The cooked-read session -/

/-- A screen coordinate. -/
structure COORD where
  X : Int
  Y : Int

/-- The fields of `COOKED_READ_DATA` that `ProcessCookedReadInput` reads or writes.
`BackupLimit` is the line buffer (its contents, indexed in `WCHAR`s from its base) and
`BufPtr` the offset of the pointer of that name from `BackupLimit`. -/
structure COOKED_READ_DATA where
  BufferSize : Nat
  BytesRead : Nat
  CurrentPosition : Nat
  BufPtr : Nat
  BackupLimit : Mem
  UserBufferSize : Nat
  OriginalCursorPosition : COORD
  NumberOfVisibleChars : Nat
  CtrlWakeupMask : Nat
  ControlKeyState : Nat
  Echo : Bool
  InsertMode : Bool
  Processed : Bool
  Line : Bool

/-- A load or a store that the routine itself makes in the line buffer: `count` code units
starting at offset `index` from `BackupLimit`. -/
inductive Access where
  | read (index : Int) (count : Nat)
  | write (index : Int) (count : Nat)

/-- The assignment `p[i] = v`. -/
def poke (m : Mem) (i : Int) (v : Nat) : Mem := fun j => if j = i then v else m j

/-- The call `memmove(dst, src, cb)` inside the line buffer, for a byte count `cb` that is
a whole number of `WCHAR`s: `cb / sizeof(WCHAR)` code units are copied, the source being
read before anything is written. -/
def memmoveW (m : Mem) (dst src : Int) (cb : Nat) : Mem :=
  fun j => if dst ≤ j ∧ j < dst + (cb / sizeof_WCHAR : Nat) then m (j - dst + src) else m j

/-- The flags `WC_DESTRUCTIVE_BACKSPACE`, `WC_KEEP_CURSOR_VISIBLE`, `WC_ECHO`. -/
structure WriteFlags where
  DESTRUCTIVE_BACKSPACE : Bool
  KEEP_CURSOR_VISIBLE : Bool
  ECHO : Bool

/-- The arguments of one call of `WriteCharsLegacy`. `pwchBuffer` is the offset of that
pointer from `pwchBufferBackupLimit`, `pwchRealUnicode` the `cb / sizeof(WCHAR)` code
units handed over for writing, `wantSpaces` and `wantScrollY` tell whether `pcSpaces` and
`psScrollY` are non-null. -/
structure WriteCharsCall where
  pwchBufferBackupLimit : Mem
  pwchBuffer : Nat
  pwchRealUnicode : List Nat
  cb : Nat
  wantSpaces : Bool
  sOriginalXPosition : Int
  dwFlags : WriteFlags
  wantScrollY : Bool

/-- What a call of `WriteCharsLegacy` hands back: its status and the values it leaves in
`*pcSpaces` and `*psScrollY`. -/
structure WriteCharsReply where
  Status : Int
  NumSpaces : Nat
  ScrollY : Int

/-- Everything `ProcessCookedReadInput` uses that is declared outside `stream.cpp`.
`W` is the state of the screen and cursor behind `ScreenInfo`. The console settings
(`GetExtendedEditKey`, `GetInsertMode`) are fixed for the duration of a call.
`DeleteCommandLine` is called with `fUpdateFields = FALSE` only and repaints the screen
without touching the session. -/
structure Host (W : Type) extends CharTables where
  EXTKEY_ERASE_PREV_WORD : Nat
  UNICODE_BACKSPACE2 : Nat
  VK_INSERT : Nat
  IS_WORD_DELIM : Nat → Bool
  GetExtendedEditKey : Bool
  GetInsertMode : Bool
  WriteCharsLegacy : W → WriteCharsCall → W × WriteCharsReply
  CheckBisectProcessW : W → Mem → Nat → Int → Int → Bool → Bool
  ScreenBufferSizeX : W → Int
  GetCursorPosition : W → COORD
  DeleteCommandLine : W → COOKED_READ_DATA → Bool → W
  AdjustCursorPosition : W → COORD → Bool → W × Int
  ProcessCommandLine : W → COOKED_READ_DATA → Nat → Nat → Bool → W × COOKED_READ_DATA

/-- Modelled from the spec: the macro `AT_EOL`, which `stream.cpp` uses and a header outside
it defines. "At end of line? `WriteCursor == BytesUsed/sizeof(WCHAR)`". -/
def AT_EOL (d : COOKED_READ_DATA) : Bool :=
  decide (d.CurrentPosition = d.BytesRead / sizeof_WCHAR)

/-- The session, the screen and the locals of `ProcessCookedReadInput` at a point of its
body: `Status` is `*pStatus`, `log` the accesses to the line buffer made so far. -/
structure Frame (W : Type) where
  d : COOKED_READ_DATA
  scr : W
  Status : Int
  NumSpaces : Nat
  ScrollY : Int
  log : List Access

/-- What one call of `ProcessCookedReadInput` leaves behind: the return value
(`Completed`, TRUE when the read is completed), `*pStatus`, the session, the screen, and
the accesses the routine made to the line buffer. -/
structure Tick (W : Type) where
  Completed : Bool
  Status : Int
  d : COOKED_READ_DATA
  scr : W
  log : List Access

/-! ## `ProcessCookedReadInput` -/

/-- The first statements after the label `eol_repeat`: the echo of `wch` through
`WriteCharsLegacy` when `Echo` is set, and `NumberOfVisibleChars += NumSpaces`. -/
def eolEcho {W : Type} (h : Host W) (wch : Nat) (f : Frame W) : Frame W :=
  let f1 : Frame W :=
    if f.d.Echo = true then
      let r := h.WriteCharsLegacy f.scr
        { pwchBufferBackupLimit := f.d.BackupLimit
          pwchBuffer := f.d.BufPtr
          pwchRealUnicode := [wch]
          cb := sizeof_WCHAR
          wantSpaces := true
          sOriginalXPosition := f.d.OriginalCursorPosition.X
          dwFlags := { DESTRUCTIVE_BACKSPACE := true, KEEP_CURSOR_VISIBLE := true, ECHO := true }
          wantScrollY := true }
      let d1 : COOKED_READ_DATA :=
        if NT_SUCCESS r.2.Status = true then
          { f.d with OriginalCursorPosition :=
              { f.d.OriginalCursorPosition with
                Y := toSHORT (f.d.OriginalCursorPosition.Y + r.2.ScrollY) } }
        else f.d
      { f with d := d1, scr := r.1, Status := r.2.Status, NumSpaces := r.2.NumSpaces,
               ScrollY := r.2.ScrollY }
    else f
  { f1 with
    d := { f1.d with
           NumberOfVisibleChars := toULONG (f1.d.NumberOfVisibleChars + f1.NumSpaces) } }

/-- The frame `f` with one more load, of the code unit at offset `i`, on its log. -/
def Frame.noteRead {W : Type} (f : Frame W) (i : Int) : Frame W :=
  { f with log := f.log ++ [Access.read i 1] }

/-- The backspace at end of line: `BytesRead -= sizeof(WCHAR)`, `*BufPtr = ' '`, `BufPtr
-= 1`, `CurrentPosition -= 1`. -/
def eolErase {W : Type} (f : Frame W) : Frame W :=
  { f with
    d := { f.d with
           BytesRead := subULONG f.d.BytesRead sizeof_WCHAR
           BackupLimit := poke f.d.BackupLimit f.d.BufPtr UNICODE_SPACE
           BufPtr := f.d.BufPtr - 1
           CurrentPosition := subULONG f.d.CurrentPosition 1 }
    log := f.log ++ [Access.write f.d.BufPtr 1] }

/-- A character stored at end of line: `*BufPtr = wch`, `BytesRead += sizeof(WCHAR)`,
`BufPtr += 1`, `CurrentPosition += 1`. -/
def eolStore {W : Type} (wch : Nat) (f : Frame W) : Frame W :=
  { f with
    d := { f.d with
           BackupLimit := poke f.d.BackupLimit f.d.BufPtr wch
           BytesRead := toULONG (f.d.BytesRead + sizeof_WCHAR)
           BufPtr := f.d.BufPtr + 1
           CurrentPosition := toULONG (f.d.CurrentPosition + 1) }
    log := f.log ++ [Access.write f.d.BufPtr 1] }

/-- The statements from the label `eol_repeat` to the end of the enclosing block. `wch` is
the character after aliasing, `wchOrig` the character as received. A `goto eol_repeat` is
the recursive call; it is taken only with `BufPtr != BackupLimit` after a decrement of
`BufPtr`, so `fuel = BufPtr` on entry is never used up. -/
def eol_repeat {W : Type} (h : Host W) (wch wchOrig : Nat) (fStartFromDelim : Bool) :
    Nat → Frame W → Frame W
  | fuel, f =>
    let f2 := eolEcho h wch f
    if wch = UNICODE_BACKSPACE ∧ f2.d.Processed = true then
      let f3 := eolErase f2
      -- Repeat until it hits the word boundary
      if h.GetExtendedEditKey = true ∧ wchOrig = h.EXTKEY_ERASE_PREV_WORD ∧ f3.d.BufPtr ≠ 0 then
        let f4 := f3.noteRead ((f3.d.BufPtr : Int) - 1)
        if xor fStartFromDelim (!h.IS_WORD_DELIM (f3.d.BackupLimit ((f3.d.BufPtr : Int) - 1)))
            = true then
          match fuel with
          | 0 => f4
          | n + 1 => eol_repeat h wch wchOrig fStartFromDelim n f4
        else f4
      else f3
    else eolStore wch f2

/-- The end-of-line branch (`if (AT_EOL(pCookedReadData))`): the character `wch` after the
alias of `UNICODE_BACKSPACE2`, and the frame at the end of the branch. -/
def eolBranch {W : Type} (h : Host W) (wch wchOrig : Nat) (f : Frame W) : Nat × Frame W :=
  -- If at end of line, processing is relatively simple.
  let wch := if wch = h.UNICODE_BACKSPACE2 then UNICODE_BACKSPACE else wch
  if wch ≠ UNICODE_BACKSPACE ∨ f.d.BufPtr ≠ 0 then
    let f0 : Frame W :=
      if h.GetExtendedEditKey = true then f.noteRead ((f.d.BufPtr : Int) - 1) else f
    let fStartFromDelim : Bool :=
      h.GetExtendedEditKey && h.IS_WORD_DELIM (f.d.BackupLimit ((f.d.BufPtr : Int) - 1))
    (wch, eol_repeat h wch wchOrig fStartFromDelim f.d.BufPtr f0)
  else (wch, f)

/-- The statements from the label `bs_repeat` to the end of the enclosing block (backspace
in the middle of the line). A `goto bs_repeat` is the recursive call; as in `eol_repeat`
it is taken only with `BufPtr != BackupLimit`, so `fuel = BufPtr` is never used up. -/
def bs_repeat {W : Type} (h : Host W) (wch wchOrig : Nat) (fStartFromDelim : Bool) :
    Nat → Frame W → Frame W
  | fuel, f =>
    let f1 : Frame W :=
      if f.d.Echo = true then
        let r := h.WriteCharsLegacy f.scr
          { pwchBufferBackupLimit := f.d.BackupLimit
            pwchBuffer := f.d.BufPtr
            pwchRealUnicode := [wch]
            cb := sizeof_WCHAR
            wantSpaces := false
            sOriginalXPosition := f.d.OriginalCursorPosition.X
            dwFlags := { DESTRUCTIVE_BACKSPACE := true, KEEP_CURSOR_VISIBLE := true, ECHO := true }
            wantScrollY := false }
        { f with scr := r.1, Status := r.2.Status }
      else f
    let BytesRead := subULONG f1.d.BytesRead sizeof_WCHAR
    let BufPtr := f1.d.BufPtr - 1
    let CurrentPosition := subULONG f1.d.CurrentPosition 1
    let cb := subSizeT BytesRead (CurrentPosition * sizeof_WCHAR)
    let moved := memmoveW f1.d.BackupLimit BufPtr ((BufPtr : Int) + 1) cb
    let d3 : COOKED_READ_DATA :=
      { f1.d with
        BytesRead := BytesRead
        BufPtr := BufPtr
        CurrentPosition := CurrentPosition
        BackupLimit := poke moved ((BytesRead / sizeof_WCHAR : Nat) : Int) UNICODE_SPACE }
    let log3 := f1.log ++
      [Access.read ((BufPtr : Int) + 1) (cb / sizeof_WCHAR), Access.write BufPtr (cb / sizeof_WCHAR),
       Access.write ((BytesRead / sizeof_WCHAR : Nat) : Int) 1]
    -- Repeat until it hits the word boundary
    if h.GetExtendedEditKey = true ∧ wchOrig = h.EXTKEY_ERASE_PREV_WORD ∧ d3.BufPtr ≠ 0 then
      let f3 : Frame W :=
        { f1 with d := d3, NumSpaces := 0, log := log3 ++ [Access.read ((d3.BufPtr : Int) - 1) 1] }
      if xor fStartFromDelim (!h.IS_WORD_DELIM (d3.BackupLimit ((d3.BufPtr : Int) - 1))) = true then
        match fuel with
        | 0 => f3
        | n + 1 => bs_repeat h wch wchOrig fStartFromDelim n f3
      else f3
    else { f1 with d := d3, NumSpaces := 0, log := log3 }

/-- The first half of the middle-of-line branch, up to `if (pCookedReadData->Echo &&
CallWrite)`: the frame reached and the value of `CallWrite`. -/
def midEdit {W : Type} (h : Host W) (wch wchOrig : Nat) (f : Frame W) : Frame W × Bool :=
  if wch = UNICODE_BACKSPACE ∧ f.d.Processed = true then
    -- for backspace, use writechars to calculate the new cursor position.
    if f.d.BufPtr ≠ 0 then
      let f0 : Frame W :=
        if h.GetExtendedEditKey = true then
          { f with log := f.log ++ [Access.read ((f.d.BufPtr : Int) - 1) 1] }
        else f
      let fStartFromDelim : Bool :=
        h.GetExtendedEditKey && h.IS_WORD_DELIM (f.d.BackupLimit ((f.d.BufPtr : Int) - 1))
      (bs_repeat h wch wchOrig fStartFromDelim f0.d.BufPtr f0, true)
    else (f, false)
  else if wch = UNICODE_CARRIAGERETURN then
    -- store the char
    let BufPtr : Nat := f.d.BytesRead / sizeof_WCHAR
    ({ f with
       d := { f.d with
              BackupLimit := poke f.d.BackupLimit BufPtr wch
              BufPtr := BufPtr + 1
              BytesRead := toULONG (f.d.BytesRead + sizeof_WCHAR)
              CurrentPosition := toULONG (f.d.CurrentPosition + 1) }
       log := f.log ++ [Access.write BufPtr 1] }, true)
  else
    let fBisect : Bool :=
      f.d.Echo &&
        h.CheckBisectProcessW f.scr f.d.BackupLimit (toULONG (f.d.CurrentPosition + 1))
          (h.ScreenBufferSizeX f.scr - f.d.OriginalCursorPosition.X)
          f.d.OriginalCursorPosition.X true
    let cb := subSizeT f.d.BytesRead (f.d.CurrentPosition * sizeof_WCHAR)
    let f1 : Frame W :=
      if f.d.InsertMode = true then
        { f with
          d := { f.d with
                 BackupLimit := memmoveW f.d.BackupLimit ((f.d.BufPtr : Int) + 1) f.d.BufPtr cb
                 BytesRead := toULONG (f.d.BytesRead + sizeof_WCHAR) }
          log := f.log ++ [Access.read f.d.BufPtr (cb / sizeof_WCHAR),
                           Access.write ((f.d.BufPtr : Int) + 1) (cb / sizeof_WCHAR)] }
      else f
    let d2 : COOKED_READ_DATA :=
      { f1.d with
        BackupLimit := poke f1.d.BackupLimit f1.d.BufPtr wch
        BufPtr := f1.d.BufPtr + 1
        CurrentPosition := toULONG (f1.d.CurrentPosition + 1) }
    let f2 : Frame W := { f1 with d := d2, log := f1.log ++ [Access.write f1.d.BufPtr 1] }
    -- calculate new cursor position
    if d2.Echo = true then
      let pos := subULONG d2.CurrentPosition 1
      let NumSpaces :=
        RetrieveNumberOfSpaces h.toCharTables d2.OriginalCursorPosition.X d2.BackupLimit pos
      let NumSpaces := if 0 < NumSpaces ∧ fBisect = true then subULONG NumSpaces 1 else NumSpaces
      ({ f2 with
         NumSpaces := NumSpaces
         log := f2.log ++
           (if d2.BackupLimit pos = UNICODE_TAB then [Access.read pos 1, Access.read 0 (pos + 1)]
            else [Access.read pos 1]) }, true)
    else (f2, true)

/-- The second half of the middle-of-line branch, the block under `if
(pCookedReadData->Echo && CallWrite)`: the frame reached, and whether the routine has
returned TRUE from inside the block (with `BytesRead = 0`). -/
def midRepaint {W : Type} (h : Host W) (wch : Nat) (f : Frame W) : Frame W × Bool :=
  -- save cursor position
  let CursorPosition := h.GetCursorPosition f.scr
  let CursorPosition : COORD := { CursorPosition with X := toSHORT (CursorPosition.X + f.NumSpaces) }
  -- clear the current command line from the screen
  let scr1 := h.DeleteCommandLine f.scr f.d false
  -- write the new command line to the screen
  let NumToWrite := f.d.BytesRead
  let r := h.WriteCharsLegacy scr1
    { pwchBufferBackupLimit := f.d.BackupLimit
      pwchBuffer := 0
      pwchRealUnicode := (List.range (NumToWrite / sizeof_WCHAR)).map
        (fun (i : Nat) => f.d.BackupLimit (i : Int))
      cb := NumToWrite
      wantSpaces := true
      sOriginalXPosition := f.d.OriginalCursorPosition.X
      dwFlags := { DESTRUCTIVE_BACKSPACE := true
                   KEEP_CURSOR_VISIBLE := decide (wch = UNICODE_CARRIAGERETURN)
                   ECHO := true }
      wantScrollY := true }
  let d1 : COOKED_READ_DATA := { f.d with NumberOfVisibleChars := r.2.NumSpaces }
  let f1 : Frame W := { f with d := d1, scr := r.1, Status := r.2.Status, ScrollY := r.2.ScrollY }
  if NT_SUCCESS r.2.Status = false then
    ({ f1 with d := { d1 with BytesRead := 0 } }, true)
  else if wch ≠ UNICODE_CARRIAGERETURN then
    -- update cursor position
    let CursorPosition : COORD :=
      if h.CheckBisectProcessW f1.scr d1.BackupLimit (toULONG (d1.CurrentPosition + 1))
            (h.ScreenBufferSizeX f1.scr - d1.OriginalCursorPosition.X)
            d1.OriginalCursorPosition.X true = true
          ∧ CursorPosition.X = h.ScreenBufferSizeX f1.scr - 1 then
        { CursorPosition with X := toSHORT (CursorPosition.X + 1) }
      else CursorPosition
    -- adjust cursor position for WriteChars
    let d2 : COOKED_READ_DATA :=
      { d1 with OriginalCursorPosition :=
          { d1.OriginalCursorPosition with Y := toSHORT (d1.OriginalCursorPosition.Y + f1.ScrollY) } }
    let CursorPosition : COORD := { CursorPosition with Y := toSHORT (CursorPosition.Y + f1.ScrollY) }
    let a := h.AdjustCursorPosition f1.scr CursorPosition true
    if NT_SUCCESS a.2 = false then
      ({ f1 with d := { d2 with BytesRead := 0 }, scr := a.1, Status := a.2 }, true)
    else ({ f1 with d := d2, scr := a.1, Status := a.2 }, false)
  else (f1, false)

/-- The closing block of `ProcessCookedReadInput`, `if (wch == UNICODE_CARRIAGERETURN)`
and the final `return FALSE`. -/
def crCompletion {W : Type} (h : Host W) (wch : Nat) (f : Frame W) : Tick W :=
  if wch = UNICODE_CARRIAGERETURN then
    let f1 : Frame W :=
      if f.d.Processed = true ∧ f.d.BytesRead < f.d.BufferSize then
        let mem := poke f.d.BackupLimit f.d.BufPtr UNICODE_LINEFEED
        let f0 : Frame W :=
          if f.d.Echo = true then
            let r := h.WriteCharsLegacy f.scr
              { pwchBufferBackupLimit := mem
                pwchBuffer := f.d.BufPtr
                pwchRealUnicode := [UNICODE_LINEFEED]
                cb := sizeof_WCHAR
                wantSpaces := false
                sOriginalXPosition := f.d.OriginalCursorPosition.X
                dwFlags := { DESTRUCTIVE_BACKSPACE := true, KEEP_CURSOR_VISIBLE := true, ECHO := true }
                wantScrollY := false }
            { f with scr := r.1, Status := r.2.Status }
          else f
        { f0 with
          d := { f0.d with
                 BackupLimit := mem
                 BytesRead := toULONG (f0.d.BytesRead + sizeof_WCHAR)
                 BufPtr := f0.d.BufPtr + 1
                 CurrentPosition := toULONG (f0.d.CurrentPosition + 1) }
          log := f0.log ++ [Access.write f.d.BufPtr 1] }
      else f
    -- reset the cursor back to 25% if necessary
    if f1.d.Line = true then
      let p : W × COOKED_READ_DATA :=
        if f1.d.InsertMode ≠ h.GetInsertMode then
          -- Make cursor small.
          h.ProcessCommandLine f1.scr f1.d h.VK_INSERT 0 false
        else (f1.scr, f1.d)
      { Completed := true, Status := STATUS_SUCCESS, d := p.2, scr := p.1, log := f1.log }
    else { Completed := false, Status := f1.Status, d := f1.d, scr := f1.scr, log := f1.log }
  else { Completed := false, Status := f.Status, d := f.d, scr := f.scr, log := f.log }

/-- The frame after the declarations and `*pStatus = STATUS_SUCCESS` at the head of
`ProcessCookedReadInput`: `NumSpaces = 0`, `ScrollY = 0`, no access made yet. -/
def entryFrame {W : Type} (scr : W) (d : COOKED_READ_DATA) : Frame W :=
  { d := d, scr := scr, Status := STATUS_SUCCESS, NumSpaces := 0, ScrollY := 0, log := [] }

/-- `ProcessCookedReadInput(pCookedReadData, wch, dwKeyState, pStatus)`: one character of
the cooked read. `scr` is the screen behind `pCookedReadData->ScreenInfo`. -/
def ProcessCookedReadInput {W : Type} (h : Host W) (scr : W) (d : COOKED_READ_DATA)
    (wch : Nat) (dwKeyState : Nat) : Tick W :=
  let wchOrig := wch
  if subSizeT d.BufferSize (2 * sizeof_WCHAR) ≤ d.BytesRead ∧ wch ≠ UNICODE_CARRIAGERETURN
      ∧ wch ≠ UNICODE_BACKSPACE then
    { Completed := false, Status := STATUS_SUCCESS, d := d, scr := scr, log := [] }
  else if d.CtrlWakeupMask ≠ 0 ∧ wch < UNICODE_SPACE ∧ d.CtrlWakeupMask &&& (1 <<< wch) ≠ 0 then
    { Completed := true
      Status := STATUS_SUCCESS
      d := { d with
             BackupLimit := poke d.BackupLimit d.BufPtr wch
             BytesRead := toULONG (d.BytesRead + sizeof_WCHAR)
             BufPtr := d.BufPtr + 1
             CurrentPosition := toULONG (d.CurrentPosition + 1)
             ControlKeyState := dwKeyState }
      scr := scr
      log := [Access.write d.BufPtr 1] }
  else
    let wch := if wch = h.EXTKEY_ERASE_PREV_WORD then UNICODE_BACKSPACE else wch
    let f : Frame W := entryFrame scr d
    if AT_EOL d = true then
      let r := eolBranch h wch wchOrig f
      crCompletion h r.1 r.2
    else
      -- processing in the middle of the line is more complex
      let e := midEdit h wch wchOrig f
      if e.1.d.Echo = true ∧ e.2 = true then
        let r := midRepaint h wch e.1
        if r.2 = true then
          { Completed := true, Status := r.1.Status, d := r.1.d, scr := r.1.scr, log := r.1.log }
        else crCompletion h wch r.1
      else crCompletion h wch e.1

/-- The contents `Storage[0 .. BytesUsed)` of the line buffer of a session. -/
def content (d : COOKED_READ_DATA) : List Nat :=
  (List.range (d.BytesRead / sizeof_WCHAR)).map (fun (i : Nat) => d.BackupLimit (i : Int))

/-- Keys fed one at a time: each `(wch, dwKeyState)` goes through one call of
`ProcessCookedReadInput` on the session and screen left by the call before it. The result
lists what every call left behind, in order. -/
def feed {W : Type} (h : Host W) : W → COOKED_READ_DATA → List (Nat × Nat) → List (Tick W)
  | _, _, [] => []
  | scr, d, k :: ks =>
    let t := ProcessCookedReadInput h scr d k.1 k.2
    t :: feed h t.scr t.d ks

/-! ## `GetChar` -/

/-- The record `KEY_EVENT_RECORD`. -/
structure KEY_EVENT_RECORD where
  bKeyDown : Bool
  wRepeatCount : Nat
  wVirtualKeyCode : Nat
  wVirtualScanCode : Nat
  UnicodeChar : Nat
  dwControlKeyState : Nat

/-- The record `INPUT_RECORD`: a key event, or an event of another type (mouse, focus,
menu, window buffer size) of which `GetChar` looks at `EventType` only. -/
inductive INPUT_RECORD where
  | KEY_EVENT (KeyEvent : KEY_EVENT_RECORD)
  | other (EventType : Nat)

/-- The part of `INPUT_INFORMATION` that `GetChar` uses: the input mode and the queue of
events, oldest first. -/
structure INPUT_INFORMATION where
  InputMode : Nat
  Queue : List INPUT_RECORD

def RIGHT_ALT_PRESSED : Nat := 0x0001
def LEFT_ALT_PRESSED : Nat := 0x0002
def RIGHT_CTRL_PRESSED : Nat := 0x0004
def LEFT_CTRL_PRESSED : Nat := 0x0008
def SHIFT_PRESSED : Nat := 0x0010
def ENABLE_VIRTUAL_TERMINAL_INPUT : Nat := 0x0200
def ALTNUMPAD_BIT : Nat := 0x04000000
def VK_MENU : Nat := 0x12
def VK_ESCAPE : Nat := 0x1B
def STATUS_UNSUCCESSFUL : Int := 0xC0000001 - 2 ^ 32
def CONSOLE_STATUS_WAIT : Int := 0xC0030001 - 2 ^ 32

def EITHER_CTRL_PRESSED : Nat := LEFT_CTRL_PRESSED ||| RIGHT_CTRL_PRESSED
def EITHER_ALT_PRESSED : Nat := LEFT_ALT_PRESSED ||| RIGHT_ALT_PRESSED
def MOD_PRESSED : Nat := SHIFT_PRESSED ||| EITHER_CTRL_PRESSED ||| EITHER_ALT_PRESSED

/-- The table `ConsKbdState`. -/
def ConsKbdState : List Nat :=
  [ 0,
    SHIFT_PRESSED,
    EITHER_CTRL_PRESSED,
    SHIFT_PRESSED ||| EITHER_CTRL_PRESSED,
    EITHER_ALT_PRESSED,
    SHIFT_PRESSED ||| EITHER_ALT_PRESSED,
    EITHER_CTRL_PRESSED ||| EITHER_ALT_PRESSED,
    SHIFT_PRESSED ||| EITHER_CTRL_PRESSED ||| EITHER_ALT_PRESSED ]

/-- The macro `KEYEVENTSTATE_EQUAL_WINMODS`, for the control-key state of the event. An
index past the end of the table reads as 0 here. -/
def KEYEVENTSTATE_EQUAL_WINMODS (dwControlKeyState : Nat) (WinMods : Nat) : Bool :=
  decide (dwControlKeyState &&& ConsKbdState.getD WinMods 0 ≠ 0) &&
    !decide (dwControlKeyState &&& MOD_PRESSED &&& (ConsKbdState.getD WinMods 0 ^^^ 0xFFFFFFFF) ≠ 0)

def LOBYTE (w : Nat) : Nat := w % 256
def HIBYTE (w : Nat) : Nat := w / 256 % 256

/-- Routines and tables that `GetChar` uses and that are declared outside `stream.cpp`.
`CharToWchar` gets the bytes of the OEM sequence; `VkKeyScanW0` is the value of
`VkKeyScanW(0)`, as a 16-bit pattern. -/
structure KeyTables where
  IsCommandLineEditingKey : KEY_EVENT_RECORD → Bool
  IsCommandLinePopupKey : KEY_EVENT_RECORD → Bool
  CharToWchar : List Nat → Nat
  VkKeyScanW0 : Nat

/-- Modelled from the spec: the key event that a stream read hands over for the key event
`e` at the head of the queue. "`stream_mode` means the call is part of character
extraction ... key-down repeats expand to multiple character events": a key-down event
with a repeat count above 1 is handed over with a repeat count of 1, any other event as
it is. -/
def streamHead (e : KEY_EVENT_RECORD) : KEY_EVENT_RECORD :=
  if e.bKeyDown = true ∧ 1 < e.wRepeatCount then { e with wRepeatCount := 1 } else e

/-- Modelled from the spec: the queue after a stream read of the key event `e` at its head,
`rest` being the events behind it. A key-down event with a repeat count above 1 stays at
the head with its repeat count lowered by one; any other event is taken out. -/
def streamTail (e : KEY_EVENT_RECORD) (rest : List INPUT_RECORD) : List INPUT_RECORD :=
  if e.bKeyDown = true ∧ 1 < e.wRepeatCount then
    INPUT_RECORD.KEY_EVENT { e with wRepeatCount := e.wRepeatCount - 1 } :: rest
  else rest

/-- Modelled from the spec: `ReadInputBuffer`, which `GetChar` calls and another file
defines, for the call `GetChar` makes (one event, no peek, stream read, Unicode).
"Events are appended in arrival order and consumed FIFO"; "when `blocking` and the buffer
is empty, returns `wait`"; in a stream read "key-down repeats expand to multiple character
events". The result is the status, the event read if `NumRead` is 1 (none if it is 0), and
the input buffer afterwards. The skipping of key-up events that the specification allows a
stream read is left to `GetChar`, which ignores these events itself. The specification
names no failure of the call, and the model succeeds or waits; what `CookedRead` does with
a failure status of `GetChar` is stated from the return of `GetChar` on
(`CookedReadLoopFailed`). -/
def ReadInputBuffer (pInputInfo : INPUT_INFORMATION) (fWait : Bool) :
    Int × Option INPUT_RECORD × INPUT_INFORMATION :=
  match pInputInfo.Queue with
  | [] => (if fWait = true then CONSOLE_STATUS_WAIT else STATUS_SUCCESS, none, pInputInfo)
  | INPUT_RECORD.KEY_EVENT e :: rest =>
    (STATUS_SUCCESS, some (INPUT_RECORD.KEY_EVENT (streamHead e)),
     { pInputInfo with Queue := streamTail e rest })
  | INPUT_RECORD.other t :: rest =>
    (STATUS_SUCCESS, some (INPUT_RECORD.other t), { pInputInfo with Queue := rest })

/-- The events that successive stream reads hand over from a queue, in order: every
event once, a key-down event with a repeat count `n` above 1 as `n` events with a repeat
count of 1. -/
def streamEvents : List INPUT_RECORD → List INPUT_RECORD
  | [] => []
  | INPUT_RECORD.KEY_EVENT e :: rest =>
    if e.bKeyDown = true ∧ 1 < e.wRepeatCount then
      List.replicate e.wRepeatCount (INPUT_RECORD.KEY_EVENT { e with wRepeatCount := 1 })
        ++ streamEvents rest
    else INPUT_RECORD.KEY_EVENT e :: streamEvents rest
  | INPUT_RECORD.other t :: rest => INPUT_RECORD.other t :: streamEvents rest

/-- The number of stream reads that a queue serves before it is empty. -/
def streamReads (q : List INPUT_RECORD) : Nat := (streamEvents q).length

/-- The queue after `n` stream reads. -/
def afterReads : Nat → List INPUT_RECORD → List INPUT_RECORD
  | 0, q => q
  | _ + 1, [] => []
  | n + 1, INPUT_RECORD.KEY_EVENT e :: rest => afterReads n (streamTail e rest)
  | n + 1, INPUT_RECORD.other _ :: rest => afterReads n rest

/-- What the body of the `for (;;)` loop of `GetChar` does with one key event: `some
(wch, editing, popup)` when it returns `STATUS_SUCCESS` with `*pwchOut = wch` and the two
flags as given, `none` when it goes round the loop again. `wantEditingKeys` and
`wantPopupKeys` tell whether `pfCommandLineEditingKeys` and `pfCommandLinePopupKeys` are
non-null. -/
def GetCharKeyEvent (k : KeyTables) (InputMode : Nat) (wantEditingKeys wantPopupKeys : Bool)
    (e : KEY_EVENT_RECORD) : Option (Nat × Bool × Bool) :=
  let fCommandLineEditKey : Bool :=
    if wantEditingKeys = true then k.IsCommandLineEditingKey e
    else if wantPopupKeys = true then k.IsCommandLinePopupKey e
    else false
  let rest : Option (Nat × Bool × Bool) :=
    if e.bKeyDown = true then
      if wantEditingKeys = true ∧ fCommandLineEditKey = true then
        some (e.wVirtualKeyCode % 2 ^ 16, true, false)
      else if wantPopupKeys = true ∧ fCommandLineEditKey = true then
        -- the cast `(CHAR)`, sign-extended into the `WCHAR`
        some (if LOBYTE e.wVirtualKeyCode < 128 then LOBYTE e.wVirtualKeyCode
              else 0xFF00 + LOBYTE e.wVirtualKeyCode, false, true)
      else if LOBYTE k.VkKeyScanW0 = e.wVirtualKeyCode
          ∧ KEYEVENTSTATE_EQUAL_WINMODS e.dwControlKeyState (HIBYTE k.VkKeyScanW0) = true then
        -- This really is the character 0x0000
        some (e.UnicodeChar, false, false)
      else none
    else none
  if e.UnicodeChar ≠ 0 ∧ fCommandLineEditKey = false then
    -- chars that are generated using alt + numpad
    if e.bKeyDown = false ∧ e.wVirtualKeyCode = VK_MENU then
      if e.dwControlKeyState &&& ALTNUMPAD_BIT ≠ 0 then
        if HIBYTE e.UnicodeChar ≠ 0 then
          some (k.CharToWchar [HIBYTE e.UnicodeChar, LOBYTE e.UnicodeChar], false, false)
        else
          some (k.CharToWchar [LOBYTE e.UnicodeChar], false, false)
      else some (e.UnicodeChar, false, false)
    -- Ignore Escape and Newline chars
    else if e.bKeyDown = true ∧
        (InputMode &&& ENABLE_VIRTUAL_TERMINAL_INPUT = ENABLE_VIRTUAL_TERMINAL_INPUT ∨
          (e.wVirtualKeyCode ≠ VK_ESCAPE ∧ e.UnicodeChar ≠ 0x0A)) then
      some (e.UnicodeChar, false, false)
    else rest
  else rest

/-- What a call of `GetChar` leaves behind: its status, the character stored in
`*pwchOut` (none if nothing was stored), the two flags, `*pdwKeyState`, and the input
buffer. -/
structure GetCharResult where
  Status : Int
  wchOut : Option Nat
  fCommandLineEditingKeys : Bool
  fCommandLinePopupKeys : Bool
  dwKeyState : Nat
  InputInfo : INPUT_INFORMATION

/-- The `for (;;)` loop of `GetChar`, with `dwKeyState` the value of `*pdwKeyState` so
far. Every pass makes one stream read, so the loop is given one pass more than the queue
serves stream reads; `none` stands for a loop that would need more. -/
def GetCharLoop (k : KeyTables) (fWait wantEditingKeys wantPopupKeys wantKeyState : Bool) :
    Nat → Nat → INPUT_INFORMATION → Option GetCharResult
  | 0, _, _ => none
  | fuel + 1, dwKeyState, pInputInfo =>
    let r := ReadInputBuffer pInputInfo fWait
    if NT_SUCCESS r.1 = false then
      some { Status := r.1, wchOut := none, fCommandLineEditingKeys := false,
             fCommandLinePopupKeys := false, dwKeyState := dwKeyState, InputInfo := r.2.2 }
    else
      match r.2.1 with
      | none =>
        some { Status := STATUS_UNSUCCESSFUL, wchOut := none, fCommandLineEditingKeys := false,
               fCommandLinePopupKeys := false, dwKeyState := dwKeyState, InputInfo := r.2.2 }
      | some (INPUT_RECORD.other _) =>
        GetCharLoop k fWait wantEditingKeys wantPopupKeys wantKeyState fuel dwKeyState r.2.2
      | some (INPUT_RECORD.KEY_EVENT e) =>
        -- Always return keystate if caller asked for it.
        let dwKeyState := if wantKeyState = true then e.dwControlKeyState else dwKeyState
        match GetCharKeyEvent k r.2.2.InputMode wantEditingKeys wantPopupKeys e with
        | some out =>
          some { Status := STATUS_SUCCESS, wchOut := some out.1, fCommandLineEditingKeys := out.2.1,
                 fCommandLinePopupKeys := out.2.2, dwKeyState := dwKeyState, InputInfo := r.2.2 }
        | none =>
          GetCharLoop k fWait wantEditingKeys wantPopupKeys wantKeyState fuel dwKeyState r.2.2

/-- `GetChar(pInputInfo, pwchOut, fWait, ..., pfCommandLineEditingKeys,
pfCommandLinePopupKeys, pfEnableScrollMode, pdwKeyState)`. -/
def GetChar (k : KeyTables) (pInputInfo : INPUT_INFORMATION)
    (fWait wantEditingKeys wantPopupKeys wantKeyState : Bool) : Option GetCharResult :=
  GetCharLoop k fWait wantEditingKeys wantPopupKeys wantKeyState
    (streamReads pInputInfo.Queue + 1) 0 pInputInfo

/-! ## The read dispatcher: messages, handles and the console -/

def STATUS_ALERTED : Int := 0x00000101
def STATUS_BUFFER_OVERFLOW : Int := 0x80000005 - 2 ^ 32
def STATUS_INVALID_PARAMETER : Int := 0xC000000D - 2 ^ 32
def STATUS_NO_MEMORY : Int := 0xC0000017 - 2 ^ 32
def STATUS_BUFFER_TOO_SMALL : Int := 0xC0000023 - 2 ^ 32
def STATUS_THREAD_IS_TERMINATING : Int := 0xC000004B - 2 ^ 32
def CONSOLE_STATUS_READ_COMPLETE : Int := 0xC0030002 - 2 ^ 32
def CONSOLE_STATUS_WAIT_NO_BLOCK : Int := 0xC0030003 - 2 ^ 32
def ENABLE_PROCESSED_INPUT : Nat := 0x0001
def ENABLE_LINE_INPUT : Nat := 0x0002
def ENABLE_ECHO_INPUT : Nat := 0x0004
def LINE_INPUT_BUFFER_SIZE : Nat := 256 * sizeof_WCHAR

/-- The byte at byte offset `b` of an array of `WCHAR`s, the low byte of a code unit
first. -/
def byteOf (m : Mem) (b : Nat) : Nat :=
  if b % 2 = 0 then m ((b / 2 : Nat) : Int) % 256 else m ((b / 2 : Nat) : Int) / 256 % 256

/-- The `WCHAR` that `*(PWCHAR)((PBYTE)m + b)` reads from an array of `WCHAR`s. -/
def wcharAt (m : Mem) (b : Nat) : Nat := byteOf m b + 256 * byteOf m (b + 1)

/-- The `WCHAR` that `*(PWCHAR)(buf + b)` reads from an array of bytes. -/
def wcharOfBytes (buf : Nat → Nat) (b : Nat) : Nat := buf b + 256 * buf (b + 1)

/-- The `n` code units of an array of bytes from byte offset `off` on. -/
def wcharsOfBytes (buf : Nat → Nat) (off n : Nat) : List Nat :=
  (List.range n).map (fun i => wcharOfBytes buf (off + 2 * i))

/-- The call `memmove(dst + off, src, cb)` on arrays of bytes that do not overlap. -/
def copyBytes (dst : Nat → Nat) (off : Nat) (src : Nat → Nat) (cb : Nat) : Nat → Nat :=
  fun b => if off ≤ b ∧ b < off + cb then src (b - off) else dst b

/-- The assignment `*(PWCHAR)(buf + off) = v` in an array of bytes. -/
def pokeWchar (buf : Nat → Nat) (off : Nat) (v : Nat) : Nat → Nat :=
  fun b => if b = off then v % 256 else if b = off + 1 then v / 256 % 256 else buf b

/-- The `cb` bytes `bytes 0 .. bytes (cb - 1)` stored from the base of an array of
`WCHAR`s on. -/
def pokeBytes (m : Mem) (bytes : Nat → Nat) (cb : Nat) : Mem :=
  fun i =>
    if 0 ≤ i ∧ 2 * i.toNat < cb then
      bytes (2 * i.toNat) % 256 +
        256 * (if 2 * i.toNat + 1 < cb then bytes (2 * i.toNat + 1) % 256 else m i / 256 % 256)
    else m i

/-- A `CHAR` assigned to a `WCHAR`: the sign is extended. -/
def CHARtoWCHAR (c : Nat) : Nat := if c % 256 < 128 then c % 256 else 0xFF00 + c % 256

/-- The message `CONSOLE_READCONSOLE_MSG` (`a`). -/
structure CONSOLE_READCONSOLE_MSG where
  Unicode : Bool
  ProcessControlZ : Bool
  ExeNameLength : Nat
  InitialNumBytes : Nat
  CtrlWakeupMask : Nat
  ControlKeyState : Nat
  NumBytes : Nat

/-- The parts of `CONSOLE_API_MSG` that the read routines use: the read message
`u.consoleMsgL1.ReadConsole`, the output buffer `State.OutputBuffer` (whether the pointer
is non-null, and the bytes it points to), and the reply `Complete.IoStatus`. The buffer
that `SrvReadConsole` hands to `ReadChars` is this output buffer, so the pointers
`pwchBuffer`, `UserBuffer` and `RAW_READ_DATA::BufPtr` are byte offsets into it. -/
structure CONSOLE_API_MSG where
  ReadConsole : CONSOLE_READCONSOLE_MSG
  OutputBufferPresent : Bool
  OutputBuffer : Nat → Nat
  ReplyStatus : Int
  ReplyInformation : Nat

/-- Modelled from the spec: `SetReplyStatus`, which a header outside `src/` defines, stores
the status in "the reply envelope"; the field is `Complete.IoStatus.Status`, which
`CookedReadWaitRoutine` reads back. -/
def SetReplyStatus (Message : CONSOLE_API_MSG) (Status : Int) : CONSOLE_API_MSG :=
  { Message with ReplyStatus := Status }

/-- Modelled from the spec: `SetReplyInformation`, which a header outside `src/` defines,
"publishes the byte count" in the reply envelope. -/
def SetReplyInformation (Message : CONSOLE_API_MSG) (Information : Nat) : CONSOLE_API_MSG :=
  { Message with ReplyInformation := Information }

/-- `PrepareReadConsoleCompletion(Message)`. -/
def PrepareReadConsoleCompletion (Message : CONSOLE_API_MSG) : CONSOLE_API_MSG :=
  let m1 : CONSOLE_API_MSG :=
    if Message.ReadConsole.ProcessControlZ = true ∧ 0 < Message.ReadConsole.NumBytes ∧
        Message.OutputBufferPresent = true ∧ Message.OutputBuffer 0 = 0x1a then
      { Message with ReadConsole := { Message.ReadConsole with NumBytes := 0 } }
    else Message
  SetReplyInformation m1 m1.ReadConsole.NumBytes

/-- Modelled from the spec: the per-handle data behind `pClientInput`, whose class is
declared outside `src/`. "Handle State ... with flags: `ClosePending`, `InputPending`,
`MultiLineInput`, plus `CarryBuffer`, `CarryRemaining`, `CarryCursor`", and "an
active-read counter". The three flags are the bits `HANDLE_CLOSING`,
`HANDLE_INPUT_PENDING` and `HANDLE_MULTI_LINE_INPUT` of `InputHandleFlags`. `BufPtr` is
the contents of the carry block, `BufPtrAllocated` tells whether the block is allocated
(`delete[]` clears it), and `CurrentBufPtr` is the byte offset of that pointer from
`BufPtr`. -/
structure INPUT_READ_HANDLE_DATA where
  HANDLE_CLOSING : Bool
  HANDLE_INPUT_PENDING : Bool
  HANDLE_MULTI_LINE_INPUT : Bool
  BytesAvailable : Nat
  BufPtr : Mem
  BufPtrAllocated : Bool
  CurrentBufPtr : Nat
  ReadCount : Nat

/-- The console as the read routines see it: the input buffer of the handle
(`InputInfo`, with the `AsciiChar` of its slot `ReadConInpDbcsLeadByte` kept beside it),
the data of the handle, the screen, whether `CurrentScreenBuffer` and `lpCookedReadData`
are non-null, and the bit `CONSOLE_IGNORE_NEXT_KEYUP` of `Flags`. Three fields keep a
record of calls: `WaitBlocks` counts the wait blocks created, `AddCommandCalls` lists the
lines handed to `AddCommand`, and `copies` lists the `memmove`s into the output buffer as
pairs of byte offset and byte count. -/
structure Console (W : Type) where
  InputInfo : INPUT_INFORMATION
  ReadConInpDbcsLeadByte : Nat
  pClientInput : INPUT_READ_HANDLE_DATA
  scr : W
  CurrentScreenBuffer : Bool
  lpCookedReadData : Bool
  IGNORE_NEXT_KEYUP : Bool
  WaitBlocks : Nat
  AddCommandCalls : List (List Nat)
  copies : List (Nat × Nat)

/-- Everything the read routines use that is declared outside `stream.cpp`, beside what
`ProcessCookedReadInput` and `GetChar` use. `newBYTE n` tells whether `new BYTE[n]`
returns a block. `TranslateUnicodeToOem` gets the code units to translate, the size of
the target and the lead-byte slot, and gives its return value, the target and the slot
afterwards. `DereferenceIoHandleNoCheck`, `DereferenceIoHandle`, `RevalidateConsole` and
`AllocateIoHandle` stand for the status of these calls. `ReadMessageInput msg offset cb`
gives the bytes read. `ProcessCommandLineStatus` is the status that the call
`ProcessCommandLine` of `Host` returns; the call is taken to leave the input queue alone.
`MatchAndCopyAlias` gets the line buffer, the two lengths handed over as `USHORT`, the
executable name and its length, and gives its status, the line buffer, the target length
and the line count afterwards. `StackControlKeyState` is what the field `ControlKeyState`
of the local `CookedReadData` of `ReadChars` holds when the cooked read starts: the
routine does not initialise the field, so the value is whatever the stack holds. -/
structure Server (W : Type) extends Host W, KeyTables where
  CONSOLE_CTRL_C_SEEN : Nat
  CONSOLE_CTRL_BREAK_SEEN : Nat
  StackControlKeyState : Nat
  newBYTE : Nat → Bool
  TranslateUnicodeToOem : List Nat → Nat → Nat → Nat × (Nat → Nat) × Nat
  DereferenceIoHandleNoCheck : Nat → Int
  DereferenceIoHandle : Nat → Int
  RevalidateConsole : Int
  AllocateIoHandle : Int
  GetMessageObject : CONSOLE_API_MSG → Nat
  GetAugmentedOutputBuffer : CONSOLE_API_MSG → Nat → Int × CONSOLE_API_MSG
  ReadMessageInput : CONSOLE_API_MSG → Nat → Nat → Nat → Nat
  ProcessCommandLineStatus : W → COOKED_READ_DATA → Nat → Nat → Bool → Int
  MatchAndCopyAlias : Mem → Nat → Nat → List Nat → Nat → Int × Mem × Nat × Nat

/-- A cooked-read session: the fields of `COOKED_READ_DATA` that `ProcessCookedReadInput`
uses (`d`) and those that only `CookedRead` and `ReadChars` use. `UserBuffer` is the byte
offset of that pointer in the output buffer of the message. -/
structure CookedSession where
  d : COOKED_READ_DATA
  UserBuffer : Nat
  HandleIndex : Nat
  ExeName : List Nat
  ExeNameLength : Nat

/-! ## `CookedRead` -/

/-- The locals of the `while` loop of `CookedRead`: the status, the session, the console. -/
structure CookedLoopState (W : Type) where
  Status : Int
  d : COOKED_READ_DATA
  con : Console W

/-- The loop `while (BytesRead < BufferSize)` of `CookedRead`. Every pass that does not
leave the loop has made a stream read, so the loop is given one pass more than the queue
serves stream reads; `none` stands for a loop that would need more. A wait block is created
when `GetChar` has to wait and none exists yet (`fWaitRoutine` is `fWaitBlockExists`), and
by the call of `WaitForMoreToRead`. -/
def CookedReadLoop {W : Type} (s : Server W) (fWaitRoutine : Bool) :
    Nat → CookedLoopState W → Option (CookedLoopState W)
  | 0, _ => none
  | fuel + 1, st =>
    if st.d.BytesRead < st.d.BufferSize then
      -- This call to GetChar may block.
      match GetChar s.toKeyTables st.con.InputInfo true true false true with
      | none => none
      | some r =>
        let con1 : Console W :=
          { st.con with
            InputInfo := r.InputInfo
            WaitBlocks :=
              if r.Status = CONSOLE_STATUS_WAIT ∧ fWaitRoutine = false then st.con.WaitBlocks + 1
              else st.con.WaitBlocks }
        if NT_SUCCESS r.Status = false then
          some { Status := r.Status
                 d := if r.Status ≠ CONSOLE_STATUS_WAIT then { st.d with BytesRead := 0 } else st.d
                 con := con1 }
        else
          let Char := r.wchOut.getD 0
          let d1 : COOKED_READ_DATA :=
            if st.d.OriginalCursorPosition.X = -1 then
              { st.d with OriginalCursorPosition := s.GetCursorPosition con1.scr }
            else st.d
          if r.fCommandLineEditingKeys = true then
            let p := s.ProcessCommandLine con1.scr d1 Char r.dwKeyState fWaitRoutine
            let Status := s.ProcessCommandLineStatus con1.scr d1 Char r.dwKeyState fWaitRoutine
            let con2 : Console W := { con1 with scr := p.1 }
            if Status = CONSOLE_STATUS_READ_COMPLETE ∨ Status = CONSOLE_STATUS_WAIT then
              some { Status := Status, d := p.2, con := con2 }
            else if NT_SUCCESS Status = false then
              if Status = CONSOLE_STATUS_WAIT_NO_BLOCK then
                -- we have no wait block, so create one.
                some { Status := CONSOLE_STATUS_WAIT, d := p.2,
                       con := if fWaitRoutine = false then
                                { con2 with WaitBlocks := con2.WaitBlocks + 1 }
                              else con2 }
              else some { Status := Status, d := { p.2 with BytesRead := 0 }, con := con2 }
            else CookedReadLoop s fWaitRoutine fuel { Status := Status, d := p.2, con := con2 }
          else
            let t := ProcessCookedReadInput s.toHost con1.scr d1 Char r.dwKeyState
            if t.Completed = true then
              some { Status := t.Status, d := t.d,
                     con := { con1 with scr := t.scr, IGNORE_NEXT_KEYUP := true } }
            else
              CookedReadLoop s fWaitRoutine fuel
                { Status := t.Status, d := t.d, con := { con1 with scr := t.scr } }
    else some st

/-- The loop `for (Tmp = BackupLimit; *Tmp != UNICODE_LINEFEED && UserBufferSize /
sizeof(WCHAR) > NumBytes; ...)` of `CookedRead`: the value of `NumBytes` when it ends.
`NumBytes` grows in every pass, so `limit` passes are enough. -/
def oemBytesToLinefeed (t : CharTables) (m : Mem) (limit : Nat) : Nat → Nat → Nat → Nat
  | 0, _, NumBytes => NumBytes
  | fuel + 1, i, NumBytes =>
    if m (i : Int) ≠ UNICODE_LINEFEED ∧ NumBytes < limit then
      oemBytesToLinefeed t m limit fuel (i + 1)
        (if t.IsCharFullWidth (m (i : Int)) = true then toULONG (NumBytes + 2)
         else toULONG (NumBytes + 1))
    else NumBytes

/-- The loop `for (Tmp = BackupLimit; NumToWrite && UserBufferSize / sizeof(WCHAR) >
NumBytes; ...)` of `CookedRead`: the value of `NumBytes` when it ends. -/
def oemBytes (t : CharTables) (m : Mem) (limit : Nat) : Nat → Nat → Nat → Nat → Nat
  | 0, _, _, NumBytes => NumBytes
  | fuel + 1, i, NumToWrite, NumBytes =>
    if NumToWrite ≠ 0 ∧ NumBytes < limit then
      oemBytes t m limit fuel (i + 1) (subULONG NumToWrite sizeof_WCHAR)
        (if t.IsCharFullWidth (m (i : Int)) = true then toULONG (NumBytes + 2)
         else toULONG (NumBytes + 1))
    else NumBytes

/-- The loop `for (Tmp = BackupLimit; *Tmp != UNICODE_LINEFEED; Tmp++)` of `CookedRead`:
the index at which it stops, looked for among the `fuel` code units from index `i` on;
`none` stands for a scan that runs past them. -/
def findLinefeed (m : Mem) : Nat → Nat → Option Nat
  | 0, _ => none
  | fuel + 1, i => if m (i : Int) = UNICODE_LINEFEED then some i else findLinefeed m fuel (i + 1)

/-- What a call of `CookedRead` leaves behind. -/
structure CookedReadResult (W : Type) where
  Status : Int
  cs : CookedSession
  con : Console W
  msg : CONSOLE_API_MSG

/-- The part of `CookedRead` from `a->ControlKeyState = ...` to its end. `fAddDbcsLead` and
`NumBytes` are the locals of these names. -/
def CookedReadTail {W : Type} (s : Server W) (Status : Int) (cs : CookedSession) (con : Console W)
    (msg : CONSOLE_API_MSG) (fWaitRoutine fAddDbcsLead : Bool) (NumBytes : Nat) :
    CookedReadResult W :=
  let msg1 : CONSOLE_API_MSG :=
    { msg with ReadConsole := { msg.ReadConsole with ControlKeyState := cs.d.ControlKeyState } }
  let done (con2 : Console W) (msg2 : CONSOLE_API_MSG) : CookedReadResult W :=
    { Status := Status, cs := cs,
      con := if fWaitRoutine = true then { con2 with lpCookedReadData := false } else con2
      msg := PrepareReadConsoleCompletion msg2 }
  if msg1.ReadConsole.Unicode = false then
    -- if ansi, translate string.
    if s.newBYTE NumBytes = false then
      { Status := STATUS_NO_MEMORY, cs := cs, con := con, msg := msg1 }
    else
      let r := s.TranslateUnicodeToOem
        (wcharsOfBytes msg1.OutputBuffer cs.UserBuffer (msg1.ReadConsole.NumBytes / sizeof_WCHAR))
        NumBytes con.ReadConInpDbcsLeadByte
      let con1 : Console W := { con with ReadConInpDbcsLeadByte := r.2.2 }
      let msg2 : CONSOLE_API_MSG :=
        { msg1 with ReadConsole := { msg1.ReadConsole with NumBytes := toULONG r.1 } }
      if cs.d.UserBufferSize < msg2.ReadConsole.NumBytes then
        { Status := STATUS_BUFFER_OVERFLOW, cs := cs, con := con1, msg := msg2 }
      else
        let msg3 : CONSOLE_API_MSG :=
          { msg2 with
            OutputBuffer := copyBytes msg2.OutputBuffer cs.UserBuffer r.2.1 msg2.ReadConsole.NumBytes
            ReadConsole :=
              { msg2.ReadConsole with
                NumBytes := if fAddDbcsLead = true then toULONG (msg2.ReadConsole.NumBytes + 1)
                            else msg2.ReadConsole.NumBytes } }
        done { con1 with copies := con1.copies ++ [(cs.UserBuffer, msg2.ReadConsole.NumBytes)] } msg3
  else done con msg1

/-- The lead byte carried from the read before, stored at the front of the caller's
buffer (`*UserBuffer++ = ...AsciiChar; UserBufferSize -= sizeof(WCHAR); ZeroMemory(...)`)
for a read that is not in Unicode. The result tells whether a lead byte was stored. -/
def CookedReadLead {W : Type} (cs : CookedSession) (con : Console W) (msg : CONSOLE_API_MSG) :
    Bool × CookedSession × Console W × CONSOLE_API_MSG :=
  if msg.ReadConsole.Unicode = false ∧ con.ReadConInpDbcsLeadByte ≠ 0 then
    (true,
     { cs with
       UserBuffer := cs.UserBuffer + sizeof_WCHAR
       d := { cs.d with UserBufferSize := subULONG cs.d.UserBufferSize sizeof_WCHAR } },
     { con with ReadConInpDbcsLeadByte := 0 },
     { msg with
       OutputBuffer := pokeWchar msg.OutputBuffer cs.UserBuffer
         (CHARtoWCHAR con.ReadConInpDbcsLeadByte) })
  else (false, cs, con, msg)

/-- The first part of `CookedRead` inside `if (Status != CONSOLE_STATUS_WAIT)`: when
`Echo` is set and the line holds a CR, the line before the CR goes to the history
(`AddCommand`) and through the alias table (`MatchAndCopyAlias`). The result is the
session, the console and `LineCount` afterwards. The target length `i` is handed over as
`(PUSHORT)&i`, so the call sees and sets its low sixteen bits only. -/
def CookedReadAlias {W : Type} (s : Server W) (d : COOKED_READ_DATA) (ExeName : List Nat)
    (ExeNameLength : Nat) (con : Console W) : COOKED_READ_DATA × Console W × Nat :=
  -- Figure out where real string ends (at carriage return or end of buffer).
  let FoundCR : Option Nat :=
    if d.Echo = true then
      (List.range (d.BytesRead / sizeof_WCHAR)).find?
        (fun (i : Nat) => decide (d.BackupLimit (i : Int) = UNICODE_CARRIAGERETURN))
    else none
  match FoundCR with
  | some i =>
    let StringLength := i * sizeof_WCHAR
    -- add to command line recall list
    let con1 : Console W :=
      { con with
        AddCommandCalls := con.AddCommandCalls ++
          [(List.range (StringLength % 2 ^ 16 / sizeof_WCHAR)).map
            (fun (j : Nat) => d.BackupLimit (j : Int))] }
    -- check for alias
    let r := s.MatchAndCopyAlias d.BackupLimit (StringLength % 2 ^ 16) (d.BufferSize % 2 ^ 16)
      ExeName ExeNameLength
    if NT_SUCCESS r.1 = true then
      ({ d with
         BackupLimit := r.2.1
         BytesRead := d.BufferSize / 2 ^ 16 * 2 ^ 16 + r.2.2.1 % 2 ^ 16 }, con1, r.2.2.2)
    else ({ d with BackupLimit := r.2.1 }, con1, r.2.2.2)
  | none => (d, con, 1)

/-- The second part of `CookedRead` inside `if (Status != CONSOLE_STATUS_WAIT)`, from
`SetReplyStatus` on: the completed content is moved to the caller's buffer, and what does
not fit, or follows the first line of a multi-line expansion, stays with the handle.
`none` stands for a scan for the LF that leaves the line buffer. `OutputBuffer` is the
memory from the base of the output buffer on, the caller's buffer being the
`UserBufferSize` bytes from `UserBuffer`; a `memmove` of `a->NumBytes` bytes is a store of
that many bytes there, and `copies` records its length. In the multi-line case the source
does not cap `a->NumBytes` at `UserBufferSize` (there is an `__analysis_assume` only), so a
first line longer than the caller's buffer is copied past its end: the model makes the
store and the length in `copies` shows the overrun. -/
def CookedReadDeliver {W : Type} (s : Server W) (Status : Int) (cs1 : CookedSession)
    (con : Console W) (LineCount : Nat) (msg : CONSOLE_API_MSG) (fWaitRoutine : Bool) :
    Option (CookedReadResult W) :=
  let msg1 := SetReplyStatus msg Status
  if cs1.d.UserBufferSize < cs1.d.BytesRead ∨ 1 < LineCount then
    let l := CookedReadLead cs1 (if 1 < LineCount then
        { con with pClientInput := { con.pClientInput with HANDLE_MULTI_LINE_INPUT := true } }
      else con) msg1
    let cs2 := l.2.1
    let NumBytes : Nat :=
      if msg1.ReadConsole.Unicode = false then
        if 1 < LineCount then
          oemBytesToLinefeed s.toCharTables cs2.d.BackupLimit (cs2.d.UserBufferSize / sizeof_WCHAR)
            (cs2.d.UserBufferSize / sizeof_WCHAR) 0 0
        else
          oemBytes s.toCharTables cs2.d.BackupLimit (cs2.d.UserBufferSize / sizeof_WCHAR)
            (cs2.d.UserBufferSize / sizeof_WCHAR) 0 cs2.d.BytesRead 0
      else 0
    let n : Option Nat :=
      if 1 < LineCount then
        (findLinefeed cs2.d.BackupLimit (cs2.d.BufferSize / sizeof_WCHAR) 0).map
          (fun (i : Nat) => toULONG ((i + 1) * sizeof_WCHAR))
      else some cs2.d.UserBufferSize
    match n with
    | none => none
    | some n =>
      let con3 : Console W :=
        { l.2.2.1 with
          pClientInput :=
            { l.2.2.1.pClientInput with
              HANDLE_INPUT_PENDING := true
              BufPtr := cs2.d.BackupLimit
              BufPtrAllocated := true
              BytesAvailable := subULONG cs2.d.BytesRead n
              CurrentBufPtr := n }
          copies := l.2.2.1.copies ++ [(cs2.UserBuffer, n)] }
      let msg3 : CONSOLE_API_MSG :=
        { l.2.2.2 with
          ReadConsole := { l.2.2.2.ReadConsole with NumBytes := n }
          OutputBuffer := copyBytes l.2.2.2.OutputBuffer cs2.UserBuffer (byteOf cs2.d.BackupLimit) n }
      some (CookedReadTail s Status cs2 con3 msg3 fWaitRoutine l.1 NumBytes)
  else
    let l := CookedReadLead cs1 con msg1
    let cs2 := l.2.1
    if l.1 = true ∧ cs2.d.UserBufferSize = 0 then
      some { Status := STATUS_SUCCESS, cs := cs2, con := l.2.2.1,
             msg := PrepareReadConsoleCompletion
               { l.2.2.2 with ReadConsole := { l.2.2.2.ReadConsole with NumBytes := 1 } } }
    else
      let NumBytes : Nat :=
        if msg1.ReadConsole.Unicode = false then
          oemBytes s.toCharTables cs2.d.BackupLimit (cs2.d.UserBufferSize / sizeof_WCHAR)
            (cs2.d.UserBufferSize / sizeof_WCHAR) 0 cs2.d.BytesRead 0
        else 0
      let msg2 : CONSOLE_API_MSG :=
        { l.2.2.2 with ReadConsole := { l.2.2.2.ReadConsole with NumBytes := cs2.d.BytesRead } }
      if cs2.d.UserBufferSize < msg2.ReadConsole.NumBytes then
        some { Status := STATUS_BUFFER_OVERFLOW, cs := cs2, con := l.2.2.1, msg := msg2 }
      else
        let con3 : Console W :=
          { l.2.2.1 with copies := l.2.2.1.copies ++ [(cs2.UserBuffer, msg2.ReadConsole.NumBytes)] }
        let msg3 : CONSOLE_API_MSG :=
          { msg2 with
            OutputBuffer := copyBytes msg2.OutputBuffer cs2.UserBuffer (byteOf cs2.d.BackupLimit)
              msg2.ReadConsole.NumBytes }
        some (CookedReadTail s Status cs2 con3 msg3 fWaitRoutine l.1 NumBytes)

/-- The part of `CookedRead` inside `if (Status != CONSOLE_STATUS_WAIT)`. -/
def CookedReadFinish {W : Type} (s : Server W) (Status : Int) (cs : CookedSession)
    (con : Console W) (msg : CONSOLE_API_MSG) (fWaitRoutine : Bool) :
    Option (CookedReadResult W) :=
  let a := CookedReadAlias s cs.d cs.ExeName cs.ExeNameLength con
  CookedReadDeliver s Status { cs with d := a.1 } a.2.1 a.2.2 msg fWaitRoutine

/-- `CookedRead(pCookedReadData, pWaitReplyMessage, fWaitRoutine)`. -/
def CookedRead {W : Type} (s : Server W) (cs : CookedSession) (con : Console W)
    (msg : CONSOLE_API_MSG) (fWaitRoutine : Bool) : Option (CookedReadResult W) :=
  let Status := s.DereferenceIoHandleNoCheck cs.HandleIndex
  if NT_SUCCESS Status = false then
    some { Status := Status, cs := { cs with d := { cs.d with BytesRead := 0 } }, con := con,
           msg := msg }
  else
    match CookedReadLoop s fWaitRoutine (streamReads con.InputInfo.Queue + 1)
        { Status := Status, d := cs.d, con := con } with
    | none => none
    | some st =>
      -- if the read was completed (status != wait), free the cooked read data.
      if st.Status ≠ CONSOLE_STATUS_WAIT then
        CookedReadFinish s st.Status { cs with d := st.d } st.con msg fWaitRoutine
      else some { Status := st.Status, cs := { cs with d := st.d }, con := st.con, msg := msg }

/-! ## `ReadChars` -/

/-- What a call of `ReadChars` leaves behind. `*pdwNumBytes` is `msg.ReadConsole.NumBytes`:
the only call, in `SrvReadConsole`, passes `&a->NumBytes` of the message. -/
structure ReadCharsResult (W : Type) where
  Status : Int
  con : Console W
  msg : CONSOLE_API_MSG

/-- The first loop over the carry of a read that is not in Unicode (`for (NumToWrite = 0,
Tmp = CurrentBufPtr, NumToBytes = 0; NumToBytes < BytesAvailable && NumToBytes <
BufferSize / sizeof(WCHAR) [&& *Tmp != UNICODE_LINEFEED]; ...)`): the value of
`NumToBytes` when it ends. `toLinefeed` tells whether the test for the LF is part of the
condition. `NumToBytes` grows in every pass, so `BytesAvailable` passes are enough. -/
def carryOemBytes (t : CharTables) (m : Mem) (cur avail limit : Nat) (toLinefeed : Bool) :
    Nat → Nat → Nat → Nat
  | 0, _, NumToBytes => NumToBytes
  | fuel + 1, NumToWrite, NumToBytes =>
    if NumToBytes < avail ∧ NumToBytes < limit ∧
        (toLinefeed = true → wcharAt m (cur + NumToWrite) ≠ UNICODE_LINEFEED) then
      carryOemBytes t m cur avail limit toLinefeed fuel (NumToWrite + sizeof_WCHAR)
        (if t.IsCharFullWidth (wcharAt m (cur + NumToWrite)) = true then toULONG (NumToBytes + 2)
         else toULONG (NumToBytes + 1))
    else NumToBytes

/-- The loop `for (NumToWrite = 0, Tmp = CurrentBufPtr; NumToWrite < BytesAvailable && *Tmp
!= UNICODE_LINEFEED; Tmp++, NumToWrite += sizeof(WCHAR))`: the value of `NumToWrite` when
it ends. `NumToWrite` grows in every pass, so `BytesAvailable` passes are enough. -/
def carryLine (m : Mem) (cur avail : Nat) : Nat → Nat → Nat
  | 0, NumToWrite => NumToWrite
  | fuel + 1, NumToWrite =>
    if NumToWrite < avail ∧ wcharAt m (cur + NumToWrite) ≠ UNICODE_LINEFEED then
      carryLine m cur avail fuel (NumToWrite + sizeof_WCHAR)
    else NumToWrite

/-- The flags `HANDLE_INPUT_PENDING` and `HANDLE_MULTI_LINE_INPUT` cleared and the carry
block released (`InputHandleFlags &= ~(...); delete[] BufPtr`). -/
def releaseCarry (h : INPUT_READ_HANDLE_DATA) : INPUT_READ_HANDLE_DATA :=
  { h with HANDLE_INPUT_PENDING := false, HANDLE_MULTI_LINE_INPUT := false,
           BufPtrAllocated := false }

/-- The branch `if (InputHandleFlags & HANDLE_INPUT_PENDING)` of `ReadChars`: the read is
served from what a read before it left with the handle. -/
def ReadCharsCarry {W : Type} (s : Server W) (con : Console W) (msg : CONSOLE_API_MSG)
    (pwchBuffer BufferSize : Nat) (fUnicode : Bool) : ReadCharsResult W :=
  let multi := con.pClientInput.HANDLE_MULTI_LINE_INPUT
  let fAddDbcsLead : Bool := !fUnicode && decide (con.ReadConInpDbcsLeadByte ≠ 0)
  -- the lead byte carried from the read before goes first
  let pwchBuffer1 := if fAddDbcsLead = true then pwchBuffer + sizeof_WCHAR else pwchBuffer
  let BufferSize1 := if fAddDbcsLead = true then subULONG BufferSize sizeof_WCHAR else BufferSize
  let buf1 :=
    if fAddDbcsLead = true then
      pokeWchar msg.OutputBuffer pwchBuffer (CHARtoWCHAR con.ReadConInpDbcsLeadByte)
    else msg.OutputBuffer
  let h1 : INPUT_READ_HANDLE_DATA :=
    if fAddDbcsLead = true then
      { con.pClientInput with
        BytesAvailable := subULONG con.pClientInput.BytesAvailable sizeof_WCHAR }
    else con.pClientInput
  let lead1 := if fAddDbcsLead = true then 0 else con.ReadConInpDbcsLeadByte
  if fUnicode = false ∧ (h1.BytesAvailable = 0 ∨ (multi = true ∧ BufferSize1 = 0)) then
    { Status := STATUS_SUCCESS
      con := { con with ReadConInpDbcsLeadByte := lead1, pClientInput := releaseCarry h1 }
      msg := { msg with OutputBuffer := buf1, ReadConsole := { msg.ReadConsole with NumBytes := 1 } } }
  else
    let NumToBytes : Nat :=
      if fUnicode = false then
        carryOemBytes s.toCharTables h1.BufPtr h1.CurrentBufPtr h1.BytesAvailable
          (BufferSize1 / sizeof_WCHAR) multi h1.BytesAvailable 0 0
      else 0
    let NumToWrite : Nat :=
      if multi = true then
        let n := toULONG (carryLine h1.BufPtr h1.CurrentBufPtr h1.BytesAvailable h1.BytesAvailable 0
          + sizeof_WCHAR)
        if BufferSize1 < n then BufferSize1 else n
      else if BufferSize1 < h1.BytesAvailable then BufferSize1 else h1.BytesAvailable
    let buf2 := copyBytes buf1 pwchBuffer1 (fun b => byteOf h1.BufPtr (h1.CurrentBufPtr + b)) NumToWrite
    let h2 : INPUT_READ_HANDLE_DATA :=
      { h1 with BytesAvailable := subULONG h1.BytesAvailable NumToWrite }
    let h3 : INPUT_READ_HANDLE_DATA :=
      if h2.BytesAvailable = 0 then releaseCarry h2
      else { h2 with CurrentBufPtr := h2.CurrentBufPtr + NumToWrite }
    let con3 : Console W :=
      { con with ReadConInpDbcsLeadByte := lead1, pClientInput := h3,
                 copies := con.copies ++ [(pwchBuffer1, NumToWrite)] }
    let msg3 : CONSOLE_API_MSG := { msg with OutputBuffer := buf2 }
    if fUnicode = false then
      -- if ansi, translate string.
      if s.newBYTE NumToBytes = false then
        { Status := STATUS_NO_MEMORY, con := con3, msg := msg3 }
      else
        let r := s.TranslateUnicodeToOem (wcharsOfBytes buf2 pwchBuffer1 (NumToWrite / sizeof_WCHAR))
          NumToBytes lead1
        let n := toULONG r.1
        { Status := STATUS_SUCCESS
          con := { con3 with ReadConInpDbcsLeadByte := r.2.2,
                             copies := con3.copies ++ [(pwchBuffer1, n)] }
          msg := { msg3 with
                   OutputBuffer := copyBytes buf2 pwchBuffer1 r.2.1 n
                   ReadConsole :=
                     { msg3.ReadConsole with
                       NumBytes := if fAddDbcsLead = true then toULONG (n + 1) else n } } }
    else
      { Status := STATUS_SUCCESS, con := con3,
        msg := { msg3 with ReadConsole := { msg3.ReadConsole with NumBytes := NumToWrite } } }

/-- The loop `while (CookedReadData.OriginalCursorPosition.X < 0)` of `ReadChars`. `X` is
a `SHORT` and grows in every pass when the screen is at least one column wide, so 32768
passes and the test that ends the loop are enough; `none` stands for a loop that would
need more. -/
def anchorLoop (ScreenBufferSizeX : Int) : Nat → COORD → Option COORD
  | 0, _ => none
  | fuel + 1, p =>
    if p.X < 0 then
      anchorLoop ScreenBufferSizeX fuel
        { X := toSHORT (p.X + ScreenBufferSizeX), Y := toSHORT (p.Y - 1) }
    else some p

/-- The locals of the loops of a raw read: the console, the output buffer, the byte offset
of the pointer into it, the number of bytes stored (`NumToWrite` in `ReadChars`,
`a->NumBytes` in `RawReadWaitRoutine`), and the count kept for the translation
(`*pdwNumBytes` in `ReadChars`, `NumBytes` in `RawReadWaitRoutine`). -/
structure RawLoopState (W : Type) where
  con : Console W
  buf : Nat → Nat
  pwchBuffer : Nat
  NumToWrite : Nat
  NumBytes : Nat

/-- A character that `GetChar` has stored at the pointer, counted: `IsCharFullWidth(*p) ?
n += 2 : n++; p++; NumToWrite += sizeof(WCHAR)`. -/
def rawStore {W : Type} (s : Server W) (st : RawLoopState W) (InputInfo : INPUT_INFORMATION)
    (wch : Nat) : RawLoopState W :=
  { con := { st.con with InputInfo := InputInfo }
    buf := pokeWchar st.buf st.pwchBuffer wch
    pwchBuffer := st.pwchBuffer + sizeof_WCHAR
    NumToWrite := toULONG (st.NumToWrite + sizeof_WCHAR)
    NumBytes := if s.IsCharFullWidth (wch % 2 ^ 16) = true then toULONG (st.NumBytes + 2)
                else toULONG (st.NumBytes + 1) }

/-- The loop `while (NumToWrite < BufferSize)` of a raw read, with calls of `GetChar` that
do not wait. The result tells whether the loop ended because its condition failed
(`true`) or because `GetChar` did not succeed (`false`). Every pass makes a stream read,
so the loop is given one pass more than the queue serves stream reads. -/
def rawLoop {W : Type} (s : Server W) (BufferSize : Nat) :
    Nat → RawLoopState W → Option (Bool × RawLoopState W)
  | 0, _ => none
  | fuel + 1, st =>
    if st.NumToWrite < BufferSize then
      match GetChar s.toKeyTables st.con.InputInfo false false false false with
      | none => none
      | some r =>
        if NT_SUCCESS r.Status = false then
          some (false, { st with con := { st.con with InputInfo := r.InputInfo } })
        else rawLoop s BufferSize fuel (rawStore s st r.InputInfo (r.wchOut.getD 0))
    else some (true, st)

/-- The translation that ends a raw read that is not in Unicode: the code units stored
from byte offset `start` on are translated and the result is moved over them.
`NumToWrite` is the number of bytes stored, `NumBytes` the size of the target. The result
is `none` if the target cannot be allocated, and otherwise the console, the output buffer
and the byte count. -/
def rawTranslate {W : Type} (s : Server W) (con : Console W) (buf : Nat → Nat)
    (start NumToWrite NumBytes : Nat) (fAddDbcsLead : Bool) :
    Option (Console W × (Nat → Nat) × Nat) :=
  if s.newBYTE NumBytes = false then none
  else
    let r := s.TranslateUnicodeToOem (wcharsOfBytes buf start (NumToWrite / sizeof_WCHAR))
      NumBytes con.ReadConInpDbcsLeadByte
    let n := toULONG r.1
    some ({ con with ReadConInpDbcsLeadByte := r.2.2, copies := con.copies ++ [(start, n)] },
          copyBytes buf start r.2.1 n,
          if fAddDbcsLead = true then toULONG (n + 1) else n)

/-- `ReadChars(pInputInfo, pProcessData, pScreenInfo, pwchBuffer, pdwNumBytes,
dwInitialNumBytes, dwCtrlWakeupMask, pHandleData, pCommandHistory, pMessage, hIndex,
usExeNameLength, fUnicode)`. The input buffer, the screen and the handle data are those of
`con`; `pwchBuffer` is a byte offset into the output buffer of `msg`, and `*pdwNumBytes`
is `msg.ReadConsole.NumBytes`. -/
def ReadChars {W : Type} (s : Server W) (con : Console W) (msg : CONSOLE_API_MSG)
    (pwchBuffer dwInitialNumBytes dwCtrlWakeupMask hIndex usExeNameLength : Nat)
    (fUnicode : Bool) : Option (ReadCharsResult W) :=
  if msg.ReadConsole.NumBytes < sizeof_WCHAR then
    some { Status := STATUS_BUFFER_TOO_SMALL, con := con, msg := msg }
  else
    let BufferSize := msg.ReadConsole.NumBytes
    let msg0 : CONSOLE_API_MSG := { msg with ReadConsole := { msg.ReadConsole with NumBytes := 0 } }
    if con.pClientInput.HANDLE_INPUT_PENDING = true then
      -- if we have leftover input, copy as much fits into the user's buffer and return.
      some (ReadCharsCarry s con msg0 pwchBuffer BufferSize fUnicode)
    else if con.InputInfo.InputMode &&& ENABLE_LINE_INPUT ≠ 0 then
      -- We need to create a temporary handle to the current screen buffer.
      if NT_SUCCESS s.AllocateIoHandle = false then
        some { Status := s.AllocateIoHandle, con := con, msg := msg0 }
      else
        let Echo : Bool := decide (con.InputInfo.InputMode &&& ENABLE_ECHO_INPUT ≠ 0)
        let TempBufferSize :=
          if BufferSize < LINE_INPUT_BUFFER_SIZE then LINE_INPUT_BUFFER_SIZE else BufferSize
        if s.newBYTE TempBufferSize = false then
          some { Status := STATUS_NO_MEMORY, con := con, msg := msg0 }
        else
          -- Initialize the user's buffer to spaces.
          let TempBuffer : Mem :=
            fun i => if 0 ≤ i ∧ i < ((TempBufferSize / sizeof_WCHAR : Nat) : Int) then UNICODE_SPACE
                     else 0
          let ExeNameByteLength := usExeNameLength * sizeof_WCHAR % 2 ^ 16
          let d0 : COOKED_READ_DATA :=
            { BufferSize := TempBufferSize
              BytesRead := 0
              CurrentPosition := 0
              BufPtr := 0
              BackupLimit := TempBuffer
              UserBufferSize := BufferSize
              OriginalCursorPosition := { X := -1, Y := -1 }
              NumberOfVisibleChars := 0
              CtrlWakeupMask := dwCtrlWakeupMask
              ControlKeyState := s.StackControlKeyState
              Echo := Echo
              InsertMode := s.GetInsertMode
              Processed := decide (con.InputInfo.InputMode &&& ENABLE_PROCESSED_INPUT ≠ 0)
              Line := decide (con.InputInfo.InputMode &&& ENABLE_LINE_INPUT ≠ 0) }
          let d1 : Option COOKED_READ_DATA :=
            if dwInitialNumBytes ≠ 0 then
              let p := s.GetCursorPosition con.scr
              (anchorLoop (s.ScreenBufferSizeX con.scr) 32769
                { X := toSHORT (p.X - toSHORT (dwInitialNumBytes / sizeof_WCHAR)), Y := p.Y }).map
                fun anchor =>
                  { d0 with
                    BackupLimit := pokeBytes TempBuffer
                      (s.ReadMessageInput msg0 ExeNameByteLength dwInitialNumBytes) dwInitialNumBytes
                    BytesRead := toULONG dwInitialNumBytes
                    NumberOfVisibleChars := dwInitialNumBytes / sizeof_WCHAR
                    BufPtr := dwInitialNumBytes / sizeof_WCHAR
                    CurrentPosition := dwInitialNumBytes / sizeof_WCHAR
                    OriginalCursorPosition := anchor }
            else some d0
          match d1 with
          | none => none
          | some d1 =>
            let cs : CookedSession :=
              { d := d1
                UserBuffer := pwchBuffer
                HandleIndex := hIndex
                ExeName := (List.range (ExeNameByteLength / sizeof_WCHAR)).map
                  (fun i => wcharOfBytes (s.ReadMessageInput msg0 0 ExeNameByteLength) (2 * i))
                ExeNameLength := ExeNameByteLength }
            match CookedRead s cs { con with lpCookedReadData := true } msg0 false with
            | none => none
            | some r =>
              some { Status := r.Status
                     con := if r.Status ≠ CONSOLE_STATUS_WAIT then
                              { r.con with lpCookedReadData := false }
                            else r.con
                     msg := r.msg }
    else
      -- Character (raw) mode.
      if 0 < BufferSize then
        let fAddDbcsLead : Bool := !fUnicode && decide (con.ReadConInpDbcsLeadByte ≠ 0)
        if fAddDbcsLead = true ∧ subULONG BufferSize sizeof_WCHAR = 0 then
          some { Status := STATUS_SUCCESS
                 con := { con with ReadConInpDbcsLeadByte := 0 }
                 msg := { msg0 with
                          OutputBuffer := pokeWchar msg0.OutputBuffer pwchBuffer
                            (CHARtoWCHAR con.ReadConInpDbcsLeadByte)
                          ReadConsole := { msg0.ReadConsole with NumBytes := 1 } } }
        else
          let first : Option (Int × RawLoopState W) :=
            if fAddDbcsLead = true then
              some (STATUS_SUCCESS,
                    { con := { con with ReadConInpDbcsLeadByte := 0 }
                      buf := pokeWchar msg0.OutputBuffer pwchBuffer
                        (CHARtoWCHAR con.ReadConInpDbcsLeadByte)
                      pwchBuffer := pwchBuffer + sizeof_WCHAR
                      NumToWrite := 0
                      NumBytes := 0 })
            else
              (GetChar s.toKeyTables con.InputInfo true false false false).map fun r =>
                let con1 : Console W :=
                  { con with
                    InputInfo := r.InputInfo
                    WaitBlocks := if r.Status = CONSOLE_STATUS_WAIT then con.WaitBlocks + 1
                                  else con.WaitBlocks }
                if NT_SUCCESS r.Status = false then
                  (r.Status, { con := con1, buf := msg0.OutputBuffer, pwchBuffer := pwchBuffer,
                               NumToWrite := 0, NumBytes := 0 })
                else
                  (r.Status,
                   rawStore s { con := con1, buf := msg0.OutputBuffer, pwchBuffer := pwchBuffer,
                                NumToWrite := 0, NumBytes := 0 } r.InputInfo (r.wchOut.getD 0))
          let BufferSize1 := if fAddDbcsLead = true then subULONG BufferSize sizeof_WCHAR else BufferSize
          match first with
          | none => none
          | some (Status, st) =>
            if NT_SUCCESS Status = false then
              some { Status := Status, con := st.con, msg := msg0 }
            else
              match rawLoop s BufferSize1 (streamReads st.con.InputInfo.Queue + 1) st with
              | none => none
              | some (filled, st2) =>
                let msg2 : CONSOLE_API_MSG :=
                  { msg0 with OutputBuffer := st2.buf
                              ReadConsole := { msg0.ReadConsole with NumBytes := st2.NumBytes } }
                if filled = false then
                  some { Status := STATUS_SUCCESS, con := st2.con, msg := msg2 }
                else if fUnicode = false then
                  -- if ansi, translate string.
                  match rawTranslate s st2.con st2.buf pwchBuffer st2.NumToWrite st2.NumBytes
                      fAddDbcsLead with
                  | none => some { Status := STATUS_NO_MEMORY, con := st2.con, msg := msg2 }
                  | some t =>
                    some { Status := STATUS_SUCCESS, con := t.1
                           msg := { msg2 with
                                    OutputBuffer := t.2.1
                                    ReadConsole := { msg2.ReadConsole with NumBytes := t.2.2 } } }
                else some { Status := STATUS_SUCCESS, con := st2.con, msg := msg2 }
      else some { Status := STATUS_SUCCESS, con := con, msg := msg0 }

/-! ## `RawReadWaitRoutine` and `SrvReadConsole` -/

/-- The fields of `RAW_READ_DATA` that `RawReadWaitRoutine` uses; `BufPtr` is a byte
offset into the output buffer of the message. -/
structure RAW_READ_DATA where
  BufferSize : Nat
  BufPtr : Nat
  HandleIndex : Nat

/-- What a call of `RawReadWaitRoutine` leaves behind: its return value (TRUE when the
wait block is consumed), the console, the reply message and the read data. -/
structure RawWaitResult (W : Type) where
  RetVal : Bool
  con : Console W
  msg : CONSOLE_API_MSG
  RawReadData : RAW_READ_DATA

/-- The `__finally` block of `RawReadWaitRoutine` and the `return` after it. `Status`,
`RetVal`, `fSkipFinally`, `fAddDbcsLead` and `NumBytes` are the locals of these names on
entry to the block. -/
def RawReadFinally {W : Type} (s : Server W) (Status : Int) (RetVal fSkipFinally fAddDbcsLead : Bool)
    (NumBytes : Nat) (con : Console W) (msg : CONSOLE_API_MSG) (raw : RAW_READ_DATA) :
    RawWaitResult W :=
  -- If the read was completed (status != wait), free the raw read data.
  if Status ≠ CONSOLE_STATUS_WAIT ∧ fSkipFinally = false then
    if msg.ReadConsole.Unicode = false then
      -- It's ansi, so translate the string.
      match rawTranslate s con msg.OutputBuffer raw.BufPtr msg.ReadConsole.NumBytes NumBytes
          fAddDbcsLead with
      | none => { RetVal := true, con := con, msg := msg, RawReadData := raw }
      | some t =>
        { RetVal := RetVal, con := t.1
          msg := PrepareReadConsoleCompletion
            (SetReplyStatus
              { msg with OutputBuffer := t.2.1
                         ReadConsole := { msg.ReadConsole with NumBytes := t.2.2 } } Status)
          RawReadData := raw }
    else
      { RetVal := RetVal, con := con
        msg := PrepareReadConsoleCompletion (SetReplyStatus msg Status), RawReadData := raw }
  else { RetVal := RetVal, con := con, msg := msg, RawReadData := raw }

/-- `RawReadWaitRoutine(WaitQueue, pWaitReplyMessage, pvWaitParameter, pvSatisfyParameter,
fThreadDying)`. `DecrementReadCount`, a method declared outside `src/`, is taken to lower
the read count of the handle by one. -/
def RawReadWaitRoutine {W : Type} (s : Server W) (con : Console W) (msg : CONSOLE_API_MSG)
    (raw : RAW_READ_DATA) (pvSatisfyParameter : Nat) (fThreadDying : Bool) :
    Option (RawWaitResult W) :=
  let Status := s.DereferenceIoHandleNoCheck raw.HandleIndex
  if NT_SUCCESS Status = false then
    some { RetVal := true, con := con, msg := msg, RawReadData := raw }
  else if pvSatisfyParameter &&& s.CONSOLE_CTRL_C_SEEN ≠ 0 then
    some { RetVal := false, con := con, msg := msg, RawReadData := raw }
  else
    let msg1 : CONSOLE_API_MSG := { msg with ReadConsole := { msg.ReadConsole with NumBytes := 0 } }
    let con1 : Console W :=
      { con with pClientInput := { con.pClientInput with ReadCount := con.pClientInput.ReadCount - 1 } }
    -- If a ctrl-c is seen, don't terminate read. If ctrl-break is seen, terminate read.
    if pvSatisfyParameter &&& s.CONSOLE_CTRL_BREAK_SEEN ≠ 0 then
      some (RawReadFinally s Status true false false 0 con1 (SetReplyStatus msg1 STATUS_ALERTED) raw)
    -- See if we were called because the thread that owns this wait block is exiting.
    else if fThreadDying = true then
      some (RawReadFinally s STATUS_THREAD_IS_TERMINATING true false false 0 con1 msg1 raw)
    else if con1.pClientInput.HANDLE_CLOSING = true then
      some (RawReadFinally s STATUS_ALERTED true false false 0 con1 msg1 raw)
    else
      let fAddDbcsLead : Bool := !msg1.ReadConsole.Unicode && decide (con1.ReadConInpDbcsLeadByte ≠ 0)
      let raw1 : RAW_READ_DATA :=
        if fAddDbcsLead = true then { raw with BufferSize := subULONG raw.BufferSize sizeof_WCHAR }
        else raw
      if fAddDbcsLead = true ∧ raw1.BufferSize = 0 then
        some { RetVal := false
               con := { con1 with ReadConInpDbcsLeadByte := 0 }
               msg := { msg1 with
                        OutputBuffer := pokeWchar msg1.OutputBuffer raw.BufPtr
                          (CHARtoWCHAR con1.ReadConInpDbcsLeadByte)
                        ReadConsole := { msg1.ReadConsole with NumBytes := 1 } }
               RawReadData := raw1 }
      else
        let st0 : RawLoopState W :=
          { con := con1, buf := msg1.OutputBuffer, pwchBuffer := raw.BufPtr, NumToWrite := 0,
            NumBytes := 0 }
        -- This call to GetChar may block.
        let first : Option (Int × RawLoopState W) :=
          if fAddDbcsLead = true then
            some (STATUS_SUCCESS,
                  rawStore s { st0 with con := { con1 with ReadConInpDbcsLeadByte := 0 } }
                    con1.InputInfo (CHARtoWCHAR con1.ReadConInpDbcsLeadByte))
          else
            (GetChar s.toKeyTables con1.InputInfo true false false false).map fun r =>
              if NT_SUCCESS r.Status = false then
                (r.Status, { st0 with con := { con1 with InputInfo := r.InputInfo } })
              else (r.Status, rawStore s st0 r.InputInfo (r.wchOut.getD 0))
        match first with
        | none => none
        | some (Status, st) =>
          if NT_SUCCESS Status = false then
            some (RawReadFinally s Status (decide (Status ≠ CONSOLE_STATUS_WAIT)) false fAddDbcsLead
              0 st.con msg1 raw1)
          else
            match rawLoop s raw1.BufferSize (streamReads st.con.InputInfo.Queue + 1) st with
            | none => none
            | some (filled, st2) =>
              some (RawReadFinally s (if filled = true then Status else STATUS_SUCCESS) true false
                fAddDbcsLead st2.NumBytes st2.con
                { msg1 with OutputBuffer := st2.buf
                            ReadConsole := { msg1.ReadConsole with NumBytes := st2.NumToWrite } }
                raw1)

/-- What a call of `SrvReadConsole` leaves behind: its status, `*ReplyPending`, the
console and the message. -/
structure SrvReadConsoleResult (W : Type) where
  Status : Int
  ReplyPending : Bool
  con : Console W
  msg : CONSOLE_API_MSG

/-- `SrvReadConsole(m, ReplyPending)`. The console lock and the telemetry are left out.
`GetAugmentedOutputBuffer` sets `State.OutputBuffer` and `a->NumBytes` of the message, and
the buffer it returns is that output buffer, so `ReadChars` gets the byte offset 0. -/
def SrvReadConsole {W : Type} (s : Server W) (con : Console W) (m : CONSOLE_API_MSG)
    (ReplyPending : Bool) : Option (SrvReadConsoleResult W) :=
  -- If the request is not in Unicode mode, we must allocate an output buffer that is
  -- twice as big as the actual caller buffer.
  let g := s.GetAugmentedOutputBuffer m (if m.ReadConsole.Unicode = true then 1 else 2)
  if NT_SUCCESS g.1 = false then
    some { Status := g.1, ReplyPending := ReplyPending, con := con, msg := g.2 }
  else if NT_SUCCESS s.RevalidateConsole = false then
    some { Status := s.RevalidateConsole, ReplyPending := ReplyPending, con := con, msg := g.2 }
  else
    let Status := s.DereferenceIoHandle (s.GetMessageObject g.2)
    if NT_SUCCESS Status = false then
      some { Status := Status, ReplyPending := ReplyPending, con := con
             msg := { g.2 with ReadConsole := { g.2.ReadConsole with NumBytes := 0 } } }
    else if g.2.ReadConsole.NumBytes < g.2.ReadConsole.InitialNumBytes then
      some { Status := STATUS_INVALID_PARAMETER, ReplyPending := ReplyPending, con := con,
             msg := g.2 }
    else if con.CurrentScreenBuffer = true then
      match ReadChars s con g.2 0 g.2.ReadConsole.InitialNumBytes g.2.ReadConsole.CtrlWakeupMask
          (s.GetMessageObject g.2) g.2.ReadConsole.ExeNameLength g.2.ReadConsole.Unicode with
      | none => none
      | some r =>
        some { Status := r.Status
               ReplyPending := if r.Status = CONSOLE_STATUS_WAIT then true else ReplyPending
               con := r.con
               msg := if NT_SUCCESS r.Status = true then PrepareReadConsoleCompletion r.msg
                      else r.msg }
    else
      some { Status := STATUS_UNSUCCESSFUL, ReplyPending := ReplyPending, con := con, msg := g.2 }

/-! ## Parts of `ReadChars` and `CookedRead`, and `CookedReadWaitRoutine` -/

/-- The session that `ReadChars` sets up for a line read, as it is when `CookedRead` is
called: the line buffer of `TempBufferSize` bytes filled with spaces and, when
`dwInitialNumBytes` is not 0, seeded with the pre-filled input of the message, with the
anchor moved back by the pre-fill. `msg0` is the message, `BufferSize` the capacity. `none`
stands for an anchor loop that would need more passes. -/
def ReadCharsSession {W : Type} (s : Server W) (con : Console W) (msg0 : CONSOLE_API_MSG)
    (BufferSize dwInitialNumBytes dwCtrlWakeupMask usExeNameLength : Nat) :
    Option COOKED_READ_DATA :=
  let Echo : Bool := decide (con.InputInfo.InputMode &&& ENABLE_ECHO_INPUT ≠ 0)
  let TempBufferSize :=
    if BufferSize < LINE_INPUT_BUFFER_SIZE then LINE_INPUT_BUFFER_SIZE else BufferSize
  -- Initialize the user's buffer to spaces.
  let TempBuffer : Mem :=
    fun i => if 0 ≤ i ∧ i < ((TempBufferSize / sizeof_WCHAR : Nat) : Int) then UNICODE_SPACE
             else 0
  let ExeNameByteLength := usExeNameLength * sizeof_WCHAR % 2 ^ 16
  let d0 : COOKED_READ_DATA :=
    { BufferSize := TempBufferSize
      BytesRead := 0
      CurrentPosition := 0
      BufPtr := 0
      BackupLimit := TempBuffer
      UserBufferSize := BufferSize
      OriginalCursorPosition := { X := -1, Y := -1 }
      NumberOfVisibleChars := 0
      CtrlWakeupMask := dwCtrlWakeupMask
      ControlKeyState := s.StackControlKeyState
      Echo := Echo
      InsertMode := s.GetInsertMode
      Processed := decide (con.InputInfo.InputMode &&& ENABLE_PROCESSED_INPUT ≠ 0)
      Line := decide (con.InputInfo.InputMode &&& ENABLE_LINE_INPUT ≠ 0) }
  if dwInitialNumBytes ≠ 0 then
    let p := s.GetCursorPosition con.scr
    (anchorLoop (s.ScreenBufferSizeX con.scr) 32769
      { X := toSHORT (p.X - toSHORT (dwInitialNumBytes / sizeof_WCHAR)), Y := p.Y }).map
      fun anchor =>
        { d0 with
          BackupLimit := pokeBytes TempBuffer
            (s.ReadMessageInput msg0 ExeNameByteLength dwInitialNumBytes) dwInitialNumBytes
          BytesRead := toULONG dwInitialNumBytes
          NumberOfVisibleChars := dwInitialNumBytes / sizeof_WCHAR
          BufPtr := dwInitialNumBytes / sizeof_WCHAR
          CurrentPosition := dwInitialNumBytes / sizeof_WCHAR
          OriginalCursorPosition := anchor }
  else some d0

/-- The exit from the loop of `CookedRead` after a call of `GetChar` that did not succeed
(`if (!NT_SUCCESS(Status)) { if (Status != CONSOLE_STATUS_WAIT) BytesRead = 0; break; }`):
the state in which the loop is left when the call came back with `r`. `GetChar` passes on
the status of `ReadInputBuffer`, a routine declared outside `src/`, so `r` stands for
whatever the call returns. -/
def CookedReadLoopFailed {W : Type} (fWaitRoutine : Bool) (st : CookedLoopState W)
    (r : GetCharResult) : CookedLoopState W :=
  { Status := r.Status
    d := if r.Status ≠ CONSOLE_STATUS_WAIT then { st.d with BytesRead := 0 } else st.d
    con :=
      { st.con with
        InputInfo := r.InputInfo
        WaitBlocks :=
          if r.Status = CONSOLE_STATUS_WAIT ∧ fWaitRoutine = false then st.con.WaitBlocks + 1
          else st.con.WaitBlocks } }

/-- The part of `CookedRead` after its loop, for a loop that was left in the state `st`. -/
def CookedReadAfterLoop {W : Type} (s : Server W) (cs : CookedSession) (msg : CONSOLE_API_MSG)
    (fWaitRoutine : Bool) (st : CookedLoopState W) : Option (CookedReadResult W) :=
  -- if the read was completed (status != wait), free the cooked read data.
  if st.Status ≠ CONSOLE_STATUS_WAIT then
    CookedReadFinish s st.Status { cs with d := st.d } st.con msg fWaitRoutine
  else some { Status := st.Status, cs := { cs with d := st.d }, con := st.con, msg := msg }

/-- What a call of `CookedReadWaitRoutine` leaves behind: its return value (TRUE when the
wait block is consumed), the session, the console and the reply message. -/
structure CookedWaitResult (W : Type) where
  RetVal : Bool
  cs : CookedSession
  con : Console W
  msg : CONSOLE_API_MSG

/-- `CookedReadWaitRoutine(pWaitQueue, pWaitReplyMessage, pCookedReadData,
pvSatisfyParameter, fThreadDying)`. `DecrementReadCount` is taken to lower the read count
of the handle by one. `Popup` is the input routine of the first popup of the command
history of the session, `none` when the session has no command history or the history has
no popup; the routine is declared outside `src/` and gives its status, the session, the
console and the message afterwards. The popups that `CleanUpPopups` removes and the
handle that `CloseOutputHandle` closes are not part of the console modelled here. -/
def CookedReadWaitRoutine {W : Type} (s : Server W) (con : Console W) (msg : CONSOLE_API_MSG)
    (cs : CookedSession)
    (Popup : Option (CookedSession → Console W → CONSOLE_API_MSG →
      Int × CookedSession × Console W × CONSOLE_API_MSG))
    (pvSatisfyParameter : Nat) (fThreadDying : Bool) : Option (CookedWaitResult W) :=
  let Status := s.DereferenceIoHandleNoCheck cs.HandleIndex
  if NT_SUCCESS Status = false then
    some { RetVal := true, cs := cs, con := con, msg := msg }
  else
    let con1 : Console W :=
      { con with pClientInput := { con.pClientInput with ReadCount := con.pClientInput.ReadCount - 1 } }
    -- if ctrl-c or ctrl-break was seen, terminate read.
    if pvSatisfyParameter &&& (s.CONSOLE_CTRL_C_SEEN ||| s.CONSOLE_CTRL_BREAK_SEEN) ≠ 0 then
      some { RetVal := true, cs := cs, con := { con1 with lpCookedReadData := false },
             msg := SetReplyStatus msg STATUS_ALERTED }
    -- See if we were called because the thread that owns this wait block is exiting.
    else if fThreadDying = true then
      some { RetVal := true, cs := cs, con := { con1 with lpCookedReadData := false },
             msg := SetReplyStatus msg STATUS_THREAD_IS_TERMINATING }
    -- We must see if we were woken up because the handle is being closed.
    else if con1.pClientInput.HANDLE_CLOSING = true then
      some { RetVal := true, cs := cs, con := { con1 with lpCookedReadData := false },
             msg := SetReplyStatus msg STATUS_ALERTED }
    else
      match Popup with
      | some PopupInputRoutine =>
        let r := PopupInputRoutine cs con1 msg
        if r.1 = CONSOLE_STATUS_READ_COMPLETE ∨
            (r.1 ≠ CONSOLE_STATUS_WAIT ∧ r.1 ≠ CONSOLE_STATUS_WAIT_NO_BLOCK) then
          some { RetVal := true, cs := r.2.1, con := { r.2.2.1 with lpCookedReadData := false },
                 msg := if NT_SUCCESS r.2.2.2.ReplyStatus = true then
                          PrepareReadConsoleCompletion r.2.2.2
                        else r.2.2.2 }
        else some { RetVal := false, cs := r.2.1, con := r.2.2.1, msg := r.2.2.2 }
      | none =>
        match CookedRead s cs con1 msg true with
        | none => none
        | some r =>
          some { RetVal := decide (r.Status ≠ CONSOLE_STATUS_WAIT), cs := r.cs, con := r.con,
                 msg := r.msg }

/-! ## A concrete console, for evaluating the routines on examples -/

/-- A line buffer holding `text` from its base on, spaces after it (as `ReadChars` fills
the buffer it allocates), and 0 before its base. -/
def lineOf (text : List Nat) : Mem :=
  fun i => if 0 ≤ i then text.getD i.toNat UNICODE_SPACE else 0

/-- Character classes for the examples: code units below U+0020 are control characters,
the CJK block U+3000..U+9FFF is full width. -/
def exampleTables : CharTables :=
  { IS_CONTROL_CHAR := fun c => decide (c < 0x20)
    IsCharFullWidth := fun c => decide (0x3000 ≤ c ∧ c ≤ 0x9FFF) }

/-- The word delimiters listed in the specification, as code points: white space and
`& ( ) [ ] { } < > | ^ = ; ! ' + , ~ ? @ * \ " # $ % . : /` and the grave accent. -/
def exampleWordDelims : List Nat :=
  [0x20, 0x09, 0x26, 0x28, 0x29, 0x5B, 0x5D, 0x7B, 0x7D, 0x3C, 0x3E, 0x7C, 0x5E, 0x3D, 0x3B,
   0x21, 0x27, 0x2B, 0x2C, 0x60, 0x7E, 0x3F, 0x40, 0x2A, 0x5C, 0x22, 0x23, 0x24, 0x25, 0x2E,
   0x3A, 0x2F]

/-- A console for the examples. Its screen is the list of the texts handed to
`WriteCharsLegacy`, latest last; every screen call succeeds, one cell is reported for each
code unit written and nothing scrolls. `extendedEditKey` and `insertMode` are the console
settings. The key codes are those of the Windows console: 0x7F for the erase-previous-word
key, U+25D8 for the second backspace, 0x2D for `VK_INSERT`. -/
def exampleHost (extendedEditKey insertMode : Bool) : Host (List (List Nat)) :=
  { toCharTables := exampleTables
    EXTKEY_ERASE_PREV_WORD := 0x7F
    UNICODE_BACKSPACE2 := 0x25D8
    VK_INSERT := 0x2D
    IS_WORD_DELIM := fun c => decide (c ∈ exampleWordDelims)
    GetExtendedEditKey := extendedEditKey
    GetInsertMode := insertMode
    WriteCharsLegacy := fun scr call =>
      (scr ++ [call.pwchRealUnicode],
       { Status := STATUS_SUCCESS, NumSpaces := call.pwchRealUnicode.length, ScrollY := 0 })
    CheckBisectProcessW := fun _ _ _ _ _ _ => false
    ScreenBufferSizeX := fun _ => 80
    GetCursorPosition := fun _ => { X := 0, Y := 0 }
    DeleteCommandLine := fun scr _ _ => scr
    AdjustCursorPosition := fun scr _ _ => (scr, STATUS_SUCCESS)
    ProcessCommandLine := fun scr d _ _ _ => (scr, d) }

/-- The session `ReadChars` sets up for a line read without pre-filled content: an empty
buffer of `BufferSize` bytes filled with spaces, the cursor at its base. -/
def newSession (BufferSize CtrlWakeupMask : Nat) (Echo InsertMode Processed : Bool) :
    COOKED_READ_DATA :=
  { BufferSize := BufferSize
    BytesRead := 0
    CurrentPosition := 0
    BufPtr := 0
    BackupLimit := lineOf []
    UserBufferSize := BufferSize
    OriginalCursorPosition := { X := -1, Y := -1 }
    NumberOfVisibleChars := 0
    CtrlWakeupMask := CtrlWakeupMask
    ControlKeyState := 0
    Echo := Echo
    InsertMode := InsertMode
    Processed := Processed
    Line := true }

/-- The session `d` after `text` has been entered, with the cursor at index `cursor`. -/
def sessionAt (d : COOKED_READ_DATA) (text : List Nat) (cursor : Nat) : COOKED_READ_DATA :=
  { d with
    BackupLimit := lineOf text
    BytesRead := sizeof_WCHAR * text.length
    CurrentPosition := cursor
    BufPtr := cursor
    NumberOfVisibleChars := text.length }

/-- A read into a 512-byte buffer with echo and processed input, CTRL+G (bit 7) being
its only wake-up character, after 254 letters `a`: only the two reserved slots are left. -/
def fullSession : COOKED_READ_DATA :=
  sessionAt (newSession 512 0x80 true false true) (List.replicate 254 0x61) 254

/-- The same read after the two letters `x y`. -/
def xySession : COOKED_READ_DATA :=
  sessionAt (newSession 512 0x80 true false true) [0x78, 0x79] 2

/-- A read into a 512-byte buffer with echo and processed input and no wake-up
character, after the seven code units of `foo bar`, the cursor at end of line. -/
def fooBarSession : COOKED_READ_DATA :=
  sessionAt (newSession 512 0 true false true) [0x66, 0x6F, 0x6F, 0x20, 0x62, 0x61, 0x72] 7

/-- Key tables for the examples: the arrow keys, HOME, END, INSERT, DELETE and ESC are
command-line editing keys, F7 and F9 are popup keys, an OEM byte sequence converts to the
code unit with these bytes, and `VkKeyScanW(0)` is 0x0332, CTRL+SHIFT+2 as on a US
keyboard. -/
def exampleKeyTables : KeyTables :=
  { IsCommandLineEditingKey := fun e =>
      decide (e.wVirtualKeyCode ∈ [0x1B, 0x21, 0x22, 0x23, 0x24, 0x25, 0x26, 0x27, 0x28, 0x2D, 0x2E])
    IsCommandLinePopupKey := fun e => decide (e.wVirtualKeyCode ∈ [0x76, 0x78])
    CharToWchar := fun bytes => bytes.foldl (fun acc b => acc * 256 + b) 0
    VkKeyScanW0 := 0x0332 }

/-- The key-down event of CTRL+[ on a US keyboard: virtual key `VK_OEM_4` (0xDB), scan
code 0x1A, character U+001B, left CTRL pressed. -/
def ctrlBracketDown : KEY_EVENT_RECORD :=
  { bKeyDown := true, wRepeatCount := 1, wVirtualKeyCode := 0xDB, wVirtualScanCode := 0x1A,
    UnicodeChar := 0x1B, dwControlKeyState := LEFT_CTRL_PRESSED }

/-- The key-down event of the letter `a`. -/
def letterADown : KEY_EVENT_RECORD :=
  { bKeyDown := true, wRepeatCount := 1, wVirtualKeyCode := 0x41, wVirtualScanCode := 0x1E,
    UnicodeChar := 0x61, dwControlKeyState := 0 }

/-- A key-up event of the ALT key (`VK_MENU`, scan code 0x38) that carries the character
U+263A and has no bit set in its control-key state. -/
def altUpPlain : KEY_EVENT_RECORD :=
  { bKeyDown := false, wRepeatCount := 1, wVirtualKeyCode := VK_MENU, wVirtualScanCode := 0x38,
    UnicodeChar := 0x263A, dwControlKeyState := 0 }

/-- A key-up event of the ALT key that ends an ALT+numpad entry: the accumulated value is
`v` and the ALT-numpad bit is set in the control-key state. -/
def altNumpadUp (v : Nat) : KEY_EVENT_RECORD :=
  { bKeyDown := false, wRepeatCount := 1, wVirtualKeyCode := VK_MENU, wVirtualScanCode := 0x38,
    UnicodeChar := v, dwControlKeyState := ALTNUMPAD_BIT }

/-- The alias table of the examples: the line `x` stands for the two lines `echo a` and
`echo b`, each ended by CR LF; no other line has an alias. -/
def exampleAlias : List Nat :=
  [0x65, 0x63, 0x68, 0x6F, 0x20, 0x61, 0x0D, 0x0A, 0x65, 0x63, 0x68, 0x6F, 0x20, 0x62, 0x0D, 0x0A]

/-- A server for the examples, over the console of `exampleHost` and the key tables of
`exampleKeyTables`: every handle is valid and every allocation succeeds, CTRL+C and
CTRL+BREAK are the bits 1 and 2 of the satisfy parameter, the translation to the OEM code
page keeps the low byte of every code unit, the message carries no pre-filled input and no
executable name, no key is handled by `ProcessCommandLine`, and the alias table is
`exampleAlias`. -/
def exampleServer (extendedEditKey insertMode : Bool) : Server (List (List Nat)) :=
  { toHost := exampleHost extendedEditKey insertMode
    toKeyTables := exampleKeyTables
    CONSOLE_CTRL_C_SEEN := 1
    CONSOLE_CTRL_BREAK_SEEN := 2
    StackControlKeyState := 0
    newBYTE := fun _ => true
    TranslateUnicodeToOem := fun src _ lead => (src.length, fun i => src.getD i 0 % 256, lead)
    DereferenceIoHandleNoCheck := fun _ => STATUS_SUCCESS
    DereferenceIoHandle := fun _ => STATUS_SUCCESS
    RevalidateConsole := STATUS_SUCCESS
    AllocateIoHandle := STATUS_SUCCESS
    GetMessageObject := fun _ => 1
    GetAugmentedOutputBuffer := fun m _ => (STATUS_SUCCESS, { m with OutputBufferPresent := true })
    ReadMessageInput := fun _ _ _ _ => 0
    ProcessCommandLineStatus := fun _ _ _ _ _ => STATUS_SUCCESS
    MatchAndCopyAlias := fun m cbSource _ _ _ =>
      if cbSource = 2 ∧ m 0 = 0x78 then
        (STATUS_SUCCESS, lineOf exampleAlias, 2 * exampleAlias.length, 2)
      else (STATUS_UNSUCCESSFUL, m, 0, 1) }

/-- A handle that carries nothing over from an earlier read. -/
def noCarry : INPUT_READ_HANDLE_DATA :=
  { HANDLE_CLOSING := false, HANDLE_INPUT_PENDING := false, HANDLE_MULTI_LINE_INPUT := false,
    BytesAvailable := 0, BufPtr := lineOf [], BufPtrAllocated := false, CurrentBufPtr := 0,
    ReadCount := 0 }

/-- A handle that carries `text` over from an earlier line read, of which the first
`cursor` bytes have been delivered; `multi` is the flag `HANDLE_MULTI_LINE_INPUT`. -/
def carryOf (text : List Nat) (cursor : Nat) (multi : Bool) : INPUT_READ_HANDLE_DATA :=
  { HANDLE_CLOSING := false, HANDLE_INPUT_PENDING := true, HANDLE_MULTI_LINE_INPUT := multi,
    BytesAvailable := 2 * text.length - cursor, BufPtr := lineOf text, BufPtrAllocated := true,
    CurrentBufPtr := cursor, ReadCount := 0 }

/-- A console for the examples: input mode `mode`, the events `queue` waiting, the
lead-byte slot holding `lead`, the handle data `h`, an empty screen. -/
def exampleConsole (mode : Nat) (queue : List INPUT_RECORD) (lead : Nat)
    (h : INPUT_READ_HANDLE_DATA) : Console (List (List Nat)) :=
  { InputInfo := { InputMode := mode, Queue := queue }
    ReadConInpDbcsLeadByte := lead
    pClientInput := h
    scr := []
    CurrentScreenBuffer := true
    lpCookedReadData := false
    IGNORE_NEXT_KEYUP := false
    WaitBlocks := 0
    AddCommandCalls := []
    copies := [] }

/-- A read message for the examples: a caller's buffer of `capacity` bytes, all zero, and
`initial` bytes of pre-filled input announced. -/
def exampleMsg (unicode : Bool) (capacity initial : Nat) : CONSOLE_API_MSG :=
  { ReadConsole :=
      { Unicode := unicode, ProcessControlZ := false, ExeNameLength := 0,
        InitialNumBytes := initial, CtrlWakeupMask := 0, ControlKeyState := 0,
        NumBytes := capacity }
    OutputBufferPresent := true
    OutputBuffer := fun _ => 0
    ReplyStatus := STATUS_SUCCESS
    ReplyInformation := 0 }

/-- The first `n` bytes of the output buffer of a message. -/
def outputBytes (m : CONSOLE_API_MSG) (n : Nat) : List Nat :=
  (List.range n).map m.OutputBuffer

/-- The key-down event of the letter `x`. -/
def letterXDown : KEY_EVENT_RECORD :=
  { bKeyDown := true, wRepeatCount := 1, wVirtualKeyCode := 0x58, wVirtualScanCode := 0x2D,
    UnicodeChar := 0x78, dwControlKeyState := 0 }

/-- The key-down event of the ENTER key. -/
def enterDown : KEY_EVENT_RECORD :=
  { bKeyDown := true, wRepeatCount := 1, wVirtualKeyCode := 0x0D, wVirtualScanCode := 0x1C,
    UnicodeChar := 0x0D, dwControlKeyState := 0 }

/-- The session that `ReadChars` sets up for a line read into a caller's buffer of
`capacity` bytes at the base of the output buffer: a line buffer of 512 bytes, echo and
processed input, no wake-up character, no executable name. -/
def lineRead (capacity : Nat) : CookedSession :=
  { d := { newSession 512 0 true false true with UserBufferSize := capacity }
    UserBuffer := 0
    HandleIndex := 1
    ExeName := []
    ExeNameLength := 0 }

/-- A console in line mode with processed input and echo, a handle without carry, and
the key-down events `keys` waiting in its queue. -/
def typed (keys : List KEY_EVENT_RECORD) : Console (List (List Nat)) :=
  exampleConsole (ENABLE_PROCESSED_INPUT + ENABLE_LINE_INPUT + ENABLE_ECHO_INPUT)
    (keys.map INPUT_RECORD.KEY_EVENT) 0 noCarry

/-- The key-down event of the letter `b`. -/
def letterBDown : KEY_EVENT_RECORD :=
  { bKeyDown := true, wRepeatCount := 1, wVirtualKeyCode := 0x42, wVirtualScanCode := 0x30,
    UnicodeChar := 0x62, dwControlKeyState := 0 }

/-- The key-down event of the letter `c`. -/
def letterCDown : KEY_EVENT_RECORD :=
  { bKeyDown := true, wRepeatCount := 1, wVirtualKeyCode := 0x43, wVirtualScanCode := 0x2E,
    UnicodeChar := 0x63, dwControlKeyState := 0 }

/-- The screen writer succeeds: every call of `WriteCharsLegacy` and of
`AdjustCursorPosition` returns a success status. -/
def Host.ScreenSucceeds {W : Type} (h : Host W) : Prop :=
  (∀ scr call, NT_SUCCESS (h.WriteCharsLegacy scr call).2.Status = true) ∧
  (∀ scr pos b, NT_SUCCESS (h.AdjustCursorPosition scr pos b).2 = true)

/-! ## `SetConsoleInputModeImpl` -/

def ENABLE_INSERT_MODE : Nat := 0x0020
def ENABLE_QUICK_EDIT_MODE : Nat := 0x0040
def ENABLE_EXTENDED_FLAGS : Nat := 0x0080
def ENABLE_AUTO_POSITION : Nat := 0x0100
def S_OK : Int := 0
def E_INVALIDARG : Int := 0x80070057 - 2 ^ 32

/-- The four bits of an input mode that are not kept in `InputMode`, as listed in the
helpers of `ApiRoutinesTests.cpp`. -/
def PRIVATE_MODES : Nat :=
  ENABLE_QUICK_EDIT_MODE ||| ENABLE_AUTO_POSITION ||| ENABLE_INSERT_MODE ||| ENABLE_EXTENDED_FLAGS

/-- The macro `IsFlagSet`. -/
def IsFlagSet (var flag : Nat) : Bool := decide (var &&& flag = flag)

/-- The macro `IsAnyFlagSet`. -/
def IsAnyFlagSet (var flags : Nat) : Bool := decide (var &&& flags ≠ 0)

/-- The macro `ClearAllFlags` on a `ULONG`. -/
def ClearAllFlags (var flags : Nat) : Nat := var &&& (0xFFFFFFFF ^^^ flags)

/-- What `SetConsoleInputModeImpl` reads and writes, as `ApiRoutinesTests.cpp` observes it:
`InputMode` of the input buffer, the flags `CONSOLE_QUICK_EDIT_MODE` and
`CONSOLE_AUTO_POSITION` of the console, and its insert mode. -/
structure InputModeState where
  InputMode : Nat
  QuickEdit : Bool
  AutoPosition : Bool
  InsertMode : Bool
  deriving DecidableEq

/-- Modelled from the spec: `ApiRoutines::SetConsoleInputModeImpl`, which the tests in
`ApiRoutinesTests.cpp` call and whose body is in a file outside the sources at hand.
"`EXTENDED_FLAGS` gates the ability to clear `QUICK_EDIT_MODE`/`AUTO_POSITION`/
`INSERT_MODE`; setting any of those implicitly sets `EXTENDED_FLAGS`. Setting `ECHO_INPUT`
without `LINE_INPUT` is invalid but non-fatal: the call returns an error yet the flags are
committed"; "the stored mode equals `m` with extended/insert/auto/quick-edit bits hoisted
to the appropriate side-fields". `validModes` is the mask of the mode bits the console
knows; the tests expect the error code for a mode with any other bit as well. -/
def SetConsoleInputModeImpl (validModes : Nat) (c : InputModeState) (Mode : Nat) :
    Int × InputModeState :=
  let c1 : InputModeState :=
    if IsAnyFlagSet Mode PRIVATE_MODES = true then
      { c with
        QuickEdit := IsFlagSet Mode ENABLE_QUICK_EDIT_MODE
        AutoPosition := IsFlagSet Mode ENABLE_AUTO_POSITION
        InsertMode := IsFlagSet Mode ENABLE_INSERT_MODE }
    else c
  let c2 : InputModeState := { c1 with InputMode := ClearAllFlags Mode PRIVATE_MODES }
  if IsAnyFlagSet Mode (0xFFFFFFFF ^^^ validModes) = true then (E_INVALIDARG, c2)
  else if IsFlagSet Mode ENABLE_ECHO_INPUT = true ∧ IsFlagSet Mode ENABLE_LINE_INPUT = false then
    (E_INVALIDARG, c2)
  else (S_OK, c2)

/-- The state that `PrepVerifySetConsoleInputModeImpl` of `ApiRoutinesTests.cpp` sets up
from `ulOriginalInputMode`. -/
def PrepVerifySetConsoleInputModeImpl (ulOriginalInputMode : Nat) : InputModeState :=
  { InputMode := ClearAllFlags ulOriginalInputMode PRIVATE_MODES
    InsertMode := IsFlagSet ulOriginalInputMode ENABLE_INSERT_MODE
    QuickEdit := IsFlagSet ulOriginalInputMode ENABLE_QUICK_EDIT_MODE
    AutoPosition := IsFlagSet ulOriginalInputMode ENABLE_AUTO_POSITION }

/-- The mode bits of the Windows console API: processed, line, echo, window, mouse, insert,
quick edit, extended flags, auto position and virtual terminal input. -/
def exampleValidModes : Nat := 0x3FF

/-! ## One tick of the cooked read, block by block -/

/-- One pass of `bs_repeat`, from the label to the test that ends it: the echo of the BS,
the decrement of `BytesRead`, `BufPtr` and `CurrentPosition`, the move of the tail, the
space after the new end, and `NumSpaces = 0`. -/
def bsErase {W : Type} (h : Host W) (wch : Nat) (f : Frame W) : Frame W :=
  let f1 : Frame W :=
    if f.d.Echo = true then
      let r := h.WriteCharsLegacy f.scr
        { pwchBufferBackupLimit := f.d.BackupLimit
          pwchBuffer := f.d.BufPtr
          pwchRealUnicode := [wch]
          cb := sizeof_WCHAR
          wantSpaces := false
          sOriginalXPosition := f.d.OriginalCursorPosition.X
          dwFlags := { DESTRUCTIVE_BACKSPACE := true, KEEP_CURSOR_VISIBLE := true, ECHO := true }
          wantScrollY := false }
      { f with scr := r.1, Status := r.2.Status }
    else f
  let BytesRead := subULONG f1.d.BytesRead sizeof_WCHAR
  let BufPtr := f1.d.BufPtr - 1
  let CurrentPosition := subULONG f1.d.CurrentPosition 1
  let cb := subSizeT BytesRead (CurrentPosition * sizeof_WCHAR)
  let moved := memmoveW f1.d.BackupLimit BufPtr ((BufPtr : Int) + 1) cb
  { f1 with
    d := { f1.d with
           BytesRead := BytesRead
           BufPtr := BufPtr
           CurrentPosition := CurrentPosition
           BackupLimit := poke moved ((BytesRead / sizeof_WCHAR : Nat) : Int) UNICODE_SPACE }
    NumSpaces := 0
    log := f1.log ++
      [Access.read ((BufPtr : Int) + 1) (cb / sizeof_WCHAR), Access.write BufPtr (cb / sizeof_WCHAR),
       Access.write ((BytesRead / sizeof_WCHAR : Nat) : Int) 1] }

/-- `ProcessCommandLine`, called for the INSERT key to make the cursor small again, leaves
the line as it is: the buffer and its size, `BytesRead`, both forms of the write cursor,
the anchor and the count of visible cells. -/
def Host.InsertKeyKeepsLine {W : Type} (h : Host W) : Prop :=
  ∀ (scr : W) (d : COOKED_READ_DATA),
    (h.ProcessCommandLine scr d h.VK_INSERT 0 false).2.BufferSize = d.BufferSize ∧
    (h.ProcessCommandLine scr d h.VK_INSERT 0 false).2.BytesRead = d.BytesRead ∧
    (h.ProcessCommandLine scr d h.VK_INSERT 0 false).2.CurrentPosition = d.CurrentPosition ∧
    (h.ProcessCommandLine scr d h.VK_INSERT 0 false).2.BufPtr = d.BufPtr ∧
    (h.ProcessCommandLine scr d h.VK_INSERT 0 false).2.BackupLimit = d.BackupLimit ∧
    (h.ProcessCommandLine scr d h.VK_INSERT 0 false).2.NumberOfVisibleChars
      = d.NumberOfVisibleChars ∧
    (h.ProcessCommandLine scr d h.VK_INSERT 0 false).2.OriginalCursorPosition
      = d.OriginalCursorPosition

/-- An access to the line buffer stays inside it: a load covers code units at offsets from
`lo` up (`lo` is 0, or -1 where a load of `BufPtr[-1]` at the base is to be admitted), a
store covers code units at offsets from 0 up, and both end before the offset `hi`. -/
def Access.Inside (lo : Int) (hi : Nat) : Access → Prop
  | Access.read i n => lo ≤ i ∧ i + n ≤ hi
  | Access.write i n => 0 ≤ i ∧ i + n ≤ hi

/-- An access as a triple: whether it is a store, its first offset and its length. -/
def Access.parts : Access → Bool × Int × Nat
  | Access.read i n => (false, i, n)
  | Access.write i n => (true, i, n)

/-- The console of `exampleHost` with a screen writer that fails: every call of
`WriteCharsLegacy` returns `STATUS_UNSUCCESSFUL` and writes nothing. -/
def failingHost (extendedEditKey insertMode : Bool) : Host (List (List Nat)) :=
  { exampleHost extendedEditKey insertMode with
    WriteCharsLegacy := fun scr _ =>
      (scr, { Status := STATUS_UNSUCCESSFUL, NumSpaces := 0, ScrollY := 0 }) }


/-! ## A screen writer that counts cells exactly -/

/-- The line buffer `mem` with the code units `text` in place from index `p` on. -/
def place (mem : Mem) (p : Nat) (text : List Nat) : Mem :=
  fun i => if (p : Int) ≤ i ∧ i < (p : Int) + text.length then text.getD (i - p).toNat 0
    else mem i

/-- Modelled from the spec: the count of "a screen writer that reports exact cell counts"
for one call of `WriteCharsLegacy`, whose body is outside `stream.cpp`. It is the change,
as a `ULONG`, of the cells taken by the line up to the place of writing, counted as
`RetrieveTotalNumberOfSpaces` counts them from the column the line starts in: before the
call the line is the buffer up to `pwchBuffer`; after it the line is the buffer with the
code units written in place, or, for a BS written alone with `WC_DESTRUCTIVE_BACKSPACE`
behind at least one code unit, the buffer up to the code unit before `pwchBuffer`. -/
def exactCells (t : CharTables) (c : WriteCharsCall) : Nat :=
  let cellsBefore :=
    RetrieveTotalNumberOfSpaces t c.sOriginalXPosition c.pwchBufferBackupLimit c.pwchBuffer
  let cellsAfter :=
    if c.pwchRealUnicode = [UNICODE_BACKSPACE] ∧ c.dwFlags.DESTRUCTIVE_BACKSPACE = true
        ∧ c.pwchBuffer ≠ 0 then
      RetrieveTotalNumberOfSpaces t c.sOriginalXPosition c.pwchBufferBackupLimit
        (c.pwchBuffer - 1)
    else
      RetrieveTotalNumberOfSpaces t c.sOriginalXPosition
        (place c.pwchBufferBackupLimit c.pwchBuffer c.pwchRealUnicode)
        (c.pwchBuffer + c.pwchRealUnicode.length)
  subULONG cellsAfter cellsBefore

/-- The screen writer reports exact cell counts: every call of `WriteCharsLegacy` that
asks for the count gets `exactCells` of the call. -/
def Host.ExactCells {W : Type} (h : Host W) : Prop :=
  ∀ (scr : W) (c : WriteCharsCall), c.wantSpaces = true →
    (h.WriteCharsLegacy scr c).2.NumSpaces = exactCells h.toCharTables c

/-- The console of `exampleHost` with a screen writer that reports exact cell counts. -/
def exactHost (extendedEditKey insertMode : Bool) : Host (List (List Nat)) :=
  { exampleHost extendedEditKey insertMode with
    WriteCharsLegacy := fun scr call =>
      (scr ++ [call.pwchRealUnicode],
       { Status := STATUS_SUCCESS, NumSpaces := exactCells exampleTables call, ScrollY := 0 }) }
/-! # Theorems -/

/-! ## Cell widths -/

theorem numberOfSpacesLoop_fst (t : CharTables) (x0 : Int) (L : Mem) (k : Nat) :
    (numberOfSpacesLoop t x0 L k).1 = (totalSpacesLoop t x0 L k).1 := by
  induction k with
  | zero => rfl
  | succ k ih => simp only [numberOfSpacesLoop, totalSpacesLoop, ih]

/-- One pass of the loop of `RetrieveTotalNumberOfSpaces` adds the width that
`RetrieveNumberOfSpaces` reports for the character it passes. -/
theorem totalSpacesLoop_succ (t : CharTables) (x0 : Int) (L : Mem) (i : Nat) :
    totalSpacesLoop t x0 L (i + 1) =
      (toSHORT ((totalSpacesLoop t x0 L i).1 + RetrieveNumberOfSpaces t x0 L i),
       toULONG ((totalSpacesLoop t x0 L i).2 + RetrieveNumberOfSpaces t x0 L i)) := by
  simp only [totalSpacesLoop, RetrieveNumberOfSpaces, numberOfSpacesLoop, numberOfSpacesLoop_fst]
  split_ifs <;> rfl

theorem RetrieveNumberOfSpaces_bounds (t : CharTables) (x0 : Int) (L : Mem) (i : Nat) :
    1 ≤ RetrieveNumberOfSpaces t x0 L i ∧ RetrieveNumberOfSpaces t x0 L i ≤ 8 := by
  simp only [RetrieveNumberOfSpaces, numberOfSpacesLoop, NUMBER_OF_SPACES_IN_TAB]
  split_ifs <;> omega

/-- The count kept by `RetrieveTotalNumberOfSpaces` is the sum of the widths, as a `ULONG`. -/
theorem totalSpacesLoop_snd (t : CharTables) (x0 : Int) (L : Mem) (n : Nat) :
    (totalSpacesLoop t x0 L n).2 =
      (Finset.sum (Finset.range n) (fun i => RetrieveNumberOfSpaces t x0 L i)) % 2 ^ 32 := by
  induction n with
  | zero => rfl
  | succ n ih =>
    rw [totalSpacesLoop_succ, Finset.sum_range_succ]
    simp only [toULONG, ih]
    omega

/-- The column kept by both routines agrees, modulo the tab size, with the starting
column plus the widths passed so far. -/
theorem totalSpacesLoop_fst_mod (t : CharTables) (x0 : Int) (L : Mem) (n : Nat) :
    (totalSpacesLoop t x0 L n).1 % 8 =
      (x0 + ((Finset.sum (Finset.range n) (fun i => RetrieveNumberOfSpaces t x0 L i) : Nat) : Int)) % 8 := by
  induction n with
  | zero => simp [totalSpacesLoop]
  | succ n ih =>
    rw [totalSpacesLoop_succ, Finset.sum_range_succ]
    simp only [toSHORT, Nat.cast_add]
    omega

theorem sum_RetrieveNumberOfSpaces_le (t : CharTables) (x0 : Int) (L : Mem) (n : Nat) :
    Finset.sum (Finset.range n) (fun i => RetrieveNumberOfSpaces t x0 L i) ≤ 8 * n := by
  induction n with
  | zero => simp
  | succ n ih =>
    rw [Finset.sum_range_succ]
    have := (RetrieveNumberOfSpaces_bounds t x0 L n).2
    omega

/-- C8. For every buffer `L`, starting column `x0` and length `n` (with `8 * n` in the
range of `ULONG`, so that the running count cannot wrap), `RetrieveTotalNumberOfSpaces x0
L n` is the sum over `i < n` of `RetrieveNumberOfSpaces x0 L i`: the total visible-cell
count is the sum of the per-character cell widths, each taken at its running column. -/
theorem RetrieveTotalNumberOfSpaces_eq_sum (t : CharTables) (x0 : Int) (L : Mem) (n : Nat)
    (hn : 8 * n < 2 ^ 32) :
    RetrieveTotalNumberOfSpaces t x0 L n =
      Finset.sum (Finset.range n) (fun i => RetrieveNumberOfSpaces t x0 L i) := by
  unfold RetrieveTotalNumberOfSpaces
  rw [totalSpacesLoop_snd]
  have := sum_RetrieveNumberOfSpaces_le t x0 L n
  exact Nat.mod_eq_of_lt (by omega)

/-- C9. `RetrieveNumberOfSpaces x0 L i` is, for a TAB, the number `r` with `1 ≤ r ≤ 8` for
which the running column plus `r` is a multiple of 8, the running column being `x0` plus
the cell widths of `L[0..i)`; it is 2 for any other control character and for a
full-width character, and 1 for everything else. -/
theorem RetrieveNumberOfSpaces_width (t : CharTables) (x0 : Int) (L : Mem) (i : Nat) :
    if L i = UNICODE_TAB then
      1 ≤ RetrieveNumberOfSpaces t x0 L i ∧ RetrieveNumberOfSpaces t x0 L i ≤ 8 ∧
        (x0 + ((Finset.sum (Finset.range i) (fun j => RetrieveNumberOfSpaces t x0 L j) : Nat) : Int)
          + (RetrieveNumberOfSpaces t x0 L i : Int)) % 8 = 0
    else if t.IS_CONTROL_CHAR (L i) = true ∨ t.IsCharFullWidth (L i) = true then
      RetrieveNumberOfSpaces t x0 L i = 2
    else RetrieveNumberOfSpaces t x0 L i = 1 := by
  split_ifs with htab hc
  · refine ⟨(RetrieveNumberOfSpaces_bounds t x0 L i).1, (RetrieveNumberOfSpaces_bounds t x0 L i).2, ?_⟩
    have hcol := totalSpacesLoop_fst_mod t x0 L i
    have hr : RetrieveNumberOfSpaces t x0 L i =
        NUMBER_OF_SPACES_IN_TAB (totalSpacesLoop t x0 L i).1 := by
      simp [RetrieveNumberOfSpaces, numberOfSpacesLoop, numberOfSpacesLoop_fst, htab]
    rw [hr]
    simp only [NUMBER_OF_SPACES_IN_TAB]
    omega
  · simp only [RetrieveNumberOfSpaces, if_neg htab]
    rcases hc with hc | hc
    · simp [hc]
    · simp [hc]
  · simp only [RetrieveNumberOfSpaces, if_neg htab]
    simp only [not_or] at hc
    simp [hc.1, hc.2]

/-- An instance of C8: the line `a TAB b` starting in column 3. -/
theorem RetrieveTotalNumberOfSpaces_eq_sum_witness :
    8 * 3 < 2 ^ 32 ∧
    RetrieveTotalNumberOfSpaces exampleTables 3 (lineOf [0x61, 0x09, 0x62]) 3 =
      Finset.sum (Finset.range 3)
        (fun i => RetrieveNumberOfSpaces exampleTables 3 (lineOf [0x61, 0x09, 0x62]) i) :=
  ⟨by decide, RetrieveTotalNumberOfSpaces_eq_sum exampleTables 3 (lineOf [0x61, 0x09, 0x62]) 3
    (by decide)⟩


/-! ## `ProcessCookedReadInput` -/

theorem subSizeT_le (a b : Nat) (hb : b ≤ a) : subSizeT a b ≤ a - b := by
  unfold subSizeT
  have h1 : b % 2 ^ 64 ≤ b := Nat.mod_le _ _
  have h2 : b % 2 ^ 64 < 2 ^ 64 := Nat.mod_lt _ (by norm_num)
  by_cases hlt : b < 2 ^ 64
  · rw [Nat.mod_eq_of_lt hlt]
    have : (2 ^ 64 - b) + a = (a - b) + 2 ^ 64 := by omega
    rw [this, Nat.add_mod_right]
    exact Nat.mod_le _ _
  · omega

theorem subSizeT_eq (a b : Nat) (hb : b ≤ a) (ha : a < 2 ^ 64) : subSizeT a b = a - b := by
  unfold subSizeT
  omega

/-- C6. If `BytesUsed >= Capacity - 2*sizeof(WCHAR)` (the capacity holding at least the two
reserved slots) and the character is neither CR nor BS, `ProcessCookedReadInput` reports
continue with status success and leaves the session, all of its buffer and the screen as
they were, without touching the buffer. This holds for every character, wake-up
characters, the erase-previous-word key and the second backspace included, so the guard
comes before all of them. -/
theorem buffer_full_guard {W : Type} (h : Host W) (scr : W) (d : COOKED_READ_DATA)
    (wch dwKeyState : Nat)
    (hcap : 2 * sizeof_WCHAR ≤ d.BufferSize)
    (hfull : d.BufferSize - 2 * sizeof_WCHAR ≤ d.BytesRead)
    (hcr : wch ≠ UNICODE_CARRIAGERETURN) (hbs : wch ≠ UNICODE_BACKSPACE) :
    ProcessCookedReadInput h scr d wch dwKeyState =
      { Completed := false, Status := STATUS_SUCCESS, d := d, scr := scr, log := [] } := by
  have hg : subSizeT d.BufferSize (2 * sizeof_WCHAR) ≤ d.BytesRead :=
    le_trans (subSizeT_le _ _ hcap) hfull
  simp [ProcessCookedReadInput, hg, hcr, hbs]

set_option maxRecDepth 20000 in
/-- An instance of C6: 254 characters fill a 512-byte buffer up to the two reserved slots;
CTRL+G, although a wake-up character of the session, is then rejected. -/
theorem buffer_full_guard_witness :
    ProcessCookedReadInput (exampleHost true false) [] fullSession 0x07 0 =
      { Completed := false, Status := STATUS_SUCCESS, d := fullSession, scr := [], log := [] } :=
  buffer_full_guard (exampleHost true false) [] fullSession 0x07 0
    (by decide) (by decide) (by decide) (by decide)

/-- The test of `ProcessCookedReadInput` for a wake-up character, in terms of the bit of
the mask. -/
theorem wakeup_test_iff (mask c : Nat) :
    (mask ≠ 0 ∧ c < UNICODE_SPACE ∧ mask &&& (1 <<< c) ≠ 0) ↔
      (c < 0x20 ∧ mask.testBit c = true) := by
  have hb : mask &&& (1 <<< c) ≠ 0 ↔ mask.testBit c = true := by
    rw [Nat.one_shiftLeft]
    simp [Nat.and_two_pow]
  constructor
  · rintro ⟨_, hc, hm⟩
    exact ⟨hc, hb.1 hm⟩
  · rintro ⟨hc, hm⟩
    refine ⟨?_, hc, hb.2 hm⟩
    rintro rfl
    simp at hm

/-- C1, amended. For every cooked-read session that the buffer-full guard lets through
(`BytesUsed + 2*sizeof(WCHAR) < Capacity`, or `c` is CR or BS) and every code unit `c <
0x20` whose bit `c` is set in `CtrlWakeupMask`, `ProcessCookedReadInput` on `(c,
keyState)` reports the read complete with status success, stores `c` at the write cursor
and nowhere else, advances the write cursor (`BufPtr` and `CurrentPosition`) by one and
`BytesUsed` by `sizeof(WCHAR)`, records `keyState` as `ControlKeyState`, and leaves the
screen alone (no echo). The counters are `ULONG`s and stay in range. -/
theorem wakeup_char_completes {W : Type} (h : Host W) (scr : W) (d : COOKED_READ_DATA)
    (c keyState : Nat)
    (hc : c < 0x20) (hbit : d.CtrlWakeupMask.testBit c = true)
    (hroom : d.BytesRead + 2 * sizeof_WCHAR < d.BufferSize ∨ c = UNICODE_CARRIAGERETURN
      ∨ c = UNICODE_BACKSPACE)
    (hcap : d.BufferSize < 2 ^ 32) (hbytes : d.BytesRead + sizeof_WCHAR < 2 ^ 32)
    (hpos : d.CurrentPosition + 1 < 2 ^ 32) :
    (ProcessCookedReadInput h scr d c keyState).Completed = true ∧
    (ProcessCookedReadInput h scr d c keyState).Status = STATUS_SUCCESS ∧
    (ProcessCookedReadInput h scr d c keyState).d.BackupLimit d.BufPtr = c ∧
    (∀ i : Int, i ≠ d.BufPtr →
      (ProcessCookedReadInput h scr d c keyState).d.BackupLimit i = d.BackupLimit i) ∧
    (ProcessCookedReadInput h scr d c keyState).d.BufPtr = d.BufPtr + 1 ∧
    (ProcessCookedReadInput h scr d c keyState).d.CurrentPosition = d.CurrentPosition + 1 ∧
    (ProcessCookedReadInput h scr d c keyState).d.BytesRead = d.BytesRead + sizeof_WCHAR ∧
    (ProcessCookedReadInput h scr d c keyState).d.ControlKeyState = keyState ∧
    (ProcessCookedReadInput h scr d c keyState).scr = scr := by
  have hguard : ¬(subSizeT d.BufferSize (2 * sizeof_WCHAR) ≤ d.BytesRead
      ∧ c ≠ UNICODE_CARRIAGERETURN ∧ c ≠ UNICODE_BACKSPACE) := by
    rintro ⟨h1, h2, h3⟩
    rcases hroom with hr | hr | hr
    · rw [subSizeT_eq _ _ (by omega) (by omega)] at h1
      omega
    · exact h2 hr
    · exact h3 hr
  have hwake := (wakeup_test_iff d.CtrlWakeupMask c).2 ⟨hc, hbit⟩
  have e1 : toULONG (d.BytesRead + sizeof_WCHAR) = d.BytesRead + sizeof_WCHAR := by
    unfold toULONG
    exact Nat.mod_eq_of_lt hbytes
  have e2 : toULONG (d.CurrentPosition + 1) = d.CurrentPosition + 1 := by
    unfold toULONG
    exact Nat.mod_eq_of_lt hpos
  have key : ProcessCookedReadInput h scr d c keyState =
      { Completed := true, Status := STATUS_SUCCESS,
        d := { d with
               BackupLimit := poke d.BackupLimit d.BufPtr c,
               BytesRead := toULONG (d.BytesRead + sizeof_WCHAR),
               BufPtr := d.BufPtr + 1,
               CurrentPosition := toULONG (d.CurrentPosition + 1),
               ControlKeyState := keyState },
        scr := scr, log := [Access.write d.BufPtr 1] } := by
    unfold ProcessCookedReadInput
    rw [if_neg hguard, if_pos hwake]
  rw [key]
  refine ⟨rfl, rfl, ?_, ?_, rfl, e2, e1, rfl, rfl⟩
  · show poke d.BackupLimit d.BufPtr c d.BufPtr = c
    unfold poke
    rw [if_pos rfl]
  · intro i hi
    show poke d.BackupLimit d.BufPtr c i = d.BackupLimit i
    unfold poke
    rw [if_neg hi]

/-- An instance of C1, amended: after `x y`, CTRL+G (with the left CTRL key down) completes
the read; the line is then `x y BEL`, six bytes, and nothing was echoed. -/
theorem wakeup_char_completes_witness :
    (ProcessCookedReadInput (exampleHost true false) [] xySession 0x07 0x08).Completed = true ∧
    (ProcessCookedReadInput (exampleHost true false) [] xySession 0x07 0x08).Status
      = STATUS_SUCCESS ∧
    content (ProcessCookedReadInput (exampleHost true false) [] xySession 0x07 0x08).d
      = [0x78, 0x79, 0x07] ∧
    (ProcessCookedReadInput (exampleHost true false) [] xySession 0x07 0x08).d.BytesRead = 6 ∧
    (ProcessCookedReadInput (exampleHost true false) [] xySession 0x07 0x08).d.ControlKeyState
      = 0x08 ∧
    (ProcessCookedReadInput (exampleHost true false) [] xySession 0x07 0x08).scr = [] :=
  have w := wakeup_char_completes (exampleHost true false) [] xySession 0x07 0x08
    (by decide) (by decide) (Or.inl (by decide)) (by decide) (by decide) (by decide)
  ⟨w.1, w.2.1, by decide, w.2.2.2.2.2.2.1, w.2.2.2.2.2.2.2.1, w.2.2.2.2.2.2.2.2⟩

set_option maxRecDepth 20000 in
/-- C1 as stated fails when the buffer is full: CTRL+G is below 0x20 and its bit is set in
the mask of `fullSession`, yet the call reports continue, stores nothing and leaves
`BytesUsed` and the write cursor where they were. -/
theorem wakeup_char_completes_counterexample :
    (0x07 < 0x20 ∧ fullSession.CtrlWakeupMask.testBit 0x07 = true) ∧
    (ProcessCookedReadInput (exampleHost true false) [] fullSession 0x07 0x08).Completed = false ∧
    (ProcessCookedReadInput (exampleHost true false) [] fullSession 0x07 0x08).d.BytesRead
      = fullSession.BytesRead ∧
    (ProcessCookedReadInput (exampleHost true false) [] fullSession 0x07 0x08).d.CurrentPosition
      = fullSession.CurrentPosition ∧
    (ProcessCookedReadInput (exampleHost true false) [] fullSession 0x07 0x08).d.ControlKeyState
      = 0 := by
  decide

theorem not_wakeup_of_testBit {mask c : Nat} (hbit : mask.testBit c = false) :
    ¬(mask ≠ 0 ∧ c < UNICODE_SPACE ∧ mask &&& (1 <<< c) ≠ 0) := by
  intro hw
  have := ((wakeup_test_iff mask c).1 hw).2
  rw [hbit] at this
  exact Bool.noConfusion this

/-- C7, amended. For every session with the write cursor at 0 (nothing to erase) in which
the cursor is at end of line, or is in the middle of a non-empty line with `Processed`
set, a BS that is not a wake-up character reports continue and leaves the whole session
(`WriteCursor`, `BytesUsed`, `VisibleCells`, all of the buffer) and the screen as they
were. -/
theorem backspace_at_start_noop {W : Type} (h : Host W) (scr : W) (d : COOKED_READ_DATA)
    (keyState : Nat)
    (_hpos : d.CurrentPosition = 0) (hptr : d.BufPtr = 0)
    (hbit : d.CtrlWakeupMask.testBit UNICODE_BACKSPACE = false)
    (hcase : AT_EOL d = true ∨ d.Processed = true) :
    ProcessCookedReadInput h scr d UNICODE_BACKSPACE keyState =
      { Completed := false, Status := STATUS_SUCCESS, d := d, scr := scr, log := [] } := by
  have hguard : ¬(subSizeT d.BufferSize (2 * sizeof_WCHAR) ≤ d.BytesRead
      ∧ UNICODE_BACKSPACE ≠ UNICODE_CARRIAGERETURN ∧ UNICODE_BACKSPACE ≠ UNICODE_BACKSPACE) :=
    fun hg => hg.2.2 rfl
  have hwake := not_wakeup_of_testBit hbit
  unfold ProcessCookedReadInput
  rw [if_neg hguard, if_neg hwake]
  by_cases heol : AT_EOL d = true
  · simp [heol, eolBranch, crCompletion, entryFrame, hptr, UNICODE_BACKSPACE,
      UNICODE_CARRIAGERETURN]
  · rcases hcase with hc | hc
    · exact absurd hc heol
    · simp [heol, midEdit, crCompletion, entryFrame, hptr, hc, UNICODE_BACKSPACE,
        UNICODE_CARRIAGERETURN]

/-- An instance of C7, amended: processed input, the line `a b` with the cursor moved back
to its start; BS changes nothing. -/
theorem backspace_at_start_noop_witness :
    ProcessCookedReadInput (exampleHost true false) []
        (sessionAt (newSession 512 0 true false true) [0x61, 0x62] 0) UNICODE_BACKSPACE 0 =
      { Completed := false, Status := STATUS_SUCCESS,
        d := sessionAt (newSession 512 0 true false true) [0x61, 0x62] 0, scr := [], log := [] } :=
  backspace_at_start_noop (exampleHost true false) []
    (sessionAt (newSession 512 0 true false true) [0x61, 0x62] 0) 0
    (by decide) (by decide) (by decide) (Or.inr (by decide))

/-- C7 as stated fails in the middle of a line when `Processed` is clear: with the line `a`
and the write cursor at 0, a BS that is no wake-up character is stored as a character,
replacing the `a`, and the write cursor advances to 1. -/
theorem backspace_at_start_noop_counterexample :
    ((sessionAt (newSession 512 0 false false false) [0x61] 0).CurrentPosition = 0 ∧
     (sessionAt (newSession 512 0 false false false) [0x61] 0).BytesRead = 2 ∧
     (sessionAt (newSession 512 0 false false false) [0x61] 0).BackupLimit 0 = 0x61 ∧
     (sessionAt (newSession 512 0 false false false) [0x61] 0).CtrlWakeupMask.testBit
       UNICODE_BACKSPACE = false) ∧
    (ProcessCookedReadInput (exampleHost true false) []
      (sessionAt (newSession 512 0 false false false) [0x61] 0)
      UNICODE_BACKSPACE 0).d.CurrentPosition = 1 ∧
    (ProcessCookedReadInput (exampleHost true false) []
      (sessionAt (newSession 512 0 false false false) [0x61] 0)
      UNICODE_BACKSPACE 0).d.BackupLimit 0 = UNICODE_BACKSPACE := by
  decide

theorem crCompletion_of_ne {W : Type} (h : Host W) (wch : Nat) (f : Frame W)
    (hne : wch ≠ UNICODE_CARRIAGERETURN) :
    crCompletion h wch f =
      { Completed := false, Status := f.Status, d := f.d, scr := f.scr, log := f.log } := by
  unfold crCompletion
  rw [if_neg hne]

/-- With a screen writer that succeeds, the repaint of the middle-of-line branch for a
character other than CR does not return early and leaves the buffer, `BytesRead` and both
forms of the write cursor alone. -/
theorem midRepaint_of_succeeds {W : Type} (h : Host W) (hs : h.ScreenSucceeds) (wch : Nat)
    (f : Frame W) (hne : wch ≠ UNICODE_CARRIAGERETURN) :
    (midRepaint h wch f).2 = false ∧
    (midRepaint h wch f).1.d.BackupLimit = f.d.BackupLimit ∧
    (midRepaint h wch f).1.d.BytesRead = f.d.BytesRead ∧
    (midRepaint h wch f).1.d.CurrentPosition = f.d.CurrentPosition ∧
    (midRepaint h wch f).1.d.BufPtr = f.d.BufPtr := by
  simp [midRepaint, hs.1, hs.2, hne]

/-- What the first half of the middle-of-line branch does to the session for a character
that is stored (neither a processed BS nor CR). -/
theorem midEdit_char {W : Type} (h : Host W) (wch wchOrig : Nat) (f : Frame W)
    (hbs : ¬(wch = UNICODE_BACKSPACE ∧ f.d.Processed = true))
    (hcr : wch ≠ UNICODE_CARRIAGERETURN) :
    (midEdit h wch wchOrig f).2 = true ∧
    (midEdit h wch wchOrig f).1.d.Echo = f.d.Echo ∧
    (midEdit h wch wchOrig f).1.d.BufPtr = f.d.BufPtr + 1 ∧
    (midEdit h wch wchOrig f).1.d.CurrentPosition = toULONG (f.d.CurrentPosition + 1) ∧
    (midEdit h wch wchOrig f).1.d.BytesRead =
      (if f.d.InsertMode = true then toULONG (f.d.BytesRead + sizeof_WCHAR) else f.d.BytesRead) ∧
    (midEdit h wch wchOrig f).1.d.BackupLimit =
      poke (if f.d.InsertMode = true then
              memmoveW f.d.BackupLimit ((f.d.BufPtr : Int) + 1) f.d.BufPtr
                (subSizeT f.d.BytesRead (f.d.CurrentPosition * sizeof_WCHAR))
            else f.d.BackupLimit) f.d.BufPtr wch := by
  unfold midEdit
  rw [if_neg hbs, if_neg hcr]
  rcases f with ⟨⟨bs, br, cp, bp, bl, ubs, ocp, nvc, mask, cks, echo, ins, proc, line⟩,
    scr, st, ns, sy, lg⟩
  cases echo <;> cases ins <;> exact ⟨rfl, rfl, rfl, rfl, rfl, rfl⟩

/-- `ProcessCookedReadInput` past the guard and the wake-up test, cursor inside the line. -/
theorem ProcessCookedReadInput_mid {W : Type} (h : Host W) (scr : W) (d : COOKED_READ_DATA)
    (ch keyState : Nat)
    (hguard : ¬(subSizeT d.BufferSize (2 * sizeof_WCHAR) ≤ d.BytesRead
      ∧ ch ≠ UNICODE_CARRIAGERETURN ∧ ch ≠ UNICODE_BACKSPACE))
    (hwake : ¬(d.CtrlWakeupMask ≠ 0 ∧ ch < UNICODE_SPACE ∧ d.CtrlWakeupMask &&& (1 <<< ch) ≠ 0))
    (heol : ¬(AT_EOL d = true)) (wch : Nat)
    (hwch : (if ch = h.EXTKEY_ERASE_PREV_WORD then UNICODE_BACKSPACE else ch) = wch)
    (e : Frame W × Bool)
    (he : midEdit h wch ch (entryFrame scr d) = e) :
    ProcessCookedReadInput h scr d ch keyState =
      if e.1.d.Echo = true ∧ e.2 = true then
        if (midRepaint h wch e.1).2 = true then
          { Completed := true, Status := (midRepaint h wch e.1).1.Status,
            d := (midRepaint h wch e.1).1.d, scr := (midRepaint h wch e.1).1.scr,
            log := (midRepaint h wch e.1).1.log }
        else crCompletion h wch (midRepaint h wch e.1).1
      else crCompletion h wch e.1 := by
  unfold ProcessCookedReadInput
  rw [if_neg hguard, if_neg hwake]
  dsimp only
  rw [if_neg heol, hwch, he]

/-- `ProcessCookedReadInput` past the guard and the wake-up test, cursor at end of line. -/
theorem ProcessCookedReadInput_eol {W : Type} (h : Host W) (scr : W) (d : COOKED_READ_DATA)
    (ch keyState : Nat)
    (hguard : ¬(subSizeT d.BufferSize (2 * sizeof_WCHAR) ≤ d.BytesRead
      ∧ ch ≠ UNICODE_CARRIAGERETURN ∧ ch ≠ UNICODE_BACKSPACE))
    (hwake : ¬(d.CtrlWakeupMask ≠ 0 ∧ ch < UNICODE_SPACE ∧ d.CtrlWakeupMask &&& (1 <<< ch) ≠ 0))
    (heol : AT_EOL d = true) (wch : Nat)
    (hwch : (if ch = h.EXTKEY_ERASE_PREV_WORD then UNICODE_BACKSPACE else ch) = wch)
    (r : Nat × Frame W)
    (hr : eolBranch h wch ch (entryFrame scr d) = r) :
    ProcessCookedReadInput h scr d ch keyState = crCompletion h r.1 r.2 := by
  unfold ProcessCookedReadInput
  rw [if_neg hguard, if_neg hwake]
  dsimp only
  rw [if_pos heol, hwch, hr]

/-- A character stored in the middle of the line, with a screen writer that succeeds: the
call reports continue, and the buffer, `BytesRead` and the write cursor are as the first
half of the branch left them. -/
theorem ProcessCookedReadInput_mid_char {W : Type} (h : Host W) (hs : h.ScreenSucceeds)
    (scr : W) (d : COOKED_READ_DATA) (ch keyState : Nat)
    (hguard : ¬(subSizeT d.BufferSize (2 * sizeof_WCHAR) ≤ d.BytesRead
      ∧ ch ≠ UNICODE_CARRIAGERETURN ∧ ch ≠ UNICODE_BACKSPACE))
    (hwake : ¬(d.CtrlWakeupMask ≠ 0 ∧ ch < UNICODE_SPACE ∧ d.CtrlWakeupMask &&& (1 <<< ch) ≠ 0))
    (hext : ch ≠ h.EXTKEY_ERASE_PREV_WORD)
    (heol : ¬(AT_EOL d = true))
    (hbs : ¬(ch = UNICODE_BACKSPACE ∧ d.Processed = true))
    (hcr : ch ≠ UNICODE_CARRIAGERETURN) :
    (ProcessCookedReadInput h scr d ch keyState).Completed = false ∧
    (ProcessCookedReadInput h scr d ch keyState).d.BufPtr = d.BufPtr + 1 ∧
    (ProcessCookedReadInput h scr d ch keyState).d.CurrentPosition
      = toULONG (d.CurrentPosition + 1) ∧
    (ProcessCookedReadInput h scr d ch keyState).d.BytesRead =
      (if d.InsertMode = true then toULONG (d.BytesRead + sizeof_WCHAR) else d.BytesRead) ∧
    (ProcessCookedReadInput h scr d ch keyState).d.BackupLimit =
      poke (if d.InsertMode = true then
              memmoveW d.BackupLimit ((d.BufPtr : Int) + 1) d.BufPtr
                (subSizeT d.BytesRead (d.CurrentPosition * sizeof_WCHAR))
            else d.BackupLimit) d.BufPtr ch := by
  have hE := midEdit_char h ch ch (entryFrame scr d) hbs hcr
  have key := ProcessCookedReadInput_mid h scr d ch keyState hguard hwake heol ch (if_neg hext)
    _ rfl
  by_cases hecho : d.Echo = true
  · have hR := midRepaint_of_succeeds h hs ch (midEdit h ch ch (entryFrame scr d)).1 hcr
    rw [if_pos ⟨hE.2.1.trans hecho, hE.1⟩, hR.1, if_neg Bool.false_ne_true,
      crCompletion_of_ne h ch _ hcr] at key
    rw [key]
    exact ⟨rfl, hR.2.2.2.2.trans hE.2.2.1, hR.2.2.2.1.trans hE.2.2.2.1,
      hR.2.2.1.trans hE.2.2.2.2.1, hR.2.1.trans hE.2.2.2.2.2⟩
  · have hne : ¬((midEdit h ch ch (entryFrame scr d)).1.d.Echo = true
        ∧ (midEdit h ch ch (entryFrame scr d)).2 = true) :=
      fun hc => hecho (hE.2.1.symm.trans hc.1)
    rw [if_neg hne, crCompletion_of_ne h ch _ hcr] at key
    rw [key]
    exact ⟨rfl, hE.2.2.1, hE.2.2.2.1, hE.2.2.2.2.1, hE.2.2.2.2.2⟩

/-- One pass of `bs_repeat` for a key that is not the erase-previous-word key: the
character before the cursor is removed, the tail moves left by one, a space is written
after the new end, and there is no second pass. -/
theorem bs_repeat_once {W : Type} (h : Host W) (wch wchOrig : Nat) (b : Bool) (fuel : Nat)
    (f : Frame W) (hne : wchOrig ≠ h.EXTKEY_ERASE_PREV_WORD) :
    (bs_repeat h wch wchOrig b fuel f).d.Echo = f.d.Echo ∧
    (bs_repeat h wch wchOrig b fuel f).d.BufPtr = f.d.BufPtr - 1 ∧
    (bs_repeat h wch wchOrig b fuel f).d.CurrentPosition = subULONG f.d.CurrentPosition 1 ∧
    (bs_repeat h wch wchOrig b fuel f).d.BytesRead = subULONG f.d.BytesRead sizeof_WCHAR ∧
    (bs_repeat h wch wchOrig b fuel f).d.BackupLimit =
      poke (memmoveW f.d.BackupLimit ((f.d.BufPtr - 1 : Nat) : Int) (((f.d.BufPtr - 1 : Nat) : Int) + 1)
              (subSizeT (subULONG f.d.BytesRead sizeof_WCHAR)
                (subULONG f.d.CurrentPosition 1 * sizeof_WCHAR)))
        ((subULONG f.d.BytesRead sizeof_WCHAR / sizeof_WCHAR : Nat) : Int) UNICODE_SPACE := by
  have hno : ∀ (P Q : Prop), ¬(P ∧ wchOrig = h.EXTKEY_ERASE_PREV_WORD ∧ Q) :=
    fun _ _ hc => hne hc.2.1
  unfold bs_repeat
  dsimp only
  rw [if_neg (hno _ _)]
  rcases f with ⟨⟨bs, br, cp, bp, bl, ubs, ocp, nvc, mask, cks, echo, ins, proc, line⟩,
    scr, st, ns, sy, lg⟩
  cases echo <;> exact ⟨rfl, rfl, rfl, rfl, rfl⟩

theorem range_map_insert (old new : Nat → Nat) (n p ch : Nat) (hp : p ≤ n)
    (hnew : ∀ i : Nat, i ≤ n → new i = if i < p then old i else if i = p then ch else old (i - 1)) :
    (List.range (n + 1)).map new =
      ((List.range n).map old).take p ++ ch :: ((List.range n).map old).drop p := by
  apply List.ext_getElem
  · simp
    omega
  · intro i h1 h2
    simp only [List.length_map, List.length_range] at h1
    rw [List.getElem_map, List.getElem_range, hnew i (by omega)]
    by_cases hlt : i < p
    · rw [if_pos hlt, List.getElem_append_left (by simp; omega)]
      simp
    · rw [if_neg hlt, List.getElem_append_right (by simp; omega)]
      simp only [List.length_take, List.length_map, List.length_range, Nat.min_eq_left hp]
      by_cases heq : i = p
      · subst heq
        simp
      · rw [if_neg heq]
        obtain ⟨k, hk⟩ : ∃ k, i - p = k + 1 := ⟨i - p - 1, by omega⟩
        simp only [hk, List.getElem_cons_succ, List.getElem_drop, List.getElem_map, List.getElem_range]
        congr 1
        omega

theorem range_map_erase (old new : Nat → Nat) (n p : Nat) (hp : p < n)
    (hnew : ∀ i : Nat, i + 1 < n → new i = if i < p then old i else old (i + 1)) :
    (List.range (n - 1)).map new = ((List.range n).map old).eraseIdx p := by
  apply List.ext_getElem
  · simp [List.length_eraseIdx, hp]
  · intro i h1 h2
    simp only [List.length_map, List.length_range] at h1
    rw [List.getElem_map, List.getElem_range, hnew i (by omega), List.getElem_eraseIdx]
    by_cases hlt : i < p
    · simp [hlt]
    · simp [hlt]

/-- What the first half of the middle-of-line branch does to the session for a processed
BS with something before the cursor, the key not being the erase-previous-word key. -/
theorem midEdit_backspace {W : Type} (h : Host W) (wchOrig : Nat) (f : Frame W)
    (hne : wchOrig ≠ h.EXTKEY_ERASE_PREV_WORD) (hproc : f.d.Processed = true)
    (hptr : f.d.BufPtr ≠ 0) :
    (midEdit h UNICODE_BACKSPACE wchOrig f).2 = true ∧
    (midEdit h UNICODE_BACKSPACE wchOrig f).1.d.Echo = f.d.Echo ∧
    (midEdit h UNICODE_BACKSPACE wchOrig f).1.d.BufPtr = f.d.BufPtr - 1 ∧
    (midEdit h UNICODE_BACKSPACE wchOrig f).1.d.CurrentPosition
      = subULONG f.d.CurrentPosition 1 ∧
    (midEdit h UNICODE_BACKSPACE wchOrig f).1.d.BytesRead
      = subULONG f.d.BytesRead sizeof_WCHAR ∧
    (midEdit h UNICODE_BACKSPACE wchOrig f).1.d.BackupLimit =
      poke (memmoveW f.d.BackupLimit ((f.d.BufPtr - 1 : Nat) : Int) (((f.d.BufPtr - 1 : Nat) : Int) + 1)
              (subSizeT (subULONG f.d.BytesRead sizeof_WCHAR)
                (subULONG f.d.CurrentPosition 1 * sizeof_WCHAR)))
        ((subULONG f.d.BytesRead sizeof_WCHAR / sizeof_WCHAR : Nat) : Int) UNICODE_SPACE := by
  unfold midEdit
  rw [if_pos ⟨rfl, hproc⟩, if_pos hptr]
  dsimp only
  by_cases hx : h.GetExtendedEditKey = true
  · rw [if_pos hx]
    exact ⟨rfl, bs_repeat_once h UNICODE_BACKSPACE wchOrig _ _ _ hne⟩
  · rw [if_neg hx]
    exact ⟨rfl, bs_repeat_once h UNICODE_BACKSPACE wchOrig _ _ _ hne⟩

theorem poke_memmoveW_insert (m : Mem) (p cb ch i : Nat) (hi : i ≤ p + cb / 2) :
    poke (memmoveW m ((p : Int) + 1) p cb) p ch i =
      if i < p then m i else if i = p then ch else m ((i - 1 : Nat) : Int) := by
  simp only [poke, memmoveW, sizeof_WCHAR]
  split_ifs <;> first | rfl | omega | (congr 1; omega)

theorem memmoveW_erase (m : Mem) (p cb v : Nat) (e : Int) (i : Nat) (_hp : 0 < p)
    (hi : i < p - 1 + cb / 2) (he : ((p - 1 + cb / 2 : Nat) : Int) ≤ e) :
    poke (memmoveW m ((p - 1 : Nat) : Int) (((p - 1 : Nat) : Int) + 1) cb) e v i =
      if i < p - 1 then m i else m ((i + 1 : Nat) : Int) := by
  simp only [poke, memmoveW, sizeof_WCHAR]
  split_ifs <;> first | rfl | omega | (congr 1; omega)

theorem guard_passes {d : COOKED_READ_DATA} {ch : Nat}
    (hroom : d.BytesRead + 2 * sizeof_WCHAR < d.BufferSize) (hcap : d.BufferSize < 2 ^ 32) :
    ¬(subSizeT d.BufferSize (2 * sizeof_WCHAR) ≤ d.BytesRead
      ∧ ch ≠ UNICODE_CARRIAGERETURN ∧ ch ≠ UNICODE_BACKSPACE) := by
  rintro ⟨h1, -, -⟩
  rw [subSizeT_eq _ _ (by omega) (by omega)] at h1
  omega

/-- C4. For every session with the cursor in the middle of the line (`WriteCursor <
BytesUsed/sizeof(WCHAR)`, both forms of the write cursor agreeing) and every ordinary
character `ch` that passes the buffer-full guard (`ch` is not CR, not a wake-up character,
not BS while `Processed`, and not the erase-previous-word key, which the routine turns
into BS), with the screen writer succeeding: when `InsertMode` is set the new contents of
`Storage[0 .. BytesUsed)` are the old contents with `ch` inserted at index `WriteCursor`
and `BytesUsed` grows by `sizeof(WCHAR)`; otherwise `Storage[WriteCursor]` is replaced by
`ch` and every other slot and `BytesUsed` are unchanged; in both cases the write cursor
advances by one and the call reports continue. -/
theorem store_char_mid_line {W : Type} (h : Host W) (hs : h.ScreenSucceeds) (scr : W)
    (d : COOKED_READ_DATA) (ch keyState : Nat)
    (hmid : d.CurrentPosition < d.BytesRead / sizeof_WCHAR)
    (hptr : d.BufPtr = d.CurrentPosition)
    (hroom : d.BytesRead + 2 * sizeof_WCHAR < d.BufferSize) (hcap : d.BufferSize < 2 ^ 32)
    (hcr : ch ≠ UNICODE_CARRIAGERETURN)
    (hwake : ¬(ch < 0x20 ∧ d.CtrlWakeupMask.testBit ch = true))
    (hbs : ¬(ch = UNICODE_BACKSPACE ∧ d.Processed = true))
    (hext : ch ≠ h.EXTKEY_ERASE_PREV_WORD) :
    (ProcessCookedReadInput h scr d ch keyState).Completed = false ∧
    (ProcessCookedReadInput h scr d ch keyState).d.CurrentPosition = d.CurrentPosition + 1 ∧
    (ProcessCookedReadInput h scr d ch keyState).d.BufPtr = d.BufPtr + 1 ∧
    (if d.InsertMode = true then
      (ProcessCookedReadInput h scr d ch keyState).d.BytesRead = d.BytesRead + sizeof_WCHAR ∧
      content (ProcessCookedReadInput h scr d ch keyState).d =
        (content d).take d.CurrentPosition ++ ch :: (content d).drop d.CurrentPosition
    else
      (ProcessCookedReadInput h scr d ch keyState).d.BytesRead = d.BytesRead ∧
      (ProcessCookedReadInput h scr d ch keyState).d.BackupLimit d.CurrentPosition = ch ∧
      ∀ i : Int, i ≠ d.CurrentPosition →
        (ProcessCookedReadInput h scr d ch keyState).d.BackupLimit i = d.BackupLimit i) := by
  have heol : ¬(AT_EOL d = true) := by
    simp only [AT_EOL, decide_eq_true_eq]
    omega
  obtain ⟨h1, h2, h3, h4, h5⟩ := ProcessCookedReadInput_mid_char h hs scr d ch keyState
    (guard_passes hroom hcap) (mt (wakeup_test_iff _ _).1 hwake) hext heol hbs hcr
  have hsz : sizeof_WCHAR = 2 := rfl
  rw [hsz] at hmid hroom
  have e3 : toULONG (d.CurrentPosition + 1) = d.CurrentPosition + 1 := by
    unfold toULONG
    omega
  refine ⟨h1, h3.trans e3, h2, ?_⟩
  split_ifs with hins
  · rw [if_pos hins] at h4 h5
    have e4 : toULONG (d.BytesRead + sizeof_WCHAR) = d.BytesRead + sizeof_WCHAR := by
      unfold toULONG
      rw [hsz]
      omega
    refine ⟨h4.trans e4, ?_⟩
    unfold content
    rw [h4, e4, h5, hsz]
    have hlen : (d.BytesRead + 2) / 2 = d.BytesRead / 2 + 1 := by omega
    have hcb : subSizeT d.BytesRead (d.CurrentPosition * 2) = d.BytesRead - d.CurrentPosition * 2 :=
      subSizeT_eq _ _ (by omega) (by omega)
    rw [hlen, hcb, hptr]
    apply range_map_insert (fun i : Nat => d.BackupLimit (i : Int)) _ _ _ _ (le_of_lt hmid)
    intro i hi
    exact poke_memmoveW_insert d.BackupLimit d.CurrentPosition _ ch i (by omega)
  · rw [if_neg hins] at h4 h5
    refine ⟨h4, ?_, ?_⟩
    · rw [h5, hptr]
      simp [poke]
    · intro i hi
      rw [h5, hptr]
      simp [poke, hi]

/-- An instance of C4: insert mode, the line `a c` with the cursor between the two
letters; `b` is inserted there and the cursor moves past it. -/
theorem store_char_mid_line_witness :
    (ProcessCookedReadInput (exampleHost true true) []
      (sessionAt (newSession 512 0 true true true) [0x61, 0x63] 1) 0x62 0).Completed = false ∧
    (ProcessCookedReadInput (exampleHost true true) []
      (sessionAt (newSession 512 0 true true true) [0x61, 0x63] 1) 0x62 0).d.CurrentPosition = 2 ∧
    (ProcessCookedReadInput (exampleHost true true) []
      (sessionAt (newSession 512 0 true true true) [0x61, 0x63] 1) 0x62 0).d.BytesRead = 6 ∧
    content (ProcessCookedReadInput (exampleHost true true) []
      (sessionAt (newSession 512 0 true true true) [0x61, 0x63] 1) 0x62 0).d
      = [0x61, 0x62, 0x63] :=
  have w := store_char_mid_line (exampleHost true true) ⟨fun _ _ => rfl, fun _ _ _ => rfl⟩ []
    (sessionAt (newSession 512 0 true true true) [0x61, 0x63] 1) 0x62 0
    (by decide) (by decide) (by decide) (by decide) (by decide) (by decide) (by decide)
    (by decide)
  ⟨w.1, w.2.1, ((if_pos rfl).mp w.2.2.2).1, ((if_pos rfl).mp w.2.2.2).2⟩

/-- A processed BS in the middle of the line, with a screen writer that succeeds: the call
reports continue, and the buffer, `BytesRead` and the write cursor are as the single pass
of `bs_repeat` left them. -/
theorem ProcessCookedReadInput_mid_backspace {W : Type} (h : Host W) (hs : h.ScreenSucceeds)
    (scr : W) (d : COOKED_READ_DATA) (keyState : Nat)
    (hwake : ¬(d.CtrlWakeupMask ≠ 0 ∧ UNICODE_BACKSPACE < UNICODE_SPACE
      ∧ d.CtrlWakeupMask &&& (1 <<< UNICODE_BACKSPACE) ≠ 0))
    (hkey : UNICODE_BACKSPACE ≠ h.EXTKEY_ERASE_PREV_WORD)
    (heol : ¬(AT_EOL d = true)) (hproc : d.Processed = true) (hptr : d.BufPtr ≠ 0) :
    (ProcessCookedReadInput h scr d UNICODE_BACKSPACE keyState).Completed = false ∧
    (ProcessCookedReadInput h scr d UNICODE_BACKSPACE keyState).d.BufPtr = d.BufPtr - 1 ∧
    (ProcessCookedReadInput h scr d UNICODE_BACKSPACE keyState).d.CurrentPosition
      = subULONG d.CurrentPosition 1 ∧
    (ProcessCookedReadInput h scr d UNICODE_BACKSPACE keyState).d.BytesRead
      = subULONG d.BytesRead sizeof_WCHAR ∧
    (ProcessCookedReadInput h scr d UNICODE_BACKSPACE keyState).d.BackupLimit =
      poke (memmoveW d.BackupLimit ((d.BufPtr - 1 : Nat) : Int) (((d.BufPtr - 1 : Nat) : Int) + 1)
              (subSizeT (subULONG d.BytesRead sizeof_WCHAR)
                (subULONG d.CurrentPosition 1 * sizeof_WCHAR)))
        ((subULONG d.BytesRead sizeof_WCHAR / sizeof_WCHAR : Nat) : Int) UNICODE_SPACE := by
  have hcr : UNICODE_BACKSPACE ≠ UNICODE_CARRIAGERETURN := by decide
  have hguard : ¬(subSizeT d.BufferSize (2 * sizeof_WCHAR) ≤ d.BytesRead
      ∧ UNICODE_BACKSPACE ≠ UNICODE_CARRIAGERETURN ∧ UNICODE_BACKSPACE ≠ UNICODE_BACKSPACE) :=
    fun hg => hg.2.2 rfl
  have hE := midEdit_backspace h UNICODE_BACKSPACE (entryFrame scr d) hkey hproc hptr
  have key := ProcessCookedReadInput_mid h scr d UNICODE_BACKSPACE keyState hguard hwake heol
    UNICODE_BACKSPACE (ite_self _) _ rfl
  by_cases hecho : d.Echo = true
  · have hR := midRepaint_of_succeeds h hs UNICODE_BACKSPACE
      (midEdit h UNICODE_BACKSPACE UNICODE_BACKSPACE (entryFrame scr d)).1 hcr
    rw [if_pos ⟨hE.2.1.trans hecho, hE.1⟩, hR.1, if_neg Bool.false_ne_true,
      crCompletion_of_ne h UNICODE_BACKSPACE _ hcr] at key
    rw [key]
    exact ⟨rfl, hR.2.2.2.2.trans hE.2.2.1, hR.2.2.2.1.trans hE.2.2.2.1,
      hR.2.2.1.trans hE.2.2.2.2.1, hR.2.1.trans hE.2.2.2.2.2⟩
  · have hne : ¬((midEdit h UNICODE_BACKSPACE UNICODE_BACKSPACE (entryFrame scr d)).1.d.Echo = true
        ∧ (midEdit h UNICODE_BACKSPACE UNICODE_BACKSPACE (entryFrame scr d)).2 = true) :=
      fun hc => hecho (hE.2.1.symm.trans hc.1)
    rw [if_neg hne, crCompletion_of_ne h UNICODE_BACKSPACE _ hcr] at key
    rw [key]
    exact ⟨rfl, hE.2.2.1, hE.2.2.2.1, hE.2.2.2.2.1, hE.2.2.2.2.2⟩

/-- C5, amended. For every session with `Processed` set and `0 < WriteCursor <
BytesUsed/sizeof(WCHAR)` (cursor in the middle of the line, both forms of the write cursor
agreeing), with the screen writer succeeding, a BS that is not a wake-up character of the
session yields contents equal to the old contents with the character at index
`WriteCursor-1` removed, decreases the write cursor and `BytesUsed/sizeof(WCHAR)` by one,
writes a space into the vacated slot at the new end of the contents, and reports
continue. -/
theorem backspace_mid_line {W : Type} (h : Host W) (hs : h.ScreenSucceeds) (scr : W)
    (d : COOKED_READ_DATA) (keyState : Nat)
    (hproc : d.Processed = true) (hpos : 0 < d.CurrentPosition)
    (hmid : d.CurrentPosition < d.BytesRead / sizeof_WCHAR)
    (hptr : d.BufPtr = d.CurrentPosition) (hbytes : d.BytesRead < 2 ^ 32)
    (hbit : d.CtrlWakeupMask.testBit UNICODE_BACKSPACE = false)
    (hkey : UNICODE_BACKSPACE ≠ h.EXTKEY_ERASE_PREV_WORD) :
    (ProcessCookedReadInput h scr d UNICODE_BACKSPACE keyState).Completed = false ∧
    (ProcessCookedReadInput h scr d UNICODE_BACKSPACE keyState).d.CurrentPosition
      = d.CurrentPosition - 1 ∧
    (ProcessCookedReadInput h scr d UNICODE_BACKSPACE keyState).d.BufPtr = d.BufPtr - 1 ∧
    (ProcessCookedReadInput h scr d UNICODE_BACKSPACE keyState).d.BytesRead
      = d.BytesRead - sizeof_WCHAR ∧
    content (ProcessCookedReadInput h scr d UNICODE_BACKSPACE keyState).d
      = (content d).eraseIdx (d.CurrentPosition - 1) ∧
    (ProcessCookedReadInput h scr d UNICODE_BACKSPACE keyState).d.BackupLimit
      (((d.BytesRead - sizeof_WCHAR) / sizeof_WCHAR : Nat) : Int) = UNICODE_SPACE := by
  have heol : ¬(AT_EOL d = true) := by
    simp only [AT_EOL, decide_eq_true_eq]
    omega
  obtain ⟨h1, h2, h3, h4, h5⟩ := ProcessCookedReadInput_mid_backspace h hs scr d keyState
    (not_wakeup_of_testBit hbit) hkey heol hproc (by omega)
  have hsz : sizeof_WCHAR = 2 := rfl
  rw [hsz] at hmid
  have e3 : subULONG d.CurrentPosition 1 = d.CurrentPosition - 1 := by
    unfold subULONG
    omega
  have e4 : subULONG d.BytesRead sizeof_WCHAR = d.BytesRead - 2 := by
    unfold subULONG
    rw [hsz]
    omega
  have hcb : subSizeT (d.BytesRead - 2) ((d.CurrentPosition - 1) * 2)
      = d.BytesRead - 2 - (d.CurrentPosition - 1) * 2 :=
    subSizeT_eq _ _ (by omega) (by omega)
  rw [e3] at h3
  rw [e4] at h4
  rw [e4, e3, hsz, hcb, hptr] at h5
  refine ⟨h1, h3, h2, h4, ?_, ?_⟩
  · unfold content
    rw [h4, h5, hsz]
    have hlen : (d.BytesRead - 2) / 2 = d.BytesRead / 2 - 1 := by omega
    rw [hlen]
    apply range_map_erase (fun i : Nat => d.BackupLimit (i : Int)) _ _ _ (by omega)
    intro i hi
    have := memmoveW_erase d.BackupLimit d.CurrentPosition
      (d.BytesRead - 2 - (d.CurrentPosition - 1) * 2) UNICODE_SPACE
      ((d.BytesRead / 2 - 1 : Nat) : Int) i hpos (by omega) (by omega)
    rw [this]
  · rw [h5, hsz]
    simp [poke]

/-- An instance of C5: the line `abc` with the cursor between `b` and `c`; BS removes the
`b`, the line becomes `ac` with the cursor at 1, and the slot after `ac` holds a space. -/
theorem backspace_mid_line_witness :
    (ProcessCookedReadInput (exampleHost true false) []
      (sessionAt (newSession 512 0 true false true) [0x61, 0x62, 0x63] 2)
      UNICODE_BACKSPACE 0).Completed = false ∧
    (ProcessCookedReadInput (exampleHost true false) []
      (sessionAt (newSession 512 0 true false true) [0x61, 0x62, 0x63] 2)
      UNICODE_BACKSPACE 0).d.CurrentPosition = 1 ∧
    (ProcessCookedReadInput (exampleHost true false) []
      (sessionAt (newSession 512 0 true false true) [0x61, 0x62, 0x63] 2)
      UNICODE_BACKSPACE 0).d.BytesRead = 4 ∧
    content (ProcessCookedReadInput (exampleHost true false) []
      (sessionAt (newSession 512 0 true false true) [0x61, 0x62, 0x63] 2)
      UNICODE_BACKSPACE 0).d = [0x61, 0x63] ∧
    (ProcessCookedReadInput (exampleHost true false) []
      (sessionAt (newSession 512 0 true false true) [0x61, 0x62, 0x63] 2)
      UNICODE_BACKSPACE 0).d.BackupLimit 2 = UNICODE_SPACE :=
  have w := backspace_mid_line (exampleHost true false) ⟨fun _ _ => rfl, fun _ _ _ => rfl⟩ []
    (sessionAt (newSession 512 0 true false true) [0x61, 0x62, 0x63] 2) 0
    (by decide) (by decide) (by decide) (by decide) (by decide) (by decide) (by decide)
  ⟨w.1, w.2.1, w.2.2.2.1, w.2.2.2.2.1, w.2.2.2.2.2⟩

/-- C5 as stated fails when BS is a wake-up character of the session (bit 8 of the mask):
on the line `abc` with the cursor between `b` and `c`, `Processed` set and the screen
writer succeeding, the BS is stored over the `c`, the write cursor advances to 3,
`BytesUsed` grows to 8 and the call reports complete. -/
theorem backspace_mid_line_counterexample :
    ((sessionAt (newSession 512 0x100 true false true) [0x61, 0x62, 0x63] 2).Processed = true ∧
     0 < (sessionAt (newSession 512 0x100 true false true) [0x61, 0x62, 0x63] 2).CurrentPosition ∧
     (sessionAt (newSession 512 0x100 true false true) [0x61, 0x62, 0x63] 2).CurrentPosition
       < (sessionAt (newSession 512 0x100 true false true) [0x61, 0x62, 0x63] 2).BytesRead
         / sizeof_WCHAR) ∧
    (ProcessCookedReadInput (exampleHost true false) []
      (sessionAt (newSession 512 0x100 true false true) [0x61, 0x62, 0x63] 2)
      UNICODE_BACKSPACE 0).Completed = true ∧
    (ProcessCookedReadInput (exampleHost true false) []
      (sessionAt (newSession 512 0x100 true false true) [0x61, 0x62, 0x63] 2)
      UNICODE_BACKSPACE 0).d.CurrentPosition = 3 ∧
    (ProcessCookedReadInput (exampleHost true false) []
      (sessionAt (newSession 512 0x100 true false true) [0x61, 0x62, 0x63] 2)
      UNICODE_BACKSPACE 0).d.BytesRead = 8 ∧
    content (ProcessCookedReadInput (exampleHost true false) []
      (sessionAt (newSession 512 0x100 true false true) [0x61, 0x62, 0x63] 2)
      UNICODE_BACKSPACE 0).d = [0x61, 0x62, UNICODE_BACKSPACE, 0x20] := by
  decide

/-- The echo at the head of `eol_repeat` touches the anchor row, `NumberOfVisibleChars`
and the screen only. -/
theorem eolEcho_fields {W : Type} (h : Host W) (wch : Nat) (f : Frame W) :
    (eolEcho h wch f).d.BufPtr = f.d.BufPtr ∧
    (eolEcho h wch f).d.CurrentPosition = f.d.CurrentPosition ∧
    (eolEcho h wch f).d.BytesRead = f.d.BytesRead ∧
    (eolEcho h wch f).d.BackupLimit = f.d.BackupLimit ∧
    (eolEcho h wch f).d.BufferSize = f.d.BufferSize ∧
    (eolEcho h wch f).d.Processed = f.d.Processed ∧
    (eolEcho h wch f).d.Line = f.d.Line ∧
    (eolEcho h wch f).d.Echo = f.d.Echo ∧
    (eolEcho h wch f).d.InsertMode = f.d.InsertMode ∧
    (eolEcho h wch f).d.CtrlWakeupMask = f.d.CtrlWakeupMask := by
  unfold eolEcho
  dsimp only
  split_ifs <;> exact ⟨rfl, rfl, rfl, rfl, rfl, rfl, rfl, rfl, rfl, rfl⟩

theorem xor_not_eq_true (a b : Bool) : (xor a (!b) = true) ↔ b = a := by
  cases a <;> cases b <;> decide

theorem eolErase_fields {W : Type} (f : Frame W) :
    (eolErase f).d.BufPtr = f.d.BufPtr - 1 ∧
    (eolErase f).d.CurrentPosition = subULONG f.d.CurrentPosition 1 ∧
    (eolErase f).d.BytesRead = subULONG f.d.BytesRead sizeof_WCHAR ∧
    (eolErase f).d.BackupLimit = poke f.d.BackupLimit f.d.BufPtr UNICODE_SPACE ∧
    (eolErase f).d.Processed = f.d.Processed :=
  ⟨rfl, rfl, rfl, rfl, rfl⟩

/-- The frame at the test that ends a pass of `eol_repeat` for a processed BS: the write
cursor is one lower, `BytesRead` two lower, and a space is written at the old cursor. -/
theorem eolErase_eolEcho_fields {W : Type} (h : Host W) (wch : Nat) (f : Frame W) :
    (eolErase (eolEcho h wch f)).d.BufPtr = f.d.BufPtr - 1 ∧
    (eolErase (eolEcho h wch f)).d.CurrentPosition = subULONG f.d.CurrentPosition 1 ∧
    (eolErase (eolEcho h wch f)).d.BytesRead = subULONG f.d.BytesRead sizeof_WCHAR ∧
    (eolErase (eolEcho h wch f)).d.BackupLimit = poke f.d.BackupLimit f.d.BufPtr UNICODE_SPACE ∧
    (eolErase (eolEcho h wch f)).d.Processed = f.d.Processed := by
  obtain ⟨e1, e2, e3, e4, -, e6, -⟩ := eolEcho_fields h wch f
  obtain ⟨g1, g2, g3, g4, g5⟩ := eolErase_fields (eolEcho h wch f)
  rw [e1] at g1
  rw [e2] at g2
  rw [e3] at g3
  rw [e4, e1] at g4
  rw [e6] at g5
  exact ⟨g1, g2, g3, g4, g5⟩

/-- A pass of `eol_repeat` for a processed BS is followed by another one when extended edit
keys are on, the key was the erase-previous-word key, the cursor has not reached the base
and the character now before it is in the class `fStartFromDelim` records. -/
theorem eol_repeat_again {W : Type} (h : Host W) (wchOrig : Nat) (b : Bool) (n : Nat)
    (f : Frame W) (hproc : f.d.Processed = true)
    (hx : h.GetExtendedEditKey = true) (ho : wchOrig = h.EXTKEY_ERASE_PREV_WORD)
    (hp : (eolErase (eolEcho h UNICODE_BACKSPACE f)).d.BufPtr ≠ 0)
    (hd : h.IS_WORD_DELIM ((eolErase (eolEcho h UNICODE_BACKSPACE f)).d.BackupLimit
      (((eolErase (eolEcho h UNICODE_BACKSPACE f)).d.BufPtr : Int) - 1)) = b) :
    eol_repeat h UNICODE_BACKSPACE wchOrig b (n + 1) f =
      eol_repeat h UNICODE_BACKSPACE wchOrig b n
        ((eolErase (eolEcho h UNICODE_BACKSPACE f)).noteRead
          (((eolErase (eolEcho h UNICODE_BACKSPACE f)).d.BufPtr : Int) - 1)) := by
  rw [eol_repeat]
  dsimp only
  rw [if_pos ⟨rfl, ((eolEcho_fields h UNICODE_BACKSPACE f).2.2.2.2.2.1).trans hproc⟩,
    if_pos ⟨hx, ho, hp⟩, if_pos ((xor_not_eq_true _ _).2 hd)]

/-- A pass of `eol_repeat` for a processed BS is the last one otherwise. -/
theorem eol_repeat_stop {W : Type} (h : Host W) (wchOrig : Nat) (b : Bool) (fuel : Nat)
    (f : Frame W) (hproc : f.d.Processed = true)
    (hn : ¬(h.GetExtendedEditKey = true ∧ wchOrig = h.EXTKEY_ERASE_PREV_WORD ∧
      (eolErase (eolEcho h UNICODE_BACKSPACE f)).d.BufPtr ≠ 0 ∧
      h.IS_WORD_DELIM ((eolErase (eolEcho h UNICODE_BACKSPACE f)).d.BackupLimit
        (((eolErase (eolEcho h UNICODE_BACKSPACE f)).d.BufPtr : Int) - 1)) = b)) :
    (eol_repeat h UNICODE_BACKSPACE wchOrig b fuel f).d
      = (eolErase (eolEcho h UNICODE_BACKSPACE f)).d := by
  unfold eol_repeat
  dsimp only
  rw [if_pos ⟨rfl, ((eolEcho_fields h UNICODE_BACKSPACE f).2.2.2.2.2.1).trans hproc⟩]
  by_cases h3 : h.GetExtendedEditKey = true ∧ wchOrig = h.EXTKEY_ERASE_PREV_WORD
      ∧ (eolErase (eolEcho h UNICODE_BACKSPACE f)).d.BufPtr ≠ 0
  · have hc : ¬(xor b (!h.IS_WORD_DELIM ((eolErase (eolEcho h UNICODE_BACKSPACE f)).d.BackupLimit
        (((eolErase (eolEcho h UNICODE_BACKSPACE f)).d.BufPtr : Int) - 1))) = true) :=
      fun hc => hn ⟨h3.1, h3.2.1, h3.2.2, (xor_not_eq_true _ _).1 hc⟩
    rw [if_pos h3, if_neg hc]
    rfl
  · rw [if_neg h3]

/-- The end-of-line branch for BS with extended edit keys on and the write cursor off the
base: `fStartFromDelim` is the class of the code unit before the cursor, and the passes of
`eol_repeat` start from the frame that has that load on its log. -/
theorem eolBranch_backspace {W : Type} (h : Host W) (hx : h.GetExtendedEditKey = true)
    (wchOrig : Nat) (f : Frame W) (hp : f.d.BufPtr ≠ 0) :
    eolBranch h UNICODE_BACKSPACE wchOrig f =
      (UNICODE_BACKSPACE,
        eol_repeat h UNICODE_BACKSPACE wchOrig
          (h.IS_WORD_DELIM (f.d.BackupLimit ((f.d.BufPtr : Int) - 1))) f.d.BufPtr
          (f.noteRead ((f.d.BufPtr : Int) - 1))) := by
  unfold eolBranch
  dsimp only
  rw [ite_self, if_pos (Or.inr hp), if_pos hx, hx, Bool.true_and]

/-- The passes of `eol_repeat` for the erase-previous-word key, entered with the write
cursor at `q + 1`: `k` further passes follow the first one, where the `k` code units before
index `q` are all of class `b` and the one before them (if any) is not; the write cursor
ends at `q - k`, and no code unit at or below index `q - k` is written. Any fuel from `q`
up gives this result. -/
theorem eol_repeat_run {W : Type} (h : Host W) (hx : h.GetExtendedEditKey = true) (b : Bool) :
    ∀ (q fuel : Nat) (f : Frame W), f.d.Processed = true → f.d.BufPtr = q + 1 →
      f.d.CurrentPosition = q + 1 → 2 * (q + 1) ≤ f.d.BytesRead → f.d.BytesRead < 2 ^ 32 →
      q ≤ fuel →
      ∃ k : Nat, k ≤ q ∧
        (∀ j : Nat, j < k → h.IS_WORD_DELIM (f.d.BackupLimit ((q : Int) - 1 - j)) = b) ∧
        (k < q → h.IS_WORD_DELIM (f.d.BackupLimit ((q : Int) - 1 - k)) ≠ b) ∧
        (eol_repeat h UNICODE_BACKSPACE h.EXTKEY_ERASE_PREV_WORD b fuel f).d.BufPtr = q - k ∧
        (eol_repeat h UNICODE_BACKSPACE h.EXTKEY_ERASE_PREV_WORD b fuel f).d.CurrentPosition
          = q - k ∧
        (eol_repeat h UNICODE_BACKSPACE h.EXTKEY_ERASE_PREV_WORD b fuel f).d.BytesRead
          = f.d.BytesRead - 2 * (k + 1) ∧
        (∀ i : Int, i ≤ (q : Int) - k →
          (eol_repeat h UNICODE_BACKSPACE h.EXTKEY_ERASE_PREV_WORD b fuel f).d.BackupLimit i
            = f.d.BackupLimit i) := by
  intro q
  induction q with
  | zero =>
    intro fuel f hproc hbp hcp hbr hlt _
    obtain ⟨g1, g2, g3, g4, -⟩ := eolErase_eolEcho_fields h UNICODE_BACKSPACE f
    have hstop := eol_repeat_stop h h.EXTKEY_ERASE_PREV_WORD b fuel f hproc
      (fun hc => hc.2.2.1 (by rw [g1, hbp]))
    refine ⟨0, le_refl _, fun j hj => absurd hj (Nat.not_lt_zero _),
      fun hk => absurd hk (Nat.lt_irrefl _), ?_, ?_, ?_, ?_⟩
    · rw [hstop, g1, hbp]
    · rw [hstop, g2, hcp]
      unfold subULONG
      omega
    · rw [hstop, g3]
      unfold subULONG sizeof_WCHAR
      omega
    · intro i hi
      rw [hstop, g4, hbp]
      unfold poke
      rw [if_neg]
      push_cast at hi ⊢
      omega
  | succ q ih =>
    intro fuel f hproc hbp hcp hbr hlt hfuel
    obtain ⟨g1, g2, g3, g4, g5⟩ := eolErase_eolEcho_fields h UNICODE_BACKSPACE f
    have e2 : subULONG f.d.CurrentPosition 1 = q + 1 := by
      unfold subULONG
      omega
    have e3 : subULONG f.d.BytesRead sizeof_WCHAR = f.d.BytesRead - 2 := by
      unfold subULONG sizeof_WCHAR
      omega
    have e1 : f.d.BufPtr - 1 = q + 1 := by omega
    rw [e1] at g1
    rw [e2] at g2
    rw [e3] at g3
    have hsame : ∀ i : Int, i ≤ (q : Int) + 1 →
        (eolErase (eolEcho h UNICODE_BACKSPACE f)).d.BackupLimit i = f.d.BackupLimit i := by
      intro i hi
      rw [g4, hbp]
      unfold poke
      rw [if_neg]
      push_cast
      omega
    by_cases hd : h.IS_WORD_DELIM (f.d.BackupLimit (q : Int)) = b
    · obtain ⟨n, rfl⟩ : ∃ n, fuel = n + 1 := ⟨fuel - 1, by omega⟩
      have hagain := eol_repeat_again h h.EXTKEY_ERASE_PREV_WORD b n f hproc hx rfl
        (by rw [g1]; exact Nat.succ_ne_zero _)
        (by
          rw [g1, hsame _ (by push_cast; omega)]
          have : (((q + 1 : Nat) : Int) - 1) = (q : Int) := by push_cast; omega
          rw [this]
          exact hd)
      obtain ⟨k, hk, hrun, hend, r1, r2, r3, r4⟩ := ih n
        ((eolErase (eolEcho h UNICODE_BACKSPACE f)).noteRead
          (((eolErase (eolEcho h UNICODE_BACKSPACE f)).d.BufPtr : Int) - 1))
        (g5.trans hproc) g1 g2 (by rw [show ∀ (g : Frame W) (i : Int), (g.noteRead i).d = g.d
          from fun _ _ => rfl, g3]; omega)
        (by rw [show ∀ (g : Frame W) (i : Int), (g.noteRead i).d = g.d
          from fun _ _ => rfl, g3]; omega) (by omega)
      rw [← hagain] at r1 r2 r3 r4
      have hnote : ∀ (g : Frame W) (i : Int), (g.noteRead i).d = g.d := fun _ _ => rfl
      rw [hnote] at hrun hend r3 r4
      refine ⟨k + 1, by omega, ?_, ?_, ?_, ?_, ?_, ?_⟩
      · intro j hj
        rcases j with _ | j
        · have : (((q + 1 : Nat) : Int) - 1 - ((0 : Nat) : Int)) = (q : Int) := by
            push_cast
            omega
          rw [this]
          exact hd
        · have := hrun j (by omega)
          rw [hsame _ (by omega)] at this
          have e : (((q + 1 : Nat) : Int) - 1 - ((j + 1 : Nat) : Int)) = (q : Int) - 1 - j := by
            push_cast
            omega
          rw [e]
          exact this
      · intro hlt2
        have := hend (by omega)
        rw [hsame _ (by omega)] at this
        have e : (((q + 1 : Nat) : Int) - 1 - ((k + 1 : Nat) : Int)) = (q : Int) - 1 - k := by
          push_cast
          omega
        rw [e]
        exact this
      · rw [r1]
        omega
      · rw [r2]
        omega
      · rw [r3, g3]
        omega
      · intro i hi
        rw [r4 i (by push_cast at hi; omega), hsame i (by push_cast at hi; omega)]
    · have hstop := eol_repeat_stop h h.EXTKEY_ERASE_PREV_WORD b fuel f hproc
        (fun hc => hd (by
          have := hc.2.2.2
          rw [g1, hsame _ (by push_cast; omega)] at this
          have e : (((q + 1 : Nat) : Int) - 1) = (q : Int) := by push_cast; omega
          rw [e] at this
          exact this))
      refine ⟨0, Nat.zero_le _, fun j hj => absurd hj (Nat.not_lt_zero _), ?_, ?_, ?_, ?_, ?_⟩
      · intro _
        have e : (((q + 1 : Nat) : Int) - 1 - ((0 : Nat) : Int)) = (q : Int) := by
          push_cast
          omega
        rw [e]
        exact hd
      · rw [hstop, g1]
        rfl
      · rw [hstop, g2]
        rfl
      · rw [hstop, g3]
      · intro i hi
        rw [hstop]
        exact hsame i (by push_cast at hi; omega)

/-- C3. With extended edit keys enabled, `Processed` set, the cursor at end of line (both
forms of the write cursor agreeing), `WriteCursor > 0` and the buffer not full, the
erase-previous-word key (a code unit from U+0020 up) removes exactly the maximal trailing
run of characters that have the word-delimiter class of the last character: for the length
`k` of that run (`k >= 1`, the `k` last characters are of that class, and either the run is
the whole line or the character before it is of the other class) the write cursor and
`BytesUsed/sizeof(WCHAR)` both decrease by `k`, the contents become the old contents
without their last `k` characters, no slot before the run is written, and the call returns
with continue. The passes of `eol_repeat` are counted by `k`, so the loop ends for the
reason the code gives, not for lack of fuel. -/
theorem erase_prev_word_at_eol {W : Type} (h : Host W) (scr : W) (d : COOKED_READ_DATA)
    (keyState : Nat)
    (hx : h.GetExtendedEditKey = true) (hproc : d.Processed = true)
    (heol : d.CurrentPosition = d.BytesRead / sizeof_WCHAR)
    (hptr : d.BufPtr = d.CurrentPosition) (hpos : 0 < d.CurrentPosition)
    (hroom : ¬(subSizeT d.BufferSize (2 * sizeof_WCHAR) ≤ d.BytesRead))
    (hbytes : d.BytesRead < 2 ^ 32)
    (hkey : UNICODE_SPACE ≤ h.EXTKEY_ERASE_PREV_WORD) :
    ∃ k : Nat, 0 < k ∧ k ≤ d.CurrentPosition ∧
      (∀ j : Nat, j < k →
        h.IS_WORD_DELIM (d.BackupLimit ((d.CurrentPosition : Int) - 1 - j))
          = h.IS_WORD_DELIM (d.BackupLimit ((d.CurrentPosition : Int) - 1))) ∧
      (k < d.CurrentPosition →
        h.IS_WORD_DELIM (d.BackupLimit ((d.CurrentPosition : Int) - 1 - k))
          ≠ h.IS_WORD_DELIM (d.BackupLimit ((d.CurrentPosition : Int) - 1))) ∧
      (ProcessCookedReadInput h scr d h.EXTKEY_ERASE_PREV_WORD keyState).Completed = false ∧
      (ProcessCookedReadInput h scr d h.EXTKEY_ERASE_PREV_WORD keyState).d.CurrentPosition
        = d.CurrentPosition - k ∧
      (ProcessCookedReadInput h scr d h.EXTKEY_ERASE_PREV_WORD keyState).d.BufPtr
        = d.BufPtr - k ∧
      (ProcessCookedReadInput h scr d h.EXTKEY_ERASE_PREV_WORD keyState).d.BytesRead
          / sizeof_WCHAR = d.BytesRead / sizeof_WCHAR - k ∧
      (∀ i : Int, i < (d.CurrentPosition : Int) - k →
        (ProcessCookedReadInput h scr d h.EXTKEY_ERASE_PREV_WORD keyState).d.BackupLimit i
          = d.BackupLimit i) ∧
      content (ProcessCookedReadInput h scr d h.EXTKEY_ERASE_PREV_WORD keyState).d
        = (content d).take (d.CurrentPosition - k) := by
  have hsz : sizeof_WCHAR = 2 := rfl
  rw [hsz] at heol
  have hbp : d.BufPtr ≠ 0 := by omega
  have key : ProcessCookedReadInput h scr d h.EXTKEY_ERASE_PREV_WORD keyState =
      crCompletion h UNICODE_BACKSPACE
        (eol_repeat h UNICODE_BACKSPACE h.EXTKEY_ERASE_PREV_WORD
          (h.IS_WORD_DELIM (d.BackupLimit ((d.BufPtr : Int) - 1))) d.BufPtr
          ((entryFrame scr d).noteRead ((d.BufPtr : Int) - 1))) :=
    ProcessCookedReadInput_eol h scr d h.EXTKEY_ERASE_PREV_WORD keyState
      (fun hc => hroom hc.1) (fun hc => absurd hc.2.1 (not_lt.2 hkey))
      (by simp only [AT_EOL, decide_eq_true_eq]; rw [hsz]; exact heol)
      UNICODE_BACKSPACE (if_pos rfl) _
      (eolBranch_backspace h hx h.EXTKEY_ERASE_PREV_WORD (entryFrame scr d) hbp)
  rw [crCompletion_of_ne h UNICODE_BACKSPACE _ (by decide)] at key
  obtain ⟨k, hk, hrun, hend, r1, r2, r3, r4⟩ := eol_repeat_run h hx
    (h.IS_WORD_DELIM (d.BackupLimit ((d.BufPtr : Int) - 1))) (d.CurrentPosition - 1)
    d.BufPtr ((entryFrame scr d).noteRead ((d.BufPtr : Int) - 1)) hproc
    (show d.BufPtr = d.CurrentPosition - 1 + 1 by omega)
    (show d.CurrentPosition = d.CurrentPosition - 1 + 1 by omega)
    (show 2 * (d.CurrentPosition - 1 + 1) ≤ d.BytesRead by omega) hbytes (by omega)
  have hd : ∀ a : Int, ((entryFrame scr d).noteRead a).d = d := fun _ => rfl
  rw [hd] at hrun hend r3 r4
  have hcast : ((d.CurrentPosition - 1 : Nat) : Int) = (d.CurrentPosition : Int) - 1 := by
    omega
  have hlast : (d.BufPtr : Int) - 1 = (d.CurrentPosition : Int) - 1 := by omega
  rw [hcast] at hrun hend r4
  have hlen : (d.BytesRead - 2 * (k + 1)) / 2 = d.CurrentPosition - (k + 1) := by omega
  refine ⟨k + 1, Nat.succ_pos _, by omega, ?_, ?_, ?_, ?_, ?_, ?_, ?_, ?_⟩
  · intro j hj
    rcases j with _ | j
    · simp
    · have := hrun j (by omega)
      rw [hlast] at this
      rw [← this]
      congr 2
      push_cast
      omega
  · intro hlt
    have := hend (by omega)
    rw [hlast] at this
    intro hc
    apply this
    rw [← hc]
    congr 2
    push_cast
    omega
  · rw [key]
  · rw [key]
    exact r2.trans (by omega)
  · rw [key]
    exact r1.trans (by omega)
  · rw [key]
    dsimp only
    rw [r3, hsz, hlen]
    omega
  · intro i hi
    rw [key]
    exact r4 i (by omega)
  · rw [key]
    unfold content
    dsimp only
    rw [r3, hsz, hlen, ← List.map_take, List.take_range, ← heol,
      min_eq_left (Nat.sub_le _ _)]
    apply List.map_congr_left
    intro i hi
    rw [List.mem_range] at hi
    exact r4 i (by omega)

/-- An instance of C3: the line `foo bar` with the cursor at its end and the
erase-previous-word key 0x7F. The line becomes `foo ` with the write cursor at 4. -/
theorem erase_prev_word_at_eol_witness :
    (∃ k : Nat, 0 < k ∧ k ≤ 7 ∧
      (ProcessCookedReadInput (exampleHost true false) [] fooBarSession 0x7F 0).Completed
        = false ∧
      (ProcessCookedReadInput (exampleHost true false) [] fooBarSession 0x7F 0).d.CurrentPosition
        = 7 - k ∧
      content (ProcessCookedReadInput (exampleHost true false) [] fooBarSession 0x7F 0).d
        = (content fooBarSession).take (7 - k)) ∧
    content (ProcessCookedReadInput (exampleHost true false) [] fooBarSession 0x7F 0).d
      = [0x66, 0x6F, 0x6F, 0x20] ∧
    (ProcessCookedReadInput (exampleHost true false) [] fooBarSession 0x7F 0).d.CurrentPosition
      = 4 ∧
    (ProcessCookedReadInput (exampleHost true false) [] fooBarSession 0x7F 0).d.BufPtr = 4 :=
  have w := erase_prev_word_at_eol (exampleHost true false) [] fooBarSession 0
    (by decide) (by decide) (by decide) (by decide) (by decide) (by decide) (by decide)
    (by decide)
  ⟨w.elim fun k hk => ⟨k, hk.1, hk.2.1, hk.2.2.2.2.1, hk.2.2.2.2.2.1,
      hk.2.2.2.2.2.2.2.2.2⟩,
    by decide, by decide, by decide⟩

/-- A character other than BS goes through `eol_repeat` once and is stored. -/
theorem eol_repeat_store {W : Type} (h : Host W) (wch wchOrig : Nat) (b : Bool) (fuel : Nat)
    (f : Frame W) (hbs : wch ≠ UNICODE_BACKSPACE) :
    eol_repeat h wch wchOrig b fuel f = eolStore wch (eolEcho h wch f) := by
  unfold eol_repeat
  dsimp only
  rw [if_neg (fun hc => hbs hc.1)]

/-- The end-of-line branch for a character that is neither BS nor the second backspace:
the character is stored at the write cursor, which advances with `BytesRead`. -/
theorem eolBranch_store {W : Type} (h : Host W) (wch wchOrig : Nat) (f : Frame W)
    (h2 : wch ≠ h.UNICODE_BACKSPACE2) (hbs : wch ≠ UNICODE_BACKSPACE) :
    (eolBranch h wch wchOrig f).1 = wch ∧
    (eolBranch h wch wchOrig f).2.d.BufPtr = f.d.BufPtr + 1 ∧
    (eolBranch h wch wchOrig f).2.d.CurrentPosition = toULONG (f.d.CurrentPosition + 1) ∧
    (eolBranch h wch wchOrig f).2.d.BytesRead = toULONG (f.d.BytesRead + sizeof_WCHAR) ∧
    (eolBranch h wch wchOrig f).2.d.BackupLimit = poke f.d.BackupLimit f.d.BufPtr wch ∧
    (eolBranch h wch wchOrig f).2.d.BufferSize = f.d.BufferSize ∧
    (eolBranch h wch wchOrig f).2.d.Processed = f.d.Processed ∧
    (eolBranch h wch wchOrig f).2.d.Line = f.d.Line ∧
    (eolBranch h wch wchOrig f).2.d.InsertMode = f.d.InsertMode ∧
    (eolBranch h wch wchOrig f).2.d.CtrlWakeupMask = f.d.CtrlWakeupMask := by
  unfold eolBranch
  dsimp only
  rw [if_neg h2, if_pos (Or.inl hbs), eol_repeat_store h wch wchOrig _ _ _ hbs]
  generalize hf0 : (if h.GetExtendedEditKey = true then f.noteRead ((f.d.BufPtr : Int) - 1)
    else f) = f0
  have hd0 : f0.d = f.d := by
    rw [← hf0]
    split_ifs <;> rfl
  obtain ⟨e1, e2, e3, e4, e5, e6, e7, -, e9, e10⟩ := eolEcho_fields h wch f0
  rw [hd0] at e1 e2 e3 e4 e5 e6 e7 e9 e10
  refine ⟨rfl, ?_, ?_, ?_, ?_, ?_, ?_, ?_, ?_, ?_⟩
  · exact (show (eolStore wch (eolEcho h wch f0)).d.BufPtr = (eolEcho h wch f0).d.BufPtr + 1
      from rfl).trans (by rw [e1])
  · exact (show (eolStore wch (eolEcho h wch f0)).d.CurrentPosition
      = toULONG ((eolEcho h wch f0).d.CurrentPosition + 1) from rfl).trans (by rw [e2])
  · exact (show (eolStore wch (eolEcho h wch f0)).d.BytesRead
      = toULONG ((eolEcho h wch f0).d.BytesRead + sizeof_WCHAR) from rfl).trans (by rw [e3])
  · exact (show (eolStore wch (eolEcho h wch f0)).d.BackupLimit
      = poke (eolEcho h wch f0).d.BackupLimit (eolEcho h wch f0).d.BufPtr wch
      from rfl).trans (by rw [e4, e1])
  · exact (show (eolStore wch (eolEcho h wch f0)).d.BufferSize = (eolEcho h wch f0).d.BufferSize
      from rfl).trans e5
  · exact (show (eolStore wch (eolEcho h wch f0)).d.Processed = (eolEcho h wch f0).d.Processed
      from rfl).trans e6
  · exact (show (eolStore wch (eolEcho h wch f0)).d.Line = (eolEcho h wch f0).d.Line
      from rfl).trans e7
  · exact (show (eolStore wch (eolEcho h wch f0)).d.InsertMode = (eolEcho h wch f0).d.InsertMode
      from rfl).trans e9
  · exact (show (eolStore wch (eolEcho h wch f0)).d.CtrlWakeupMask
      = (eolEcho h wch f0).d.CtrlWakeupMask from rfl).trans e10

/-- The closing block for CR on a processed line read with room for the LF, the insert
mode of the session being that of the console: LF is stored at the write cursor and the
call reports complete with status success. -/
theorem crCompletion_cr {W : Type} (h : Host W) (f : Frame W)
    (hproc : f.d.Processed = true) (hroom : f.d.BytesRead < f.d.BufferSize)
    (hline : f.d.Line = true) (hins : f.d.InsertMode = h.GetInsertMode) :
    (crCompletion h UNICODE_CARRIAGERETURN f).Completed = true ∧
    (crCompletion h UNICODE_CARRIAGERETURN f).Status = STATUS_SUCCESS ∧
    (crCompletion h UNICODE_CARRIAGERETURN f).d.BytesRead
      = toULONG (f.d.BytesRead + sizeof_WCHAR) ∧
    (crCompletion h UNICODE_CARRIAGERETURN f).d.BackupLimit
      = poke f.d.BackupLimit f.d.BufPtr UNICODE_LINEFEED := by
  unfold crCompletion
  rw [if_pos rfl, if_pos (And.intro hproc hroom)]
  rcases f with ⟨⟨bs, br, cp, bp, bl, ubs, ocp, nvc, mask, cks, echo, ins, proc, line⟩,
    scr, st, ns, sy, lg⟩
  dsimp only at hline hins
  subst hline
  cases echo
  · dsimp only
    rw [if_neg Bool.false_ne_true]
    dsimp only
    rw [if_pos rfl, if_neg (not_not.2 hins)]
    exact ⟨rfl, rfl, rfl, rfl⟩
  · dsimp only
    rw [if_pos rfl]
    dsimp only
    rw [if_pos rfl, if_neg (not_not.2 hins)]
    exact ⟨rfl, rfl, rfl, rfl⟩

/-- One call at end of line for a character that is stored and is not CR: the call
reports continue, the character is at the old write cursor, and the cursor and `BytesRead`
have advanced by one character. -/
theorem eol_char_tick {W : Type} (h : Host W) (scr : W) (d : COOKED_READ_DATA)
    (ch keyState : Nat)
    (heol : d.CurrentPosition = d.BytesRead / sizeof_WCHAR)
    (hroom : d.BytesRead + 2 * sizeof_WCHAR < d.BufferSize) (hcap : d.BufferSize < 2 ^ 32)
    (hcr : ch ≠ UNICODE_CARRIAGERETURN) (hbs : ch ≠ UNICODE_BACKSPACE)
    (h2 : ch ≠ h.UNICODE_BACKSPACE2) (hext : ch ≠ h.EXTKEY_ERASE_PREV_WORD)
    (hwake : ¬(ch < 0x20 ∧ d.CtrlWakeupMask.testBit ch = true)) :
    (ProcessCookedReadInput h scr d ch keyState).Completed = false ∧
    (ProcessCookedReadInput h scr d ch keyState).d.BytesRead = d.BytesRead + sizeof_WCHAR ∧
    (ProcessCookedReadInput h scr d ch keyState).d.CurrentPosition = d.CurrentPosition + 1 ∧
    (ProcessCookedReadInput h scr d ch keyState).d.BufPtr = d.BufPtr + 1 ∧
    (ProcessCookedReadInput h scr d ch keyState).d.BackupLimit
      = poke d.BackupLimit d.BufPtr ch ∧
    (ProcessCookedReadInput h scr d ch keyState).d.BufferSize = d.BufferSize ∧
    (ProcessCookedReadInput h scr d ch keyState).d.Processed = d.Processed ∧
    (ProcessCookedReadInput h scr d ch keyState).d.Line = d.Line ∧
    (ProcessCookedReadInput h scr d ch keyState).d.InsertMode = d.InsertMode ∧
    (ProcessCookedReadInput h scr d ch keyState).d.CtrlWakeupMask = d.CtrlWakeupMask := by
  have hsz : sizeof_WCHAR = 2 := rfl
  have key := ProcessCookedReadInput_eol h scr d ch keyState (guard_passes hroom hcap)
    (mt (wakeup_test_iff _ _).1 hwake)
    (by simp only [AT_EOL, decide_eq_true_eq]; exact heol) ch (if_neg hext) _ rfl
  obtain ⟨e0, e1, e2, e3, e4, e5, e6, e7, e8, e9⟩ :=
    eolBranch_store h ch ch (entryFrame scr d) h2 hbs
  rw [e0, crCompletion_of_ne h ch _ hcr] at key
  rw [hsz] at heol hroom
  have a2 : toULONG (d.CurrentPosition + 1) = d.CurrentPosition + 1 := by
    unfold toULONG
    omega
  have a3 : toULONG (d.BytesRead + sizeof_WCHAR) = d.BytesRead + sizeof_WCHAR := by
    unfold toULONG
    rw [hsz]
    omega
  rw [key]
  exact ⟨rfl, e3.trans a3, e2.trans a2, e1, e4, e5, e6, e7, e8, e9⟩

/-- The call for CR at end of line of a processed line read, CR being no wake-up
character, with room for CR and LF: CR and LF are stored at the write cursor and the call
reports complete with status success. -/
theorem eol_cr_tick {W : Type} (h : Host W) (scr : W) (d : COOKED_READ_DATA) (keyState : Nat)
    (heol : d.CurrentPosition = d.BytesRead / sizeof_WCHAR)
    (hroom : d.BytesRead + 2 * sizeof_WCHAR ≤ d.BufferSize) (hcap : d.BufferSize < 2 ^ 32)
    (hproc : d.Processed = true) (hline : d.Line = true)
    (hins : d.InsertMode = h.GetInsertMode)
    (hbit : d.CtrlWakeupMask.testBit UNICODE_CARRIAGERETURN = false)
    (h2 : UNICODE_CARRIAGERETURN ≠ h.UNICODE_BACKSPACE2)
    (hext : UNICODE_CARRIAGERETURN ≠ h.EXTKEY_ERASE_PREV_WORD) :
    (ProcessCookedReadInput h scr d UNICODE_CARRIAGERETURN keyState).Completed = true ∧
    (ProcessCookedReadInput h scr d UNICODE_CARRIAGERETURN keyState).Status = STATUS_SUCCESS ∧
    (ProcessCookedReadInput h scr d UNICODE_CARRIAGERETURN keyState).d.BytesRead
      = d.BytesRead + sizeof_WCHAR + sizeof_WCHAR ∧
    (ProcessCookedReadInput h scr d UNICODE_CARRIAGERETURN keyState).d.BackupLimit
      = poke (poke d.BackupLimit d.BufPtr UNICODE_CARRIAGERETURN) ((d.BufPtr + 1 : Nat) : Int)
          UNICODE_LINEFEED := by
  have hsz : sizeof_WCHAR = 2 := rfl
  have key := ProcessCookedReadInput_eol h scr d UNICODE_CARRIAGERETURN keyState
    (fun hg => hg.2.1 rfl) (not_wakeup_of_testBit hbit)
    (by simp only [AT_EOL, decide_eq_true_eq]; exact heol) UNICODE_CARRIAGERETURN
    (if_neg hext) _ rfl
  obtain ⟨e0, e1, -, e3, e4, e5, e6, e7, e8, -⟩ :=
    eolBranch_store h UNICODE_CARRIAGERETURN UNICODE_CARRIAGERETURN (entryFrame scr d) h2
      (by decide)
  rw [e0] at key
  rw [hsz] at heol hroom
  have a3 : toULONG (d.BytesRead + sizeof_WCHAR) = d.BytesRead + sizeof_WCHAR := by
    unfold toULONG
    rw [hsz]
    omega
  have a4 : toULONG (d.BytesRead + sizeof_WCHAR + sizeof_WCHAR)
      = d.BytesRead + sizeof_WCHAR + sizeof_WCHAR := by
    unfold toULONG
    rw [hsz]
    omega
  have e3b : (eolBranch h UNICODE_CARRIAGERETURN UNICODE_CARRIAGERETURN
      (entryFrame scr d)).2.d.BytesRead = d.BytesRead + sizeof_WCHAR := e3.trans a3
  have e5b : (eolBranch h UNICODE_CARRIAGERETURN UNICODE_CARRIAGERETURN
      (entryFrame scr d)).2.d.BufferSize = d.BufferSize := e5
  obtain ⟨c1, c2, c3, c4⟩ := crCompletion_cr h
    (eolBranch h UNICODE_CARRIAGERETURN UNICODE_CARRIAGERETURN (entryFrame scr d)).2
    (e6.trans hproc) (by rw [e3b, e5b, hsz]; omega) (e7.trans hline) (e8.trans hins)
  rw [key]
  refine ⟨c1, c2, ?_, ?_⟩
  · rw [c3, e3b, a4]
  · rw [c4, e4, e1]
    rfl

/-- The contents after one more character has been stored at their end. -/
theorem content_snoc (d t : COOKED_READ_DATA) (c : Nat)
    (hb : t.BytesRead = d.BytesRead + sizeof_WCHAR)
    (hm : t.BackupLimit = poke d.BackupLimit ((d.BytesRead / sizeof_WCHAR : Nat) : Int) c) :
    content t = content d ++ [c] := by
  unfold content
  have hsz : sizeof_WCHAR = 2 := rfl
  rw [hb, hm, hsz, show (d.BytesRead + 2) / 2 = d.BytesRead / 2 + 1 by omega,
    List.range_succ, List.map_append]
  congr 1
  · apply List.map_congr_left
    intro i hi
    rw [List.mem_range] at hi
    unfold poke
    rw [if_neg (by omega)]
  · simp [poke]

/-- The contents after two more characters have been stored at their end. -/
theorem content_snoc_two (d t : COOKED_READ_DATA) (c e : Nat)
    (hb : t.BytesRead = d.BytesRead + sizeof_WCHAR + sizeof_WCHAR)
    (hm : t.BackupLimit = poke (poke d.BackupLimit ((d.BytesRead / sizeof_WCHAR : Nat) : Int) c)
      ((d.BytesRead / sizeof_WCHAR + 1 : Nat) : Int) e) :
    content t = content d ++ [c, e] := by
  unfold content
  have hsz : sizeof_WCHAR = 2 := rfl
  rw [hb, hm, hsz, show (d.BytesRead + 2 + 2) / 2 = d.BytesRead / 2 + 1 + 1 by omega,
    List.range_succ, List.range_succ, List.map_append, List.map_append, List.append_assoc]
  congr 1
  · apply List.map_congr_left
    intro i hi
    rw [List.mem_range] at hi
    unfold poke
    rw [if_neg (by omega), if_neg (by omega)]
  · simp [poke]

/-- Ordinary characters followed by CR, fed to a processed line read whose cursor is at end
of line, with room for all of them and for LF: every call before the one for CR reports
continue, the call for CR reports complete with status success, and the characters, CR
and LF have been appended to the contents. -/
theorem feed_line {W : Type} (h : Host W)
    (h2 : UNICODE_CARRIAGERETURN ≠ h.UNICODE_BACKSPACE2)
    (hext : UNICODE_CARRIAGERETURN ≠ h.EXTKEY_ERASE_PREV_WORD) (crState : Nat) :
    ∀ (keys : List (Nat × Nat)) (scr : W) (d : COOKED_READ_DATA),
      d.Processed = true → d.Line = true → d.InsertMode = h.GetInsertMode →
      d.CurrentPosition = d.BytesRead / sizeof_WCHAR → d.BufPtr = d.CurrentPosition →
      d.BytesRead + 2 * (keys.length + 2) ≤ d.BufferSize → d.BufferSize < 2 ^ 32 →
      d.CtrlWakeupMask.testBit UNICODE_CARRIAGERETURN = false →
      (∀ k ∈ keys, k.1 ≠ UNICODE_CARRIAGERETURN ∧ k.1 ≠ UNICODE_BACKSPACE ∧
        k.1 ≠ h.UNICODE_BACKSPACE2 ∧ k.1 ≠ h.EXTKEY_ERASE_PREV_WORD ∧
        ¬(k.1 < 0x20 ∧ d.CtrlWakeupMask.testBit k.1 = true)) →
      (∀ t ∈ (feed h scr d (keys ++ [(UNICODE_CARRIAGERETURN, crState)])).dropLast,
        t.Completed = false) ∧
      ∃ t, (feed h scr d (keys ++ [(UNICODE_CARRIAGERETURN, crState)])).getLast? = some t ∧
        t.Completed = true ∧ t.Status = STATUS_SUCCESS ∧
        t.d.BytesRead = d.BytesRead + 2 * (keys.length + 2) ∧
        content t.d = content d ++ keys.map Prod.fst
          ++ [UNICODE_CARRIAGERETURN, UNICODE_LINEFEED] := by
  have hsz : sizeof_WCHAR = 2 := rfl
  intro keys
  induction keys with
  | nil =>
    intro scr d hproc hline hins heol hptr hroom hcap hbit _
    obtain ⟨c1, c2, c3, c4⟩ := eol_cr_tick h scr d crState heol
      (by rw [hsz]; simpa using hroom) hcap hproc hline hins hbit h2 hext
    refine ⟨fun t ht => absurd ht (List.not_mem_nil t),
      ProcessCookedReadInput h scr d UNICODE_CARRIAGERETURN crState, rfl, c1, c2, ?_, ?_⟩
    · rw [c3, hsz]
      rfl
    · rw [List.map_nil, List.append_nil]
      apply content_snoc_two d _ _ _ c3
      rw [c4, hptr, heol]
  | cons k ks ih =>
    intro scr d hproc hline hins heol hptr hroom hcap hbit hord
    obtain ⟨o1, o2, o3, o4, o5⟩ := hord k (List.mem_cons_self _ _)
    rw [List.length_cons] at hroom
    obtain ⟨t1, t2, t3, t4, t5, t6, t7, t8, t9, t10⟩ := eol_char_tick h scr d k.1 k.2 heol
      (by rw [hsz]; omega) hcap o1 o2 o3 o4 o5
    obtain ⟨hall, t, hlast, r1, r2, r3, r4⟩ := ih
      (ProcessCookedReadInput h scr d k.1 k.2).scr (ProcessCookedReadInput h scr d k.1 k.2).d
      (t7.trans hproc) (t8.trans hline) (t9.trans hins)
      (by rw [t3, t2, heol, hsz]; omega) (by rw [t4, t3, hptr])
      (by rw [t2, t6, hsz]; omega) (by rw [t6]; exact hcap) (by rw [t10]; exact hbit)
      (fun k2 hk2 => by rw [t10]; exact hord k2 (List.mem_cons_of_mem _ hk2))
    have hfeed : feed h scr d (k :: ks ++ [(UNICODE_CARRIAGERETURN, crState)])
        = ProcessCookedReadInput h scr d k.1 k.2
          :: feed h (ProcessCookedReadInput h scr d k.1 k.2).scr
              (ProcessCookedReadInput h scr d k.1 k.2).d
              (ks ++ [(UNICODE_CARRIAGERETURN, crState)]) := rfl
    rw [hfeed]
    generalize feed h (ProcessCookedReadInput h scr d k.1 k.2).scr
      (ProcessCookedReadInput h scr d k.1 k.2).d
      (ks ++ [(UNICODE_CARRIAGERETURN, crState)]) = rest at hall hlast
    rcases rest with _ | ⟨a, rest⟩
    · exact absurd hlast (by simp)
    · refine ⟨?_, t, ?_, r1, r2, ?_, ?_⟩
      · intro x hx
        rw [List.dropLast_cons₂, List.mem_cons] at hx
        rcases hx with rfl | hx
        · exact t1
        · exact hall x hx
      · rw [List.getLast?_cons_cons]
        exact hlast
      · rw [r3, t2, hsz, List.length_cons]
        omega
      · rw [r4, content_snoc d _ k.1 t2 (by rw [t5, hptr, heol]), List.map_cons]
        simp

/-- C2, amended. For every sequence of ordinary characters (none of CR, BS, the second
backspace, the erase-previous-word key or a wake-up character), each with a key state, fed
one at a time to a fresh session (`BytesUsed = 0`, write cursor 0, `Processed` and line
mode set, the insert mode that of the console) with `2*(|s|+2) <= Capacity`, followed by
CR, where CR is not a wake-up character of the session: every call before the one for CR
reports continue, the call for CR reports complete with status success, and
`Storage[0 .. BytesUsed)` is `s` followed by CR, LF with `BytesUsed = 2*(|s|+2)`. -/
theorem line_then_cr {W : Type} (h : Host W) (scr : W) (d : COOKED_READ_DATA)
    (keys : List (Nat × Nat)) (crState : Nat)
    (hbytes : d.BytesRead = 0) (hcur : d.CurrentPosition = 0) (hptr : d.BufPtr = 0)
    (hproc : d.Processed = true) (hline : d.Line = true)
    (hins : d.InsertMode = h.GetInsertMode)
    (hroom : 2 * (keys.length + 2) ≤ d.BufferSize) (hcap : d.BufferSize < 2 ^ 32)
    (hord : ∀ k ∈ keys, k.1 ≠ UNICODE_CARRIAGERETURN ∧ k.1 ≠ UNICODE_BACKSPACE ∧
      k.1 ≠ h.UNICODE_BACKSPACE2 ∧ k.1 ≠ h.EXTKEY_ERASE_PREV_WORD ∧
      ¬(k.1 < 0x20 ∧ d.CtrlWakeupMask.testBit k.1 = true))
    (h2 : UNICODE_CARRIAGERETURN ≠ h.UNICODE_BACKSPACE2)
    (hext : UNICODE_CARRIAGERETURN ≠ h.EXTKEY_ERASE_PREV_WORD)
    (hbit : d.CtrlWakeupMask.testBit UNICODE_CARRIAGERETURN = false) :
    (∀ t ∈ (feed h scr d (keys ++ [(UNICODE_CARRIAGERETURN, crState)])).dropLast,
      t.Completed = false) ∧
    ∃ t, (feed h scr d (keys ++ [(UNICODE_CARRIAGERETURN, crState)])).getLast? = some t ∧
      t.Completed = true ∧ t.Status = STATUS_SUCCESS ∧
      t.d.BytesRead = 2 * (keys.length + 2) ∧
      content t.d = keys.map Prod.fst ++ [UNICODE_CARRIAGERETURN, UNICODE_LINEFEED] := by
  obtain ⟨hall, t, hlast, r1, r2, r3, r4⟩ := feed_line h h2 hext crState keys scr d hproc hline
    hins (by rw [hcur, hbytes]; rfl) (by rw [hptr, hcur]) (by rw [hbytes]; omega) hcap hbit hord
  have hc : content d = [] := by
    unfold content
    rw [hbytes]
    rfl
  rw [hc, List.nil_append] at r4
  rw [hbytes, Nat.zero_add] at r3
  exact ⟨hall, t, hlast, r1, r2, r3, r4⟩

/-- An instance of C2: the keys `a b c CR` fed to a fresh read into an 80-byte buffer
with echo and processed input give `a b c CR LF`, 10 bytes. -/
theorem line_then_cr_witness :
    (∀ t ∈ (feed (exampleHost true false) [] (newSession 80 0 true false true)
        ([(0x61, 0), (0x62, 0), (0x63, 0)] ++ [(UNICODE_CARRIAGERETURN, 0)])).dropLast,
      t.Completed = false) ∧
    ∃ t, (feed (exampleHost true false) [] (newSession 80 0 true false true)
        ([(0x61, 0), (0x62, 0), (0x63, 0)] ++ [(UNICODE_CARRIAGERETURN, 0)])).getLast? = some t ∧
      t.Completed = true ∧ t.Status = STATUS_SUCCESS ∧
      t.d.BytesRead = 10 ∧
      content t.d = [0x61, 0x62, 0x63, UNICODE_CARRIAGERETURN, UNICODE_LINEFEED] :=
  line_then_cr (exampleHost true false) [] (newSession 80 0 true false true)
    [(0x61, 0), (0x62, 0), (0x63, 0)] 0 rfl rfl rfl rfl rfl rfl (by decide) (by decide)
    (by decide) (by decide) (by decide) (by decide)

/-- C2 as stated fails when CR is a wake-up character of the session (bit 13 of the mask):
fed to a fresh session with `Processed` and line mode set and an 80-byte buffer, CR alone
completes the read with status success, but no LF is appended: the contents are CR only
and `BytesUsed` is 2, not 4. -/
theorem line_then_cr_counterexample :
    ((newSession 80 0x2000 true false true).BytesRead = 0 ∧
     (newSession 80 0x2000 true false true).CurrentPosition = 0 ∧
     (newSession 80 0x2000 true false true).Processed = true ∧
     (newSession 80 0x2000 true false true).Line = true ∧
     2 * (([] : List (Nat × Nat)).length + 2) ≤ (newSession 80 0x2000 true false true).BufferSize) ∧
    (feed (exampleHost true false) [] (newSession 80 0x2000 true false true)
      ([] ++ [(UNICODE_CARRIAGERETURN, 0)])).map
        (fun t => (t.Completed, t.Status, t.d.BytesRead, content t.d))
      = [(true, STATUS_SUCCESS, 2, [UNICODE_CARRIAGERETURN])] := by
  decide

/-! ## `GetChar` -/

/-- What a stream read hands over differs from the event in the queue in the repeat count
only. -/
theorem streamHead_fields (e : KEY_EVENT_RECORD) :
    (streamHead e).bKeyDown = e.bKeyDown ∧
    (streamHead e).wVirtualKeyCode = e.wVirtualKeyCode ∧
    (streamHead e).wVirtualScanCode = e.wVirtualScanCode ∧
    (streamHead e).UnicodeChar = e.UnicodeChar ∧
    (streamHead e).dwControlKeyState = e.dwControlKeyState := by
  unfold streamHead
  split_ifs <;> exact ⟨rfl, rfl, rfl, rfl, rfl⟩

/-- An event that is not a repeated key-down event is handed over as it is and taken out
of the queue. -/
theorem streamHead_of_single (e : KEY_EVENT_RECORD)
    (hone : ¬(e.bKeyDown = true ∧ 1 < e.wRepeatCount)) (rest : List INPUT_RECORD) :
    streamHead e = e ∧ streamTail e rest = rest := by
  unfold streamHead streamTail
  rw [if_neg hone, if_neg hone]
  exact ⟨rfl, rfl⟩

/-- A key-up event is handed over as it is and taken out of the queue. -/
theorem streamHead_of_key_up (e : KEY_EVENT_RECORD) (hup : e.bKeyDown = false)
    (rest : List INPUT_RECORD) :
    streamHead e = e ∧ streamTail e rest = rest :=
  streamHead_of_single e (fun hc => Bool.noConfusion (hup.symm.trans hc.1)) rest

/-- The events that stream reads hand over from a queue headed by a key event: what the
first read hands over, then the events of the queue that this read leaves. -/
theorem streamEvents_cons (e : KEY_EVENT_RECORD) (rest : List INPUT_RECORD) :
    streamEvents (INPUT_RECORD.KEY_EVENT e :: rest)
      = INPUT_RECORD.KEY_EVENT (streamHead e) :: streamEvents (streamTail e rest) := by
  unfold streamHead streamTail
  by_cases hr : e.bKeyDown = true ∧ 1 < e.wRepeatCount
  · rw [if_pos hr, if_pos hr]
    simp only [streamEvents]
    rw [if_pos hr]
    by_cases h2 : 1 < e.wRepeatCount - 1
    · rw [if_pos ⟨hr.1, h2⟩]
      obtain ⟨m, hm⟩ : ∃ m, e.wRepeatCount = m + 1 := ⟨e.wRepeatCount - 1, by omega⟩
      rw [hm, Nat.add_sub_cancel, List.replicate_succ]
      rfl
    · rw [if_neg (fun hc => h2 hc.2)]
      have hc : e.wRepeatCount = 2 := by omega
      rw [hc]
      rfl
  · rw [if_neg hr, if_neg hr]
    simp only [streamEvents]
    rw [if_neg hr]

/-- A stream read of a key event takes one from the number of reads the queue serves. -/
theorem streamReads_cons (e : KEY_EVENT_RECORD) (rest : List INPUT_RECORD) :
    streamReads (INPUT_RECORD.KEY_EVENT e :: rest) = streamReads (streamTail e rest) + 1 := by
  unfold streamReads
  rw [streamEvents_cons]
  rfl

/-- A stream read of an event of another type takes one from the number of reads the
queue serves. -/
theorem streamReads_other (t : Nat) (rest : List INPUT_RECORD) :
    streamReads (INPUT_RECORD.other t :: rest) = streamReads rest + 1 := rfl

/-- One pass of the loop of `GetChar` over a queue headed by a key event. -/
theorem GetCharLoop_key (k : KeyTables)
    (fWait wantEditingKeys wantPopupKeys wantKeyState : Bool) (fuel dwKeyState InputMode : Nat)
    (e : KEY_EVENT_RECORD) (rest : List INPUT_RECORD) :
    GetCharLoop k fWait wantEditingKeys wantPopupKeys wantKeyState (fuel + 1) dwKeyState
        { InputMode := InputMode, Queue := INPUT_RECORD.KEY_EVENT e :: rest }
      = match GetCharKeyEvent k InputMode wantEditingKeys wantPopupKeys (streamHead e) with
        | some out =>
          some { Status := STATUS_SUCCESS, wchOut := some out.1,
                 fCommandLineEditingKeys := out.2.1, fCommandLinePopupKeys := out.2.2,
                 dwKeyState := if wantKeyState = true then e.dwControlKeyState else dwKeyState,
                 InputInfo := { InputMode := InputMode, Queue := streamTail e rest } }
        | none =>
          GetCharLoop k fWait wantEditingKeys wantPopupKeys wantKeyState fuel
            (if wantKeyState = true then e.dwControlKeyState else dwKeyState)
            { InputMode := InputMode, Queue := streamTail e rest } := by
  simp only [GetCharLoop, ReadInputBuffer, NT_SUCCESS, STATUS_SUCCESS,
    (streamHead_fields e).2.2.2.2]
  simp

/-- One pass of the loop of `GetChar` over a queue headed by an event of another type. -/
theorem GetCharLoop_other (k : KeyTables)
    (fWait wantEditingKeys wantPopupKeys wantKeyState : Bool) (fuel dwKeyState InputMode : Nat)
    (t : Nat) (rest : List INPUT_RECORD) :
    GetCharLoop k fWait wantEditingKeys wantPopupKeys wantKeyState (fuel + 1) dwKeyState
        { InputMode := InputMode, Queue := INPUT_RECORD.other t :: rest }
      = GetCharLoop k fWait wantEditingKeys wantPopupKeys wantKeyState fuel dwKeyState
          { InputMode := InputMode, Queue := rest } := by
  simp [GetCharLoop, ReadInputBuffer, NT_SUCCESS, STATUS_SUCCESS]

/-- The loop of `GetChar` comes to a `return` when it is given one pass more than the
queue serves stream reads. -/
theorem GetCharLoop_isSome (k : KeyTables) (fWait wantEditingKeys wantPopupKeys wantKeyState : Bool) :
    ∀ (fuel dwKeyState : Nat) (pInputInfo : INPUT_INFORMATION),
      streamReads pInputInfo.Queue < fuel →
      (GetCharLoop k fWait wantEditingKeys wantPopupKeys wantKeyState fuel dwKeyState
        pInputInfo).isSome = true := by
  intro fuel
  induction fuel with
  | zero => intro _ _ hlt; exact absurd hlt (Nat.not_lt_zero _)
  | succ n ih =>
    intro ks info hlt
    rcases info with ⟨mode, queue⟩
    rcases queue with _ | ⟨ev, rest⟩
    · cases fWait <;> simp [GetCharLoop, ReadInputBuffer, NT_SUCCESS, CONSOLE_STATUS_WAIT,
        STATUS_SUCCESS]
    · rcases ev with e | ty
      · have hrest : streamReads (streamTail e rest) < n := by
          have h1 : streamReads (INPUT_RECORD.KEY_EVENT e :: rest) < n + 1 := hlt
          rw [streamReads_cons] at h1
          omega
        rw [GetCharLoop_key]
        cases hev : GetCharKeyEvent k mode wantEditingKeys wantPopupKeys (streamHead e) with
        | none => exact ih _ ⟨mode, streamTail e rest⟩ hrest
        | some out => rfl
      · have hrest : streamReads rest < n := by
          have h1 : streamReads (INPUT_RECORD.other ty :: rest) < n + 1 := hlt
          rw [streamReads_other] at h1
          omega
        rw [GetCharLoop_other]
        exact ih ks ⟨mode, rest⟩ hrest

/-- `GetChar` always returns. -/
theorem GetChar_isSome (k : KeyTables) (pInputInfo : INPUT_INFORMATION)
    (fWait wantEditingKeys wantPopupKeys wantKeyState : Bool) :
    (GetChar k pInputInfo fWait wantEditingKeys wantPopupKeys wantKeyState).isSome = true :=
  GetCharLoop_isSome k fWait wantEditingKeys wantPopupKeys wantKeyState _ 0 pInputInfo
    (Nat.lt_succ_self _)

/-- A key event at the head of the queue for which the loop body returns: `GetChar`
returns success with the character and the flags of the body, the key state of the event
if it was asked for, and the queue as the stream read leaves it. The loop body sees the
event as the stream read hands it over. -/
theorem GetChar_of_event_some (k : KeyTables) (InputMode : Nat) (e : KEY_EVENT_RECORD)
    (rest : List INPUT_RECORD) (fWait wantEditingKeys wantPopupKeys wantKeyState : Bool)
    (out : Nat × Bool × Bool)
    (hev : GetCharKeyEvent k InputMode wantEditingKeys wantPopupKeys (streamHead e) = some out) :
    GetChar k { InputMode := InputMode, Queue := INPUT_RECORD.KEY_EVENT e :: rest }
        fWait wantEditingKeys wantPopupKeys wantKeyState
      = some { Status := STATUS_SUCCESS, wchOut := some out.1,
               fCommandLineEditingKeys := out.2.1, fCommandLinePopupKeys := out.2.2,
               dwKeyState := if wantKeyState = true then e.dwControlKeyState else 0,
               InputInfo := { InputMode := InputMode, Queue := streamTail e rest } } := by
  unfold GetChar
  rw [GetCharLoop_key, hev]

/-- A key event at the head of the queue for which the loop body goes round again:
`GetChar` goes on with the queue as the stream read leaves it. -/
theorem GetChar_of_event_none (k : KeyTables) (InputMode : Nat) (e : KEY_EVENT_RECORD)
    (rest : List INPUT_RECORD) (fWait wantEditingKeys wantPopupKeys wantKeyState : Bool)
    (hev : GetCharKeyEvent k InputMode wantEditingKeys wantPopupKeys (streamHead e) = none) :
    GetChar k { InputMode := InputMode, Queue := INPUT_RECORD.KEY_EVENT e :: rest }
        fWait wantEditingKeys wantPopupKeys wantKeyState
      = GetCharLoop k fWait wantEditingKeys wantPopupKeys wantKeyState
          (streamReads (streamTail e rest) + 1)
          (if wantKeyState = true then e.dwControlKeyState else 0)
          { InputMode := InputMode, Queue := streamTail e rest } := by
  unfold GetChar
  rw [show streamReads ({ InputMode := InputMode, Queue := INPUT_RECORD.KEY_EVENT e :: rest } :
      INPUT_INFORMATION).Queue + 1 = (streamReads (streamTail e rest) + 1) + 1 from
    congrArg (· + 1) (streamReads_cons e rest)]
  rw [GetCharLoop_key, hev]

/-- C10, amended. For a key-down event at the head of the queue that carries a nonzero
character `c` and is not classified as a command-line edit key: if the handle is in
VT-input mode, or the virtual key of the event is not `VK_ESCAPE` and `c` is not LF
(0x0A), `GetChar` returns success with output `c`, whatever `c` is (the character ESC,
0x1B, included); otherwise, unless the event is the key that `VkKeyScanW(0)` names,
`GetChar` consumes the event without delivering it and goes on with the rest of the
queue. The stream read hands the event over with a repeat count of 1 and consumes one
repeat of it: the queue afterwards is `streamTail e rest`, which is `rest` for a repeat
count of at most 1 and otherwise holds the event again with its count lowered by one. -/
theorem GetChar_key_down (k : KeyTables) (InputMode : Nat) (e : KEY_EVENT_RECORD)
    (rest : List INPUT_RECORD) (fWait wantEditingKeys wantPopupKeys wantKeyState : Bool)
    (hdown : e.bKeyDown = true) (hchar : e.UnicodeChar ≠ 0)
    (hedit : (if wantEditingKeys = true then k.IsCommandLineEditingKey (streamHead e)
      else if wantPopupKeys = true then k.IsCommandLinePopupKey (streamHead e) else false)
        = false) :
    ((InputMode &&& ENABLE_VIRTUAL_TERMINAL_INPUT = ENABLE_VIRTUAL_TERMINAL_INPUT ∨
        (e.wVirtualKeyCode ≠ VK_ESCAPE ∧ e.UnicodeChar ≠ UNICODE_LINEFEED)) →
      GetChar k { InputMode := InputMode, Queue := INPUT_RECORD.KEY_EVENT e :: rest }
          fWait wantEditingKeys wantPopupKeys wantKeyState
        = some { Status := STATUS_SUCCESS, wchOut := some e.UnicodeChar,
                 fCommandLineEditingKeys := false, fCommandLinePopupKeys := false,
                 dwKeyState := if wantKeyState = true then e.dwControlKeyState else 0,
                 InputInfo := { InputMode := InputMode, Queue := streamTail e rest } }) ∧
    (¬(InputMode &&& ENABLE_VIRTUAL_TERMINAL_INPUT = ENABLE_VIRTUAL_TERMINAL_INPUT ∨
        (e.wVirtualKeyCode ≠ VK_ESCAPE ∧ e.UnicodeChar ≠ UNICODE_LINEFEED)) →
      ¬(LOBYTE k.VkKeyScanW0 = e.wVirtualKeyCode ∧
        KEYEVENTSTATE_EQUAL_WINMODS e.dwControlKeyState (HIBYTE k.VkKeyScanW0) = true) →
      GetChar k { InputMode := InputMode, Queue := INPUT_RECORD.KEY_EVENT e :: rest }
          fWait wantEditingKeys wantPopupKeys wantKeyState
        = GetCharLoop k fWait wantEditingKeys wantPopupKeys wantKeyState
            (streamReads (streamTail e rest) + 1)
            (if wantKeyState = true then e.dwControlKeyState else 0)
            { InputMode := InputMode, Queue := streamTail e rest }) ∧
    (¬(1 < e.wRepeatCount) → streamTail e rest = rest) ∧
    (1 < e.wRepeatCount → streamTail e rest
      = INPUT_RECORD.KEY_EVENT { e with wRepeatCount := e.wRepeatCount - 1 } :: rest) := by
  obtain ⟨f1, f2, _, f4, f5⟩ := streamHead_fields e
  have hmenu : ¬((streamHead e).bKeyDown = false ∧ (streamHead e).wVirtualKeyCode = VK_MENU) := by
    rw [f1, hdown]
    exact fun hc => Bool.noConfusion hc.1
  have hdown1 : (streamHead e).bKeyDown = true := f1.trans hdown
  have hchar1 : (streamHead e).UnicodeChar ≠ 0 := by
    rw [f4]
    exact hchar
  refine ⟨?_, ?_, ?_, ?_⟩
  · intro hvt
    have hev : GetCharKeyEvent k InputMode wantEditingKeys wantPopupKeys (streamHead e)
        = some (e.UnicodeChar, false, false) := by
      unfold GetCharKeyEvent
      dsimp only
      rw [hedit, if_pos ⟨hchar1, rfl⟩, if_neg hmenu,
        if_pos ⟨hdown1, by rw [f2, f4]; exact hvt⟩, f4]
    exact GetChar_of_event_some k InputMode e rest fWait wantEditingKeys wantPopupKeys
      wantKeyState _ hev
  · intro hvt hnul
    have hev : GetCharKeyEvent k InputMode wantEditingKeys wantPopupKeys (streamHead e) = none := by
      unfold GetCharKeyEvent
      dsimp only
      rw [hedit, if_pos ⟨hchar1, rfl⟩, if_neg hmenu,
        if_neg (fun hc => hvt (by rw [f2, f4] at hc; exact hc.2)), if_pos hdown1,
        if_neg (fun hc => Bool.noConfusion hc.2), if_neg (fun hc => Bool.noConfusion hc.2),
        if_neg (by rw [f2, f5]; exact hnul)]
    exact GetChar_of_event_none k InputMode e rest fWait wantEditingKeys wantPopupKeys
      wantKeyState hev
  · intro h1
    exact (streamHead_of_single e (fun hc => h1 hc.2) rest).2
  · intro h1
    unfold streamTail
    rw [if_pos ⟨hdown, h1⟩]

/-- An instance of C10: the key-down event of the letter `a`, first in the queue of a
handle that is not in VT-input mode, is delivered. -/
theorem GetChar_key_down_witness :
    GetChar exampleKeyTables
        { InputMode := 0, Queue := INPUT_RECORD.KEY_EVENT letterADown :: [] }
        false true false true
      = some { Status := STATUS_SUCCESS, wchOut := some 0x61,
               fCommandLineEditingKeys := false, fCommandLinePopupKeys := false,
               dwKeyState := 0, InputInfo := { InputMode := 0, Queue := [] } } :=
  (GetChar_key_down exampleKeyTables 0 letterADown [] false true false true
    (by decide) (by decide) (by decide)).1 (by decide)

/-- C10 as stated fails for CTRL+[: on a handle that is not in VT-input mode, this key-down
event carries the nonzero character ESC (0x1B), is no command-line edit key, and `GetChar`
returns success with ESC as its output character. -/
theorem GetChar_key_down_counterexample :
    (ctrlBracketDown.bKeyDown = true ∧ ctrlBracketDown.UnicodeChar = 0x1B ∧
      exampleKeyTables.IsCommandLineEditingKey ctrlBracketDown = false ∧
      (0 : Nat) &&& ENABLE_VIRTUAL_TERMINAL_INPUT ≠ ENABLE_VIRTUAL_TERMINAL_INPUT) ∧
    (GetChar exampleKeyTables
        { InputMode := 0, Queue := INPUT_RECORD.KEY_EVENT ctrlBracketDown :: [] }
        false true false true).map (fun r => (r.Status, r.wchOut, r.fCommandLineEditingKeys))
      = some (STATUS_SUCCESS, some 0x1B, false) := by
  decide

/-- What the loop body of `GetChar` does with a key-up event: it returns only for a
`VK_MENU` key-up with a nonzero character that is no edit key, with the character
converted from OEM bytes when the ALT-numpad bit is set and verbatim otherwise. -/
theorem GetCharKeyEvent_key_up (k : KeyTables) (InputMode : Nat) (e : KEY_EVENT_RECORD)
    (wantEditingKeys wantPopupKeys : Bool) (hup : e.bKeyDown = false) :
    GetCharKeyEvent k InputMode wantEditingKeys wantPopupKeys e =
      if e.UnicodeChar ≠ 0 ∧ (if wantEditingKeys = true then k.IsCommandLineEditingKey e
          else if wantPopupKeys = true then k.IsCommandLinePopupKey e else false) = false
          ∧ e.wVirtualKeyCode = VK_MENU then
        some (if e.dwControlKeyState &&& ALTNUMPAD_BIT ≠ 0 then
                if HIBYTE e.UnicodeChar ≠ 0 then
                  k.CharToWchar [HIBYTE e.UnicodeChar, LOBYTE e.UnicodeChar]
                else k.CharToWchar [LOBYTE e.UnicodeChar]
              else e.UnicodeChar, false, false)
      else none := by
  unfold GetCharKeyEvent
  dsimp only
  generalize (if wantEditingKeys = true then k.IsCommandLineEditingKey e
    else if wantPopupKeys = true then k.IsCommandLinePopupKey e else false) = c
  rw [hup]
  by_cases h0 : e.UnicodeChar = 0 <;> by_cases h2 : e.wVirtualKeyCode = VK_MENU <;>
    cases c <;> simp [h0, h2]
  all_goals split_ifs <;> rfl

/-- C11, amended. A key-up event at the head of the queue makes `GetChar` return success
exactly when it is a `VK_MENU` key-up that carries a nonzero character and is not
classified as a command-line edit key, whether or not the ALT-numpad bit is set in its
control-key state (without the bit the character is delivered as it is); every other
key-up event is consumed without being delivered and `GetChar` moves on to the next
event. -/
theorem GetChar_key_up (k : KeyTables) (InputMode : Nat) (e : KEY_EVENT_RECORD)
    (rest : List INPUT_RECORD) (fWait wantEditingKeys wantPopupKeys wantKeyState : Bool)
    (hup : e.bKeyDown = false) :
    (e.UnicodeChar ≠ 0 ∧ (if wantEditingKeys = true then k.IsCommandLineEditingKey e
        else if wantPopupKeys = true then k.IsCommandLinePopupKey e else false) = false
        ∧ e.wVirtualKeyCode = VK_MENU →
      ∃ wch, GetChar k { InputMode := InputMode, Queue := INPUT_RECORD.KEY_EVENT e :: rest }
          fWait wantEditingKeys wantPopupKeys wantKeyState
        = some { Status := STATUS_SUCCESS, wchOut := some wch,
                 fCommandLineEditingKeys := false, fCommandLinePopupKeys := false,
                 dwKeyState := if wantKeyState = true then e.dwControlKeyState else 0,
                 InputInfo := { InputMode := InputMode, Queue := rest } } ∧
        (e.dwControlKeyState &&& ALTNUMPAD_BIT = 0 → wch = e.UnicodeChar)) ∧
    (¬(e.UnicodeChar ≠ 0 ∧ (if wantEditingKeys = true then k.IsCommandLineEditingKey e
        else if wantPopupKeys = true then k.IsCommandLinePopupKey e else false) = false
        ∧ e.wVirtualKeyCode = VK_MENU) →
      GetChar k { InputMode := InputMode, Queue := INPUT_RECORD.KEY_EVENT e :: rest }
          fWait wantEditingKeys wantPopupKeys wantKeyState
        = GetCharLoop k fWait wantEditingKeys wantPopupKeys wantKeyState (streamReads rest + 1)
            (if wantKeyState = true then e.dwControlKeyState else 0)
            { InputMode := InputMode, Queue := rest }) := by
  have hev := GetCharKeyEvent_key_up k InputMode e wantEditingKeys wantPopupKeys hup
  obtain ⟨hhead, htail⟩ := streamHead_of_key_up e hup rest
  constructor
  · intro hc
    rw [if_pos hc, ← hhead] at hev
    have key := GetChar_of_event_some k InputMode e rest fWait wantEditingKeys wantPopupKeys
      wantKeyState _ hev
    rw [htail] at key
    refine ⟨_, key, ?_⟩
    intro hbit
    dsimp only
    rw [hhead, if_neg (not_not.2 hbit)]
  · intro hc
    rw [if_neg hc, ← hhead] at hev
    have key := GetChar_of_event_none k InputMode e rest fWait wantEditingKeys wantPopupKeys
      wantKeyState hev
    rw [htail] at key
    exact key

/-- An instance of C11: the key-up event of the letter `a` (not `VK_MENU`) is skipped, and
`GetChar` delivers the character of the key-down event behind it. -/
theorem GetChar_key_up_witness :
    GetChar exampleKeyTables
        { InputMode := 0,
          Queue := INPUT_RECORD.KEY_EVENT { letterADown with bKeyDown := false }
            :: [INPUT_RECORD.KEY_EVENT ctrlBracketDown] }
        false true false true
      = GetCharLoop exampleKeyTables false true false true
          (streamReads [INPUT_RECORD.KEY_EVENT ctrlBracketDown] + 1)
          (if true = true then ({ letterADown with bKeyDown := false } :
            KEY_EVENT_RECORD).dwControlKeyState else 0)
          { InputMode := 0, Queue := [INPUT_RECORD.KEY_EVENT ctrlBracketDown] } :=
  (GetChar_key_up exampleKeyTables 0 { letterADown with bKeyDown := false }
    [INPUT_RECORD.KEY_EVENT ctrlBracketDown] false true false true rfl).2 (by decide)

/-- C11 as stated fails for a `VK_MENU` key-up that carries a nonzero character without
the ALT-numpad bit: the event is a key-up, its control-key state is 0, and `GetChar`
returns success with its character. -/
theorem GetChar_key_up_counterexample :
    (altUpPlain.bKeyDown = false ∧ altUpPlain.dwControlKeyState &&& ALTNUMPAD_BIT = 0) ∧
    (GetChar exampleKeyTables
        { InputMode := 0, Queue := INPUT_RECORD.KEY_EVENT altUpPlain :: [] }
        false true false true).map (fun r => (r.Status, r.wchOut, r.InputInfo.Queue.length))
      = some (STATUS_SUCCESS, some 0x263A, 0) := by
  decide

/-- C12, amended. For a `VK_MENU` key-up at the head of the queue with the ALT-numpad bit
set and a nonzero accumulated value `v` (the event being no command-line edit key):
if the high byte of `v` is nonzero, whatever its low byte, `GetChar` returns the codepage
translation (`CharToWchar`) of the two-byte OEM sequence (high byte, low byte); otherwise
it returns the translation of the single low byte. -/
theorem GetChar_alt_numpad (k : KeyTables) (InputMode : Nat) (e : KEY_EVENT_RECORD)
    (rest : List INPUT_RECORD) (fWait wantEditingKeys wantPopupKeys wantKeyState : Bool)
    (hup : e.bKeyDown = false) (hvk : e.wVirtualKeyCode = VK_MENU)
    (hbit : e.dwControlKeyState &&& ALTNUMPAD_BIT ≠ 0) (hv : e.UnicodeChar ≠ 0)
    (hedit : (if wantEditingKeys = true then k.IsCommandLineEditingKey e
      else if wantPopupKeys = true then k.IsCommandLinePopupKey e else false) = false) :
    GetChar k { InputMode := InputMode, Queue := INPUT_RECORD.KEY_EVENT e :: rest }
        fWait wantEditingKeys wantPopupKeys wantKeyState
      = some { Status := STATUS_SUCCESS,
               wchOut := some (if HIBYTE e.UnicodeChar ≠ 0 then
                   k.CharToWchar [HIBYTE e.UnicodeChar, LOBYTE e.UnicodeChar]
                 else k.CharToWchar [LOBYTE e.UnicodeChar]),
               fCommandLineEditingKeys := false, fCommandLinePopupKeys := false,
               dwKeyState := if wantKeyState = true then e.dwControlKeyState else 0,
               InputInfo := { InputMode := InputMode, Queue := rest } } := by
  have hev := GetCharKeyEvent_key_up k InputMode e wantEditingKeys wantPopupKeys hup
  obtain ⟨hhead, htail⟩ := streamHead_of_key_up e hup rest
  rw [if_pos ⟨hv, hedit, hvk⟩, if_pos hbit, ← hhead] at hev
  have key := GetChar_of_event_some k InputMode e rest fWait wantEditingKeys wantPopupKeys
    wantKeyState _ hev
  rw [htail] at key
  rw [hhead] at key
  exact key

/-- An instance of C12: the ALT+numpad value 0x8140 has both bytes nonzero and is
translated as the two-byte sequence 0x81, 0x40. -/
theorem GetChar_alt_numpad_witness :
    GetChar exampleKeyTables
        { InputMode := 0, Queue := INPUT_RECORD.KEY_EVENT (altNumpadUp 0x8140) :: [] }
        false true false true
      = some { Status := STATUS_SUCCESS,
               wchOut := some (if HIBYTE (altNumpadUp 0x8140).UnicodeChar ≠ 0 then
                   exampleKeyTables.CharToWchar [HIBYTE (altNumpadUp 0x8140).UnicodeChar,
                     LOBYTE (altNumpadUp 0x8140).UnicodeChar]
                 else exampleKeyTables.CharToWchar [LOBYTE (altNumpadUp 0x8140).UnicodeChar]),
               fCommandLineEditingKeys := false, fCommandLinePopupKeys := false,
               dwKeyState := if true = true then (altNumpadUp 0x8140).dwControlKeyState else 0,
               InputInfo := { InputMode := 0, Queue := [] } } :=
  GetChar_alt_numpad exampleKeyTables 0 (altNumpadUp 0x8140) [] false true false true
    rfl rfl (by decide) (by decide) (by decide)

/-- C12 as stated fails for the ALT+numpad value 0x8100, whose high byte is nonzero and
whose low byte is zero: `GetChar` returns the translation of the two-byte sequence 0x81,
0x00, which in the example code page is neither the translation of the single byte 0x00
nor that of the single byte 0x81. -/
theorem GetChar_alt_numpad_counterexample :
    (HIBYTE (altNumpadUp 0x8100).UnicodeChar ≠ 0 ∧ LOBYTE (altNumpadUp 0x8100).UnicodeChar = 0) ∧
    (GetChar exampleKeyTables
        { InputMode := 0, Queue := INPUT_RECORD.KEY_EVENT (altNumpadUp 0x8100) :: [] }
        false true false true).map (fun r => (r.Status, r.wchOut))
      = some (STATUS_SUCCESS, some (exampleKeyTables.CharToWchar [0x81, 0x00])) ∧
    exampleKeyTables.CharToWchar [0x81, 0x00] ≠ exampleKeyTables.CharToWchar [0x00] ∧
    exampleKeyTables.CharToWchar [0x81, 0x00] ≠ exampleKeyTables.CharToWchar [0x81] := by
  decide

/-! ## `SrvReadConsole`, `ReadChars`, `CookedRead`, `RawReadWaitRoutine` -/

/-- C13. For every read request for which `GetAugmentedOutputBuffer` and
`RevalidateConsole` succeed and whose handle is a valid input handle
(`DereferenceIoHandle` succeeds), with `initial_bytes > capacity` (`a->InitialNumBytes >
a->NumBytes`, the capacity being what `GetAugmentedOutputBuffer` left in `a->NumBytes`):
`SrvReadConsole` returns `STATUS_INVALID_PARAMETER`; it returns before the call of
`ReadChars`, so the console (the input event queue, the lead-byte slot, the carry state of
the handle, the screen) and `*ReplyPending` are as they were, and the message is as
`GetAugmentedOutputBuffer` left it. -/
theorem SrvReadConsole_initial_too_large {W : Type} (s : Server W) (con : Console W)
    (m : CONSOLE_API_MSG) (ReplyPending : Bool)
    (hbuf : NT_SUCCESS (s.GetAugmentedOutputBuffer m
      (if m.ReadConsole.Unicode = true then 1 else 2)).1 = true)
    (hcon : NT_SUCCESS s.RevalidateConsole = true)
    (hhandle : NT_SUCCESS (s.DereferenceIoHandle (s.GetMessageObject
      (s.GetAugmentedOutputBuffer m (if m.ReadConsole.Unicode = true then 1 else 2)).2)) = true)
    (hinit : (s.GetAugmentedOutputBuffer m
        (if m.ReadConsole.Unicode = true then 1 else 2)).2.ReadConsole.NumBytes
      < (s.GetAugmentedOutputBuffer m
        (if m.ReadConsole.Unicode = true then 1 else 2)).2.ReadConsole.InitialNumBytes) :
    SrvReadConsole s con m ReplyPending =
      some { Status := STATUS_INVALID_PARAMETER, ReplyPending := ReplyPending, con := con,
             msg := (s.GetAugmentedOutputBuffer m
               (if m.ReadConsole.Unicode = true then 1 else 2)).2 } := by
  unfold SrvReadConsole
  dsimp only
  rw [if_neg (by rw [hbuf]; exact Bool.noConfusion), if_neg (by rw [hcon]; exact Bool.noConfusion),
    if_neg (by rw [hhandle]; exact Bool.noConfusion), if_pos hinit]

/-- An instance of C13: a Unicode read with a buffer of 8 bytes that announces 10 bytes of
pre-filled input, while `abc` waits in the carry of the handle and a key event in the
queue. -/
theorem SrvReadConsole_initial_too_large_witness :
    SrvReadConsole (exampleServer true false)
        (exampleConsole 7 [INPUT_RECORD.KEY_EVENT letterADown] 0 (carryOf [0x61, 0x62, 0x63] 0 false))
        (exampleMsg true 8 10) false =
      some { Status := STATUS_INVALID_PARAMETER, ReplyPending := false,
             con := exampleConsole 7 [INPUT_RECORD.KEY_EVENT letterADown] 0
               (carryOf [0x61, 0x62, 0x63] 0 false),
             msg := ((exampleServer true false).GetAugmentedOutputBuffer (exampleMsg true 8 10)
               (if (exampleMsg true 8 10).ReadConsole.Unicode = true then 1 else 2)).2 } :=
  SrvReadConsole_initial_too_large (exampleServer true false) _ (exampleMsg true 8 10) false
    (by decide) (by decide) (by decide) (by decide)

/-- What the carry branch of `ReadChars` leaves alone: the input buffer, the screen, the
session pointer and the wait blocks; and its status is success, or `STATUS_NO_MEMORY` when
the read is not in Unicode and the target of the translation cannot be allocated. -/
theorem ReadCharsCarry_frame {W : Type} (s : Server W) (con : Console W) (msg : CONSOLE_API_MSG)
    (pwchBuffer BufferSize : Nat) (fUnicode : Bool) :
    (ReadCharsCarry s con msg pwchBuffer BufferSize fUnicode).con.InputInfo = con.InputInfo ∧
    (ReadCharsCarry s con msg pwchBuffer BufferSize fUnicode).con.scr = con.scr ∧
    (ReadCharsCarry s con msg pwchBuffer BufferSize fUnicode).con.lpCookedReadData
      = con.lpCookedReadData ∧
    (ReadCharsCarry s con msg pwchBuffer BufferSize fUnicode).con.WaitBlocks = con.WaitBlocks ∧
    ((ReadCharsCarry s con msg pwchBuffer BufferSize fUnicode).Status = STATUS_SUCCESS ∨
      (fUnicode = false ∧
        (ReadCharsCarry s con msg pwchBuffer BufferSize fUnicode).Status = STATUS_NO_MEMORY)) ∧
    ((fUnicode = true ∨ ∀ n, s.newBYTE n = true) →
      (ReadCharsCarry s con msg pwchBuffer BufferSize fUnicode).Status = STATUS_SUCCESS) := by
  unfold ReadCharsCarry
  lift_lets
  intros
  split_ifs with c1 c2 c3
  all_goals first
    | exact ⟨rfl, rfl, rfl, rfl, Or.inl rfl, fun _ => rfl⟩
    | exact ⟨rfl, rfl, rfl, rfl, Or.inr ⟨c2, rfl⟩, fun hc => hc.elim
        (fun hu => absurd (hu.symm.trans c2) (by decide))
        (fun hn => absurd ((hn _).symm.trans c3) (by decide))⟩

/-- C14, amended. Whenever `InputPending` is set on the handle and the capacity is at
least `sizeof(WCHAR)`, `ReadChars` (in line mode or raw mode, Unicode or not) returns from
the carry branch: it does not call the character extractor, the input buffer with its
event queue and the screen are unchanged, and no cooked-read session or wait block is
created. Its status is success, except that a read that is not in Unicode returns
`STATUS_NO_MEMORY` when the target of the translation cannot be allocated. -/
theorem ReadChars_carry_first {W : Type} (s : Server W) (con : Console W) (msg : CONSOLE_API_MSG)
    (pwchBuffer dwInitialNumBytes dwCtrlWakeupMask hIndex usExeNameLength : Nat)
    (fUnicode : Bool)
    (hpend : con.pClientInput.HANDLE_INPUT_PENDING = true)
    (hcap : sizeof_WCHAR ≤ msg.ReadConsole.NumBytes) :
    ∃ r, ReadChars s con msg pwchBuffer dwInitialNumBytes dwCtrlWakeupMask hIndex
        usExeNameLength fUnicode = some r ∧
      r = ReadCharsCarry s con { msg with ReadConsole := { msg.ReadConsole with NumBytes := 0 } }
        pwchBuffer msg.ReadConsole.NumBytes fUnicode ∧
      r.con.InputInfo = con.InputInfo ∧ r.con.scr = con.scr ∧
      r.con.lpCookedReadData = con.lpCookedReadData ∧ r.con.WaitBlocks = con.WaitBlocks ∧
      (r.Status = STATUS_SUCCESS ∨ (fUnicode = false ∧ r.Status = STATUS_NO_MEMORY)) ∧
      ((fUnicode = true ∨ ∀ n, s.newBYTE n = true) → r.Status = STATUS_SUCCESS) := by
  obtain ⟨f1, f2, f3, f4, f5, f6⟩ := ReadCharsCarry_frame s con
    { msg with ReadConsole := { msg.ReadConsole with NumBytes := 0 } } pwchBuffer
    msg.ReadConsole.NumBytes fUnicode
  refine ⟨_, ?_, rfl, f1, f2, f3, f4, f5, f6⟩
  unfold ReadChars
  rw [if_neg (not_lt.2 hcap)]
  dsimp only
  rw [if_pos hpend]

/-- An instance of C14: a Unicode read with a buffer of 8 bytes in line mode, while `abc`
waits in the carry of the handle and a key event in the queue: the three characters are
delivered and the event stays in the queue. -/
theorem ReadChars_carry_first_witness :
    (∃ r, ReadChars (exampleServer true false)
        (exampleConsole 7 [INPUT_RECORD.KEY_EVENT letterADown] 0 (carryOf [0x61, 0x62, 0x63] 0 false))
        (exampleMsg true 8 0) 0 0 0 1 0 true = some r ∧
      r.con.InputInfo = (exampleConsole 7 [INPUT_RECORD.KEY_EVENT letterADown] 0
        (carryOf [0x61, 0x62, 0x63] 0 false)).InputInfo ∧
      r.con.WaitBlocks = 0 ∧ r.Status = STATUS_SUCCESS) ∧
    (ReadChars (exampleServer true false)
        (exampleConsole 7 [INPUT_RECORD.KEY_EVENT letterADown] 0 (carryOf [0x61, 0x62, 0x63] 0 false))
        (exampleMsg true 8 0) 0 0 0 1 0 true).map
        (fun r => (r.msg.ReadConsole.NumBytes, outputBytes r.msg 6, r.con.InputInfo.Queue.length))
      = some (6, [0x61, 0, 0x62, 0, 0x63, 0], 1) :=
  ⟨(ReadChars_carry_first (exampleServer true false)
      (exampleConsole 7 [INPUT_RECORD.KEY_EVENT letterADown] 0 (carryOf [0x61, 0x62, 0x63] 0 false))
      (exampleMsg true 8 0) 0 0 0 1 0 true rfl (by decide)).elim
      fun r hr => ⟨r, hr.1, hr.2.2.1, hr.2.2.2.2.2.1, hr.2.2.2.2.2.2.2 (Or.inl rfl)⟩,
    by decide⟩

/-- C14 as stated fails for a capacity below `sizeof(WCHAR)`: with `InputPending` set and
a buffer of one byte, `ReadChars` returns `STATUS_BUFFER_TOO_SMALL`, not success, and
delivers nothing from the carry. -/
theorem ReadChars_carry_first_counterexample :
    (exampleConsole 7 [] 0 (carryOf [0x61, 0x62, 0x63] 0 false)).pClientInput.HANDLE_INPUT_PENDING
      = true ∧
    (ReadChars (exampleServer true false)
        (exampleConsole 7 [] 0 (carryOf [0x61, 0x62, 0x63] 0 false))
        (exampleMsg true 1 0) 0 0 0 1 0 true).map
        (fun r => (r.Status, r.con.pClientInput.BytesAvailable, r.con.pClientInput.CurrentBufPtr))
      = some (STATUS_BUFFER_TOO_SMALL, 6, 0) ∧
    STATUS_BUFFER_TOO_SMALL ≠ STATUS_SUCCESS := by
  decide

/-- With `InputPending` set and a capacity of at least `sizeof(WCHAR)`, `ReadChars` is its
carry branch. -/
theorem ReadChars_of_pending {W : Type} (s : Server W) (con : Console W) (msg : CONSOLE_API_MSG)
    (pwchBuffer dwInitialNumBytes dwCtrlWakeupMask hIndex usExeNameLength : Nat)
    (fUnicode : Bool)
    (hpend : con.pClientInput.HANDLE_INPUT_PENDING = true)
    (hcap : sizeof_WCHAR ≤ msg.ReadConsole.NumBytes) :
    ReadChars s con msg pwchBuffer dwInitialNumBytes dwCtrlWakeupMask hIndex usExeNameLength
        fUnicode
      = some (ReadCharsCarry s con
          { msg with ReadConsole := { msg.ReadConsole with NumBytes := 0 } } pwchBuffer
          msg.ReadConsole.NumBytes fUnicode) := by
  unfold ReadChars
  rw [if_neg (not_lt.2 hcap)]
  dsimp only
  rw [if_pos hpend]

/-- The flags and the cursor of the carry after the carry branch of `ReadChars`, for a
capacity of at least `sizeof(WCHAR)`. -/
theorem ReadCharsCarry_flags {W : Type} (s : Server W) (con : Console W) (msg : CONSOLE_API_MSG)
    (pwchBuffer BufferSize : Nat) (fUnicode : Bool)
    (hpend : con.pClientInput.HANDLE_INPUT_PENDING = true) (hcap : sizeof_WCHAR ≤ BufferSize) :
    ((ReadCharsCarry s con msg pwchBuffer BufferSize fUnicode).con.pClientInput.HANDLE_INPUT_PENDING
        = false ↔
      (ReadCharsCarry s con msg pwchBuffer BufferSize fUnicode).con.pClientInput.BytesAvailable = 0 ∨
      (fUnicode = false ∧ con.pClientInput.HANDLE_MULTI_LINE_INPUT = true ∧
        con.ReadConInpDbcsLeadByte ≠ 0 ∧ subULONG BufferSize sizeof_WCHAR = 0)) ∧
    ((ReadCharsCarry s con msg pwchBuffer BufferSize fUnicode).con.pClientInput.HANDLE_INPUT_PENDING
        = false →
      (ReadCharsCarry s con msg pwchBuffer BufferSize fUnicode).con.pClientInput.HANDLE_MULTI_LINE_INPUT
        = false ∧
      (ReadCharsCarry s con msg pwchBuffer BufferSize fUnicode).con.pClientInput.BufPtrAllocated
        = false) ∧
    ((ReadCharsCarry s con msg pwchBuffer BufferSize fUnicode).con.pClientInput.HANDLE_INPUT_PENDING
        = true →
      ∃ p n rest,
        (ReadCharsCarry s con msg pwchBuffer BufferSize fUnicode).con.copies
          = con.copies ++ (p, n) :: rest ∧
        (ReadCharsCarry s con msg pwchBuffer BufferSize fUnicode).con.pClientInput.CurrentBufPtr
          = con.pClientInput.CurrentBufPtr + n ∧
        (ReadCharsCarry s con msg pwchBuffer BufferSize fUnicode).con.pClientInput.BufPtr
          = con.pClientInput.BufPtr ∧
        (fUnicode = true → p = pwchBuffer ∧ rest = [] ∧
          (ReadCharsCarry s con msg pwchBuffer BufferSize fUnicode).msg.ReadConsole.NumBytes = n ∧
          (ReadCharsCarry s con msg pwchBuffer BufferSize fUnicode).con.pClientInput.BytesAvailable
            = subULONG con.pClientInput.BytesAvailable n)) := by
  have hsz : sizeof_WCHAR = 2 := rfl
  unfold ReadCharsCarry
  lift_lets
  intro multi fAdd p1 B1 buf1 src1 h1 lead1 src2 NumToBytes n0 NumToWrite buf2 h2 h3 con3 msg3 r n
    src3
  have hB1 : B1 = 0 → fAdd = true ∧ subULONG BufferSize sizeof_WCHAR = 0 := by
    intro hb
    by_cases hf : fAdd = true
    · exact ⟨hf, (if_pos hf).symm.trans hb⟩
    · have : BufferSize = 0 := (if_neg hf).symm.trans hb
      omega
  have hfAdd : fAdd = true → fUnicode = false ∧ con.ReadConInpDbcsLeadByte ≠ 0 := by
    intro hf
    have hf2 : (!fUnicode && decide (con.ReadConInpDbcsLeadByte ≠ 0)) = true := hf
    rw [Bool.and_eq_true, Bool.not_eq_true', decide_eq_true_eq] at hf2
    exact hf2
  have hp1 : h1.HANDLE_INPUT_PENDING = true := by
    show (if fAdd = true then _ else con.pClientInput).HANDLE_INPUT_PENDING = true
    split_ifs <;> exact hpend
  have hh3 : h3 = if h2.BytesAvailable = 0 then releaseCarry h2
      else { h2 with CurrentBufPtr := h2.CurrentBufPtr + NumToWrite } := rfl
  have hcur : h2.CurrentBufPtr = con.pClientInput.CurrentBufPtr := by
    show (if fAdd = true then _ else con.pClientInput).CurrentBufPtr = _
    split_ifs <;> rfl
  have hbuf : h2.BufPtr = con.pClientInput.BufPtr := by
    show (if fAdd = true then _ else con.pClientInput).BufPtr = _
    split_ifs <;> rfl
  have hnotearly : ¬(fUnicode = false ∧ (h1.BytesAvailable = 0 ∨ multi = true ∧ B1 = 0)) →
      ¬(fUnicode = false ∧ con.pClientInput.HANDLE_MULTI_LINE_INPUT = true ∧
        con.ReadConInpDbcsLeadByte ≠ 0 ∧ subULONG BufferSize sizeof_WCHAR = 0) := by
    intro hne hx
    apply hne
    refine ⟨hx.1, Or.inr ⟨hx.2.1, ?_⟩⟩
    have hf : fAdd = true := by
      show (!fUnicode && decide (con.ReadConInpDbcsLeadByte ≠ 0)) = true
      rw [hx.1]
      simpa using hx.2.2.1
    exact (if_pos hf).trans hx.2.2.2
  have hmain : ∀ (c1 : ¬(fUnicode = false ∧ (h1.BytesAvailable = 0 ∨ multi = true ∧ B1 = 0))),
      (h3.HANDLE_INPUT_PENDING = false ↔ h3.BytesAvailable = 0 ∨
        (fUnicode = false ∧ con.pClientInput.HANDLE_MULTI_LINE_INPUT = true ∧
          con.ReadConInpDbcsLeadByte ≠ 0 ∧ subULONG BufferSize sizeof_WCHAR = 0)) ∧
      (h3.HANDLE_INPUT_PENDING = false →
        h3.HANDLE_MULTI_LINE_INPUT = false ∧ h3.BufPtrAllocated = false) ∧
      (h3.HANDLE_INPUT_PENDING = true →
        h3.CurrentBufPtr = con.pClientInput.CurrentBufPtr + NumToWrite ∧
        h3.BufPtr = con.pClientInput.BufPtr) := by
    intro c1
    rw [hh3]
    by_cases hz : h2.BytesAvailable = 0
    · rw [if_pos hz]
      exact ⟨⟨fun _ => Or.inl hz, fun _ => rfl⟩, fun _ => ⟨rfl, rfl⟩,
        fun hc => (Bool.false_ne_true hc).elim⟩
    · rw [if_neg hz]
      refine ⟨⟨fun hc => absurd (hp1.symm.trans hc) (by decide), fun hc => ?_⟩,
        fun hc => absurd (hp1.symm.trans hc) (by decide), fun _ => ⟨?_, hbuf⟩⟩
      · rcases hc with hc | hc
        · exact absurd hc hz
        · exact absurd hc (hnotearly c1)
      · show h2.CurrentBufPtr + NumToWrite = _
        rw [hcur]
  by_cases c1 : fUnicode = false ∧ (h1.BytesAvailable = 0 ∨ multi = true ∧ B1 = 0)
  · rw [if_pos c1]
    refine ⟨⟨fun _ => ?_, fun _ => rfl⟩, fun _ => ⟨rfl, rfl⟩,
      fun hc => (Bool.false_ne_true hc).elim⟩
    rcases c1.2 with hz | hz
    · exact Or.inl hz
    · obtain ⟨hf, hs⟩ := hB1 hz.2
      exact Or.inr ⟨c1.1, hz.1, (hfAdd hf).2, hs⟩
  · rw [if_neg c1]
    obtain ⟨m1, m2, m3⟩ := hmain c1
    by_cases c2 : fUnicode = false
    · rw [if_pos c2]
      by_cases c3 : s.newBYTE NumToBytes = false
      · rw [if_pos c3]
        exact ⟨m1, m2, fun hc => ⟨p1, NumToWrite, [], rfl, (m3 hc).1, (m3 hc).2,
          fun hu => absurd (hu.symm.trans c2) (by decide)⟩⟩
      · rw [if_neg c3]
        exact ⟨m1, m2, fun hc => ⟨p1, NumToWrite, [(p1, n)], List.append_assoc _ _ _,
          (m3 hc).1, (m3 hc).2, fun hu => absurd (hu.symm.trans c2) (by decide)⟩⟩
    · rw [if_neg c2]
      have hu : fUnicode = true := by
        cases fUnicode
        · exact absurd rfl c2
        · rfl
      have hf : fAdd = false := by
        show (!fUnicode && decide (con.ReadConInpDbcsLeadByte ≠ 0)) = false
        rw [hu]
        rfl
      refine ⟨m1, m2, fun hc => ⟨p1, NumToWrite, [], rfl, (m3 hc).1, (m3 hc).2, fun _ =>
        ⟨?_, rfl, rfl, ?_⟩⟩⟩
      · show (if fAdd = true then _ else pwchBuffer) = pwchBuffer
        rw [hf]
        rfl
      · have hz : ¬(h2.BytesAvailable = 0) := by
          intro hz
          have hc2 : h3.HANDLE_INPUT_PENDING = true := hc
          rw [hh3, if_pos hz] at hc2
          exact (Bool.false_ne_true hc2).elim
        show h3.BytesAvailable = _
        rw [hh3, if_neg hz]
        show subULONG (if fAdd = true then _ else con.pClientInput).BytesAvailable NumToWrite = _
        rw [hf]
        rfl

/-- C15, as the code has it. After every carry-first read in `ReadChars` (any combination
of Unicode or not and `MultiLineInput` set or clear, the capacity being at least
`sizeof(WCHAR)`), `InputPending` is clear if and only if `CarryRemaining` has reached
zero, with one exception: a read that is not in Unicode, with `MultiLineInput` set, whose
buffer the lead byte carried over from the read before has used up, clears it with bytes
left in the carry (the test `|| BufferSize == 0` of the multi-line branch, which the
single-line branch does not have). When `InputPending` is cleared, `MultiLineInput` is
cleared and the carry buffer released with it; otherwise the carry buffer is kept and
`CarryCursor` has advanced by the `n` bytes taken from the carry by the first `memmove`,
which in Unicode mode are the bytes delivered (`*pdwNumBytes = n`, and `CarryRemaining`
is lower by `n`). -/
theorem ReadChars_carry_flags {W : Type} (s : Server W) (con : Console W) (msg : CONSOLE_API_MSG)
    (pwchBuffer dwInitialNumBytes dwCtrlWakeupMask hIndex usExeNameLength : Nat)
    (fUnicode : Bool)
    (hpend : con.pClientInput.HANDLE_INPUT_PENDING = true)
    (hcap : sizeof_WCHAR ≤ msg.ReadConsole.NumBytes) :
    ∃ r, ReadChars s con msg pwchBuffer dwInitialNumBytes dwCtrlWakeupMask hIndex
        usExeNameLength fUnicode = some r ∧
      (r.con.pClientInput.HANDLE_INPUT_PENDING = false ↔
        r.con.pClientInput.BytesAvailable = 0 ∨
        (fUnicode = false ∧ con.pClientInput.HANDLE_MULTI_LINE_INPUT = true ∧
          con.ReadConInpDbcsLeadByte ≠ 0 ∧ subULONG msg.ReadConsole.NumBytes sizeof_WCHAR = 0)) ∧
      (r.con.pClientInput.HANDLE_INPUT_PENDING = false →
        r.con.pClientInput.HANDLE_MULTI_LINE_INPUT = false ∧
        r.con.pClientInput.BufPtrAllocated = false) ∧
      (r.con.pClientInput.HANDLE_INPUT_PENDING = true →
        ∃ p n rest,
          r.con.copies = con.copies ++ (p, n) :: rest ∧
          r.con.pClientInput.CurrentBufPtr = con.pClientInput.CurrentBufPtr + n ∧
          r.con.pClientInput.BufPtr = con.pClientInput.BufPtr ∧
          (fUnicode = true → p = pwchBuffer ∧ rest = [] ∧
            r.msg.ReadConsole.NumBytes = n ∧
            r.con.pClientInput.BytesAvailable = subULONG con.pClientInput.BytesAvailable n)) :=
  ⟨_, ReadChars_of_pending s con msg pwchBuffer dwInitialNumBytes dwCtrlWakeupMask hIndex
      usExeNameLength fUnicode hpend hcap,
    ReadCharsCarry_flags s con _ pwchBuffer msg.ReadConsole.NumBytes fUnicode hpend hcap⟩

/-- An instance of C15: a Unicode read with a buffer of 4 bytes while `abc` waits in the
carry: two characters are delivered, `InputPending` stays set with 2 bytes left, and the
cursor of the carry is at byte 4. -/
theorem ReadChars_carry_flags_witness :
    (∃ r, ReadChars (exampleServer true false)
        (exampleConsole 7 [] 0 (carryOf [0x61, 0x62, 0x63] 0 false))
        (exampleMsg true 4 0) 0 0 0 1 0 true = some r ∧
      (r.con.pClientInput.HANDLE_INPUT_PENDING = false ↔
        r.con.pClientInput.BytesAvailable = 0 ∨
        (true = false ∧ (exampleConsole 7 [] 0 (carryOf [0x61, 0x62, 0x63] 0 false)).pClientInput.HANDLE_MULTI_LINE_INPUT = true ∧
          (exampleConsole 7 [] 0 (carryOf [0x61, 0x62, 0x63] 0 false)).ReadConInpDbcsLeadByte ≠ 0 ∧
          subULONG (exampleMsg true 4 0).ReadConsole.NumBytes sizeof_WCHAR = 0))) ∧
    (ReadChars (exampleServer true false)
        (exampleConsole 7 [] 0 (carryOf [0x61, 0x62, 0x63] 0 false))
        (exampleMsg true 4 0) 0 0 0 1 0 true).map
        (fun r => (r.msg.ReadConsole.NumBytes, outputBytes r.msg 4,
          r.con.pClientInput.HANDLE_INPUT_PENDING, r.con.pClientInput.BytesAvailable,
          r.con.pClientInput.CurrentBufPtr))
      = some (4, [0x61, 0, 0x62, 0], true, 2, 4) :=
  ⟨(ReadChars_carry_flags (exampleServer true false)
      (exampleConsole 7 [] 0 (carryOf [0x61, 0x62, 0x63] 0 false))
      (exampleMsg true 4 0) 0 0 0 1 0 true rfl (by decide)).elim
      fun r hr => ⟨r, hr.1, hr.2.1⟩,
    by decide⟩

/-- C15 fails on the code for a read that is not in Unicode with `MultiLineInput` set, a
lead byte carried over and a buffer of `sizeof(WCHAR)` bytes: the lead byte uses up the
buffer, `InputPending` and `MultiLineInput` are cleared and the carry buffer is released,
although 4 of the 6 bytes of the carry have not been delivered (`CarryRemaining` is 4,
not 0). The same read with `MultiLineInput` clear keeps `InputPending` set and the carry
buffer. -/
theorem ReadChars_carry_flags_counterexample :
    ((exampleConsole 7 [] 0x81 (carryOf [0x61, 0x62, 0x0A] 0 true)).pClientInput.HANDLE_INPUT_PENDING
        = true ∧
      (exampleConsole 7 [] 0x81 (carryOf [0x61, 0x62, 0x0A] 0 true)).pClientInput.BytesAvailable = 6) ∧
    (ReadChars (exampleServer true false)
        (exampleConsole 7 [] 0x81 (carryOf [0x61, 0x62, 0x0A] 0 true))
        (exampleMsg false 2 0) 0 0 0 1 0 false).map
        (fun r => (r.Status, r.msg.ReadConsole.NumBytes,
          r.con.pClientInput.HANDLE_INPUT_PENDING, r.con.pClientInput.HANDLE_MULTI_LINE_INPUT,
          r.con.pClientInput.BufPtrAllocated, r.con.pClientInput.BytesAvailable))
      = some (STATUS_SUCCESS, 1, false, false, false, 4) ∧
    (ReadChars (exampleServer true false)
        (exampleConsole 7 [] 0x81 (carryOf [0x61, 0x62, 0x0A] 0 false))
        (exampleMsg false 2 0) 0 0 0 1 0 false).map
        (fun r => (r.Status, r.con.pClientInput.HANDLE_INPUT_PENDING,
          r.con.pClientInput.BufPtrAllocated))
      = some (STATUS_SUCCESS, true, true) := by
  decide

/-- The scan of `carryLine` stops at the first LF of the carry: with an LF at the `j`-th
code unit from the cursor, inside the carry, and none before it, the scan entered at the
`i`-th code unit ends with `NumToWrite = 2 * j`. -/
theorem carryLine_eq (m : Mem) (cur avail j : Nat)
    (hne : ∀ i : Nat, i < j → wcharAt m (cur + 2 * i) ≠ UNICODE_LINEFEED)
    (hlf : wcharAt m (cur + 2 * j) = UNICODE_LINEFEED) :
    ∀ (k i fuel : Nat), i + k = j → k ≤ fuel → 2 * j < avail →
      carryLine m cur avail fuel (2 * i) = 2 * j := by
  intro k
  induction k with
  | zero =>
    intro i fuel hi _ _
    have hij : i = j := by omega
    subst hij
    cases fuel with
    | zero => rfl
    | succ f =>
      unfold carryLine
      rw [if_neg (fun hc => hc.2 hlf)]
  | succ k ih =>
    intro i fuel hi hfuel hj
    obtain ⟨f, rfl⟩ : ∃ f, fuel = f + 1 := ⟨fuel - 1, by omega⟩
    unfold carryLine
    rw [if_pos ⟨by omega, hne i (by omega)⟩]
    have := ih (i + 1) f (by omega) (by omega) hj
    rw [show 2 * (i + 1) = 2 * i + sizeof_WCHAR from rfl] at this
    exact this

/-- The carry branch of `ReadChars` for a Unicode read with `MultiLineInput` set, when the
carry holds an LF at the `j`-th code unit from its cursor and none before it: the bytes of
the carry from the cursor through that LF, or as many of them as the caller's buffer holds,
are moved to the buffer and counted in `*pdwNumBytes`. -/
theorem ReadCharsCarry_line {W : Type} (s : Server W) (con : Console W) (msg : CONSOLE_API_MSG)
    (pwchBuffer BufferSize j : Nat)
    (hmulti : con.pClientInput.HANDLE_MULTI_LINE_INPUT = true)
    (hne : ∀ i : Nat, i < j →
      wcharAt con.pClientInput.BufPtr (con.pClientInput.CurrentBufPtr + 2 * i) ≠ UNICODE_LINEFEED)
    (hlf : wcharAt con.pClientInput.BufPtr (con.pClientInput.CurrentBufPtr + 2 * j)
      = UNICODE_LINEFEED)
    (hj : 2 * j < con.pClientInput.BytesAvailable) (hrange : 2 * (j + 1) < 2 ^ 32) :
    (ReadCharsCarry s con msg pwchBuffer BufferSize true).Status = STATUS_SUCCESS ∧
    (ReadCharsCarry s con msg pwchBuffer BufferSize true).msg.ReadConsole.NumBytes
      = min BufferSize (2 * (j + 1)) ∧
    (ReadCharsCarry s con msg pwchBuffer BufferSize true).msg.OutputBuffer
      = copyBytes msg.OutputBuffer pwchBuffer
          (fun b => byteOf con.pClientInput.BufPtr (con.pClientInput.CurrentBufPtr + b))
          (min BufferSize (2 * (j + 1))) ∧
    (ReadCharsCarry s con msg pwchBuffer BufferSize true).con.InputInfo = con.InputInfo := by
  have hsz : sizeof_WCHAR = 2 := rfl
  have hline := carryLine_eq con.pClientInput.BufPtr con.pClientInput.CurrentBufPtr
    con.pClientInput.BytesAvailable j hne hlf j 0 con.pClientInput.BytesAvailable (by omega)
    (by omega) hj
  unfold ReadCharsCarry
  lift_lets
  intro multi fAdd p1 B1 buf1 src1 h1 lead1 src2 NumToBytes n0 NumToWrite buf2 h2 h3 con3 msg3 r n
    src3
  have hn0 : n0 = 2 * (j + 1) := by
    show toULONG (carryLine con.pClientInput.BufPtr con.pClientInput.CurrentBufPtr
      con.pClientInput.BytesAvailable con.pClientInput.BytesAvailable 0 + sizeof_WCHAR) = _
    rw [show (0 : Nat) = 2 * 0 from rfl, hline, hsz]
    unfold toULONG
    omega
  have hN : NumToWrite = min BufferSize (2 * (j + 1)) := by
    show (if multi = true then if B1 < n0 then B1 else n0 else _) = _
    rw [if_pos hmulti, hn0]
    show (if BufferSize < 2 * (j + 1) then BufferSize else 2 * (j + 1)) = _
    split_ifs <;> omega
  rw [if_neg (fun hc => absurd hc.1 (by decide)), if_neg (by decide)]
  have hb : buf2 = copyBytes msg.OutputBuffer pwchBuffer
      (fun b => byteOf con.pClientInput.BufPtr (con.pClientInput.CurrentBufPtr + b)) NumToWrite :=
    rfl
  exact ⟨rfl, hN, hb.trans (by rw [hN]), rfl⟩

/-- C17, amended. With `InputPending` and `MultiLineInput` set on the handle, a Unicode
read whose capacity is at least `sizeof(WCHAR)` delivers the carried content from
`CarryCursor` on, through the next LF inclusive when the capacity holds that much (exactly
the next line of the multi-line expansion, `2 * (j + 1)` bytes when the LF is the `j`-th
code unit from the cursor), and otherwise only the first `capacity` bytes of that line.
The status is success, the byte count is the number of bytes moved, and no input event is
consumed. -/
theorem ReadChars_carry_line {W : Type} (s : Server W) (con : Console W) (msg : CONSOLE_API_MSG)
    (pwchBuffer dwInitialNumBytes dwCtrlWakeupMask hIndex usExeNameLength j : Nat)
    (hpend : con.pClientInput.HANDLE_INPUT_PENDING = true)
    (hmulti : con.pClientInput.HANDLE_MULTI_LINE_INPUT = true)
    (hcap : sizeof_WCHAR ≤ msg.ReadConsole.NumBytes)
    (hne : ∀ i : Nat, i < j →
      wcharAt con.pClientInput.BufPtr (con.pClientInput.CurrentBufPtr + 2 * i) ≠ UNICODE_LINEFEED)
    (hlf : wcharAt con.pClientInput.BufPtr (con.pClientInput.CurrentBufPtr + 2 * j)
      = UNICODE_LINEFEED)
    (hj : 2 * j < con.pClientInput.BytesAvailable) (hrange : 2 * (j + 1) < 2 ^ 32) :
    ∃ r, ReadChars s con msg pwchBuffer dwInitialNumBytes dwCtrlWakeupMask hIndex
        usExeNameLength true = some r ∧
      r.Status = STATUS_SUCCESS ∧
      r.msg.ReadConsole.NumBytes = min msg.ReadConsole.NumBytes (2 * (j + 1)) ∧
      r.msg.OutputBuffer = copyBytes msg.OutputBuffer pwchBuffer
        (fun b => byteOf con.pClientInput.BufPtr (con.pClientInput.CurrentBufPtr + b))
        (min msg.ReadConsole.NumBytes (2 * (j + 1))) ∧
      r.con.InputInfo = con.InputInfo :=
  ⟨_, ReadChars_of_pending s con msg pwchBuffer dwInitialNumBytes dwCtrlWakeupMask hIndex
      usExeNameLength true hpend hcap,
    ReadCharsCarry_line s con { msg with ReadConsole := { msg.ReadConsole with NumBytes := 0 } }
      pwchBuffer msg.ReadConsole.NumBytes j hmulti hne hlf hj hrange⟩

/-- An instance of C17: the carry holds the two lines of `exampleAlias`, of which the
first has been delivered; a read with a buffer of 80 bytes delivers the second line,
`echo b` with CR and LF, 16 bytes. -/
theorem ReadChars_carry_line_witness :
    (∃ r, ReadChars (exampleServer true false)
        (exampleConsole 7 [INPUT_RECORD.KEY_EVENT letterADown] 0 (carryOf exampleAlias 16 true))
        (exampleMsg true 80 0) 0 0 0 1 0 true = some r ∧
      r.Status = STATUS_SUCCESS ∧
      r.msg.ReadConsole.NumBytes = min (exampleMsg true 80 0).ReadConsole.NumBytes (2 * (7 + 1))) ∧
    (ReadChars (exampleServer true false)
        (exampleConsole 7 [INPUT_RECORD.KEY_EVENT letterADown] 0 (carryOf exampleAlias 16 true))
        (exampleMsg true 80 0) 0 0 0 1 0 true).map
        (fun r => (r.msg.ReadConsole.NumBytes, outputBytes r.msg 16,
          r.con.pClientInput.HANDLE_INPUT_PENDING, r.con.InputInfo.Queue.length))
      = some (16, [0x65, 0, 0x63, 0, 0x68, 0, 0x6F, 0, 0x20, 0, 0x62, 0, 0x0D, 0, 0x0A, 0],
          false, 1) :=
  ⟨(ReadChars_carry_line (exampleServer true false)
      (exampleConsole 7 [INPUT_RECORD.KEY_EVENT letterADown] 0 (carryOf exampleAlias 16 true))
      (exampleMsg true 80 0) 0 0 0 1 0 7 rfl rfl (by decide) (by decide) (by decide) (by decide)
      (by decide)).elim fun r hr => ⟨r, hr.1, hr.2.1, hr.2.2.1⟩,
    by decide⟩

/-- C17 as stated fails for a capacity below the length of the line: with the same carry
and a buffer of 4 bytes, the read delivers the 4 bytes of `ec` and not the 16 bytes of the
line through its LF; 12 bytes stay in the carry. -/
theorem ReadChars_carry_line_counterexample :
    ((exampleConsole 7 [] 0 (carryOf exampleAlias 16 true)).pClientInput.HANDLE_INPUT_PENDING = true ∧
      (exampleConsole 7 [] 0 (carryOf exampleAlias 16 true)).pClientInput.HANDLE_MULTI_LINE_INPUT
        = true) ∧
    (ReadChars (exampleServer true false)
        (exampleConsole 7 [] 0 (carryOf exampleAlias 16 true))
        (exampleMsg true 4 0) 0 0 0 1 0 true).map
        (fun r => (r.Status, r.msg.ReadConsole.NumBytes, outputBytes r.msg 6,
          r.con.pClientInput.BytesAvailable))
      = some (STATUS_SUCCESS, 4, [0x65, 0, 0x63, 0, 0, 0], 12) := by
  decide

/-- C20. `RawReadWaitRoutine` invoked for a read on a valid handle with the CTRL+C bit
in the satisfy parameter does not terminate the read: it returns FALSE (not consumed) and
leaves the reply message with its byte count, the read data, and the console (the read
count of the handle, the lead-byte slot, the input event queue) unchanged, whatever the
other bits of the parameter and `fThreadDying` are. -/
theorem RawReadWaitRoutine_ctrl_c {W : Type} (s : Server W) (con : Console W)
    (msg : CONSOLE_API_MSG) (raw : RAW_READ_DATA) (pvSatisfyParameter : Nat)
    (fThreadDying : Bool)
    (hhandle : NT_SUCCESS (s.DereferenceIoHandleNoCheck raw.HandleIndex) = true)
    (hctrlc : pvSatisfyParameter &&& s.CONSOLE_CTRL_C_SEEN ≠ 0) :
    RawReadWaitRoutine s con msg raw pvSatisfyParameter fThreadDying =
      some { RetVal := false, con := con, msg := msg, RawReadData := raw } := by
  unfold RawReadWaitRoutine
  dsimp only
  rw [if_neg (by rw [hhandle]; exact Bool.noConfusion), if_pos hctrlc]

/-- An instance of C20: a raw Unicode read waits, a key event is in the queue, and the
routine is called for CTRL+C. -/
theorem RawReadWaitRoutine_ctrl_c_witness :
    RawReadWaitRoutine (exampleServer true false)
        (exampleConsole 0 [INPUT_RECORD.KEY_EVENT letterADown] 0 { noCarry with ReadCount := 1 })
        (exampleMsg true 8 0) { BufferSize := 8, BufPtr := 0, HandleIndex := 1 } 1 false =
      some { RetVal := false
             con := exampleConsole 0 [INPUT_RECORD.KEY_EVENT letterADown] 0
               { noCarry with ReadCount := 1 }
             msg := exampleMsg true 8 0
             RawReadData := { BufferSize := 8, BufPtr := 0, HandleIndex := 1 } } :=
  RawReadWaitRoutine_ctrl_c (exampleServer true false) _ _ _ 1 false (by decide) (by decide)

/-- The completion step of a read leaves the reply status alone. -/
theorem PrepareReadConsoleCompletion_status (m : CONSOLE_API_MSG) :
    (PrepareReadConsoleCompletion m).ReplyStatus = m.ReplyStatus := by
  unfold PrepareReadConsoleCompletion SetReplyInformation
  dsimp only
  split_ifs <;> rfl

/-- The completion step of a read that reports no bytes reports no bytes. -/
theorem PrepareReadConsoleCompletion_zero (m : CONSOLE_API_MSG)
    (h : m.ReadConsole.NumBytes = 0) :
    (PrepareReadConsoleCompletion m).ReadConsole.NumBytes = 0 ∧
      (PrepareReadConsoleCompletion m).ReplyInformation = 0 := by
  unfold PrepareReadConsoleCompletion SetReplyInformation
  dsimp only
  split_ifs
  · exact ⟨rfl, rfl⟩
  · exact ⟨h, h⟩

/-- C19, as the code has it. `RawReadWaitRoutine` invoked for a read on a valid handle
with the CTRL+BREAK bit and without the CTRL+C bit in the satisfy parameter returns TRUE
(consumed), lowers the read count of the handle by one and takes no input event; but the
status it leaves in the reply message is not `STATUS_ALERTED`: the `__finally` block
stores the local `Status`, which still holds the status of `DereferenceIoHandleNoCheck`,
over the `STATUS_ALERTED` set before `__leave`. For a Unicode read zero bytes are
reported. (For a read that is not in Unicode this needs the allocation of the empty
translation target to succeed.) -/
theorem RawReadWaitRoutine_ctrl_break {W : Type} (s : Server W) (con : Console W)
    (msg : CONSOLE_API_MSG) (raw : RAW_READ_DATA) (pvSatisfyParameter : Nat)
    (fThreadDying : Bool)
    (hhandle : NT_SUCCESS (s.DereferenceIoHandleNoCheck raw.HandleIndex) = true)
    (hctrlc : pvSatisfyParameter &&& s.CONSOLE_CTRL_C_SEEN = 0)
    (hbreak : pvSatisfyParameter &&& s.CONSOLE_CTRL_BREAK_SEEN ≠ 0)
    (halloc : msg.ReadConsole.Unicode = true ∨ s.newBYTE 0 = true) :
    ∃ r, RawReadWaitRoutine s con msg raw pvSatisfyParameter fThreadDying = some r ∧
      r.RetVal = true ∧
      r.msg.ReplyStatus = s.DereferenceIoHandleNoCheck raw.HandleIndex ∧
      (msg.ReadConsole.Unicode = true →
        r.msg.ReadConsole.NumBytes = 0 ∧ r.msg.ReplyInformation = 0) ∧
      r.con.InputInfo = con.InputInfo ∧
      r.con.pClientInput.ReadCount = con.pClientInput.ReadCount - 1 := by
  have hwait : s.DereferenceIoHandleNoCheck raw.HandleIndex ≠ CONSOLE_STATUS_WAIT := by
    intro h
    rw [h] at hhandle
    exact absurd hhandle (by decide)
  have hw : s.DereferenceIoHandleNoCheck raw.HandleIndex ≠ CONSOLE_STATUS_WAIT ∧ false = false :=
    ⟨hwait, rfl⟩
  unfold RawReadWaitRoutine
  dsimp only
  rw [if_neg (by rw [hhandle]; exact Bool.noConfusion), if_neg (not_not.2 hctrlc), if_pos hbreak]
  refine ⟨_, rfl, ?_⟩
  unfold RawReadFinally
  dsimp only [SetReplyStatus]
  rw [if_pos hw]
  by_cases hu : msg.ReadConsole.Unicode = false
  · have ha : s.newBYTE 0 = true := by
      rcases halloc with h | h
      · rw [hu] at h
        exact absurd h (by decide)
      · exact h
    have hnb : ¬(s.newBYTE 0 = false) := by
      rw [ha]
      decide
    rw [if_pos hu]
    unfold rawTranslate
    rw [if_neg hnb]
    dsimp only
    refine ⟨rfl, PrepareReadConsoleCompletion_status _, fun h => ?_, rfl, rfl⟩
    rw [hu] at h
    exact absurd h (by decide)
  · rw [if_neg hu]
    exact ⟨rfl, PrepareReadConsoleCompletion_status _,
      fun _ => PrepareReadConsoleCompletion_zero _ rfl, rfl, rfl⟩

/-- An instance of C19: a raw Unicode read waits on a valid handle and the routine is
called for CTRL+BREAK. -/
theorem RawReadWaitRoutine_ctrl_break_witness :
    ∃ r, RawReadWaitRoutine (exampleServer true false)
        (exampleConsole 0 [INPUT_RECORD.KEY_EVENT letterADown] 0 { noCarry with ReadCount := 1 })
        (exampleMsg true 8 0) { BufferSize := 8, BufPtr := 0, HandleIndex := 1 } 2 false = some r ∧
      r.RetVal = true ∧
      r.msg.ReplyStatus = (exampleServer true false).DereferenceIoHandleNoCheck 1 :=
  (RawReadWaitRoutine_ctrl_break (exampleServer true false)
    (exampleConsole 0 [INPUT_RECORD.KEY_EVENT letterADown] 0 { noCarry with ReadCount := 1 })
    (exampleMsg true 8 0) { BufferSize := 8, BufPtr := 0, HandleIndex := 1 } 2 false
    (by decide) (by decide) (by decide) (Or.inl rfl)).elim
    fun r hr => ⟨r, hr.1, hr.2.1, hr.2.2.1⟩

/-- C19 fails on the code: a raw Unicode read waits on a valid handle and the routine is
called for CTRL+BREAK (bit 2 of the satisfy parameter, CTRL+C not seen). It returns TRUE
with zero bytes, and the status in the reply message is `STATUS_SUCCESS`, not
`STATUS_ALERTED`. -/
theorem RawReadWaitRoutine_ctrl_break_counterexample :
    (RawReadWaitRoutine (exampleServer true false)
        (exampleConsole 0 [INPUT_RECORD.KEY_EVENT letterADown] 0 { noCarry with ReadCount := 1 })
        ({ exampleMsg true 8 0 with ReplyStatus := STATUS_UNSUCCESSFUL })
        { BufferSize := 8, BufPtr := 0, HandleIndex := 1 } 2 false).map
        (fun r => (r.RetVal, r.msg.ReplyStatus, r.msg.ReplyInformation, r.msg.ReadConsole.NumBytes,
          r.con.InputInfo.Queue.length))
      = some (true, STATUS_SUCCESS, 0, 0, 1) ∧
    STATUS_SUCCESS ≠ STATUS_ALERTED := by
  decide


/-! ## The completion of `CookedRead` -/

theorem subULONG_eq (a b : Nat) (hb : b ≤ a) (ha : a < 2 ^ 32) : subULONG a b = a - b := by
  unfold subULONG
  omega

/-- The scan for the LF stops at the first LF, if it lies among the code units looked at. -/
theorem findLinefeed_first (m : Mem) (j : Nat) (hm : m (j : Int) = UNICODE_LINEFEED) :
    ∀ (fuel i : Nat), i ≤ j → j < i + fuel →
      (∀ k, i ≤ k → k < j → m (k : Int) ≠ UNICODE_LINEFEED) →
      findLinefeed m fuel i = some j := by
  intro fuel
  induction fuel with
  | zero =>
    intro i h1 h2
    omega
  | succ n ih =>
    intro i h1 h2 h3
    unfold findLinefeed
    by_cases hi : i = j
    · subst hi
      rw [if_pos hm]
    · rw [if_neg (h3 i le_rfl (by omega))]
      exact ih (i + 1) (by omega) (by omega) (fun k hk1 hk2 => h3 k (by omega) hk2)

/-- A Unicode read stores no lead byte. -/
theorem CookedReadLead_unicode {W : Type} (cs : CookedSession) (con : Console W)
    (msg : CONSOLE_API_MSG) (hu : msg.ReadConsole.Unicode = true) :
    CookedReadLead cs con msg = (false, cs, con, msg) := by
  unfold CookedReadLead
  rw [if_neg]
  rintro ⟨h, _⟩
  rw [hu] at h
  exact Bool.noConfusion h

/-- A Unicode read is not translated. -/
theorem CookedReadTail_unicode {W : Type} (s : Server W) (Status : Int) (cs : CookedSession)
    (con : Console W) (msg : CONSOLE_API_MSG) (fWaitRoutine fAddDbcsLead : Bool) (NumBytes : Nat)
    (hu : msg.ReadConsole.Unicode = true) :
    CookedReadTail s Status cs con msg fWaitRoutine fAddDbcsLead NumBytes =
      { Status := Status, cs := cs,
        con := if fWaitRoutine = true then { con with lpCookedReadData := false } else con
        msg := PrepareReadConsoleCompletion
          { msg with
            ReadConsole := { msg.ReadConsole with ControlKeyState := cs.d.ControlKeyState } } } := by
  have hn : ¬(msg.ReadConsole.Unicode = false) := by
    rw [hu]
    exact Bool.noConfusion
  unfold CookedReadTail
  dsimp only
  rw [if_neg hn]

/-- The completion step of a read leaves the output buffer alone. -/
theorem PrepareReadConsoleCompletion_buffer (m : CONSOLE_API_MSG) :
    (PrepareReadConsoleCompletion m).OutputBuffer = m.OutputBuffer := by
  unfold PrepareReadConsoleCompletion SetReplyInformation
  dsimp only
  split_ifs <;> rfl

/-- Without CTRL+Z processing the completion step of a read reports the byte count it is
given. -/
theorem PrepareReadConsoleCompletion_count (m : CONSOLE_API_MSG)
    (h : m.ReadConsole.ProcessControlZ = false) :
    (PrepareReadConsoleCompletion m).ReadConsole.NumBytes = m.ReadConsole.NumBytes := by
  have hn : ¬(m.ReadConsole.ProcessControlZ = true ∧ 0 < m.ReadConsole.NumBytes ∧
      m.OutputBufferPresent = true ∧ m.OutputBuffer 0 = 0x1a) := by
    rintro ⟨h1, _⟩
    rw [h] at h1
    exact Bool.noConfusion h1
  unfold PrepareReadConsoleCompletion SetReplyInformation
  dsimp only
  rw [if_neg hn]

/-- The completed content of a Unicode read that does not fit the caller's buffer, or has
more than one line: what `CookedRead` does from `SetReplyStatus` on. -/
theorem CookedReadDeliver_split {W : Type} (s : Server W) (Status : Int) (cs1 : CookedSession)
    (con : Console W) (LineCount : Nat) (msg : CONSOLE_API_MSG) (fWaitRoutine : Bool)
    (j n : Nat)
    (hu : msg.ReadConsole.Unicode = true)
    (hsplit : cs1.d.UserBufferSize < cs1.d.BytesRead ∨ 1 < LineCount)
    (hlf : 1 < LineCount → cs1.d.BackupLimit (j : Int) = UNICODE_LINEFEED ∧
      (∀ k, k < j → cs1.d.BackupLimit (k : Int) ≠ UNICODE_LINEFEED) ∧
      2 * (j + 1) ≤ cs1.d.BytesRead)
    (hsize : cs1.d.BytesRead ≤ cs1.d.BufferSize) (h32 : cs1.d.BufferSize < 2 ^ 32)
    (hn : n = if 1 < LineCount then 2 * (j + 1) else cs1.d.UserBufferSize) :
    CookedReadDeliver s Status cs1 con LineCount msg fWaitRoutine =
      some (CookedReadTail s Status cs1
        { con with
          pClientInput :=
            { con.pClientInput with
              HANDLE_MULTI_LINE_INPUT :=
                if 1 < LineCount then true else con.pClientInput.HANDLE_MULTI_LINE_INPUT
              HANDLE_INPUT_PENDING := true
              BufPtr := cs1.d.BackupLimit
              BufPtrAllocated := true
              BytesAvailable := cs1.d.BytesRead - n
              CurrentBufPtr := n }
          copies := con.copies ++ [(cs1.UserBuffer, n)] }
        { SetReplyStatus msg Status with
          ReadConsole := { msg.ReadConsole with NumBytes := n }
          OutputBuffer := copyBytes msg.OutputBuffer cs1.UserBuffer (byteOf cs1.d.BackupLimit) n }
        fWaitRoutine false 0) := by
  have hu1 : (SetReplyStatus msg Status).ReadConsole.Unicode = true := hu
  have hnu : ¬((SetReplyStatus msg Status).ReadConsole.Unicode = false) := by
    rw [hu1]
    exact Bool.noConfusion
  have h2 : sizeof_WCHAR = 2 := rfl
  unfold CookedReadDeliver
  dsimp only
  rw [if_pos hsplit]
  simp only [CookedReadLead_unicode _ _ _ hu1, if_neg hnu]
  by_cases hl : 1 < LineCount
  · rcases hlf hl with ⟨hm, hfirst, hle⟩
    have hfind : findLinefeed cs1.d.BackupLimit (cs1.d.BufferSize / sizeof_WCHAR) 0 = some j :=
      findLinefeed_first _ j hm _ 0 (Nat.zero_le _) (by rw [h2]; omega)
        (fun k _ hk => hfirst k hk)
    have hnj : toULONG ((j + 1) * sizeof_WCHAR) = n := by
      rw [hn, if_pos hl, h2]
      unfold toULONG
      omega
    simp only [if_pos hl, hfind, Option.map_some', hnj]
    rw [subULONG_eq _ _ (by rw [hn, if_pos hl]; exact hle) (by omega)]
    rfl
  · have hov : cs1.d.UserBufferSize < cs1.d.BytesRead := by
      rcases hsplit with h | h
      · exact h
      · exact absurd h hl
    have hnj : cs1.d.UserBufferSize = n := by rw [hn, if_neg hl]
    simp only [if_neg hl, hnj]
    rw [subULONG_eq _ _ (by omega) (by omega)]
    rfl

/-- The completed content of a Unicode read of one line that fits the caller's buffer:
what `CookedRead` does from `SetReplyStatus` on. -/
theorem CookedReadDeliver_plain {W : Type} (s : Server W) (Status : Int) (cs1 : CookedSession)
    (con : Console W) (LineCount : Nat) (msg : CONSOLE_API_MSG) (fWaitRoutine : Bool)
    (hu : msg.ReadConsole.Unicode = true)
    (hfit : cs1.d.BytesRead ≤ cs1.d.UserBufferSize) (hl : LineCount ≤ 1) :
    CookedReadDeliver s Status cs1 con LineCount msg fWaitRoutine =
      some (CookedReadTail s Status cs1
        { con with copies := con.copies ++ [(cs1.UserBuffer, cs1.d.BytesRead)] }
        { SetReplyStatus msg Status with
          ReadConsole := { msg.ReadConsole with NumBytes := cs1.d.BytesRead }
          OutputBuffer := copyBytes msg.OutputBuffer cs1.UserBuffer (byteOf cs1.d.BackupLimit)
            cs1.d.BytesRead }
        fWaitRoutine false 0) := by
  have hu1 : (SetReplyStatus msg Status).ReadConsole.Unicode = true := hu
  have hnu : ¬((SetReplyStatus msg Status).ReadConsole.Unicode = false) := by
    rw [hu1]
    exact Bool.noConfusion
  have hns : ¬(cs1.d.UserBufferSize < cs1.d.BytesRead ∨ 1 < LineCount) := by omega
  have hnl : ¬(false = true ∧ cs1.d.UserBufferSize = 0) := fun h => Bool.noConfusion h.1
  have hno : ¬(cs1.d.UserBufferSize < cs1.d.BytesRead) := by omega
  unfold CookedReadDeliver
  dsimp only
  rw [if_neg hns]
  simp only [CookedReadLead_unicode _ _ _ hu1, if_neg hnu, if_neg hnl, if_neg hno]
  rfl

/-- Past the loop, a read that does not have to wait goes through the alias table and
delivers its content. -/
theorem CookedRead_of_loop {W : Type} (s : Server W) (cs : CookedSession) (con : Console W)
    (msg : CONSOLE_API_MSG) (fWaitRoutine : Bool) (st : CookedLoopState W)
    (hhandle : NT_SUCCESS (s.DereferenceIoHandleNoCheck cs.HandleIndex) = true)
    (hloop : CookedReadLoop s fWaitRoutine (streamReads con.InputInfo.Queue + 1)
      { Status := s.DereferenceIoHandleNoCheck cs.HandleIndex, d := cs.d, con := con } = some st)
    (hdone : st.Status ≠ CONSOLE_STATUS_WAIT) :
    CookedRead s cs con msg fWaitRoutine =
      CookedReadDeliver s st.Status
        { cs with d := (CookedReadAlias s st.d cs.ExeName cs.ExeNameLength st.con).1 }
        (CookedReadAlias s st.d cs.ExeName cs.ExeNameLength st.con).2.1
        (CookedReadAlias s st.d cs.ExeName cs.ExeNameLength st.con).2.2 msg fWaitRoutine := by
  have hnh : ¬(NT_SUCCESS (s.DereferenceIoHandleNoCheck cs.HandleIndex) = false) := by
    rw [hhandle]
    exact Bool.noConfusion
  unfold CookedRead
  dsimp only
  rw [if_neg hnh, hloop]
  dsimp only
  rw [if_pos hdone]
  rfl

/-- The alias step of `CookedRead` copies nothing to the caller's buffer and leaves the
handle and the input queue alone. -/
theorem CookedReadAlias_frame {W : Type} (s : Server W) (d : COOKED_READ_DATA)
    (ExeName : List Nat) (ExeNameLength : Nat) (con : Console W) :
    (CookedReadAlias s d ExeName ExeNameLength con).2.1.copies = con.copies ∧
    (CookedReadAlias s d ExeName ExeNameLength con).2.1.pClientInput = con.pClientInput ∧
    (CookedReadAlias s d ExeName ExeNameLength con).2.1.InputInfo = con.InputInfo ∧
    (CookedReadAlias s d ExeName ExeNameLength con).1.UserBufferSize = d.UserBufferSize ∧
    (CookedReadAlias s d ExeName ExeNameLength con).1.BufferSize = d.BufferSize := by
  unfold CookedReadAlias
  dsimp only
  split
  · split_ifs <;> exact ⟨rfl, rfl, rfl, rfl, rfl⟩
  · exact ⟨rfl, rfl, rfl, rfl, rfl⟩

/-- A call of `GetChar` that succeeds has made a stream read: the queue serves fewer
reads afterwards. -/
theorem GetCharLoop_shrinks (k : KeyTables)
    (fWait wantEditingKeys wantPopupKeys wantKeyState : Bool) :
    ∀ (fuel dwKeyState : Nat) (pInputInfo : INPUT_INFORMATION) (r : GetCharResult),
      GetCharLoop k fWait wantEditingKeys wantPopupKeys wantKeyState fuel dwKeyState
        pInputInfo = some r →
      NT_SUCCESS r.Status = true →
      streamReads r.InputInfo.Queue < streamReads pInputInfo.Queue := by
  intro fuel
  induction fuel with
  | zero =>
    intro _ _ _ h
    simp [GetCharLoop] at h
  | succ n ih =>
    intro ks info r h hs
    rcases info with ⟨mode, queue⟩
    rcases queue with _ | ⟨ev, rest⟩
    · cases fWait <;>
        simp [GetCharLoop, ReadInputBuffer, NT_SUCCESS, CONSOLE_STATUS_WAIT, STATUS_SUCCESS,
          STATUS_UNSUCCESSFUL] at h <;>
        (subst h; simp [NT_SUCCESS, CONSOLE_STATUS_WAIT, STATUS_UNSUCCESSFUL] at hs)
    · rcases ev with e | ty
      · rw [GetCharLoop_key] at h
        show streamReads r.InputInfo.Queue < streamReads (INPUT_RECORD.KEY_EVENT e :: rest)
        rw [streamReads_cons]
        cases hev : GetCharKeyEvent k mode wantEditingKeys wantPopupKeys (streamHead e) with
        | none =>
          rw [hev] at h
          have := ih _ ⟨mode, streamTail e rest⟩ r h hs
          exact Nat.lt_succ_of_lt this
        | some out =>
          rw [hev] at h
          cases h
          exact Nat.lt_succ_self _
      · rw [GetCharLoop_other] at h
        show streamReads r.InputInfo.Queue < streamReads (INPUT_RECORD.other ty :: rest)
        rw [streamReads_other]
        have := ih _ ⟨mode, rest⟩ r h hs
        exact Nat.lt_succ_of_lt this

/-- The loop of `CookedRead` copies nothing to the caller's buffer and leaves the handle
alone. -/
theorem CookedReadLoop_frame {W : Type} (s : Server W) (fWaitRoutine : Bool) :
    ∀ (fuel : Nat) (st0 st : CookedLoopState W),
      CookedReadLoop s fWaitRoutine fuel st0 = some st →
      st.con.copies = st0.con.copies ∧ st.con.pClientInput = st0.con.pClientInput := by
  intro fuel
  induction fuel with
  | zero =>
    intro _ _ h
    simp [CookedReadLoop] at h
  | succ n ih =>
    intro st0 st h
    unfold CookedReadLoop at h
    by_cases c1 : st0.d.BytesRead < st0.d.BufferSize
    · rw [if_pos c1] at h
      cases hg : GetChar s.toKeyTables st0.con.InputInfo true true false true with
      | none =>
        rw [hg] at h
        exact Option.noConfusion h
      | some r =>
        rw [hg] at h
        dsimp only at h
        split_ifs at h
        all_goals first
          | (cases h; exact ⟨rfl, rfl⟩)
          | (have key := ih _ _ h; exact key)
    · rw [if_neg c1] at h
      cases h
      exact ⟨rfl, rfl⟩

/-- The loop of `CookedRead` comes to an end when it is given one pass more than the queue
serves stream reads. -/
theorem CookedReadLoop_isSome {W : Type} (s : Server W) (fWaitRoutine : Bool) :
    ∀ (fuel : Nat) (st0 : CookedLoopState W),
      streamReads st0.con.InputInfo.Queue < fuel →
      (CookedReadLoop s fWaitRoutine fuel st0).isSome = true := by
  intro fuel
  induction fuel with
  | zero =>
    intro _ h
    exact absurd h (Nat.not_lt_zero _)
  | succ n ih =>
    intro st0 hlt
    unfold CookedReadLoop
    by_cases c1 : st0.d.BytesRead < st0.d.BufferSize
    · rw [if_pos c1]
      cases hg : GetChar s.toKeyTables st0.con.InputInfo true true false true with
      | none =>
        have := GetChar_isSome s.toKeyTables st0.con.InputInfo true true false true
        rw [hg] at this
        exact Bool.noConfusion this
      | some r =>
        dsimp only
        by_cases c2 : NT_SUCCESS r.Status = false
        · rw [if_pos c2]
          rfl
        · rw [if_neg c2]
          have hs : NT_SUCCESS r.Status = true := by
            cases hb : NT_SUCCESS r.Status
            · exact absurd hb c2
            · rfl
          have hq : streamReads r.InputInfo.Queue < n := by
            have := GetCharLoop_shrinks s.toKeyTables true true false true _ 0
              st0.con.InputInfo r hg hs
            omega
          split_ifs
          all_goals first
            | rfl
            | exact ih _ hq
    · rw [if_neg c1]
      rfl

/-- C16, as the code has it. Take a Unicode cooked read on a valid handle whose loop ends
in the state `st` without having to wait, and let `d1` be the session after the alias step
(the completed content is the first `d1.BytesRead` bytes of `d1.BackupLimit`) and
`LineCount` the line count. If the content exceeds the caller's capacity
`d1.UserBufferSize`, or `LineCount` is more than one with the first LF of the content at
index `j` and the first line, its LF included, no longer than the capacity, `CookedRead`
returns and has split the content at byte `n`, which is `2 * (j + 1)`, the bytes through
that LF, in the multi-line case and the capacity otherwise. `n` is within the capacity.
One `memmove` of `n` bytes has put the bytes `0 .. n - 1` of the content into the caller's
buffer and nothing else of the output buffer has changed; `HANDLE_INPUT_PENDING` is set,
and `HANDLE_MULTI_LINE_INPUT` in the multi-line case; the carry is the line buffer, with
`CurrentBufPtr` at byte `n` and `BytesAvailable = BytesRead - n`, so that `n +
BytesAvailable = BytesRead`. The count reported is `n` when CTRL+Z processing is off. A
first line longer than the capacity is left out: the source does not cap the copy there. -/
theorem CookedRead_split {W : Type} (s : Server W) (cs : CookedSession) (con : Console W)
    (msg : CONSOLE_API_MSG) (fWaitRoutine : Bool) (st : CookedLoopState W)
    (d1 : COOKED_READ_DATA) (con1 : Console W) (LineCount j n : Nat)
    (hhandle : NT_SUCCESS (s.DereferenceIoHandleNoCheck cs.HandleIndex) = true)
    (hloop : CookedReadLoop s fWaitRoutine (streamReads con.InputInfo.Queue + 1)
      { Status := s.DereferenceIoHandleNoCheck cs.HandleIndex, d := cs.d, con := con } = some st)
    (hdone : st.Status ≠ CONSOLE_STATUS_WAIT)
    (halias : CookedReadAlias s st.d cs.ExeName cs.ExeNameLength st.con = (d1, con1, LineCount))
    (hu : msg.ReadConsole.Unicode = true)
    (hsplit : d1.UserBufferSize < d1.BytesRead ∨ 1 < LineCount)
    (hlf : 1 < LineCount → d1.BackupLimit (j : Int) = UNICODE_LINEFEED ∧
      (∀ k, k < j → d1.BackupLimit (k : Int) ≠ UNICODE_LINEFEED) ∧ 2 * (j + 1) ≤ d1.BytesRead)
    (hfit : 1 < LineCount → 2 * (j + 1) ≤ d1.UserBufferSize)
    (hsize : d1.BytesRead ≤ d1.BufferSize) (h32 : d1.BufferSize < 2 ^ 32)
    (hn : n = if 1 < LineCount then 2 * (j + 1) else d1.UserBufferSize) :
    ∃ r, CookedRead s cs con msg fWaitRoutine = some r ∧
      r.Status = st.Status ∧
      r.con.InputInfo = st.con.InputInfo ∧
      n ≤ d1.UserBufferSize ∧
      r.con.copies = con.copies ++ [(cs.UserBuffer, n)] ∧
      (∀ b, b < n → r.msg.OutputBuffer (cs.UserBuffer + b) = byteOf d1.BackupLimit b) ∧
      (∀ b, b < cs.UserBuffer ∨ cs.UserBuffer + n ≤ b →
        r.msg.OutputBuffer b = msg.OutputBuffer b) ∧
      r.con.pClientInput.HANDLE_INPUT_PENDING = true ∧
      (1 < LineCount → r.con.pClientInput.HANDLE_MULTI_LINE_INPUT = true) ∧
      r.con.pClientInput.BufPtr = d1.BackupLimit ∧
      r.con.pClientInput.CurrentBufPtr = n ∧
      r.con.pClientInput.BytesAvailable = d1.BytesRead - n ∧
      n + r.con.pClientInput.BytesAvailable = d1.BytesRead ∧
      (msg.ReadConsole.ProcessControlZ = false → r.msg.ReadConsole.NumBytes = n) := by
  have hfr := CookedReadAlias_frame s st.d cs.ExeName cs.ExeNameLength st.con
  rw [halias] at hfr
  have hlp := CookedReadLoop_frame s fWaitRoutine _ _ _ hloop
  have hcopies : con1.copies = con.copies := hfr.1.trans hlp.1
  have hnle : n ≤ d1.BytesRead := by
    by_cases hl : 1 < LineCount
    · rw [hn, if_pos hl]
      exact (hlf hl).2.2
    · rw [hn, if_neg hl]
      rcases hsplit with h | h
      · exact le_of_lt h
      · exact absurd h hl
  rw [CookedRead_of_loop s cs con msg fWaitRoutine st hhandle hloop hdone, halias]
  dsimp only
  rw [CookedReadDeliver_split s st.Status { cs with d := d1 } con1 LineCount msg fWaitRoutine
    j n hu hsplit hlf hsize h32 hn]
  simp only [CookedReadTail_unicode, hu]
  refine ⟨_, rfl, rfl, ?_, ?_, ?_, ?_, ?_, ?_, ?_, ?_, ?_, ?_, ?_, ?_⟩
  · cases fWaitRoutine <;> exact hfr.2.2.1
  · by_cases hl : 1 < LineCount
    · rw [hn, if_pos hl]
      exact hfit hl
    · rw [hn, if_neg hl]
  · cases fWaitRoutine <;> exact congrArg (fun l => l ++ [(cs.UserBuffer, n)]) hcopies
  · intro b hb
    rw [PrepareReadConsoleCompletion_buffer]
    show copyBytes msg.OutputBuffer cs.UserBuffer (byteOf d1.BackupLimit) n (cs.UserBuffer + b) = _
    unfold copyBytes
    rw [if_pos ⟨Nat.le_add_right _ _, Nat.add_lt_add_left hb _⟩, Nat.add_sub_cancel_left]
  · intro b hb
    rw [PrepareReadConsoleCompletion_buffer]
    show copyBytes msg.OutputBuffer cs.UserBuffer (byteOf d1.BackupLimit) n b = _
    unfold copyBytes
    rw [if_neg (by omega)]
  · cases fWaitRoutine <;> rfl
  · intro hl
    cases fWaitRoutine <;> exact if_pos hl
  · cases fWaitRoutine <;> rfl
  · cases fWaitRoutine <;> rfl
  · cases fWaitRoutine <;> rfl
  · have : (d1.BytesRead - n) + n = d1.BytesRead := Nat.sub_add_cancel hnle
    cases fWaitRoutine <;> exact (Nat.add_comm _ _).trans this
  · intro hz
    exact PrepareReadConsoleCompletion_count _ hz

/-- The loop of the line read of the examples, with the keys `x` and ENTER waiting, comes
to an end. -/
theorem lineRead_loop_isSome :
    (CookedReadLoop (exampleServer false false) false
      (streamReads (typed [letterXDown, enterDown]).InputInfo.Queue + 1)
      { Status := (exampleServer false false).DereferenceIoHandleNoCheck (lineRead 512).HandleIndex,
        d := (lineRead 512).d, con := typed [letterXDown, enterDown] }).isSome = true := by
  decide

/-- An instance of C16, as the code has it: a Unicode line read into a buffer of 512
bytes, the keys `x` and ENTER waiting, the line `x` being an alias of the two lines
`echo a` and `echo b`. The first line, 16 bytes, is delivered and the other 16 bytes stay
with the handle. -/
theorem CookedRead_split_witness :
    ∃ r, CookedRead (exampleServer false false) (lineRead 512) (typed [letterXDown, enterDown])
        (exampleMsg true 512 0) false = some r ∧
      r.con.copies = [(0, 16)] ∧
      r.con.pClientInput.HANDLE_INPUT_PENDING = true ∧
      r.con.pClientInput.HANDLE_MULTI_LINE_INPUT = true ∧
      r.con.pClientInput.CurrentBufPtr = 16 ∧
      16 + r.con.pClientInput.BytesAvailable = 32 ∧
      r.msg.ReadConsole.NumBytes = 16 := by
  obtain ⟨r, hr, _, _, _, hcop, _, _, hpend, hmulti, _, hcur, _, hsum, hcnt⟩ :=
    CookedRead_split (exampleServer false false) (lineRead 512) (typed [letterXDown, enterDown])
      (exampleMsg true 512 0) false (Option.get _ lineRead_loop_isSome) _ _ _ 7 16 (by decide)
      (Option.some_get lineRead_loop_isSome).symm (by decide) rfl rfl (by decide) (by decide)
      (by decide) (by decide) (by decide) (by decide)
  exact ⟨r, hr, hcop, hpend, hmulti (by decide), hcur, hsum.trans (by decide), hcnt rfl⟩

/-- The loop of a line read into a caller's buffer of 8 bytes, with the keys `x` and ENTER
waiting, comes to an end. -/
theorem lineRead8_loop_isSome :
    (CookedReadLoop (exampleServer false false) false
      (streamReads (typed [letterXDown, enterDown]).InputInfo.Queue + 1)
      { Status := (exampleServer false false).DereferenceIoHandleNoCheck (lineRead 8).HandleIndex,
        d := (lineRead 8).d, con := typed [letterXDown, enterDown] }).isSome = true := by
  decide

/-- C16 fails on the code when the first line of a multi-line expansion is longer than the
caller's buffer. A Unicode line read into a caller's buffer of 8 bytes finds the keys `x`
and ENTER, and the line `x` is an alias of the two lines `echo a` and `echo b`, 32 bytes
in all. The content is split at byte 16, behind the first LF: the `memmove` to the
caller's buffer has 16 bytes, 8 more than the buffer holds, 16 is the count reported, and
the carry starts at byte 16 with 16 bytes. The bytes 8 to 15 of the content (a space, `a`,
CR, LF) are written past the caller's buffer and are not in the carry. -/
theorem CookedRead_split_counterexample :
    (CookedRead (exampleServer false false) (lineRead 8) (typed [letterXDown, enterDown])
        (exampleMsg true 8 0) false).map
      (fun r => (r.Status, r.cs.d.UserBufferSize, r.con.copies, r.msg.ReadConsole.NumBytes))
      = some (STATUS_SUCCESS, 8, [(0, 16)], 16) ∧
    (CookedRead (exampleServer false false) (lineRead 8) (typed [letterXDown, enterDown])
        (exampleMsg true 8 0) false).map
      (fun r => (r.cs.d.BytesRead, r.con.pClientInput.HANDLE_INPUT_PENDING,
        r.con.pClientInput.CurrentBufPtr, r.con.pClientInput.BytesAvailable))
      = some (32, true, 16, 16) ∧
    (List.range 4).map (fun (i : Nat) => lineOf exampleAlias ((4 + i : Nat) : Int))
      = [0x20, 0x61, 0x0D, 0x0A] := by
  decide

/-- C18, as the code has it. Take a Unicode cooked read on a valid handle whose loop ends in
the state `st` without having to wait, and let `d1` be the session after the alias step
and `LineCount` the line count. `CookedRead` returns after one `memmove` of `n` bytes into
the caller's buffer. For a single line `n` is within the capacity `d1.UserBufferSize`: it
is the capacity when the content exceeds it and `d1.BytesRead` otherwise. For an alias
expansion of more than one line, its first LF at index `j` of the content, `n` is
`2 * (j + 1)`, the bytes through that LF, whatever the capacity is. -/
theorem CookedRead_copy_length {W : Type} (s : Server W) (cs : CookedSession)
    (con : Console W) (msg : CONSOLE_API_MSG) (fWaitRoutine : Bool) (st : CookedLoopState W)
    (d1 : COOKED_READ_DATA) (con1 : Console W) (LineCount j : Nat)
    (hhandle : NT_SUCCESS (s.DereferenceIoHandleNoCheck cs.HandleIndex) = true)
    (hloop : CookedReadLoop s fWaitRoutine (streamReads con.InputInfo.Queue + 1)
      { Status := s.DereferenceIoHandleNoCheck cs.HandleIndex, d := cs.d, con := con } = some st)
    (hdone : st.Status ≠ CONSOLE_STATUS_WAIT)
    (halias : CookedReadAlias s st.d cs.ExeName cs.ExeNameLength st.con = (d1, con1, LineCount))
    (hu : msg.ReadConsole.Unicode = true)
    (hlf : 1 < LineCount → d1.BackupLimit (j : Int) = UNICODE_LINEFEED ∧
      (∀ k, k < j → d1.BackupLimit (k : Int) ≠ UNICODE_LINEFEED) ∧ 2 * (j + 1) ≤ d1.BytesRead)
    (hsize : d1.BytesRead ≤ d1.BufferSize) (h32 : d1.BufferSize < 2 ^ 32) :
    ∃ r n, CookedRead s cs con msg fWaitRoutine = some r ∧
      r.con.copies = con.copies ++ [(cs.UserBuffer, n)] ∧
      (LineCount ≤ 1 → n = min d1.BytesRead d1.UserBufferSize) ∧
      (1 < LineCount → n = 2 * (j + 1)) := by
  have hfr := CookedReadAlias_frame s st.d cs.ExeName cs.ExeNameLength st.con
  rw [halias] at hfr
  have hlp := CookedReadLoop_frame s fWaitRoutine _ _ _ hloop
  have hcopies : con1.copies = con.copies := hfr.1.trans hlp.1
  rw [CookedRead_of_loop s cs con msg fWaitRoutine st hhandle hloop hdone, halias]
  dsimp only
  by_cases hsplit : d1.UserBufferSize < d1.BytesRead ∨ 1 < LineCount
  · rw [CookedReadDeliver_split s st.Status { cs with d := d1 } con1 LineCount msg fWaitRoutine
      j (if 1 < LineCount then 2 * (j + 1) else d1.UserBufferSize) hu hsplit hlf hsize h32 rfl]
    simp only [CookedReadTail_unicode, hu]
    refine ⟨_, if 1 < LineCount then 2 * (j + 1) else d1.UserBufferSize, rfl, ?_, ?_, ?_⟩
    · cases fWaitRoutine <;>
        exact congrArg (fun l => l ++ [(cs.UserBuffer, _)]) hcopies
    · intro hl
      have hnl : ¬(1 < LineCount) := by omega
      rw [if_neg hnl]
      rcases hsplit with h | h
      · exact (Nat.min_eq_right (le_of_lt h)).symm
      · exact absurd h hnl
    · intro hl
      rw [if_pos hl]
  · have hfit : d1.BytesRead ≤ d1.UserBufferSize := by omega
    have hl : LineCount ≤ 1 := by omega
    rw [CookedReadDeliver_plain s st.Status { cs with d := d1 } con1 LineCount msg fWaitRoutine
      hu hfit hl]
    simp only [CookedReadTail_unicode, hu]
    refine ⟨_, d1.BytesRead, rfl, ?_, ?_, ?_⟩
    · cases fWaitRoutine <;>
        exact congrArg (fun l => l ++ [(cs.UserBuffer, _)]) hcopies
    · intro _
      exact (Nat.min_eq_left hfit).symm
    · intro h
      omega

/-- The loop of a line read into a caller's buffer of 4 bytes, with the keys `x` and ENTER
waiting, comes to an end. -/
theorem lineRead4_loop_isSome :
    (CookedReadLoop (exampleServer false false) false
      (streamReads (typed [letterXDown, enterDown]).InputInfo.Queue + 1)
      { Status := (exampleServer false false).DereferenceIoHandleNoCheck (lineRead 4).HandleIndex,
        d := (lineRead 4).d, con := typed [letterXDown, enterDown] }).isSome = true := by
  decide

/-- An instance of C18, as the code has it: a Unicode line read into a caller's buffer of 4
bytes, the keys `x` and ENTER waiting, the line `x` being an alias of the two lines
`echo a` and `echo b`. The `memmove` into the caller's buffer has 16 bytes. -/
theorem CookedRead_copy_length_witness :
    ∃ r, CookedRead (exampleServer false false) (lineRead 4) (typed [letterXDown, enterDown])
        (exampleMsg true 4 0) false = some r ∧
      r.con.copies = [(0, 16)] := by
  obtain ⟨r, n, hr, hcop, _, hmulti⟩ :=
    CookedRead_copy_length (exampleServer false false) (lineRead 4)
      (typed [letterXDown, enterDown]) (exampleMsg true 4 0) false
      (Option.get _ lineRead4_loop_isSome) _ _ _ 7 (by decide)
      (Option.some_get lineRead4_loop_isSome).symm (by decide) rfl rfl (by decide) (by decide)
      (by decide)
  have hn : n = 16 := hmulti (by decide)
  rw [hn] at hcop
  exact ⟨r, hr, hcop⟩

/-- C18 fails on the code. A Unicode line read into a caller's buffer of 4 bytes
(`UserBufferSize` 4, line buffer of 512 bytes, echo on) finds the keys `x` and ENTER
waiting, and the line `x` is an alias of the two lines `echo a` and `echo b`. `CookedRead`
completes with success and its `memmove` into the caller's buffer has 16 bytes, the first
line with its CR and LF: the bytes 4 to 15 lie past the caller's buffer. 16 more bytes
stay with the handle. -/
theorem CookedRead_copy_length_counterexample :
    (CookedRead (exampleServer false false) (lineRead 4) (typed [letterXDown, enterDown])
        (exampleMsg true 4 0) false).map
      (fun r => (r.Status, r.cs.d.UserBufferSize, r.con.copies, r.msg.ReadConsole.NumBytes))
      = some (STATUS_SUCCESS, 4, [(0, 16)], 16) ∧
    (CookedRead (exampleServer false false) (lineRead 4) (typed [letterXDown, enterDown])
        (exampleMsg true 4 0) false).map
      (fun r => (outputBytes r.msg 17, r.con.pClientInput.BytesAvailable))
      = some ([0x65, 0, 0x63, 0, 0x68, 0, 0x6F, 0, 0x20, 0, 0x61, 0, 0x0D, 0, 0x0A, 0, 0], 16) ∧
    ¬(16 ≤ 4) := by
  decide

/-! ## `PrepareReadConsoleCompletion` and the wait routines -/

/-- C29. `PrepareReadConsoleCompletion` publishes `a->NumBytes` as the reply information.
When CTRL+Z processing is enabled, `NumBytes > 0`, the output buffer is present and its
first byte is 0x1A, it sets `NumBytes` to zero and publishes zero; in every other case
`NumBytes` is unchanged; nothing else of the message changes. Applying the routine twice
gives the same result as applying it once. -/
theorem PrepareReadConsoleCompletion_publishes (m : CONSOLE_API_MSG) :
    (PrepareReadConsoleCompletion m).ReplyInformation
      = (PrepareReadConsoleCompletion m).ReadConsole.NumBytes ∧
    ((m.ReadConsole.ProcessControlZ = true ∧ 0 < m.ReadConsole.NumBytes ∧
        m.OutputBufferPresent = true ∧ m.OutputBuffer 0 = 0x1a) →
      PrepareReadConsoleCompletion m =
        { m with ReadConsole := { m.ReadConsole with NumBytes := 0 }, ReplyInformation := 0 }) ∧
    (¬(m.ReadConsole.ProcessControlZ = true ∧ 0 < m.ReadConsole.NumBytes ∧
        m.OutputBufferPresent = true ∧ m.OutputBuffer 0 = 0x1a) →
      PrepareReadConsoleCompletion m = { m with ReplyInformation := m.ReadConsole.NumBytes }) ∧
    PrepareReadConsoleCompletion (PrepareReadConsoleCompletion m)
      = PrepareReadConsoleCompletion m := by
  have hz : ∀ m1 : CONSOLE_API_MSG, m1.ReadConsole.NumBytes = 0 →
      PrepareReadConsoleCompletion m1 = { m1 with ReplyInformation := m1.ReadConsole.NumBytes } := by
    intro m1 h1
    have hn : ¬(m1.ReadConsole.ProcessControlZ = true ∧ 0 < m1.ReadConsole.NumBytes ∧
        m1.OutputBufferPresent = true ∧ m1.OutputBuffer 0 = 0x1a) := by
      rintro ⟨_, h, _⟩
      omega
    unfold PrepareReadConsoleCompletion SetReplyInformation
    dsimp only
    rw [if_neg hn]
  have hpos : (m.ReadConsole.ProcessControlZ = true ∧ 0 < m.ReadConsole.NumBytes ∧
        m.OutputBufferPresent = true ∧ m.OutputBuffer 0 = 0x1a) →
      PrepareReadConsoleCompletion m =
        { m with ReadConsole := { m.ReadConsole with NumBytes := 0 }, ReplyInformation := 0 } := by
    intro h
    unfold PrepareReadConsoleCompletion SetReplyInformation
    dsimp only
    rw [if_pos h]
  have hneg : ¬(m.ReadConsole.ProcessControlZ = true ∧ 0 < m.ReadConsole.NumBytes ∧
        m.OutputBufferPresent = true ∧ m.OutputBuffer 0 = 0x1a) →
      PrepareReadConsoleCompletion m = { m with ReplyInformation := m.ReadConsole.NumBytes } := by
    intro h
    unfold PrepareReadConsoleCompletion SetReplyInformation
    dsimp only
    rw [if_neg h]
  refine ⟨?_, hpos, hneg, ?_⟩
  · by_cases h : (m.ReadConsole.ProcessControlZ = true ∧ 0 < m.ReadConsole.NumBytes ∧
        m.OutputBufferPresent = true ∧ m.OutputBuffer 0 = 0x1a)
    · rw [hpos h]
    · rw [hneg h]
  · by_cases h : (m.ReadConsole.ProcessControlZ = true ∧ 0 < m.ReadConsole.NumBytes ∧
        m.OutputBufferPresent = true ∧ m.OutputBuffer 0 = 0x1a)
    · rw [hpos h, hz _ rfl]
    · rw [hneg h]
      by_cases h2 : (m.ReadConsole.ProcessControlZ = true ∧ 0 < m.ReadConsole.NumBytes ∧
          m.OutputBufferPresent = true ∧ m.OutputBuffer 0 = 0x1a)
      · exact absurd h2 h
      · unfold PrepareReadConsoleCompletion SetReplyInformation
        dsimp only
        rw [if_neg h2]

/-- An instance of C29: a read with CTRL+Z processing that has stored the two bytes of
U+001A at the front of the output buffer reports no byte, once or twice completed. -/
theorem PrepareReadConsoleCompletion_publishes_witness :
    (PrepareReadConsoleCompletion
      { exampleMsg true 2 0 with
        ReadConsole := { (exampleMsg true 2 0).ReadConsole with ProcessControlZ := true }
        OutputBuffer := fun b => if b = 0 then 0x1a else 0 }).ReplyInformation = 0 ∧
    (PrepareReadConsoleCompletion (exampleMsg true 2 0)).ReplyInformation = 2 :=
  ⟨((PrepareReadConsoleCompletion_publishes
      { exampleMsg true 2 0 with
        ReadConsole := { (exampleMsg true 2 0).ReadConsole with ProcessControlZ := true }
        OutputBuffer := fun b => if b = 0 then 0x1a else 0 }).2.1 (by decide)) ▸ rfl,
   ((PrepareReadConsoleCompletion_publishes (exampleMsg true 2 0)).2.2.1 (by decide)) ▸ rfl⟩

/-- C21. `CookedReadWaitRoutine` invoked for a cooked read on a valid handle with the
CTRL+C or the CTRL+BREAK bit in the satisfy parameter returns TRUE (consumed) with
`STATUS_ALERTED` in the reply message. It lowers the read count of the handle and clears
the pointer to the cooked read data, and leaves everything else as it was: the byte count
and the reply information of the message (zero, as `ReadChars` left them when the read was
suspended), the input buffer with its event queue, and the carry state of the handle. -/
theorem CookedReadWaitRoutine_ctrl {W : Type} (s : Server W) (con : Console W)
    (msg : CONSOLE_API_MSG) (cs : CookedSession)
    (Popup : Option (CookedSession → Console W → CONSOLE_API_MSG →
      Int × CookedSession × Console W × CONSOLE_API_MSG))
    (pvSatisfyParameter : Nat) (fThreadDying : Bool)
    (hhandle : NT_SUCCESS (s.DereferenceIoHandleNoCheck cs.HandleIndex) = true)
    (hctrl : pvSatisfyParameter &&& s.CONSOLE_CTRL_C_SEEN ≠ 0 ∨
      pvSatisfyParameter &&& s.CONSOLE_CTRL_BREAK_SEEN ≠ 0) :
    CookedReadWaitRoutine s con msg cs Popup pvSatisfyParameter fThreadDying =
      some { RetVal := true
             cs := cs
             con := { con with
                      pClientInput :=
                        { con.pClientInput with ReadCount := con.pClientInput.ReadCount - 1 }
                      lpCookedReadData := false }
             msg := { msg with ReplyStatus := STATUS_ALERTED } } := by
  have hnh : ¬(NT_SUCCESS (s.DereferenceIoHandleNoCheck cs.HandleIndex) = false) := by
    rw [hhandle]
    exact Bool.noConfusion
  have hc : pvSatisfyParameter &&& (s.CONSOLE_CTRL_C_SEEN ||| s.CONSOLE_CTRL_BREAK_SEEN) ≠ 0 := by
    rw [Nat.and_or_distrib_left]
    intro h
    have h1 : pvSatisfyParameter &&& s.CONSOLE_CTRL_C_SEEN = 0 := by
      apply Nat.eq_of_testBit_eq
      intro i
      have := congrArg (fun n => Nat.testBit n i) h
      simp only [Nat.testBit_or, Nat.zero_testBit, Bool.or_eq_false_iff] at this
      rw [this.1, Nat.zero_testBit]
    have h2 : pvSatisfyParameter &&& s.CONSOLE_CTRL_BREAK_SEEN = 0 := by
      apply Nat.eq_of_testBit_eq
      intro i
      have := congrArg (fun n => Nat.testBit n i) h
      simp only [Nat.testBit_or, Nat.zero_testBit, Bool.or_eq_false_iff] at this
      rw [this.2, Nat.zero_testBit]
    rcases hctrl with h3 | h3
    · exact h3 h1
    · exact h3 h2
  unfold CookedReadWaitRoutine
  dsimp only
  rw [if_neg hnh, if_pos hc]
  rfl

/-- An instance of C21: a cooked read that waits with the text `xy` typed is woken for
CTRL+C. -/
theorem CookedReadWaitRoutine_ctrl_witness :
    CookedReadWaitRoutine (exampleServer false false)
        (exampleConsole 7 [] 0 { noCarry with ReadCount := 1 }) (exampleMsg true 0 0)
        { lineRead 80 with d := xySession } none 1 false =
      some { RetVal := true
             cs := { lineRead 80 with d := xySession }
             con := { exampleConsole 7 [] 0 { noCarry with ReadCount := 1 } with
                      pClientInput :=
                        { (exampleConsole 7 [] 0 { noCarry with ReadCount := 1 }).pClientInput with
                          ReadCount :=
                            (exampleConsole 7 [] 0 { noCarry with ReadCount := 1 }).pClientInput.ReadCount
                              - 1 }
                      lpCookedReadData := false }
             msg := { exampleMsg true 0 0 with ReplyStatus := STATUS_ALERTED } } :=
  CookedReadWaitRoutine_ctrl (exampleServer false false) _ _ _ none 1 false (by decide)
    (Or.inl (by decide))

/-- The loop of `CookedRead` is left through `CookedReadLoopFailed` when `GetChar` does not
succeed. -/
theorem CookedReadLoop_failed {W : Type} (s : Server W) (fWaitRoutine : Bool) (fuel : Nat)
    (st : CookedLoopState W) (r : GetCharResult)
    (hlt : st.d.BytesRead < st.d.BufferSize)
    (hg : GetChar s.toKeyTables st.con.InputInfo true true false true = some r)
    (hf : NT_SUCCESS r.Status = false) :
    CookedReadLoop s fWaitRoutine (fuel + 1) st = some (CookedReadLoopFailed fWaitRoutine st r) := by
  unfold CookedReadLoop
  rw [if_pos hlt, hg]
  dsimp only
  rw [if_pos hf]
  rfl

/-- `CookedRead` on a valid handle is its loop followed by `CookedReadAfterLoop`. -/
theorem CookedRead_afterLoop {W : Type} (s : Server W) (cs : CookedSession) (con : Console W)
    (msg : CONSOLE_API_MSG) (fWaitRoutine : Bool)
    (hhandle : NT_SUCCESS (s.DereferenceIoHandleNoCheck cs.HandleIndex) = true) :
    CookedRead s cs con msg fWaitRoutine =
      (CookedReadLoop s fWaitRoutine (streamReads con.InputInfo.Queue + 1)
        { Status := s.DereferenceIoHandleNoCheck cs.HandleIndex, d := cs.d, con := con }).bind
        (CookedReadAfterLoop s cs msg fWaitRoutine) := by
  have hnh : ¬(NT_SUCCESS (s.DereferenceIoHandleNoCheck cs.HandleIndex) = false) := by
    rw [hhandle]
    exact Bool.noConfusion
  unfold CookedRead
  dsimp only
  rw [if_neg hnh]
  cases CookedReadLoop s fWaitRoutine (streamReads con.InputInfo.Queue + 1)
    { Status := s.DereferenceIoHandleNoCheck cs.HandleIndex, d := cs.d, con := con } with
  | none => rfl
  | some st => rfl

/-- The loop of `CookedRead` records nothing in the history. -/
theorem CookedReadLoop_history {W : Type} (s : Server W) (fWaitRoutine : Bool) :
    ∀ (fuel : Nat) (st0 st : CookedLoopState W),
      CookedReadLoop s fWaitRoutine fuel st0 = some st →
      st.con.AddCommandCalls = st0.con.AddCommandCalls := by
  intro fuel
  induction fuel with
  | zero =>
    intro _ _ h
    simp [CookedReadLoop] at h
  | succ n ih =>
    intro st0 st h
    unfold CookedReadLoop at h
    by_cases c1 : st0.d.BytesRead < st0.d.BufferSize
    · rw [if_pos c1] at h
      cases hg : GetChar s.toKeyTables st0.con.InputInfo true true false true with
      | none =>
        rw [hg] at h
        exact Option.noConfusion h
      | some r =>
        rw [hg] at h
        dsimp only at h
        split_ifs at h
        all_goals first
          | (cases h; rfl)
          | (have key := ih _ _ h; exact key)
    · rw [if_neg c1] at h
      cases h
      rfl

/-- The first index below `n` at which a test succeeds is what `find?` finds in
`List.range n`. -/
theorem find_range_first (p : Nat → Bool) (i : Nat) (hp : p i = true)
    (hfirst : ∀ k, k < i → p k = false) :
    ∀ n, i < n → (List.range n).find? p = some i := by
  intro n
  induction n with
  | zero =>
    intro h
    omega
  | succ n ih =>
    intro h
    rw [List.range_succ, List.find?_append]
    by_cases hin : i < n
    · rw [ih hin]
      rfl
    · have hi : i = n := by omega
      subst hi
      have hnone : (List.range i).find? p = none := by
        rw [List.find?_eq_none]
        intro x hx
        rw [hfirst x (List.mem_range.1 hx)]
        exact Bool.false_ne_true
      rw [hnone]
      simp [hp]

/-- The alias step of `CookedRead` with echo on and a CR in the content: the code units
before the first CR are handed to `AddCommand`, once. -/
theorem CookedReadAlias_history {W : Type} (s : Server W) (d : COOKED_READ_DATA)
    (ExeName : List Nat) (ExeNameLength : Nat) (con : Console W) (i : Nat)
    (hecho : d.Echo = true)
    (hcr : d.BackupLimit (i : Int) = UNICODE_CARRIAGERETURN)
    (hfirst : ∀ k, k < i → d.BackupLimit (k : Int) ≠ UNICODE_CARRIAGERETURN)
    (hi : i < d.BytesRead / sizeof_WCHAR) (h16 : i * sizeof_WCHAR < 2 ^ 16) :
    (CookedReadAlias s d ExeName ExeNameLength con).2.1.AddCommandCalls =
      con.AddCommandCalls ++ [(List.range i).map (fun (j : Nat) => d.BackupLimit (j : Int))] := by
  have hfind : (List.range (d.BytesRead / sizeof_WCHAR)).find?
      (fun (i : Nat) => decide (d.BackupLimit (i : Int) = UNICODE_CARRIAGERETURN)) = some i :=
    find_range_first _ i (decide_eq_true hcr) (fun k hk => decide_eq_false (hfirst k hk)) _ hi
  have hlen : i * sizeof_WCHAR % 2 ^ 16 / sizeof_WCHAR = i := by
    rw [Nat.mod_eq_of_lt h16]
    exact Nat.mul_div_cancel _ (by decide)
  unfold CookedReadAlias
  simp only [if_pos hecho, hfind, hlen]
  split_ifs <;> rfl

/-- Storing a carried lead byte records nothing in the history. -/
theorem CookedReadLead_history {W : Type} (cs : CookedSession) (con : Console W)
    (msg : CONSOLE_API_MSG) :
    (CookedReadLead cs con msg).2.2.1.AddCommandCalls = con.AddCommandCalls := by
  unfold CookedReadLead
  split_ifs <;> rfl

/-- The end of `CookedRead` records nothing in the history. -/
theorem CookedReadTail_history {W : Type} (s : Server W) (Status : Int) (cs : CookedSession)
    (con : Console W) (msg : CONSOLE_API_MSG) (fWaitRoutine fAddDbcsLead : Bool)
    (NumBytes : Nat) :
    (CookedReadTail s Status cs con msg fWaitRoutine fAddDbcsLead NumBytes).con.AddCommandCalls
      = con.AddCommandCalls := by
  unfold CookedReadTail
  dsimp only
  cases fWaitRoutine <;> split_ifs <;> rfl

/-- The delivery of the content of a cooked read records nothing in the history. -/
theorem CookedReadDeliver_history {W : Type} (s : Server W) (Status : Int) (cs1 : CookedSession)
    (con : Console W) (LineCount : Nat) (msg : CONSOLE_API_MSG) (fWaitRoutine : Bool)
    (r : CookedReadResult W)
    (h : CookedReadDeliver s Status cs1 con LineCount msg fWaitRoutine = some r) :
    r.con.AddCommandCalls = con.AddCommandCalls := by
  unfold CookedReadDeliver at h
  dsimp only at h
  by_cases c1 : cs1.d.UserBufferSize < cs1.d.BytesRead ∨ 1 < LineCount
  · rw [if_pos c1] at h
    split at h
    · exact Option.noConfusion h
    · cases h
      rw [CookedReadTail_history]
      dsimp only
      rw [CookedReadLead_history]
      split_ifs <;> rfl
  · rw [if_neg c1] at h
    split_ifs at h
    all_goals cases h
    all_goals first
      | exact CookedReadLead_history _ _ _
      | (rw [CookedReadTail_history]; exact CookedReadLead_history _ _ _)

/-- The alias step of `CookedRead` with echo off does nothing: the session and the console
are as they were and the line count is 1. -/
theorem CookedReadAlias_quiet {W : Type} (s : Server W) (d : COOKED_READ_DATA)
    (ExeName : List Nat) (ExeNameLength : Nat) (con : Console W) (hecho : d.Echo = false) :
    CookedReadAlias s d ExeName ExeNameLength con = (d, con, 1) := by
  have hne : ¬(d.Echo = true) := by
    rw [hecho]
    exact Bool.noConfusion
  unfold CookedReadAlias
  simp only [if_neg hne]

/-- C28, amended. Take a cooked read whose loop ends, without having to wait, in the state
`st`. With echo on and a CR in the content (the first CR at index `i`, the line before it
shorter than 65536 bytes), `CookedRead` hands the line to `AddCommand` exactly once, and
what it hands over is exactly the content strictly before the first CR, as typed, before
the alias step replaces it: the alias step records it, and nothing after that step changes
the record. With echo off, `CookedRead` records nothing: the calls of `AddCommand` are
after the alias step, and after the read, what they were before it. -/
theorem CookedRead_history {W : Type} (s : Server W) (cs : CookedSession) (con : Console W)
    (msg : CONSOLE_API_MSG) (fWaitRoutine : Bool) (st : CookedLoopState W)
    (hhandle : NT_SUCCESS (s.DereferenceIoHandleNoCheck cs.HandleIndex) = true)
    (hloop : CookedReadLoop s fWaitRoutine (streamReads con.InputInfo.Queue + 1)
      { Status := s.DereferenceIoHandleNoCheck cs.HandleIndex, d := cs.d, con := con } = some st)
    (hdone : st.Status ≠ CONSOLE_STATUS_WAIT) :
    (st.d.Echo = true → ∀ i : Nat,
      st.d.BackupLimit (i : Int) = UNICODE_CARRIAGERETURN →
      (∀ k, k < i → st.d.BackupLimit (k : Int) ≠ UNICODE_CARRIAGERETURN) →
      i < st.d.BytesRead / sizeof_WCHAR → i * sizeof_WCHAR < 2 ^ 16 →
      (CookedReadAlias s st.d cs.ExeName cs.ExeNameLength st.con).2.1.AddCommandCalls =
        con.AddCommandCalls ++
          [(List.range i).map (fun (j : Nat) => st.d.BackupLimit (j : Int))] ∧
      ∀ r, CookedRead s cs con msg fWaitRoutine = some r →
        r.con.AddCommandCalls =
          con.AddCommandCalls ++
            [(List.range i).map (fun (j : Nat) => st.d.BackupLimit (j : Int))]) ∧
    (st.d.Echo = false →
      (CookedReadAlias s st.d cs.ExeName cs.ExeNameLength st.con).2.1.AddCommandCalls =
        con.AddCommandCalls ∧
      ∀ r, CookedRead s cs con msg fWaitRoutine = some r →
        r.con.AddCommandCalls = con.AddCommandCalls) := by
  have hl := CookedReadLoop_history s fWaitRoutine _ _ _ hloop
  have hl2 : st.con.AddCommandCalls = con.AddCommandCalls := hl
  constructor
  · intro hecho i hcr hfirst hi h16
    have ha := CookedReadAlias_history s st.d cs.ExeName cs.ExeNameLength st.con i hecho hcr
      hfirst hi h16
    rw [hl2] at ha
    refine ⟨ha, ?_⟩
    intro r hr
    rw [CookedRead_of_loop s cs con msg fWaitRoutine st hhandle hloop hdone] at hr
    rw [CookedReadDeliver_history s _ _ _ _ _ _ r hr]
    exact ha
  · intro hecho
    have ha : (CookedReadAlias s st.d cs.ExeName cs.ExeNameLength st.con).2.1.AddCommandCalls
        = con.AddCommandCalls := by
      rw [CookedReadAlias_quiet s st.d cs.ExeName cs.ExeNameLength st.con hecho]
      exact hl2
    refine ⟨ha, ?_⟩
    intro r hr
    rw [CookedRead_of_loop s cs con msg fWaitRoutine st hhandle hloop hdone] at hr
    rw [CookedReadDeliver_history s _ _ _ _ _ _ r hr]
    exact ha

/-- The loop of a line read that has `abc` in its line buffer and finds the key ENTER comes
to an end. -/
theorem abcRead_loop_isSome :
    (CookedReadLoop (exampleServer false false) false
      (streamReads (typed [enterDown]).InputInfo.Queue + 1)
      { Status := (exampleServer false false).DereferenceIoHandleNoCheck (lineRead 80).HandleIndex,
        d := sessionAt (lineRead 80).d [0x61, 0x62, 0x63] 3,
        con := typed [enterDown] }).isSome = true := by
  decide

/-- The same loop for a session without echo comes to an end. -/
theorem abcQuietRead_loop_isSome :
    (CookedReadLoop (exampleServer false false) false
      (streamReads (typed [enterDown]).InputInfo.Queue + 1)
      { Status := (exampleServer false false).DereferenceIoHandleNoCheck (lineRead 80).HandleIndex,
        d := { sessionAt (lineRead 80).d [0x61, 0x62, 0x63] 3 with Echo := false },
        con := typed [enterDown] }).isSome = true := by
  decide

/-- An instance of C28, the one of the specification: a Unicode line read into a buffer of
80 bytes, with echo, has the letters `a`, `b`, `c` in its line buffer and finds the key
ENTER. It returns the 10 bytes of `abc`, CR, LF, and `abc` is the one line handed to
`AddCommand`. The same read without echo hands nothing to `AddCommand`. -/
theorem CookedRead_history_witness :
    (∃ r, CookedRead (exampleServer false false)
        { lineRead 80 with d := sessionAt (lineRead 80).d [0x61, 0x62, 0x63] 3 }
        (typed [enterDown]) (exampleMsg true 80 0) false = some r ∧
      r.con.AddCommandCalls = [[0x61, 0x62, 0x63]] ∧
      r.msg.ReadConsole.NumBytes = 10) ∧
    (∃ r, CookedRead (exampleServer false false)
        { lineRead 80 with
          d := { sessionAt (lineRead 80).d [0x61, 0x62, 0x63] 3 with Echo := false } }
        (typed [enterDown]) (exampleMsg true 80 0) false = some r ∧
      r.con.AddCommandCalls = [] ∧
      r.msg.ReadConsole.NumBytes = 10) := by
  have w := CookedRead_history (exampleServer false false)
    { lineRead 80 with d := sessionAt (lineRead 80).d [0x61, 0x62, 0x63] 3 }
    (typed [enterDown]) (exampleMsg true 80 0) false
    (Option.get _ abcRead_loop_isSome) (by decide)
    (Option.some_get abcRead_loop_isSome).symm (by decide)
  have w1 := w.1 (by decide) 3 (by decide) (by decide) (by decide) (by decide)
  have hs : (CookedRead (exampleServer false false)
      { lineRead 80 with d := sessionAt (lineRead 80).d [0x61, 0x62, 0x63] 3 }
      (typed [enterDown]) (exampleMsg true 80 0) false).isSome = true := by decide
  obtain ⟨r, hr⟩ := Option.isSome_iff_exists.1 hs
  have hn : (CookedRead (exampleServer false false)
      { lineRead 80 with d := sessionAt (lineRead 80).d [0x61, 0x62, 0x63] 3 }
      (typed [enterDown]) (exampleMsg true 80 0) false).map
        (fun r => r.msg.ReadConsole.NumBytes) = some 10 := by decide
  rw [hr] at hn
  have q := CookedRead_history (exampleServer false false)
    { lineRead 80 with
      d := { sessionAt (lineRead 80).d [0x61, 0x62, 0x63] 3 with Echo := false } }
    (typed [enterDown]) (exampleMsg true 80 0) false
    (Option.get _ abcQuietRead_loop_isSome) (by decide)
    (Option.some_get abcQuietRead_loop_isSome).symm (by decide)
  have q1 := q.2 (by decide)
  have hs2 : (CookedRead (exampleServer false false)
      { lineRead 80 with
        d := { sessionAt (lineRead 80).d [0x61, 0x62, 0x63] 3 with Echo := false } }
      (typed [enterDown]) (exampleMsg true 80 0) false).isSome = true := by decide
  obtain ⟨r2, hr2⟩ := Option.isSome_iff_exists.1 hs2
  have hn2 : (CookedRead (exampleServer false false)
      { lineRead 80 with
        d := { sessionAt (lineRead 80).d [0x61, 0x62, 0x63] 3 with Echo := false } }
      (typed [enterDown]) (exampleMsg true 80 0) false).map
        (fun r => r.msg.ReadConsole.NumBytes) = some 10 := by decide
  rw [hr2] at hn2
  exact ⟨⟨r, hr, (w1.2 r hr).trans (by decide), Option.some.inj hn⟩,
    ⟨r2, hr2, (q1.2 r2 hr2).trans (by decide), Option.some.inj hn2⟩⟩

/-- C28 as stated fails for a line read without echo: in line mode with processed input
and `ENABLE_ECHO_INPUT` off, the keys `a` and ENTER complete a Unicode read on CR with the
6 bytes of `a`, CR, LF, and nothing is handed to `AddCommand`. -/
theorem CookedRead_history_counterexample :
    (ReadChars (exampleServer false false)
        (exampleConsole (ENABLE_PROCESSED_INPUT + ENABLE_LINE_INPUT)
          [INPUT_RECORD.KEY_EVENT letterADown, INPUT_RECORD.KEY_EVENT enterDown] 0 noCarry)
        (exampleMsg true 80 0) 0 0 0 1 0 true).map
      (fun r => (r.Status, r.msg.ReadConsole.NumBytes, outputBytes r.msg 6,
        r.con.AddCommandCalls))
      = some (STATUS_SUCCESS, 6, [0x61, 0, 0x0D, 0, 0x0A, 0], []) := by
  decide

/-! ## `ReadChars`: the session of a line read -/

/-- `ReadChars` for a line read without carry, once the handle and the line buffer are
allocated: the session of `ReadCharsSession` is handed to `CookedRead`. -/
theorem ReadChars_line {W : Type} (s : Server W) (con : Console W) (msg : CONSOLE_API_MSG)
    (pwchBuffer dwInitialNumBytes dwCtrlWakeupMask hIndex usExeNameLength : Nat)
    (fUnicode : Bool)
    (hcap : sizeof_WCHAR ≤ msg.ReadConsole.NumBytes)
    (hpend : con.pClientInput.HANDLE_INPUT_PENDING = false)
    (hline : con.InputInfo.InputMode &&& ENABLE_LINE_INPUT ≠ 0)
    (hhandle : NT_SUCCESS s.AllocateIoHandle = true)
    (halloc : s.newBYTE (if msg.ReadConsole.NumBytes < LINE_INPUT_BUFFER_SIZE then
      LINE_INPUT_BUFFER_SIZE else msg.ReadConsole.NumBytes) = true) :
    ReadChars s con msg pwchBuffer dwInitialNumBytes dwCtrlWakeupMask hIndex usExeNameLength
        fUnicode =
      (ReadCharsSession s con { msg with ReadConsole := { msg.ReadConsole with NumBytes := 0 } }
        msg.ReadConsole.NumBytes dwInitialNumBytes dwCtrlWakeupMask usExeNameLength).bind
        fun d1 =>
          (CookedRead s
            { d := d1
              UserBuffer := pwchBuffer
              HandleIndex := hIndex
              ExeName := (List.range (usExeNameLength * sizeof_WCHAR % 2 ^ 16 / sizeof_WCHAR)).map
                (fun i => wcharOfBytes
                  (s.ReadMessageInput
                    { msg with ReadConsole := { msg.ReadConsole with NumBytes := 0 } } 0
                    (usExeNameLength * sizeof_WCHAR % 2 ^ 16)) (2 * i))
              ExeNameLength := usExeNameLength * sizeof_WCHAR % 2 ^ 16 }
            { con with lpCookedReadData := true }
            { msg with ReadConsole := { msg.ReadConsole with NumBytes := 0 } } false).map
            fun r =>
              { Status := r.Status
                con := if r.Status ≠ CONSOLE_STATUS_WAIT then
                         { r.con with lpCookedReadData := false }
                       else r.con
                msg := r.msg } := by
  have h1 : ¬(msg.ReadConsole.NumBytes < sizeof_WCHAR) := by omega
  have h2 : ¬(con.pClientInput.HANDLE_INPUT_PENDING = true) := by
    rw [hpend]
    exact Bool.noConfusion
  have h3 : ¬(NT_SUCCESS s.AllocateIoHandle = false) := by
    rw [hhandle]
    exact Bool.noConfusion
  have h4 : ¬(s.newBYTE (if msg.ReadConsole.NumBytes < LINE_INPUT_BUFFER_SIZE then
      LINE_INPUT_BUFFER_SIZE else msg.ReadConsole.NumBytes) = false) := by
    rw [halloc]
    exact Bool.noConfusion
  unfold ReadChars ReadCharsSession
  dsimp only
  rw [if_neg h1, if_neg h2, if_pos hline, if_neg h3, if_neg h4]
  by_cases h0 : dwInitialNumBytes ≠ 0
  · rw [if_pos h0]
    cases anchorLoop (s.ScreenBufferSizeX con.scr) 32769
      { X := toSHORT ((s.GetCursorPosition con.scr).X
          - toSHORT (dwInitialNumBytes / sizeof_WCHAR)),
        Y := (s.GetCursorPosition con.scr).Y } with
    | none => rfl
    | some anchor =>
      dsimp only [Option.map_some', Option.some_bind]
      split
      · next h =>
        rw [h]
        rfl
      · next r h =>
        rw [h]
        rfl
  · rw [if_neg h0]
    dsimp only [Option.some_bind]
    split
    · next h =>
      rw [h]
      rfl
    · next r h =>
      rw [h]
      rfl

/-- The cast `(SHORT)` keeps a value that fits. -/
theorem toSHORT_eq (t : Int) (h1 : -32768 ≤ t) (h2 : t < 32768) : toSHORT t = t := by
  unfold toSHORT
  omega

/-- The anchor loop ends: starting from a column `X` below the width that `n` widths
bring to 0 or above, and a row that can go up `n` rows, it stops after at most `n` passes
with a column inside the row, and the cell it names is the one it started from, counted in
cells. -/
theorem anchorLoop_spec (Wd : Int) (hW : 0 < Wd) (hW2 : Wd < 32768) :
    ∀ (n : Nat) (X Y : Int), -32768 ≤ X → X < Wd → 0 ≤ X + n * Wd → -32768 ≤ Y - n →
      Y ≤ 32767 →
      ∃ a, anchorLoop Wd (n + 1) { X := X, Y := Y } = some a ∧ 0 ≤ a.X ∧ a.X < Wd ∧
        a.Y * Wd + a.X = Y * Wd + X := by
  intro n
  induction n with
  | zero =>
    intro X Y _ h2 h3 _ _
    have hx : ¬(X < 0) := by
      simp at h3
      omega
    refine ⟨{ X := X, Y := Y }, ?_, ?_, h2, rfl⟩
    · unfold anchorLoop
      rw [if_neg hx]
    · exact not_lt.1 hx
  | succ n ih =>
    intro X Y h1 h2 h3 h4 h5
    by_cases hx : X < 0
    · have hX : toSHORT (X + Wd) = X + Wd := toSHORT_eq _ (by omega) (by omega)
      have hY : toSHORT (Y - 1) = Y - 1 := by
        apply toSHORT_eq
        · push_cast at h4
          omega
        · omega
      have h3b : 0 ≤ (X + Wd) + (n : Int) * Wd := by
        have : X + ((n + 1 : Nat) : Int) * Wd = (X + Wd) + (n : Int) * Wd := by
          push_cast
          ring
        rw [← this]
        exact h3
      have h4b : -32768 ≤ (Y - 1) - (n : Int) := by
        push_cast at h4
        omega
      obtain ⟨a, ha, ha1, ha2, ha3⟩ := ih (X + Wd) (Y - 1) (by omega) (by omega) h3b h4b
        (by omega)
      refine ⟨a, ?_, ha1, ha2, ?_⟩
      · unfold anchorLoop
        have hx2 : ({ X := X, Y := Y } : COORD).X < 0 := hx
        rw [if_pos hx2]
        show anchorLoop Wd (n + 1) { X := toSHORT (X + Wd), Y := toSHORT (Y - 1) } = some a
        rw [hX, hY]
        exact ha
      · rw [ha3]
        ring
    · refine ⟨{ X := X, Y := Y }, ?_, not_lt.1 hx, h2, rfl⟩
      unfold anchorLoop
      rw [if_neg hx]

/-- C30, amended. When a line-mode read is seeded with `initial_bytes = sizeof(WCHAR) * p`
bytes of pre-filled content, `1 <= p <= cx + 32768`, while the screen cursor is at
`(cx, cy)` on a screen of width `W`, with `0 <= cx < W <= 32767` and `0 <= cy <= 32767`:
the anchor loop ends, and the session that `ReadChars` hands to `CookedRead` has
`BytesUsed = initial_bytes`, `WriteCursor = p` (as index and as pointer), and an anchor
`(ax, ay)` with `0 <= ax < W` and `ay * W + ax = cy * W + cx - p`. -/
theorem ReadCharsSession_anchor {W : Type} (s : Server W) (con : Console W)
    (msg0 : CONSOLE_API_MSG) (BufferSize dwCtrlWakeupMask usExeNameLength p : Nat)
    (hp1 : 1 ≤ p)
    (hp : (p : Int) ≤ (s.GetCursorPosition con.scr).X + 32768)
    (hcx0 : 0 ≤ (s.GetCursorPosition con.scr).X)
    (hcx : (s.GetCursorPosition con.scr).X < s.ScreenBufferSizeX con.scr)
    (hW : s.ScreenBufferSizeX con.scr ≤ 32767)
    (hcy0 : 0 ≤ (s.GetCursorPosition con.scr).Y)
    (hcy : (s.GetCursorPosition con.scr).Y ≤ 32767) :
    ∃ d, ReadCharsSession s con msg0 BufferSize (sizeof_WCHAR * p) dwCtrlWakeupMask
        usExeNameLength = some d ∧
      d.BytesRead = sizeof_WCHAR * p ∧ d.CurrentPosition = p ∧ d.BufPtr = p ∧
      0 ≤ d.OriginalCursorPosition.X ∧
      d.OriginalCursorPosition.X < s.ScreenBufferSizeX con.scr ∧
      d.OriginalCursorPosition.Y * s.ScreenBufferSizeX con.scr + d.OriginalCursorPosition.X
        = (s.GetCursorPosition con.scr).Y * s.ScreenBufferSizeX con.scr
          + (s.GetCursorPosition con.scr).X - p := by
  have h2 : sizeof_WCHAR = 2 := rfl
  have hne : sizeof_WCHAR * p ≠ 0 := by
    rw [h2]
    omega
  have hdiv : sizeof_WCHAR * p / sizeof_WCHAR = p := by
    rw [h2]
    omega
  have hdivI : ((sizeof_WCHAR * p : Nat) : Int) / ((sizeof_WCHAR : Nat) : Int) = (p : Int) := by
    rw [h2]
    push_cast
    omega
  have hX0 : toSHORT ((s.GetCursorPosition con.scr).X - toSHORT (p : Int))
      = (s.GetCursorPosition con.scr).X - p := by
    unfold toSHORT
    omega
  obtain ⟨a, ha, ha1, ha2, ha3⟩ := anchorLoop_spec (s.ScreenBufferSizeX con.scr) (by omega)
    (by omega) 32768 ((s.GetCursorPosition con.scr).X - p) (s.GetCursorPosition con.scr).Y
    (by omega) (by omega) (by push_cast; omega) (by push_cast; omega) hcy
  unfold ReadCharsSession
  dsimp only
  rw [if_pos hne, hdivI, hX0, ha, hdiv]
  refine ⟨_, rfl, ?_, rfl, rfl, ha1, ha2, ?_⟩
  · show toULONG (sizeof_WCHAR * p) = sizeof_WCHAR * p
    unfold toULONG
    rw [h2]
    omega
  · show a.Y * s.ScreenBufferSizeX con.scr + a.X = _
    rw [ha3]
    ring

/-- An instance of C30: three pre-filled characters with the cursor at the start of row 0
of a screen 80 columns wide put the anchor at column 77 of the row before. -/
theorem ReadCharsSession_anchor_witness :
    ∃ d, ReadCharsSession (exampleServer false false) (typed []) (exampleMsg true 80 6) 80
        (sizeof_WCHAR * 3) 0 0 = some d ∧
      d.BytesRead = 6 ∧ d.CurrentPosition = 3 ∧
      d.OriginalCursorPosition.Y * 80 + d.OriginalCursorPosition.X = -3 := by
  obtain ⟨d, h1, h2, h3, _, _, _, h4⟩ :=
    ReadCharsSession_anchor (exampleServer false false) (typed []) (exampleMsg true 80 6) 80 0 0 3
      (by decide) (by decide) (by decide) (by decide) (by decide) (by decide) (by decide)
  exact ⟨d, h1, h2, h3, h4⟩

/-- C30 as stated fails for a pre-fill of 65536 characters: `(SHORT)65536` is 0, so with
the cursor at the start of row 0 of a screen 80 columns wide the anchor is the cursor
position itself, and `ay * W + ax` is 0, not `cy * W + cx - p = -65536`. -/
theorem ReadCharsSession_anchor_counterexample :
    (ReadCharsSession (exampleServer false false) (typed []) (exampleMsg true 131072 131072)
        131072 (sizeof_WCHAR * 65536) 0 0).map
      (fun d => (d.BytesRead, d.CurrentPosition, d.OriginalCursorPosition.X,
        d.OriginalCursorPosition.Y))
      = some (131072, 65536, 0, 0) ∧
    ((exampleServer false false).GetCursorPosition (typed []).scr).X = 0 ∧
    ((exampleServer false false).GetCursorPosition (typed []).scr).Y = 0 ∧
    (exampleServer false false).ScreenBufferSizeX (typed []).scr = 80 ∧
    (0 : Int) * 80 + 0 ≠ 0 * 80 + 0 - 65536 := by
  decide

/-! ## `ReadChars`: raw reads -/

/-- A call of `GetChar` that does not wait finds the queue empty: it does not succeed and
leaves the input buffer as it is. -/
theorem GetChar_empty_nowait (k : KeyTables) (InputMode : Nat)
    (wantEditingKeys wantPopupKeys wantKeyState : Bool) :
    GetChar k { InputMode := InputMode, Queue := [] } false wantEditingKeys wantPopupKeys
        wantKeyState
      = some { Status := STATUS_UNSUCCESSFUL, wchOut := none, fCommandLineEditingKeys := false,
               fCommandLinePopupKeys := false, dwKeyState := 0,
               InputInfo := { InputMode := InputMode, Queue := [] } } := by
  simp [GetChar, GetCharLoop, ReadInputBuffer, NT_SUCCESS, STATUS_SUCCESS]

/-- The two bytes that `pokeWchar` stores read back as the code unit. -/
theorem wchar_of_two_bytes (w : Nat) : w % 256 + 256 * (w / 256 % 256) = w % 2 ^ 16 := by
  omega

/-- A queue that serves no stream read is empty. -/
theorem streamEvents_eq_nil (q : List INPUT_RECORD) (h : streamEvents q = []) : q = [] := by
  rcases q with _ | ⟨ev, rest⟩
  · rfl
  · rcases ev with e | t
    · rw [streamEvents_cons] at h
      exact List.noConfusion h
    · exact List.noConfusion h

/-- What stream reads hand over from the queue after `n` reads is what they hand over from
the queue now, less the first `n` events. -/
theorem streamEvents_afterReads :
    ∀ (n : Nat) (q : List INPUT_RECORD),
      streamEvents (afterReads n q) = (streamEvents q).drop n := by
  intro n
  induction n with
  | zero =>
    intro q
    rfl
  | succ n ih =>
    intro q
    rcases q with _ | ⟨ev, rest⟩
    · rfl
    · rcases ev with e | t
      · rw [streamEvents_cons]
        exact ih (streamTail e rest)
      · exact ih rest

/-- Without a repeated key-down event in the queue, stream reads hand over the events of
the queue as they are and take them out one by one. -/
theorem afterReads_of_single :
    ∀ (n : Nat) (q : List INPUT_RECORD),
      (∀ e, INPUT_RECORD.KEY_EVENT e ∈ q → ¬(e.bKeyDown = true ∧ 1 < e.wRepeatCount)) →
      afterReads n q = q.drop n ∧ streamEvents q = q := by
  intro n
  induction n with
  | zero =>
    intro q
    induction q with
    | nil => exact fun _ => ⟨rfl, rfl⟩
    | cons ev rest ihq =>
      intro h
      have hrest := (ihq (fun e he => h e (List.mem_cons_of_mem _ he))).2
      refine ⟨rfl, ?_⟩
      rcases ev with e | t
      · rw [streamEvents_cons,
          (streamHead_of_single e (h e (List.mem_cons_self _ _)) rest).1,
          (streamHead_of_single e (h e (List.mem_cons_self _ _)) rest).2, hrest]
      · show INPUT_RECORD.other t :: streamEvents rest = _
        rw [hrest]
  | succ n ih =>
    intro q h
    rcases q with _ | ⟨ev, rest⟩
    · exact ⟨rfl, rfl⟩
    · have hrest := ih rest (fun e he => h e (List.mem_cons_of_mem _ he))
      rcases ev with e | t
      · refine ⟨?_, ?_⟩
        · show afterReads n (streamTail e rest) = _
          rw [(streamHead_of_single e (h e (List.mem_cons_self _ _)) rest).2]
          exact hrest.1
        · rw [streamEvents_cons,
            (streamHead_of_single e (h e (List.mem_cons_self _ _)) rest).1,
            (streamHead_of_single e (h e (List.mem_cons_self _ _)) rest).2, hrest.2]
      · refine ⟨hrest.1, ?_⟩
        show INPUT_RECORD.other t :: streamEvents rest = _
        rw [hrest.2]

/-- A queue from which stream reads hand over a key event first is headed by a key event:
the read hands over its head and leaves a queue that serves the other reads. -/
theorem streamEvents_eq_cons (q : List INPUT_RECORD) (e1 : KEY_EVENT_RECORD)
    (l : List INPUT_RECORD) (h : streamEvents q = INPUT_RECORD.KEY_EVENT e1 :: l) :
    ∃ e rest, q = INPUT_RECORD.KEY_EVENT e :: rest ∧ streamHead e = e1 ∧
      streamEvents (streamTail e rest) = l := by
  rcases q with _ | ⟨ev, rest⟩
  · exact List.noConfusion h
  · rcases ev with e | t
    · rw [streamEvents_cons] at h
      injection h with h1 h2
      injection h1 with h1
      exact ⟨e, rest, rfl, h1, h2⟩
    · have h' : INPUT_RECORD.other t :: streamEvents rest = INPUT_RECORD.KEY_EVENT e1 :: l := h
      injection h' with h1 _
      exact INPUT_RECORD.noConfusion h1

/-- The loop of a raw read over a queue from which stream reads hand over key events that
all give a character (`evs`, each with its character). With `j` the number of passes (the
reads run out or the buffer is full), the loop makes the first `j` reads, stores their
characters in order, and counts 2 bytes stored and 1 or 2 bytes for the translation for
each. -/
theorem rawLoop_keys {W : Type} (s : Server W) (B mode : Nat) (hB : B + 2 ≤ 2 ^ 32) :
    ∀ (j : Nat) (evs : List (KEY_EVENT_RECORD × Nat)) (Q : List INPUT_RECORD) (fuel : Nat)
      (st : RawLoopState W),
      (∀ p ∈ evs, ∃ f, GetCharKeyEvent s.toKeyTables mode false false p.1 = some (p.2, f)) →
      st.con.InputInfo = { InputMode := mode, Queue := Q } →
      streamEvents Q = evs.map (fun p => INPUT_RECORD.KEY_EVENT p.1) →
      evs.length < fuel → j ≤ evs.length →
      (∀ t, t < j → st.NumToWrite + 2 * t < B) →
      (j = evs.length ∨ B ≤ st.NumToWrite + 2 * j) →
      st.NumBytes ≤ st.NumToWrite →
      ∃ st', rawLoop s B fuel st = some (decide (B ≤ st.NumToWrite + 2 * j), st') ∧
        st'.con = { st.con with
                    InputInfo := { InputMode := mode, Queue := afterReads j Q } } ∧
        st'.NumToWrite = st.NumToWrite + 2 * j ∧
        st'.NumBytes = st.NumBytes + ((evs.take j).map
          (fun p => if s.IsCharFullWidth (p.2 % 2 ^ 16) = true then 2 else 1)).sum ∧
        (∀ i, i < j → wcharOfBytes st'.buf (st.pwchBuffer + 2 * i)
          = (evs.map Prod.snd).getD i 0 % 2 ^ 16) ∧
        (∀ b, b < st.pwchBuffer ∨ st.pwchBuffer + 2 * j ≤ b → st'.buf b = st.buf b) := by
  have h2 : sizeof_WCHAR = 2 := rfl
  intro j
  induction j with
  | zero =>
    intro evs Q fuel st _ hq hreads hfuel _ _ hstop _
    rcases fuel with _ | fuel
    · omega
    · by_cases hlt : st.NumToWrite < B
      · have hnil : evs = [] := by
          rcases hstop with h | h
          · exact List.length_eq_zero.1 h.symm
          · omega
        subst hnil
        have hQ : Q = [] := streamEvents_eq_nil Q hreads
        subst hQ
        refine ⟨{ st with con := { st.con with InputInfo := { InputMode := mode, Queue := [] } } },
          ?_, rfl, rfl, ?_, fun i hi => absurd hi (Nat.not_lt_zero _), fun _ _ => rfl⟩
        · unfold rawLoop
          rw [if_pos hlt, hq, GetChar_empty_nowait]
          have hd : decide (B ≤ st.NumToWrite + 2 * 0) = false := by
            apply decide_eq_false
            omega
          rw [hd]
          rfl
        · simp
      · refine ⟨st, ?_, ?_, rfl, ?_, fun i hi => absurd hi (Nat.not_lt_zero _), fun _ _ => rfl⟩
        · unfold rawLoop
          rw [if_neg hlt]
          have hd : decide (B ≤ st.NumToWrite + 2 * 0) = true := by
            apply decide_eq_true
            omega
          rw [hd]
        · show st.con = { st.con with InputInfo := { InputMode := mode, Queue := Q } }
          rw [← hq]
        · simp
  | succ j ih =>
    intro evs Q fuel st hev hq hreads hfuel hj hroom hstop hnb
    rcases evs with _ | ⟨p, rest⟩
    · simp at hj
    · rcases fuel with _ | fuel
      · omega
      · have hlt : st.NumToWrite < B := by
          have := hroom 0 (Nat.succ_pos _)
          omega
        obtain ⟨f, hf⟩ := hev p (List.mem_cons_self _ _)
        obtain ⟨e, Q1, hQ, hhead, htail⟩ := streamEvents_eq_cons Q p.1
          (rest.map (fun (p : KEY_EVENT_RECORD × Nat) => INPUT_RECORD.KEY_EVENT p.1)) hreads
        subst hQ
        rw [← hhead] at hf
        have hget := GetChar_of_event_some s.toKeyTables mode e Q1 false false false false
          (p.2, f) hf
        have hN1 : (rawStore s st { InputMode := mode, Queue := streamTail e Q1 }
            p.2).NumToWrite = st.NumToWrite + 2 := by
          show toULONG (st.NumToWrite + sizeof_WCHAR) = _
          unfold toULONG
          rw [h2]
          omega
        have hNB1 : (rawStore s st { InputMode := mode, Queue := streamTail e Q1 }
            p.2).NumBytes = st.NumBytes
              + (if s.IsCharFullWidth (p.2 % 2 ^ 16) = true then 2 else 1) := by
          show (if s.IsCharFullWidth (p.2 % 2 ^ 16) = true then toULONG (st.NumBytes + 2)
            else toULONG (st.NumBytes + 1)) = _
          unfold toULONG
          split_ifs <;> omega
        have hlen : rest.length < fuel := by
          simp only [List.length_cons] at hfuel
          omega
        have hjl : j ≤ rest.length := by
          simp only [List.length_cons] at hj
          omega
        obtain ⟨st', hrun, hcon, hNW, hNB, hin, hout⟩ := ih rest (streamTail e Q1) fuel
          (rawStore s st { InputMode := mode, Queue := streamTail e Q1 } p.2)
          (fun q hq2 => hev q (List.mem_cons_of_mem _ hq2)) rfl htail hlen hjl
          (by
            intro t ht
            rw [hN1]
            have := hroom (t + 1) (by omega)
            omega)
          (by
            rw [hN1]
            rcases hstop with h | h
            · left
              simp only [List.length_cons] at h
              omega
            · right
              omega)
          (by
            rw [hN1, hNB1]
            split_ifs <;> omega)
        have hp1 : (rawStore s st { InputMode := mode, Queue := streamTail e Q1 }
            p.2).pwchBuffer = st.pwchBuffer + 2 := rfl
        have hb1 : (rawStore s st { InputMode := mode, Queue := streamTail e Q1 }
            p.2).buf = pokeWchar st.buf st.pwchBuffer p.2 := rfl
        rw [hp1] at hin hout
        rw [hb1] at hout
        rw [hN1] at hrun hNW
        rw [hNB1] at hNB
        refine ⟨st', ?_, ?_, ?_, ?_, ?_, ?_⟩
        · unfold rawLoop
          rw [if_pos hlt, hq, hget]
          dsimp only
          have hs : ¬(NT_SUCCESS STATUS_SUCCESS = false) := by decide
          rw [if_neg hs]
          have hd : decide (B ≤ st.NumToWrite + 2 * (j + 1))
              = decide (B ≤ st.NumToWrite + 2 + 2 * j) := by
            congr 1
            apply propext
            constructor <;> intro h <;> omega
          rw [hd]
          exact hrun
        · rw [hcon]
          rfl
        · rw [hNW]
          omega
        · rw [hNB, List.take_succ_cons, List.map_cons, List.sum_cons]
          omega
        · intro i hi
          rcases i with _ | i
          · have e0 := hout st.pwchBuffer (Or.inl (by omega))
            have e1 := hout (st.pwchBuffer + 1) (Or.inl (by omega))
            unfold pokeWchar at e0 e1
            rw [if_pos rfl] at e0
            rw [if_neg (by omega), if_pos rfl] at e1
            unfold wcharOfBytes
            rw [Nat.mul_zero, Nat.add_zero, e0, e1]
            exact wchar_of_two_bytes p.2
          · have key := hin i (by omega)
            have e : st.pwchBuffer + 2 * (i + 1) = st.pwchBuffer + 2 + 2 * i := by omega
            rw [e, key]
            rfl
        · intro b hb
          have e := hout b (by omega)
          rw [e]
          unfold pokeWchar
          rw [if_neg (by omega), if_neg (by omega)]

/-- A raw read over a queue from which stream reads hand over key events that all give a
character (`evs`, each with its character), with no lead byte to deliver first, for a
Unicode read or one that leaves room in the buffer. With `n` the number of reads made (the
reads run out or the buffer is full), the first `n` characters are stored in order, the
queue is left as `n` stream reads leave it, the read returns success without waiting, and
the count left in `*pdwNumBytes` is 1 for every character stored, 2 for a full-width
one. -/
theorem ReadChars_raw_keys {W : Type} (s : Server W) (con : Console W) (msg : CONSOLE_API_MSG)
    (pwchBuffer dwInitialNumBytes dwCtrlWakeupMask hIndex usExeNameLength : Nat)
    (fUnicode : Bool) (mode : Nat) (Q : List INPUT_RECORD)
    (evs : List (KEY_EVENT_RECORD × Nat)) (n : Nat)
    (hcap : sizeof_WCHAR ≤ msg.ReadConsole.NumBytes)
    (h32 : msg.ReadConsole.NumBytes + 2 ≤ 2 ^ 32)
    (hpend : con.pClientInput.HANDLE_INPUT_PENDING = false)
    (hraw : con.InputInfo.InputMode &&& ENABLE_LINE_INPUT = 0)
    (hlead : fUnicode = true ∨ con.ReadConInpDbcsLeadByte = 0)
    (hq : con.InputInfo = { InputMode := mode, Queue := Q })
    (hreads : streamEvents Q = evs.map (fun p => INPUT_RECORD.KEY_EVENT p.1))
    (hev : ∀ p ∈ evs, ∃ f, GetCharKeyEvent s.toKeyTables mode false false p.1 = some (p.2, f))
    (hn1 : 1 ≤ n) (hn : n ≤ evs.length) (hroom : 2 * (n - 1) < msg.ReadConsole.NumBytes)
    (hstop : n = evs.length ∨ msg.ReadConsole.NumBytes ≤ 2 * n)
    (hend : fUnicode = true ∨ 2 * n < msg.ReadConsole.NumBytes) :
    ∃ r, ReadChars s con msg pwchBuffer dwInitialNumBytes dwCtrlWakeupMask hIndex
        usExeNameLength fUnicode = some r ∧
      r.Status = STATUS_SUCCESS ∧
      r.con = { con with InputInfo := { InputMode := mode, Queue := afterReads n Q } } ∧
      r.msg.ReadConsole.NumBytes = ((evs.take n).map
        (fun p => if s.IsCharFullWidth (p.2 % 2 ^ 16) = true then 2 else 1)).sum ∧
      (∀ i, i < n → wcharOfBytes r.msg.OutputBuffer (pwchBuffer + 2 * i)
        = (evs.map Prod.snd).getD i 0 % 2 ^ 16) ∧
      (∀ b, b < pwchBuffer ∨ pwchBuffer + 2 * n ≤ b →
        r.msg.OutputBuffer b = msg.OutputBuffer b) := by
  have h2 : sizeof_WCHAR = 2 := rfl
  obtain ⟨m, rfl⟩ : ∃ m, n = m + 1 := ⟨n - 1, by omega⟩
  rw [Nat.add_sub_cancel] at hroom
  rcases evs with _ | ⟨p, rest⟩
  · simp at hn
  obtain ⟨f, hf⟩ := hev p (List.mem_cons_self _ _)
  obtain ⟨e, Q1, hQ, hhead, htail⟩ := streamEvents_eq_cons Q p.1
    (rest.map (fun (p : KEY_EVENT_RECORD × Nat) => INPUT_RECORD.KEY_EVENT p.1)) hreads
  subst hQ
  rw [← hhead] at hf
  have hget := GetChar_of_event_some s.toKeyTables mode e Q1 true false false false (p.2, f) hf
  have hfa : (!fUnicode && decide (con.ReadConInpDbcsLeadByte ≠ 0)) = false := by
    rcases hlead with h | h
    · rw [h]
      rfl
    · rw [h]
      cases fUnicode <;> rfl
  have h1 : ¬(msg.ReadConsole.NumBytes < sizeof_WCHAR) := by omega
  have h3 : ¬(con.pClientInput.HANDLE_INPUT_PENDING = true) := by
    rw [hpend]
    exact Bool.noConfusion
  have h4 : ¬(con.InputInfo.InputMode &&& ENABLE_LINE_INPUT ≠ 0) := not_not.2 hraw
  have h5 : 0 < msg.ReadConsole.NumBytes := by omega
  -- the state after the first character
  obtain ⟨st1, hst1⟩ : ∃ st1 : RawLoopState W, st1 = rawStore s
      { con := { con with InputInfo := { InputMode := mode, Queue := streamTail e Q1 } }
        buf := msg.OutputBuffer, pwchBuffer := pwchBuffer, NumToWrite := 0, NumBytes := 0 }
      { InputMode := mode, Queue := streamTail e Q1 } p.2 :=
    ⟨_, rfl⟩
  have hc1 : st1.con = { con with
      InputInfo := { InputMode := mode, Queue := streamTail e Q1 } } := by
    rw [hst1]
    rfl
  have hq1 : st1.con.InputInfo = { InputMode := mode, Queue := streamTail e Q1 } := by
    rw [hc1]
  have hN1 : st1.NumToWrite = 2 := by
    rw [hst1]
    rfl
  have hB1 : st1.NumBytes = if s.IsCharFullWidth (p.2 % 2 ^ 16) = true then 2 else 1 := by
    rw [hst1]
    show (if s.IsCharFullWidth (p.2 % 2 ^ 16) = true then toULONG (0 + 2)
      else toULONG (0 + 1)) = _
    split_ifs <;> rfl
  have hp1 : st1.pwchBuffer = pwchBuffer + 2 := by
    rw [hst1]
    rfl
  have hb1 : st1.buf = pokeWchar msg.OutputBuffer pwchBuffer p.2 := by
    rw [hst1]
    rfl
  have hlen1 : streamReads st1.con.InputInfo.Queue = rest.length := by
    rw [hq1]
    show (streamEvents (streamTail e Q1)).length = _
    rw [htail]
    exact List.length_map _ _
  simp only [List.length_cons] at hn hstop
  obtain ⟨st', hrun, hcon, hNW, hNB, hin, hout⟩ := rawLoop_keys s msg.ReadConsole.NumBytes mode
    h32 m rest (streamTail e Q1) (streamReads st1.con.InputInfo.Queue + 1) st1
    (fun q hq2 => hev q (List.mem_cons_of_mem _ hq2)) hq1 htail (by omega) (by omega)
    (by
      intro t ht
      rw [hN1]
      omega)
    (by
      rw [hN1]
      omega)
    (by
      rw [hN1, hB1]
      split_ifs <;> omega)
  rw [hp1] at hin hout
  rw [hb1] at hout
  rw [hN1] at hrun
  rw [hB1] at hNB
  rw [hc1] at hcon
  have hs : ¬(NT_SUCCESS STATUS_SUCCESS = false) := by decide
  have hsw : ¬(STATUS_SUCCESS = CONSOLE_STATUS_WAIT) := by decide
  unfold ReadChars
  dsimp only
  rw [if_neg h1, if_neg h3, if_neg h4, if_pos h5]
  simp only [hfa, Bool.false_eq_true, false_and, if_false]
  rw [hq, hget]
  dsimp only [Option.map_some']
  rw [if_neg hs]
  dsimp only
  rw [if_neg hs, if_neg hsw]
  dsimp only [Option.getD_some]
  rw [← hst1, hrun]
  dsimp only
  have hres : (if decide (msg.ReadConsole.NumBytes ≤ 2 + 2 * m) = false then
        some ({ Status := STATUS_SUCCESS, con := st'.con
                msg := { msg with
                         ReadConsole := { msg.ReadConsole with NumBytes := st'.NumBytes }
                         OutputBuffer := st'.buf } } : ReadCharsResult W)
      else if fUnicode = false then
        match rawTranslate s st'.con st'.buf pwchBuffer st'.NumToWrite st'.NumBytes false with
        | none => some { Status := STATUS_NO_MEMORY, con := st'.con
                         msg := { msg with
                                  ReadConsole := { msg.ReadConsole with NumBytes := st'.NumBytes }
                                  OutputBuffer := st'.buf } }
        | some t => some { Status := STATUS_SUCCESS, con := t.1
                           msg := { msg with
                                    ReadConsole := { msg.ReadConsole with NumBytes := t.2.2 }
                                    OutputBuffer := t.2.1 } }
      else some { Status := STATUS_SUCCESS, con := st'.con
                  msg := { msg with
                           ReadConsole := { msg.ReadConsole with NumBytes := st'.NumBytes }
                           OutputBuffer := st'.buf } })
      = some { Status := STATUS_SUCCESS, con := st'.con
               msg := { msg with
                        ReadConsole := { msg.ReadConsole with NumBytes := st'.NumBytes }
                        OutputBuffer := st'.buf } } := by
    by_cases hd : decide (msg.ReadConsole.NumBytes ≤ 2 + 2 * m) = false
    · rw [if_pos hd]
    · rw [if_neg hd]
      rcases hend with h | h
      · have hnu : ¬(fUnicode = false) := by
          rw [h]
          exact Bool.noConfusion
        rw [if_neg hnu]
      · exfalso
        apply hd
        apply decide_eq_false
        omega
  refine ⟨_, hres, rfl, ?_, ?_, ?_, ?_⟩
  · show st'.con = _
    rw [hcon]
    rfl
  · show st'.NumBytes = _
    rw [hNB, List.take_succ_cons, List.map_cons, List.sum_cons]
  · intro i hi
    show wcharOfBytes st'.buf (pwchBuffer + 2 * i) = _
    rcases i with _ | i
    · have e0 := hout pwchBuffer (Or.inl (by omega))
      have e1 := hout (pwchBuffer + 1) (Or.inl (by omega))
      unfold pokeWchar at e0 e1
      rw [if_pos rfl] at e0
      rw [if_neg (by omega), if_pos rfl] at e1
      unfold wcharOfBytes
      rw [Nat.mul_zero, Nat.add_zero, e0, e1]
      exact wchar_of_two_bytes p.2
    · have key := hin i (by omega)
      have e : pwchBuffer + 2 * (i + 1) = pwchBuffer + 2 + 2 * i := by omega
      rw [e, key]
      rfl
  · intro b hb
    show st'.buf b = _
    have e := hout b (by omega)
    rw [e]
    unfold pokeWchar
    rw [if_neg (by omega), if_neg (by omega)]

/-- C24, amended. The queue holds key events only, and every event that a stream read
hands over from it gives a character; a key-down event with a repeat count `r` above 1 is
handed over `r` times, so that `evs`, the events handed over with their characters, has
`K >= 1` entries. A raw Unicode `ReadChars` with an even capacity of `c >= 2` bytes
returns success without waiting (no wait block is created) and stores in the caller's
buffer exactly the first `n = min(K, c / sizeof(WCHAR))` of these characters in order, as
16-bit code units; the rest of the output buffer is left as it was. The queue is left as
`n` stream reads leave it: later reads get the other `K - n` events, and when no key-down
event of the queue has a repeat count above 1 (the events are then handed over as they
are, `K` is their number) the queue is the queue before less its first `n` events. -/
theorem ReadChars_raw_unicode {W : Type} (s : Server W) (con : Console W)
    (msg : CONSOLE_API_MSG)
    (pwchBuffer dwInitialNumBytes dwCtrlWakeupMask hIndex usExeNameLength : Nat)
    (mode : Nat) (Q : List INPUT_RECORD) (evs : List (KEY_EVENT_RECORD × Nat)) (n : Nat)
    (hc2 : 2 ≤ msg.ReadConsole.NumBytes) (heven : msg.ReadConsole.NumBytes % 2 = 0)
    (h32 : msg.ReadConsole.NumBytes < 2 ^ 32)
    (hpend : con.pClientInput.HANDLE_INPUT_PENDING = false)
    (hraw : con.InputInfo.InputMode &&& ENABLE_LINE_INPUT = 0)
    (hq : con.InputInfo = { InputMode := mode, Queue := Q })
    (hreads : streamEvents Q = evs.map (fun p => INPUT_RECORD.KEY_EVENT p.1))
    (hev : ∀ p ∈ evs,
      GetCharKeyEvent s.toKeyTables mode false false p.1 = some (p.2, false, false))
    (hk : 1 ≤ evs.length)
    (hn : n = min evs.length (msg.ReadConsole.NumBytes / sizeof_WCHAR)) :
    ∃ r, ReadChars s con msg pwchBuffer dwInitialNumBytes dwCtrlWakeupMask hIndex
        usExeNameLength true = some r ∧
      r.Status = STATUS_SUCCESS ∧
      r.con.WaitBlocks = con.WaitBlocks ∧
      r.con.InputInfo.Queue = afterReads n Q ∧
      streamEvents r.con.InputInfo.Queue
        = (evs.drop n).map (fun p => INPUT_RECORD.KEY_EVENT p.1) ∧
      ((∀ e, INPUT_RECORD.KEY_EVENT e ∈ Q → ¬(e.bKeyDown = true ∧ 1 < e.wRepeatCount)) →
        Q = evs.map (fun p => INPUT_RECORD.KEY_EVENT p.1) ∧
        r.con.InputInfo.Queue = Q.drop n) ∧
      (∀ i, i < n → wcharOfBytes r.msg.OutputBuffer (pwchBuffer + 2 * i)
        = (evs.map Prod.snd).getD i 0 % 2 ^ 16) ∧
      (∀ b, b < pwchBuffer ∨ pwchBuffer + 2 * n ≤ b →
        r.msg.OutputBuffer b = msg.OutputBuffer b) := by
  have h2 : sizeof_WCHAR = 2 := rfl
  rw [h2, Nat.min_def] at hn
  obtain ⟨r, hr, hst, hcon, _, hin, hout⟩ := ReadChars_raw_keys s con msg pwchBuffer
    dwInitialNumBytes dwCtrlWakeupMask hIndex usExeNameLength true mode Q evs n
    (by rw [h2]; exact hc2) (by omega) hpend hraw (Or.inl rfl) hq hreads
    (fun p hp => ⟨_, hev p hp⟩)
    (by split_ifs at hn <;> omega) (by split_ifs at hn <;> omega)
    (by split_ifs at hn <;> omega) (by split_ifs at hn <;> omega) (Or.inl rfl)
  have hqueue : r.con.InputInfo.Queue = afterReads n Q := by rw [hcon]
  refine ⟨r, hr, hst, ?_, hqueue, ?_, ?_, hin, hout⟩
  · rw [hcon]
  · rw [hqueue, streamEvents_afterReads, hreads, List.map_drop]
  · intro hone
    obtain ⟨h1, h3⟩ := afterReads_of_single n Q hone
    exact ⟨h3.symm.trans hreads, hqueue.trans h1⟩

/-- An instance of C24, amended: the keys `a`, `b`, `c` are queued and the caller's buffer
has 4 bytes; the read stores `a` and `b` and leaves `c` in the queue. -/
theorem ReadChars_raw_unicode_witness :
    ∃ r, ReadChars (exampleServer false false)
        (exampleConsole 0 [INPUT_RECORD.KEY_EVENT letterADown, INPUT_RECORD.KEY_EVENT letterBDown,
          INPUT_RECORD.KEY_EVENT letterCDown] 0 noCarry)
        (exampleMsg true 4 0) 0 0 0 1 0 true = some r ∧
      r.Status = STATUS_SUCCESS ∧
      r.con.InputInfo.Queue = [INPUT_RECORD.KEY_EVENT letterCDown] ∧
      wcharOfBytes r.msg.OutputBuffer 0 = 0x61 ∧ wcharOfBytes r.msg.OutputBuffer 2 = 0x62 := by
  obtain ⟨r, h1, h2, _, h3, _, _, h4, _⟩ := ReadChars_raw_unicode (exampleServer false false)
    (exampleConsole 0 [INPUT_RECORD.KEY_EVENT letterADown, INPUT_RECORD.KEY_EVENT letterBDown,
      INPUT_RECORD.KEY_EVENT letterCDown] 0 noCarry)
    (exampleMsg true 4 0) 0 0 0 1 0 0
    [INPUT_RECORD.KEY_EVENT letterADown, INPUT_RECORD.KEY_EVENT letterBDown,
      INPUT_RECORD.KEY_EVENT letterCDown]
    [(letterADown, 0x61), (letterBDown, 0x62), (letterCDown, 0x63)] 2
    (by decide) (by decide) (by decide) rfl (by decide) rfl rfl (by decide) (by decide)
    (by decide)
  exact ⟨r, h1, h2, h3, h4 0 (by decide), h4 1 (by decide)⟩

/-- C24 as stated fails for a key that repeats. One key-down event of the letter `a` with
a repeat count of 3 is queued. A raw Unicode read with a buffer of 8 bytes returns the
three characters `aaa` for this one event, not `min(1, 4) = 1` character, and empties the
queue; with a buffer of 4 bytes it returns `aa` and leaves the event in the queue with a
repeat count of 1. -/
theorem ReadChars_raw_unicode_counterexample :
    (ReadChars (exampleServer false false)
        (exampleConsole 0 [INPUT_RECORD.KEY_EVENT { letterADown with wRepeatCount := 3 }] 0
          noCarry)
        (exampleMsg true 8 0) 0 0 0 1 0 true).map
      (fun r => (r.Status, wcharsOfBytes r.msg.OutputBuffer 0 4, r.con.InputInfo.Queue.length))
      = some (STATUS_SUCCESS, [0x61, 0x61, 0x61, 0], 0) ∧
    (ReadChars (exampleServer false false)
        (exampleConsole 0 [INPUT_RECORD.KEY_EVENT { letterADown with wRepeatCount := 3 }] 0
          noCarry)
        (exampleMsg true 4 0) 0 0 0 1 0 true).map
      (fun r => (r.Status, wcharsOfBytes r.msg.OutputBuffer 0 2,
        r.con.InputInfo.Queue.map (fun ev => match ev with
          | INPUT_RECORD.KEY_EVENT e => (e.UnicodeChar, e.wRepeatCount)
          | INPUT_RECORD.other _ => (0, 0))))
      = some (STATUS_SUCCESS, [0x61, 0x61], [(0x61, 1)]) := by
  decide

/-- C25, as the code has it. On a raw Unicode call of `ReadChars` that finds a queue from
which stream reads hand over `k >= 1` key events that each give a character (a repeated
key-down event being handed over once for every repeat; even capacity `c >= 2`), the value
left in `*pdwNumBytes` is not the number of bytes stored, which is `sizeof(WCHAR) * n` for
the `n = min(k, c / sizeof(WCHAR))` characters stored: it is the count kept for the
translation, 1 for every character stored and 2 for a full-width one. When none of the
characters is full width it is `n`. -/
theorem ReadChars_raw_unicode_count {W : Type} (s : Server W) (con : Console W)
    (msg : CONSOLE_API_MSG)
    (pwchBuffer dwInitialNumBytes dwCtrlWakeupMask hIndex usExeNameLength : Nat)
    (mode : Nat) (Q : List INPUT_RECORD) (evs : List (KEY_EVENT_RECORD × Nat)) (n : Nat)
    (hc2 : 2 ≤ msg.ReadConsole.NumBytes) (heven : msg.ReadConsole.NumBytes % 2 = 0)
    (h32 : msg.ReadConsole.NumBytes < 2 ^ 32)
    (hpend : con.pClientInput.HANDLE_INPUT_PENDING = false)
    (hraw : con.InputInfo.InputMode &&& ENABLE_LINE_INPUT = 0)
    (hq : con.InputInfo = { InputMode := mode, Queue := Q })
    (hreads : streamEvents Q = evs.map (fun p => INPUT_RECORD.KEY_EVENT p.1))
    (hev : ∀ p ∈ evs,
      GetCharKeyEvent s.toKeyTables mode false false p.1 = some (p.2, false, false))
    (hk : 1 ≤ evs.length)
    (hn : n = min evs.length (msg.ReadConsole.NumBytes / sizeof_WCHAR)) :
    ∃ r, ReadChars s con msg pwchBuffer dwInitialNumBytes dwCtrlWakeupMask hIndex
        usExeNameLength true = some r ∧
      r.Status = STATUS_SUCCESS ∧
      r.msg.ReadConsole.NumBytes = ((evs.take n).map
        (fun p => if s.IsCharFullWidth (p.2 % 2 ^ 16) = true then 2 else 1)).sum ∧
      ((∀ p ∈ evs.take n, s.IsCharFullWidth (p.2 % 2 ^ 16) = false) →
        r.msg.ReadConsole.NumBytes = n ∧ r.msg.ReadConsole.NumBytes < sizeof_WCHAR * n) := by
  have h2 : sizeof_WCHAR = 2 := rfl
  have hn0 := hn
  rw [h2, Nat.min_def] at hn
  have hn1 : 1 ≤ n := by split_ifs at hn <;> omega
  have hnk : n ≤ evs.length := by split_ifs at hn <;> omega
  obtain ⟨r, hr, hst, _, hcount, _, _⟩ := ReadChars_raw_keys s con msg pwchBuffer
    dwInitialNumBytes dwCtrlWakeupMask hIndex usExeNameLength true mode Q evs n
    (by rw [h2]; exact hc2) (by omega) hpend hraw (Or.inl rfl) hq hreads
    (fun p hp => ⟨_, hev p hp⟩) hn1 hnk
    (by split_ifs at hn <;> omega) (by split_ifs at hn <;> omega) (Or.inl rfl)
  refine ⟨r, hr, hst, hcount, ?_⟩
  intro hnarrow
  have hsum : ((evs.take n).map
      (fun p => if s.IsCharFullWidth (p.2 % 2 ^ 16) = true then 2 else 1)).sum = n := by
    have hmap : (evs.take n).map
        (fun p => if s.IsCharFullWidth (p.2 % 2 ^ 16) = true then 2 else 1)
        = (evs.take n).map (fun _ => 1) := by
      apply List.map_congr_left
      intro p hp
      rw [hnarrow p hp]
      rfl
    rw [hmap, List.map_const', List.sum_replicate, List.length_take, smul_eq_mul, mul_one,
      Nat.min_eq_left hnk]
  rw [hcount, hsum, h2]
  exact ⟨rfl, by omega⟩

/-- An instance of C25, as the code has it: the key `a` is queued and the caller's buffer
has 8 bytes; the read leaves 1 in `*pdwNumBytes`. -/
theorem ReadChars_raw_unicode_count_witness :
    ∃ r, ReadChars (exampleServer false false)
        (exampleConsole 0 [INPUT_RECORD.KEY_EVENT letterADown] 0 noCarry)
        (exampleMsg true 8 0) 0 0 0 1 0 true = some r ∧
      r.Status = STATUS_SUCCESS ∧ r.msg.ReadConsole.NumBytes = 1 := by
  obtain ⟨r, h1, h2, _, h3⟩ := ReadChars_raw_unicode_count (exampleServer false false)
    (exampleConsole 0 [INPUT_RECORD.KEY_EVENT letterADown] 0 noCarry)
    (exampleMsg true 8 0) 0 0 0 1 0 0 [INPUT_RECORD.KEY_EVENT letterADown]
    [(letterADown, 0x61)] 1
    (by decide) (by decide) (by decide) rfl (by decide) rfl rfl (by decide) (by decide)
    (by decide)
  exact ⟨r, h1, h2, (h3 (by decide)).1⟩

/-- C25 fails on the code. A raw Unicode read with a caller's buffer of 8 bytes finds the
key `a` in the queue: `ReadChars` returns success, the two bytes of U+0061 are in the
buffer, and `*pdwNumBytes` is 1, not 2; `SrvReadConsole` publishes 1 as the number of
bytes read. -/
theorem ReadChars_raw_unicode_count_counterexample :
    (ReadChars (exampleServer false false)
        (exampleConsole 0 [INPUT_RECORD.KEY_EVENT letterADown] 0 noCarry)
        (exampleMsg true 8 0) 0 0 0 1 0 true).map
      (fun r => (r.Status, r.msg.ReadConsole.NumBytes, outputBytes r.msg 4))
      = some (STATUS_SUCCESS, 1, [0x61, 0, 0, 0]) ∧
    (SrvReadConsole (exampleServer false false)
        (exampleConsole 0 [INPUT_RECORD.KEY_EVENT letterADown] 0 noCarry)
        (exampleMsg true 8 0) false).map
      (fun r => (r.Status, r.msg.ReadConsole.NumBytes, r.msg.ReplyInformation))
      = some (STATUS_SUCCESS, 1, 1) ∧
    1 ≠ sizeof_WCHAR * 1 := by
  decide

/-- C26, as the code has it. A raw read that is not in Unicode, with no lead byte carried
over, finds a queue from which stream reads hand over `k >= 1` key events that each give a
character (a repeated key-down event being handed over once for every repeat), and they
do not fill the buffer (`sizeof(WCHAR) * k` is below the capacity). `ReadChars` returns success from
inside its loop, before the translation: the buffer holds the `k` characters as 16-bit
Unicode code units, untranslated, the count left in `*pdwNumBytes` is the count kept for
the translation (1 for every character, 2 for a full-width one), no translated byte is
moved into the buffer, and the lead-byte slot is left alone. -/
theorem ReadChars_raw_oem_short {W : Type} (s : Server W) (con : Console W)
    (msg : CONSOLE_API_MSG)
    (pwchBuffer dwInitialNumBytes dwCtrlWakeupMask hIndex usExeNameLength : Nat)
    (mode : Nat) (Q : List INPUT_RECORD) (evs : List (KEY_EVENT_RECORD × Nat))
    (h32 : msg.ReadConsole.NumBytes + 2 ≤ 2 ^ 32)
    (hpend : con.pClientInput.HANDLE_INPUT_PENDING = false)
    (hraw : con.InputInfo.InputMode &&& ENABLE_LINE_INPUT = 0)
    (hlead : con.ReadConInpDbcsLeadByte = 0)
    (hq : con.InputInfo = { InputMode := mode, Queue := Q })
    (hreads : streamEvents Q = evs.map (fun p => INPUT_RECORD.KEY_EVENT p.1))
    (hev : ∀ p ∈ evs,
      GetCharKeyEvent s.toKeyTables mode false false p.1 = some (p.2, false, false))
    (hk : 1 ≤ evs.length)
    (hshort : sizeof_WCHAR * evs.length < msg.ReadConsole.NumBytes) :
    ∃ r, ReadChars s con msg pwchBuffer dwInitialNumBytes dwCtrlWakeupMask hIndex
        usExeNameLength false = some r ∧
      r.Status = STATUS_SUCCESS ∧
      (∀ i, i < evs.length → wcharOfBytes r.msg.OutputBuffer (pwchBuffer + 2 * i)
        = (evs.map Prod.snd).getD i 0 % 2 ^ 16) ∧
      r.msg.ReadConsole.NumBytes = (evs.map
        (fun p => if s.IsCharFullWidth (p.2 % 2 ^ 16) = true then 2 else 1)).sum ∧
      r.con.copies = con.copies ∧
      r.con.ReadConInpDbcsLeadByte = con.ReadConInpDbcsLeadByte ∧
      r.con.InputInfo.Queue = [] := by
  have h2 : sizeof_WCHAR = 2 := rfl
  rw [h2] at hshort
  obtain ⟨r, hr, hst, hcon, hcount, hin, _⟩ := ReadChars_raw_keys s con msg pwchBuffer
    dwInitialNumBytes dwCtrlWakeupMask hIndex usExeNameLength false mode Q evs evs.length
    (by rw [h2]; omega) h32 hpend hraw (Or.inr hlead) hq hreads
    (fun p hp => ⟨_, hev p hp⟩) hk le_rfl (by omega) (Or.inl rfl) (Or.inr hshort)
  rw [List.take_length] at hcount
  refine ⟨r, hr, hst, hin, hcount, ?_, ?_, ?_⟩
  · rw [hcon]
  · rw [hcon]
  · rw [hcon]
    apply streamEvents_eq_nil
    show streamEvents (afterReads evs.length Q) = []
    rw [streamEvents_afterReads, hreads, List.drop_eq_nil_iff, List.length_map]

/-- An instance of C26, as the code has it: the keys `a` and `b` are queued for a raw read
that is not in Unicode, with a buffer of 8 bytes. -/
theorem ReadChars_raw_oem_short_witness :
    ∃ r, ReadChars (exampleServer false false)
        (exampleConsole 0 [INPUT_RECORD.KEY_EVENT letterADown, INPUT_RECORD.KEY_EVENT letterBDown]
          0 noCarry)
        (exampleMsg false 8 0) 0 0 0 1 0 false = some r ∧
      r.Status = STATUS_SUCCESS ∧
      wcharOfBytes r.msg.OutputBuffer 0 = 0x61 ∧ wcharOfBytes r.msg.OutputBuffer 2 = 0x62 ∧
      r.msg.ReadConsole.NumBytes = 2 := by
  obtain ⟨r, h1, h2, h3, h4, _⟩ := ReadChars_raw_oem_short (exampleServer false false)
    (exampleConsole 0 [INPUT_RECORD.KEY_EVENT letterADown, INPUT_RECORD.KEY_EVENT letterBDown]
      0 noCarry)
    (exampleMsg false 8 0) 0 0 0 1 0 0
    [INPUT_RECORD.KEY_EVENT letterADown, INPUT_RECORD.KEY_EVENT letterBDown]
    [(letterADown, 0x61), (letterBDown, 0x62)]
    (by decide) rfl (by decide) rfl rfl rfl (by decide) (by decide) (by decide)
  exact ⟨r, h1, h2, h3 0 (by decide), h3 1 (by decide), h4.trans (by decide)⟩

/-- C26 fails on the code. A raw read that is not in Unicode, with a buffer of 8 bytes,
finds the keys `a` and `b`: `ReadChars` returns success with the byte count 2 and the
buffer holding the Unicode code units (0x61, 0x00, 0x62, 0x00), so the two bytes
published are 0x61, 0x00 and not the translation 0x61, 0x62. With a buffer of 4 bytes,
which the two characters fill, the same keys are translated. -/
theorem ReadChars_raw_oem_short_counterexample :
    (ReadChars (exampleServer false false)
        (exampleConsole 0 [INPUT_RECORD.KEY_EVENT letterADown, INPUT_RECORD.KEY_EVENT letterBDown]
          0 noCarry)
        (exampleMsg false 8 0) 0 0 0 1 0 false).map
      (fun r => (r.Status, r.msg.ReadConsole.NumBytes, outputBytes r.msg 4))
      = some (STATUS_SUCCESS, 2, [0x61, 0, 0x62, 0]) ∧
    (ReadChars (exampleServer false false)
        (exampleConsole 0 [INPUT_RECORD.KEY_EVENT letterADown, INPUT_RECORD.KEY_EVENT letterBDown]
          0 noCarry)
        (exampleMsg false 4 0) 0 0 0 1 0 false).map
      (fun r => (r.Status, r.msg.ReadConsole.NumBytes, outputBytes r.msg 2))
      = some (STATUS_SUCCESS, 2, [0x61, 0x62]) ∧
    ((exampleServer false false).TranslateUnicodeToOem [0x61, 0x62] 2 0).1 = 2 ∧
    (List.range 2).map ((exampleServer false false).TranslateUnicodeToOem [0x61, 0x62] 2 0).2.1
      = [0x61, 0x62] := by
  decide

/-! ## A read that waits leaves the byte count at zero -/

/-- The end of `CookedRead` does not turn a status into `CONSOLE_STATUS_WAIT`. -/
theorem CookedReadTail_not_wait {W : Type} (s : Server W) (Status : Int) (cs : CookedSession)
    (con : Console W) (msg : CONSOLE_API_MSG) (fWaitRoutine fAddDbcsLead : Bool)
    (NumBytes : Nat) (hw : Status ≠ CONSOLE_STATUS_WAIT) :
    (CookedReadTail s Status cs con msg fWaitRoutine fAddDbcsLead NumBytes).Status
      ≠ CONSOLE_STATUS_WAIT := by
  unfold CookedReadTail
  dsimp only
  split_ifs
  all_goals first
    | exact hw
    | exact (by decide : STATUS_NO_MEMORY ≠ CONSOLE_STATUS_WAIT)
    | exact (by decide : STATUS_BUFFER_OVERFLOW ≠ CONSOLE_STATUS_WAIT)

/-- The delivery of the content of a cooked read does not end with
`CONSOLE_STATUS_WAIT`. -/
theorem CookedReadDeliver_not_wait {W : Type} (s : Server W) (Status : Int)
    (cs1 : CookedSession) (con : Console W) (LineCount : Nat) (msg : CONSOLE_API_MSG)
    (fWaitRoutine : Bool) (r : CookedReadResult W) (hw : Status ≠ CONSOLE_STATUS_WAIT)
    (h : CookedReadDeliver s Status cs1 con LineCount msg fWaitRoutine = some r) :
    r.Status ≠ CONSOLE_STATUS_WAIT := by
  unfold CookedReadDeliver at h
  dsimp only at h
  by_cases c1 : cs1.d.UserBufferSize < cs1.d.BytesRead ∨ 1 < LineCount
  · rw [if_pos c1] at h
    split at h
    · exact Option.noConfusion h
    · cases h
      exact CookedReadTail_not_wait _ _ _ _ _ _ _ _ hw
  · rw [if_neg c1] at h
    split_ifs at h
    all_goals cases h
    all_goals first
      | exact CookedReadTail_not_wait _ _ _ _ _ _ _ _ hw
      | exact (by decide : STATUS_SUCCESS ≠ CONSOLE_STATUS_WAIT)
      | exact (by decide : STATUS_BUFFER_OVERFLOW ≠ CONSOLE_STATUS_WAIT)

/-- A call of `CookedRead` that returns `CONSOLE_STATUS_WAIT` has not touched the
message. -/
theorem CookedRead_wait_msg {W : Type} (s : Server W) (cs : CookedSession) (con : Console W)
    (msg : CONSOLE_API_MSG) (fWaitRoutine : Bool) (r : CookedReadResult W)
    (h : CookedRead s cs con msg fWaitRoutine = some r) (hw : r.Status = CONSOLE_STATUS_WAIT) :
    r.msg = msg := by
  unfold CookedRead at h
  dsimp only at h
  by_cases c1 : NT_SUCCESS (s.DereferenceIoHandleNoCheck cs.HandleIndex) = false
  · rw [if_pos c1] at h
    cases h
    rfl
  · rw [if_neg c1] at h
    cases hl : CookedReadLoop s fWaitRoutine (streamReads con.InputInfo.Queue + 1)
      { Status := s.DereferenceIoHandleNoCheck cs.HandleIndex, d := cs.d, con := con } with
    | none =>
      rw [hl] at h
      exact Option.noConfusion h
    | some st =>
      rw [hl] at h
      dsimp only at h
      by_cases c2 : st.Status ≠ CONSOLE_STATUS_WAIT
      · rw [if_pos c2] at h
        exact absurd hw (CookedReadDeliver_not_wait _ _ _ _ _ _ _ r c2 h)
      · rw [if_neg c2] at h
        cases h
        rfl

/-- A line read that `ReadChars` leaves waiting has the byte count 0 in its message, which
is otherwise as it was. -/
theorem ReadChars_line_wait {W : Type} (s : Server W) (con : Console W) (msg : CONSOLE_API_MSG)
    (pwchBuffer dwInitialNumBytes dwCtrlWakeupMask hIndex usExeNameLength : Nat)
    (fUnicode : Bool) (r : ReadCharsResult W)
    (hcap : sizeof_WCHAR ≤ msg.ReadConsole.NumBytes)
    (hpend : con.pClientInput.HANDLE_INPUT_PENDING = false)
    (hline : con.InputInfo.InputMode &&& ENABLE_LINE_INPUT ≠ 0)
    (hhandle : NT_SUCCESS s.AllocateIoHandle = true)
    (halloc : s.newBYTE (if msg.ReadConsole.NumBytes < LINE_INPUT_BUFFER_SIZE then
      LINE_INPUT_BUFFER_SIZE else msg.ReadConsole.NumBytes) = true)
    (h : ReadChars s con msg pwchBuffer dwInitialNumBytes dwCtrlWakeupMask hIndex
      usExeNameLength fUnicode = some r)
    (hw : r.Status = CONSOLE_STATUS_WAIT) :
    r.msg = { msg with ReadConsole := { msg.ReadConsole with NumBytes := 0 } } := by
  rw [ReadChars_line s con msg pwchBuffer dwInitialNumBytes dwCtrlWakeupMask hIndex
    usExeNameLength fUnicode hcap hpend hline hhandle halloc] at h
  rw [Option.bind_eq_some] at h
  obtain ⟨d1, _, h2⟩ := h
  rw [Option.map_eq_some'] at h2
  obtain ⟨r1, hr1, hr⟩ := h2
  subst hr
  exact CookedRead_wait_msg _ _ _ _ _ r1 hr1 hw

/-! ## Additivity of the cell count -/

theorem le_sum_RetrieveNumberOfSpaces (t : CharTables) (x0 : Int) (L : Mem) (n : Nat) :
    n ≤ Finset.sum (Finset.range n) (fun i => RetrieveNumberOfSpaces t x0 L i) := by
  induction n with
  | zero => simp
  | succ n ih =>
    rw [Finset.sum_range_succ]
    have := (RetrieveNumberOfSpaces_bounds t x0 L n).1
    omega

/-- The cell count of `n` characters lies between `n` and `8 * n`, as long as `8 * n` is in
the range of `ULONG`. -/
theorem RetrieveTotalNumberOfSpaces_bounds (t : CharTables) (x0 : Int) (L : Mem) (n : Nat)
    (hn : 8 * n < 2 ^ 32) :
    n ≤ RetrieveTotalNumberOfSpaces t x0 L n ∧ RetrieveTotalNumberOfSpaces t x0 L n ≤ 8 * n := by
  rw [RetrieveTotalNumberOfSpaces_eq_sum t x0 L n hn]
  exact ⟨le_sum_RetrieveNumberOfSpaces t x0 L n, sum_RetrieveNumberOfSpaces_le t x0 L n⟩

/-- The loop of `RetrieveTotalNumberOfSpaces` looks at the first `n` code units only. -/
theorem totalSpacesLoop_congr (t : CharTables) (x0 : Int) (L M : Mem) (n : Nat)
    (hLM : ∀ i : Nat, i < n → L i = M i) :
    totalSpacesLoop t x0 L n = totalSpacesLoop t x0 M n := by
  induction n with
  | zero => rfl
  | succ n ih =>
    have h1 := ih (fun i hi => hLM i (Nat.lt_succ_of_lt hi))
    have h2 := hLM n (Nat.lt_succ_self n)
    simp only [totalSpacesLoop, h1, h2]

/-- The count of the loop depends on the starting column through its remainder modulo the
tab size only, and so does the remainder of the column it keeps. -/
theorem totalSpacesLoop_column (t : CharTables) (x y : Int) (L : Mem) (hxy : x % 8 = y % 8)
    (n : Nat) :
    (totalSpacesLoop t x L n).2 = (totalSpacesLoop t y L n).2 ∧
    (totalSpacesLoop t x L n).1 % 8 = (totalSpacesLoop t y L n).1 % 8 := by
  induction n with
  | zero => exact ⟨rfl, hxy⟩
  | succ n ih =>
    obtain ⟨ih2, ih1⟩ := ih
    have hw : NUMBER_OF_SPACES_IN_TAB (totalSpacesLoop t x L n).1
        = NUMBER_OF_SPACES_IN_TAB (totalSpacesLoop t y L n).1 := by
      unfold NUMBER_OF_SPACES_IN_TAB
      rw [ih1]
    simp only [totalSpacesLoop, hw, ih2]
    refine ⟨trivial, ?_⟩
    simp only [toSHORT]
    omega

/-- The loop over `m + k` code units is the loop over the first `m` followed by the loop
over the next `k`, started in the column the first one ends in. -/
theorem totalSpacesLoop_add (t : CharTables) (x0 : Int) (L : Mem) (m k : Nat) :
    (totalSpacesLoop t x0 L (m + k)).1
      = (totalSpacesLoop t (totalSpacesLoop t x0 L m).1 (fun i => L (i + m)) k).1 ∧
    (totalSpacesLoop t x0 L (m + k)).2
      = toULONG ((totalSpacesLoop t x0 L m).2
          + (totalSpacesLoop t (totalSpacesLoop t x0 L m).1 (fun i => L (i + m)) k).2) := by
  induction k with
  | zero =>
    refine ⟨rfl, ?_⟩
    show (totalSpacesLoop t x0 L m).2 = toULONG ((totalSpacesLoop t x0 L m).2 + 0)
    rw [totalSpacesLoop_snd]
    simp [toULONG]
  | succ k ih =>
    obtain ⟨ih1, ih2⟩ := ih
    have hidx : L (((m + k : Nat) : Int)) = L (((k : Nat) : Int) + m) := by
      congr 1
      omega
    rw [← Nat.add_assoc]
    simp only [totalSpacesLoop, ih1, ih2, hidx]
    refine ⟨trivial, ?_⟩
    simp only [toULONG]
    omega

/-! ## One tick of `ProcessCookedReadInput`, block by block -/

/-- The body of `bs_repeat` in terms of `bsErase`. -/
theorem bs_repeat_eq {W : Type} (h : Host W) (wch wchOrig : Nat) (b : Bool) (fuel : Nat)
    (f : Frame W) :
    bs_repeat h wch wchOrig b fuel f =
      if h.GetExtendedEditKey = true ∧ wchOrig = h.EXTKEY_ERASE_PREV_WORD
          ∧ (bsErase h wch f).d.BufPtr ≠ 0 then
        if xor b (!h.IS_WORD_DELIM ((bsErase h wch f).d.BackupLimit
            (((bsErase h wch f).d.BufPtr : Int) - 1))) = true then
          match fuel with
          | 0 => (bsErase h wch f).noteRead (((bsErase h wch f).d.BufPtr : Int) - 1)
          | n + 1 => bs_repeat h wch wchOrig b n
              ((bsErase h wch f).noteRead (((bsErase h wch f).d.BufPtr : Int) - 1))
        else (bsErase h wch f).noteRead (((bsErase h wch f).d.BufPtr : Int) - 1)
      else bsErase h wch f := by
  cases fuel with
  | zero =>
    unfold bs_repeat
    rfl
  | succ n =>
    rw [bs_repeat]
    rfl

/-- Induction over the passes of `eol_repeat`: a property of frames that holds on entry and
is kept by a pass that erases and by the load of `BufPtr[-1]` that follows it holds when
the passes end, in the form that the last pass gives it. -/
theorem eol_repeat_induction {W : Type} (h : Host W) (wch wchOrig : Nat) (b : Bool)
    (P Q : Frame W → Prop)
    (herase : ∀ f, P f → f.d.BufPtr ≠ 0 → wch = UNICODE_BACKSPACE → f.d.Processed = true →
      P (eolErase (eolEcho h wch f)))
    (hnext : ∀ f, P f → f.d.BufPtr ≠ 0 → h.GetExtendedEditKey = true →
      wchOrig = h.EXTKEY_ERASE_PREV_WORD → P (f.noteRead ((f.d.BufPtr : Int) - 1)))
    (hstore : ∀ f, P f → ¬(wch = UNICODE_BACKSPACE ∧ f.d.Processed = true) →
      Q (eolStore wch (eolEcho h wch f)))
    (hPQ : ∀ f, P f → Q f) :
    ∀ (fuel : Nat) (f : Frame W), P f →
      (wch = UNICODE_BACKSPACE → f.d.Processed = true → f.d.BufPtr ≠ 0) →
      Q (eol_repeat h wch wchOrig b fuel f) := by
  intro fuel
  induction fuel with
  | zero =>
    intro f hP hne
    have hproc := (eolEcho_fields h wch f).2.2.2.2.2.1
    unfold eol_repeat
    dsimp only
    by_cases c1 : wch = UNICODE_BACKSPACE ∧ (eolEcho h wch f).d.Processed = true
    · rw [if_pos c1]
      have hP3 := herase f hP (hne c1.1 (hproc ▸ c1.2)) c1.1 (hproc ▸ c1.2)
      by_cases c2 : h.GetExtendedEditKey = true ∧ wchOrig = h.EXTKEY_ERASE_PREV_WORD
          ∧ (eolErase (eolEcho h wch f)).d.BufPtr ≠ 0
      · rw [if_pos c2]
        have hP4 := hnext _ hP3 c2.2.2 c2.1 c2.2.1
        split_ifs <;> exact hPQ _ hP4
      · rw [if_neg c2]
        exact hPQ _ hP3
    · rw [if_neg c1]
      exact hstore f hP (fun hc => c1 ⟨hc.1, hproc.symm ▸ hc.2⟩)
  | succ n ih =>
    intro f hP hne
    have hproc := (eolEcho_fields h wch f).2.2.2.2.2.1
    unfold eol_repeat
    dsimp only
    by_cases c1 : wch = UNICODE_BACKSPACE ∧ (eolEcho h wch f).d.Processed = true
    · rw [if_pos c1]
      have hP3 := herase f hP (hne c1.1 (hproc ▸ c1.2)) c1.1 (hproc ▸ c1.2)
      by_cases c2 : h.GetExtendedEditKey = true ∧ wchOrig = h.EXTKEY_ERASE_PREV_WORD
          ∧ (eolErase (eolEcho h wch f)).d.BufPtr ≠ 0
      · rw [if_pos c2]
        have hP4 := hnext _ hP3 c2.2.2 c2.1 c2.2.1
        by_cases c3 : xor b (!h.IS_WORD_DELIM ((eolErase (eolEcho h wch f)).d.BackupLimit
            (((eolErase (eolEcho h wch f)).d.BufPtr : Int) - 1))) = true
        · rw [if_pos c3]
          exact ih _ hP4 (fun _ _ => c2.2.2)
        · rw [if_neg c3]
          exact hPQ _ hP4
      · rw [if_neg c2]
        exact hPQ _ hP3
    · rw [if_neg c1]
      exact hstore f hP (fun hc => c1 ⟨hc.1, hproc.symm ▸ hc.2⟩)

/-- Induction over the passes of `bs_repeat`: a property of frames that holds on entry and
is kept by a pass and by the load of `BufPtr[-1]` that follows it holds when the passes
end. -/
theorem bs_repeat_induction {W : Type} (h : Host W) (wch wchOrig : Nat) (b : Bool)
    (P : Frame W → Prop)
    (hbs : ∀ f, P f → f.d.BufPtr ≠ 0 → P (bsErase h wch f))
    (hnext : ∀ f, P f → f.d.BufPtr ≠ 0 → h.GetExtendedEditKey = true →
      wchOrig = h.EXTKEY_ERASE_PREV_WORD → P (f.noteRead ((f.d.BufPtr : Int) - 1))) :
    ∀ (fuel : Nat) (f : Frame W), P f → f.d.BufPtr ≠ 0 →
      P (bs_repeat h wch wchOrig b fuel f) := by
  intro fuel
  induction fuel with
  | zero =>
    intro f hP hne
    rw [bs_repeat_eq]
    have hP3 := hbs f hP hne
    by_cases c2 : h.GetExtendedEditKey = true ∧ wchOrig = h.EXTKEY_ERASE_PREV_WORD
        ∧ (bsErase h wch f).d.BufPtr ≠ 0
    · rw [if_pos c2]
      have hP4 := hnext _ hP3 c2.2.2 c2.1 c2.2.1
      split_ifs <;> exact hP4
    · rw [if_neg c2]
      exact hP3
  | succ n ih =>
    intro f hP hne
    rw [bs_repeat_eq]
    have hP3 := hbs f hP hne
    by_cases c2 : h.GetExtendedEditKey = true ∧ wchOrig = h.EXTKEY_ERASE_PREV_WORD
        ∧ (bsErase h wch f).d.BufPtr ≠ 0
    · rw [if_pos c2]
      have hP4 := hnext _ hP3 c2.2.2 c2.1 c2.2.1
      by_cases c3 : xor b (!h.IS_WORD_DELIM ((bsErase h wch f).d.BackupLimit
          (((bsErase h wch f).d.BufPtr : Int) - 1))) = true
      · rw [if_pos c3]
        exact ih _ hP4 c2.2.2
      · rw [if_neg c3]
        exact hP4
    · rw [if_neg c2]
      exact hP3
theorem bsErase_Processed {W : Type} (h : Host W) (wch : Nat) (f : Frame W) :
    (bsErase h wch f).d.Processed = f.d.Processed := by
  unfold bsErase
  dsimp only
  split_ifs <;> rfl

/-- The paths through `ProcessCookedReadInput`. A property `R` of what a call leaves behind
holds for every call when it holds for the call that the buffer-full guard ends and for
the call that stores a wake-up character, and when, for the calls that go on, properties
`P`, `M` and `Q` of frames are given such that: `P` holds on entry and is kept by every
pass of `eol_repeat` and of `bs_repeat` and by the loads of `BufPtr[-1]`; `Q` holds after a
character is stored at end of line; `M` holds after the first half of the middle-of-line
branch; the repaint takes `M` to `Q`, or to `R` when it returns early; and the closing
block takes `Q` to `R`. `wch` is the character after the alias of the erase-previous-word
key and `wch2` the character after the alias of the second backspace. -/
theorem ProcessCookedReadInput_induction {W : Type} (h : Host W) (scr : W)
    (d : COOKED_READ_DATA) (ch keyState : Nat) (P M Q : Frame W → Prop) (R : Tick W → Prop)
    (wch wch2 : Nat)
    (hwch : (if ch = h.EXTKEY_ERASE_PREV_WORD then UNICODE_BACKSPACE else ch) = wch)
    (hwch2 : (if wch = h.UNICODE_BACKSPACE2 then UNICODE_BACKSPACE else wch) = wch2)
    (hguard : subSizeT d.BufferSize (2 * sizeof_WCHAR) ≤ d.BytesRead →
      ch ≠ UNICODE_CARRIAGERETURN → ch ≠ UNICODE_BACKSPACE →
      R { Completed := false, Status := STATUS_SUCCESS, d := d, scr := scr, log := [] })
    (hwake : ¬(subSizeT d.BufferSize (2 * sizeof_WCHAR) ≤ d.BytesRead
        ∧ ch ≠ UNICODE_CARRIAGERETURN ∧ ch ≠ UNICODE_BACKSPACE) →
      ch < UNICODE_SPACE → d.CtrlWakeupMask &&& (1 <<< ch) ≠ 0 →
      R { Completed := true
          Status := STATUS_SUCCESS
          d := { d with
                 BackupLimit := poke d.BackupLimit d.BufPtr ch
                 BytesRead := toULONG (d.BytesRead + sizeof_WCHAR)
                 BufPtr := d.BufPtr + 1
                 CurrentPosition := toULONG (d.CurrentPosition + 1)
                 ControlKeyState := keyState }
          scr := scr
          log := [Access.write d.BufPtr 1] })
    (hentry : ¬(subSizeT d.BufferSize (2 * sizeof_WCHAR) ≤ d.BytesRead
        ∧ ch ≠ UNICODE_CARRIAGERETURN ∧ ch ≠ UNICODE_BACKSPACE) →
      ¬(d.CtrlWakeupMask ≠ 0 ∧ ch < UNICODE_SPACE ∧ d.CtrlWakeupMask &&& (1 <<< ch) ≠ 0) →
      P (entryFrame scr d))
    (hfirst : P (entryFrame scr d) → h.GetExtendedEditKey = true →
      (d.BufPtr ≠ 0 ∨ (AT_EOL d = true ∧ wch2 ≠ UNICODE_BACKSPACE)) →
      P ((entryFrame scr d).noteRead ((d.BufPtr : Int) - 1)))
    (hnext : ∀ f, P f → f.d.BufPtr ≠ 0 → h.GetExtendedEditKey = true →
      ch = h.EXTKEY_ERASE_PREV_WORD → P (f.noteRead ((f.d.BufPtr : Int) - 1)))
    (herase : AT_EOL d = true → wch2 = UNICODE_BACKSPACE → ∀ f, P f → f.d.BufPtr ≠ 0 →
      f.d.Processed = true → P (eolErase (eolEcho h UNICODE_BACKSPACE f)))
    (hstore : AT_EOL d = true → ¬(wch2 = UNICODE_BACKSPACE ∧ d.Processed = true) →
      ∀ f, P f → f.d = d → Q (eolStore wch2 (eolEcho h wch2 f)))
    (hbs : ¬(AT_EOL d = true) → wch = UNICODE_BACKSPACE → ∀ f, P f → f.d.BufPtr ≠ 0 →
      f.d.Processed = true → P (bsErase h UNICODE_BACKSPACE f))
    (hPQ : AT_EOL d = true → ∀ f, P f → Q f)
    (hPQ0 : P (entryFrame scr d) → Q (entryFrame scr d))
    (hPM : ∀ f, P f → M f)
    (hmid : ¬(AT_EOL d = true) → ¬(wch = UNICODE_BACKSPACE ∧ d.Processed = true) →
      P (entryFrame scr d) → M (midEdit h wch ch (entryFrame scr d)).1)
    (hfail : ∀ f, M f → f.d.Echo = true → (midRepaint h wch f).2 = true →
      R { Completed := true, Status := (midRepaint h wch f).1.Status,
          d := (midRepaint h wch f).1.d, scr := (midRepaint h wch f).1.scr,
          log := (midRepaint h wch f).1.log })
    (hrep : ∀ f, M f → f.d.Echo = true → (midRepaint h wch f).2 = false →
      Q (midRepaint h wch f).1)
    (hquiet : ∀ f, M f → f.d.Echo = false → Q f)
    (hfin : ∀ f w, Q f → ((AT_EOL d = true ∧ w = wch2) ∨ (¬(AT_EOL d = true) ∧ w = wch)) →
      R (crCompletion h w f)) :
    R (ProcessCookedReadInput h scr d ch keyState) := by
  by_cases hg : subSizeT d.BufferSize (2 * sizeof_WCHAR) ≤ d.BytesRead
      ∧ ch ≠ UNICODE_CARRIAGERETURN ∧ ch ≠ UNICODE_BACKSPACE
  · have key : ProcessCookedReadInput h scr d ch keyState
        = { Completed := false, Status := STATUS_SUCCESS, d := d, scr := scr, log := [] } := by
      unfold ProcessCookedReadInput
      rw [if_pos hg]
    rw [key]
    exact hguard hg.1 hg.2.1 hg.2.2
  by_cases hw : d.CtrlWakeupMask ≠ 0 ∧ ch < UNICODE_SPACE ∧ d.CtrlWakeupMask &&& (1 <<< ch) ≠ 0
  · have key : ProcessCookedReadInput h scr d ch keyState
        = { Completed := true
            Status := STATUS_SUCCESS
            d := { d with
                   BackupLimit := poke d.BackupLimit d.BufPtr ch
                   BytesRead := toULONG (d.BytesRead + sizeof_WCHAR)
                   BufPtr := d.BufPtr + 1
                   CurrentPosition := toULONG (d.CurrentPosition + 1)
                   ControlKeyState := keyState }
            scr := scr
            log := [Access.write d.BufPtr 1] } := by
      unfold ProcessCookedReadInput
      rw [if_neg hg, if_pos hw]
    rw [key]
    exact hwake hg hw.2.1 hw.2.2
  have hP0 := hentry hg hw
  by_cases heol : AT_EOL d = true
  · -- the end-of-line branch
    rw [ProcessCookedReadInput_eol h scr d ch keyState hg hw heol wch hwch _ rfl]
    unfold eolBranch
    dsimp only
    rw [hwch2]
    by_cases c0 : wch2 ≠ UNICODE_BACKSPACE ∨ (entryFrame scr d).d.BufPtr ≠ 0
    · rw [if_pos c0]
      dsimp only
      apply hfin _ _ _ (Or.inl ⟨heol, rfl⟩)
      have hP1 : P (if h.GetExtendedEditKey = true
          then (entryFrame scr d).noteRead (((entryFrame scr d).d.BufPtr : Int) - 1)
          else entryFrame scr d) := by
        by_cases hx : h.GetExtendedEditKey = true
        · rw [if_pos hx]
          refine hfirst hP0 hx ?_
          rcases c0 with c0 | c0
          · exact Or.inr ⟨heol, c0⟩
          · exact Or.inl c0
        · rw [if_neg hx]
          exact hP0
      have hd1 : (if h.GetExtendedEditKey = true
          then (entryFrame scr d).noteRead (((entryFrame scr d).d.BufPtr : Int) - 1)
          else entryFrame scr d).d = d := by
        split_ifs <;> rfl
      refine eol_repeat_induction h wch2 ch _
        (fun f => P f ∧ (¬(wch2 = UNICODE_BACKSPACE ∧ d.Processed = true) → f.d = d)
          ∧ f.d.Processed = d.Processed) Q ?_ ?_ ?_ ?_ _ _ ⟨hP1, fun _ => hd1, by rw [hd1]⟩ ?_
      · intro f hf hne hb hp
        refine ⟨?_, fun hc => absurd ⟨hb, hf.2.2 ▸ hp⟩ hc, ?_⟩
        · have := herase heol hb f hf.1 hne hp
          rw [hb]
          exact this
        · rw [← hf.2.2]
          exact (eolErase_eolEcho_fields h wch2 f).2.2.2.2
      · intro f hf hne hx ho
        exact ⟨hnext f hf.1 hne hx ho, hf.2.1, hf.2.2⟩
      · intro f hf hc
        have hc' : ¬(wch2 = UNICODE_BACKSPACE ∧ d.Processed = true) := by
          rw [← hf.2.2]
          exact hc
        exact hstore heol hc' f hf.1 (hf.2.1 hc')
      · intro f hf
        exact hPQ heol f hf.1
      · intro hb _
        rcases c0 with c0 | c0
        · exact absurd hb c0
        · rw [hd1]
          exact c0
    · rw [if_neg c0]
      exact hfin _ _ (hPQ heol _ hP0) (Or.inl ⟨heol, rfl⟩)
  · -- the middle of the line
    rw [ProcessCookedReadInput_mid h scr d ch keyState hg hw heol wch hwch _ rfl]
    have hM : (midEdit h wch ch (entryFrame scr d)).2 = true →
        M (midEdit h wch ch (entryFrame scr d)).1 := by
      by_cases c1 : wch = UNICODE_BACKSPACE ∧ d.Processed = true
      · have c1' : wch = UNICODE_BACKSPACE ∧ (entryFrame scr d).d.Processed = true := c1
        by_cases c2 : (entryFrame scr d).d.BufPtr ≠ 0
        · intro _
          unfold midEdit
          rw [if_pos c1', if_pos c2]
          dsimp only
          apply hPM
          have hP1 : P (if h.GetExtendedEditKey = true
              then { entryFrame scr d with
                     log := (entryFrame scr d).log
                       ++ [Access.read (((entryFrame scr d).d.BufPtr : Int) - 1) 1] }
              else entryFrame scr d) := by
            by_cases hx : h.GetExtendedEditKey = true
            · rw [if_pos hx]
              exact hfirst hP0 hx (Or.inl c2)
            · rw [if_neg hx]
              exact hP0
          have hd1 : (if h.GetExtendedEditKey = true
              then { entryFrame scr d with
                     log := (entryFrame scr d).log
                       ++ [Access.read (((entryFrame scr d).d.BufPtr : Int) - 1) 1] }
              else entryFrame scr d).d = d := by
            split_ifs <;> rfl
          have key := bs_repeat_induction h wch ch
            (h.GetExtendedEditKey && h.IS_WORD_DELIM
              ((entryFrame scr d).d.BackupLimit (((entryFrame scr d).d.BufPtr : Int) - 1)))
            (fun f => P f ∧ f.d.Processed = true) ?_ ?_ d.BufPtr _ ⟨hP1, by rw [hd1]; exact c1.2⟩
            (by rw [hd1]; exact c2)
          · rw [hd1]
            exact key.1
          · intro f hf hne
            rw [c1.1]
            exact ⟨hbs heol c1.1 f hf.1 hne hf.2,
              (bsErase_Processed h UNICODE_BACKSPACE f).trans hf.2⟩
          · intro f hf hne hx ho
            exact ⟨hnext f hf.1 hne hx ho, hf.2⟩
        · intro h2
          unfold midEdit at h2
          rw [if_pos c1', if_neg c2] at h2
          exact Bool.noConfusion (h2 : false = true)
      · intro _
        exact hmid heol c1 hP0
    have hQ0 : (midEdit h wch ch (entryFrame scr d)).2 = false →
        Q (midEdit h wch ch (entryFrame scr d)).1 := by
      intro h2
      by_cases c1 : wch = UNICODE_BACKSPACE ∧ (entryFrame scr d).d.Processed = true
      · by_cases c2 : (entryFrame scr d).d.BufPtr ≠ 0
        · unfold midEdit at h2
          rw [if_pos c1, if_pos c2] at h2
          exact Bool.noConfusion (h2 : true = false)
        · unfold midEdit
          rw [if_pos c1, if_neg c2]
          exact hPQ0 hP0
      · have := (midEdit_char h wch ch (entryFrame scr d) c1 ?_).1
        · rw [h2] at this
          exact absurd this (by decide)
        · intro hcr
          unfold midEdit at h2
          rw [if_neg c1, if_pos hcr] at h2
          exact Bool.noConfusion (h2 : true = false)
    by_cases c3 : (midEdit h wch ch (entryFrame scr d)).1.d.Echo = true
        ∧ (midEdit h wch ch (entryFrame scr d)).2 = true
    · rw [if_pos c3]
      by_cases c4 : (midRepaint h wch (midEdit h wch ch (entryFrame scr d)).1).2 = true
      · rw [if_pos c4]
        exact hfail _ (hM c3.2) c3.1 c4
      · rw [if_neg c4]
        exact hfin _ _ (hrep _ (hM c3.2) c3.1 (by simpa using c4)) (Or.inr ⟨heol, rfl⟩)
    · rw [if_neg c3]
      apply hfin _ _ _ (Or.inr ⟨heol, rfl⟩)
      by_cases c5 : (midEdit h wch ch (entryFrame scr d)).2 = true
      · have hecho : (midEdit h wch ch (entryFrame scr d)).1.d.Echo = false := by
          by_cases he : (midEdit h wch ch (entryFrame scr d)).1.d.Echo = true
          · exact absurd ⟨he, c5⟩ c3
          · simpa using he
        exact hquiet _ (hM c5) hecho
      · exact hQ0 (by simpa using c5)
/-- The echo at the head of `eol_repeat` changes the row of the anchor and the count of
visible cells, and nothing else in the session; it makes no access to the line buffer. -/
theorem eolEcho_shape {W : Type} (h : Host W) (wch : Nat) (f : Frame W) :
    ∃ (y : Int) (v : Nat),
      (eolEcho h wch f).d =
        { f.d with OriginalCursorPosition := { X := f.d.OriginalCursorPosition.X, Y := y }
                   NumberOfVisibleChars := v } ∧
      (eolEcho h wch f).log = f.log := by
  unfold eolEcho
  dsimp only
  split_ifs
  · exact ⟨_, _, rfl, rfl⟩
  · exact ⟨f.d.OriginalCursorPosition.Y, _, rfl, rfl⟩
  · exact ⟨f.d.OriginalCursorPosition.Y, _, rfl, rfl⟩

/-- A pass of `eol_repeat` that erases, against the frame it starts from. -/
theorem eolErase_shape {W : Type} (h : Host W) (wch : Nat) (f : Frame W) :
    ∃ (y : Int) (v : Nat),
      (eolErase (eolEcho h wch f)).d =
        { f.d with OriginalCursorPosition := { X := f.d.OriginalCursorPosition.X, Y := y }
                   NumberOfVisibleChars := v
                   BytesRead := subULONG f.d.BytesRead sizeof_WCHAR
                   BackupLimit := poke f.d.BackupLimit f.d.BufPtr UNICODE_SPACE
                   BufPtr := f.d.BufPtr - 1
                   CurrentPosition := subULONG f.d.CurrentPosition 1 } ∧
      (eolErase (eolEcho h wch f)).log = f.log ++ [Access.write f.d.BufPtr 1] := by
  obtain ⟨y, v, hd, hl⟩ := eolEcho_shape h wch f
  refine ⟨y, v, ?_, ?_⟩
  · unfold eolErase
    rw [hd]
  · unfold eolErase
    rw [hd, hl]

/-- A pass of `eol_repeat` that stores, against the frame it starts from. -/
theorem eolStore_shape {W : Type} (h : Host W) (wch : Nat) (f : Frame W) :
    ∃ (y : Int) (v : Nat),
      (eolStore wch (eolEcho h wch f)).d =
        { f.d with OriginalCursorPosition := { X := f.d.OriginalCursorPosition.X, Y := y }
                   NumberOfVisibleChars := v
                   BackupLimit := poke f.d.BackupLimit f.d.BufPtr wch
                   BytesRead := toULONG (f.d.BytesRead + sizeof_WCHAR)
                   BufPtr := f.d.BufPtr + 1
                   CurrentPosition := toULONG (f.d.CurrentPosition + 1) } ∧
      (eolStore wch (eolEcho h wch f)).log = f.log ++ [Access.write f.d.BufPtr 1] := by
  obtain ⟨y, v, hd, hl⟩ := eolEcho_shape h wch f
  refine ⟨y, v, ?_, ?_⟩
  · unfold eolStore
    rw [hd]
  · unfold eolStore
    rw [hd, hl]

/-- A pass of `bs_repeat`, against the frame it starts from. -/
theorem bsErase_shape {W : Type} (h : Host W) (wch : Nat) (f : Frame W) :
    (bsErase h wch f).d =
      { f.d with
        BytesRead := subULONG f.d.BytesRead sizeof_WCHAR
        BufPtr := f.d.BufPtr - 1
        CurrentPosition := subULONG f.d.CurrentPosition 1
        BackupLimit :=
          poke (memmoveW f.d.BackupLimit ((f.d.BufPtr - 1 : Nat) : Int)
                  (((f.d.BufPtr - 1 : Nat) : Int) + 1)
                  (subSizeT (subULONG f.d.BytesRead sizeof_WCHAR)
                    (subULONG f.d.CurrentPosition 1 * sizeof_WCHAR)))
            ((subULONG f.d.BytesRead sizeof_WCHAR / sizeof_WCHAR : Nat) : Int) UNICODE_SPACE } ∧
    (bsErase h wch f).log = f.log ++
      [Access.read (((f.d.BufPtr - 1 : Nat) : Int) + 1)
         (subSizeT (subULONG f.d.BytesRead sizeof_WCHAR)
           (subULONG f.d.CurrentPosition 1 * sizeof_WCHAR) / sizeof_WCHAR),
       Access.write ((f.d.BufPtr - 1 : Nat) : Int)
         (subSizeT (subULONG f.d.BytesRead sizeof_WCHAR)
           (subULONG f.d.CurrentPosition 1 * sizeof_WCHAR) / sizeof_WCHAR),
       Access.write ((subULONG f.d.BytesRead sizeof_WCHAR / sizeof_WCHAR : Nat) : Int) 1] := by
  unfold bsErase
  dsimp only
  split_ifs <;> exact ⟨rfl, rfl⟩

/-- The repaint of the middle-of-line branch sets the count of visible cells and the row
of the anchor; when it returns early it has set `BytesRead` to 0. It makes no access to
the line buffer of its own. -/
theorem midRepaint_shape {W : Type} (h : Host W) (wch : Nat) (f : Frame W) :
    ∃ (y : Int) (v : Nat),
      (midRepaint h wch f).1.log = f.log ∧
      (((midRepaint h wch f).2 = false ∧
        (midRepaint h wch f).1.d =
          { f.d with OriginalCursorPosition := { X := f.d.OriginalCursorPosition.X, Y := y }
                     NumberOfVisibleChars := v }) ∨
       ((midRepaint h wch f).2 = true ∧
        (midRepaint h wch f).1.d =
          { f.d with OriginalCursorPosition := { X := f.d.OriginalCursorPosition.X, Y := y }
                     NumberOfVisibleChars := v
                     BytesRead := 0 })) := by
  unfold midRepaint
  dsimp only
  split_ifs
  all_goals first
    | exact ⟨f.d.OriginalCursorPosition.Y, _, rfl, Or.inr ⟨rfl, rfl⟩⟩
    | exact ⟨_, _, rfl, Or.inr ⟨rfl, rfl⟩⟩
    | exact ⟨_, _, rfl, Or.inl ⟨rfl, rfl⟩⟩

/-- The closing block of `ProcessCookedReadInput`, case by case: nothing happens for a
character other than CR; for CR, the LF is stored at the write cursor when `Processed` is
set and `BytesRead` is below `BufferSize`, and the call is complete exactly when `Line` is
set, the session then being as it is after the LF or as `ProcessCommandLine` leaves it. -/
theorem crCompletion_shape {W : Type} (h : Host W) (w : Nat) (f : Frame W) :
    (w ≠ UNICODE_CARRIAGERETURN ∧
      crCompletion h w f =
        { Completed := false, Status := f.Status, d := f.d, scr := f.scr, log := f.log }) ∨
    (w = UNICODE_CARRIAGERETURN ∧ ∃ (d1 : COOKED_READ_DATA) (lg : List Access),
      ((¬(f.d.Processed = true ∧ f.d.BytesRead < f.d.BufferSize) ∧ d1 = f.d ∧ lg = f.log) ∨
       (f.d.Processed = true ∧ f.d.BytesRead < f.d.BufferSize ∧
        d1 = { f.d with
               BackupLimit := poke f.d.BackupLimit f.d.BufPtr UNICODE_LINEFEED
               BytesRead := toULONG (f.d.BytesRead + sizeof_WCHAR)
               BufPtr := f.d.BufPtr + 1
               CurrentPosition := toULONG (f.d.CurrentPosition + 1) } ∧
        lg = f.log ++ [Access.write f.d.BufPtr 1])) ∧
      (crCompletion h w f).log = lg ∧
      (((crCompletion h w f).Completed = false ∧ f.d.Line = false ∧
          (crCompletion h w f).d = d1) ∨
       ((crCompletion h w f).Completed = true ∧ f.d.Line = true ∧
          ((crCompletion h w f).d = d1 ∨
           ∃ scr1, (crCompletion h w f).d = (h.ProcessCommandLine scr1 d1 h.VK_INSERT 0 false).2)))) := by
  by_cases hw : w = UNICODE_CARRIAGERETURN
  · refine Or.inr ⟨hw, ?_⟩
    have tail : ∀ f1 : Frame W, f1.d.Line = f.d.Line →
        ((if f1.d.Line = true then
            ({ Completed := true, Status := STATUS_SUCCESS,
               d := (if f1.d.InsertMode ≠ h.GetInsertMode
                     then h.ProcessCommandLine f1.scr f1.d h.VK_INSERT 0 false
                     else (f1.scr, f1.d)).2,
               scr := (if f1.d.InsertMode ≠ h.GetInsertMode
                       then h.ProcessCommandLine f1.scr f1.d h.VK_INSERT 0 false
                       else (f1.scr, f1.d)).1,
               log := f1.log } : Tick W)
          else { Completed := false, Status := f1.Status, d := f1.d, scr := f1.scr,
                 log := f1.log }).log = f1.log) ∧
        (((if f1.d.Line = true then
            ({ Completed := true, Status := STATUS_SUCCESS,
               d := (if f1.d.InsertMode ≠ h.GetInsertMode
                     then h.ProcessCommandLine f1.scr f1.d h.VK_INSERT 0 false
                     else (f1.scr, f1.d)).2,
               scr := (if f1.d.InsertMode ≠ h.GetInsertMode
                       then h.ProcessCommandLine f1.scr f1.d h.VK_INSERT 0 false
                       else (f1.scr, f1.d)).1,
               log := f1.log } : Tick W)
          else { Completed := false, Status := f1.Status, d := f1.d, scr := f1.scr,
                 log := f1.log }).Completed = false ∧ f.d.Line = false ∧
          (if f1.d.Line = true then
            ({ Completed := true, Status := STATUS_SUCCESS,
               d := (if f1.d.InsertMode ≠ h.GetInsertMode
                     then h.ProcessCommandLine f1.scr f1.d h.VK_INSERT 0 false
                     else (f1.scr, f1.d)).2,
               scr := (if f1.d.InsertMode ≠ h.GetInsertMode
                       then h.ProcessCommandLine f1.scr f1.d h.VK_INSERT 0 false
                       else (f1.scr, f1.d)).1,
               log := f1.log } : Tick W)
          else { Completed := false, Status := f1.Status, d := f1.d, scr := f1.scr,
                 log := f1.log }).d = f1.d) ∨
         ((if f1.d.Line = true then
            ({ Completed := true, Status := STATUS_SUCCESS,
               d := (if f1.d.InsertMode ≠ h.GetInsertMode
                     then h.ProcessCommandLine f1.scr f1.d h.VK_INSERT 0 false
                     else (f1.scr, f1.d)).2,
               scr := (if f1.d.InsertMode ≠ h.GetInsertMode
                       then h.ProcessCommandLine f1.scr f1.d h.VK_INSERT 0 false
                       else (f1.scr, f1.d)).1,
               log := f1.log } : Tick W)
          else { Completed := false, Status := f1.Status, d := f1.d, scr := f1.scr,
                 log := f1.log }).Completed = true ∧ f.d.Line = true ∧
          ((if f1.d.Line = true then
            ({ Completed := true, Status := STATUS_SUCCESS,
               d := (if f1.d.InsertMode ≠ h.GetInsertMode
                     then h.ProcessCommandLine f1.scr f1.d h.VK_INSERT 0 false
                     else (f1.scr, f1.d)).2,
               scr := (if f1.d.InsertMode ≠ h.GetInsertMode
                       then h.ProcessCommandLine f1.scr f1.d h.VK_INSERT 0 false
                       else (f1.scr, f1.d)).1,
               log := f1.log } : Tick W)
          else { Completed := false, Status := f1.Status, d := f1.d, scr := f1.scr,
                 log := f1.log }).d = f1.d ∨
           ∃ scr1, (if f1.d.Line = true then
            ({ Completed := true, Status := STATUS_SUCCESS,
               d := (if f1.d.InsertMode ≠ h.GetInsertMode
                     then h.ProcessCommandLine f1.scr f1.d h.VK_INSERT 0 false
                     else (f1.scr, f1.d)).2,
               scr := (if f1.d.InsertMode ≠ h.GetInsertMode
                       then h.ProcessCommandLine f1.scr f1.d h.VK_INSERT 0 false
                       else (f1.scr, f1.d)).1,
               log := f1.log } : Tick W)
          else { Completed := false, Status := f1.Status, d := f1.d, scr := f1.scr,
                 log := f1.log }).d = (h.ProcessCommandLine scr1 f1.d h.VK_INSERT 0 false).2))) := by
      intro f1 hline
      by_cases c3 : f1.d.Line = true
      · rw [if_pos c3]
        refine ⟨rfl, Or.inr ⟨rfl, hline ▸ c3, ?_⟩⟩
        by_cases c4 : f1.d.InsertMode ≠ h.GetInsertMode
        · exact Or.inr ⟨f1.scr, by rw [if_pos c4]⟩
        · exact Or.inl (by rw [if_neg c4])
      · rw [if_neg c3]
        refine ⟨rfl, Or.inl ⟨rfl, ?_, rfl⟩⟩
        rw [← hline]
        simpa using c3
    unfold crCompletion
    rw [if_pos hw]
    by_cases c1 : f.d.Processed = true ∧ f.d.BytesRead < f.d.BufferSize
    · refine ⟨_, _, Or.inr ⟨c1.1, c1.2, rfl, rfl⟩, ?_⟩
      dsimp only
      rw [if_pos c1]
      by_cases c2 : f.d.Echo = true
      · rw [if_pos c2]
        exact tail _ rfl
      · rw [if_neg c2]
        exact tail _ rfl
    · refine ⟨_, _, Or.inl ⟨c1, rfl, rfl⟩, ?_⟩
      dsimp only
      rw [if_neg c1]
      exact tail _ rfl
  · exact Or.inl ⟨hw, crCompletion_of_ne h w f hw⟩
/-- The first half of the middle-of-line branch for CR: CR is stored at the end of the
line, whatever the write cursor is; `BufPtr` goes to the slot after it and
`CurrentPosition` up by one. -/
theorem midEdit_cr_shape {W : Type} (h : Host W) (wch wchOrig : Nat) (f : Frame W)
    (hbs : ¬(wch = UNICODE_BACKSPACE ∧ f.d.Processed = true))
    (hcr : wch = UNICODE_CARRIAGERETURN) :
    (midEdit h wch wchOrig f).1.d =
      { f.d with
        BackupLimit := poke f.d.BackupLimit ((f.d.BytesRead / sizeof_WCHAR : Nat) : Int) wch
        BufPtr := f.d.BytesRead / sizeof_WCHAR + 1
        BytesRead := toULONG (f.d.BytesRead + sizeof_WCHAR)
        CurrentPosition := toULONG (f.d.CurrentPosition + 1) } ∧
    (midEdit h wch wchOrig f).1.log
      = f.log ++ [Access.write ((f.d.BytesRead / sizeof_WCHAR : Nat) : Int) 1] := by
  unfold midEdit
  rw [if_neg hbs, if_pos hcr]
  exact ⟨rfl, rfl⟩

/-- The first half of the middle-of-line branch for a character that is stored at the
write cursor: the session and the accesses to the line buffer. -/
theorem midEdit_char_shape {W : Type} (h : Host W) (wch wchOrig : Nat) (f : Frame W)
    (hbs : ¬(wch = UNICODE_BACKSPACE ∧ f.d.Processed = true))
    (hcr : wch ≠ UNICODE_CARRIAGERETURN) :
    (midEdit h wch wchOrig f).1.d =
      { f.d with
        BackupLimit :=
          poke (if f.d.InsertMode = true then
                  memmoveW f.d.BackupLimit ((f.d.BufPtr : Int) + 1) f.d.BufPtr
                    (subSizeT f.d.BytesRead (f.d.CurrentPosition * sizeof_WCHAR))
                else f.d.BackupLimit) f.d.BufPtr wch
        BytesRead :=
          if f.d.InsertMode = true then toULONG (f.d.BytesRead + sizeof_WCHAR) else f.d.BytesRead
        BufPtr := f.d.BufPtr + 1
        CurrentPosition := toULONG (f.d.CurrentPosition + 1) } ∧
    ∃ tail : List Access,
      (midEdit h wch wchOrig f).1.log =
        f.log ++
          (if f.d.InsertMode = true then
            [Access.read f.d.BufPtr
               (subSizeT f.d.BytesRead (f.d.CurrentPosition * sizeof_WCHAR) / sizeof_WCHAR),
             Access.write ((f.d.BufPtr : Int) + 1)
               (subSizeT f.d.BytesRead (f.d.CurrentPosition * sizeof_WCHAR) / sizeof_WCHAR)]
           else []) ++ [Access.write f.d.BufPtr 1] ++ tail ∧
      (tail = [] ∨
       tail = [Access.read (subULONG (toULONG (f.d.CurrentPosition + 1)) 1) 1] ∨
       tail = [Access.read (subULONG (toULONG (f.d.CurrentPosition + 1)) 1) 1,
               Access.read 0 (subULONG (toULONG (f.d.CurrentPosition + 1)) 1 + 1)]) := by
  unfold midEdit
  rw [if_neg hbs, if_neg hcr]
  dsimp only
  by_cases hi : f.d.InsertMode = true
  · simp only [hi, if_true]
    by_cases he : f.d.Echo = true
    · simp only [he, if_true]
      refine ⟨trivial, ?_⟩
      split_ifs
      · exact ⟨_, by simp, Or.inr (Or.inr rfl)⟩
      · exact ⟨_, by simp, Or.inr (Or.inl rfl)⟩
    · simp only [he, Bool.false_eq_true, if_false]
      exact ⟨trivial, [], by simp, Or.inl rfl⟩
  · simp only [hi, Bool.false_eq_true, if_false]
    by_cases he : f.d.Echo = true
    · simp only [he, if_true]
      refine ⟨trivial, ?_⟩
      split_ifs
      · exact ⟨_, by simp, Or.inr (Or.inr rfl)⟩
      · exact ⟨_, by simp, Or.inr (Or.inl rfl)⟩
    · simp only [he, Bool.false_eq_true, if_false]
      exact ⟨trivial, [], by simp, Or.inl rfl⟩

/-- The console of the examples leaves the line alone when the INSERT key is processed. -/
theorem exampleHost_InsertKeyKeepsLine (extendedEditKey insertMode : Bool) :
    (exampleHost extendedEditKey insertMode).InsertKeyKeepsLine :=
  fun _ _ => ⟨rfl, rfl, rfl, rfl, rfl, rfl, rfl⟩

/-- The repaint of the middle-of-line branch returns early only when a call of the screen
writer fails. -/
theorem midRepaint_early {W : Type} (h : Host W) (wch : Nat) (f : Frame W)
    (hret : (midRepaint h wch f).2 = true) : ¬h.ScreenSucceeds := by
  intro hs
  unfold midRepaint at hret
  dsimp only at hret
  split_ifs at hret with c1 c2 c3 c4 c5
  all_goals first
    | exact Bool.noConfusion hret
    | (rw [hs.1] at c1; exact Bool.noConfusion c1)
    | (rw [hs.2] at c4; exact Bool.noConfusion c4)
    | (rw [hs.2] at c5; exact Bool.noConfusion c5)

/-! ## One tick on a well-formed session -/

theorem Inside_append_one (lo : Int) (hi : Nat) (l : List Access) (x : Access)
    (hl : ∀ a ∈ l, a.Inside lo hi) (hx : x.Inside lo hi) : ∀ a ∈ l ++ [x], a.Inside lo hi := by
  intro a ha
  rcases List.mem_append.1 ha with h1 | h1
  · exact hl a h1
  · rw [List.mem_singleton.1 h1]
    exact hx

theorem Inside_append (lo : Int) (hi : Nat) (l m : List Access)
    (hl : ∀ a ∈ l, a.Inside lo hi) (hm : ∀ a ∈ m, a.Inside lo hi) :
    ∀ a ∈ l ++ m, a.Inside lo hi := by
  intro a ha
  rcases List.mem_append.1 ha with h1 | h1
  · exact hl a h1
  · exact hm a h1

/-- One call of `ProcessCookedReadInput` on a well-formed session: `BufferSize` and
`BytesRead` even with `BytesRead < BufferSize`, the write cursor inside the contents and
both of its forms agreeing. The call keeps `BufferSize`, leaves `BytesRead` even and at
most `BufferSize`, and keeps the write cursor inside the contents unless it has given the
read up after a failure of the screen writer; every store it makes lies in the buffer and
every load lies in it or is the load of `BufPtr[-1]` that `lo` admits; and a call that
reports continue leaves the two slots for CR and LF free if they were free before, BS
being processed and CR ending the line. -/
theorem tick_invariant {W : Type} (h : Host W) (scr : W) (d : COOKED_READ_DATA)
    (ch keyState : Nat) (lo : Int)
    (hB2 : d.BufferSize % 2 = 0) (hn2 : d.BytesRead % 2 = 0)
    (hlt : d.BytesRead < d.BufferSize) (hcp : 2 * d.CurrentPosition ≤ d.BytesRead)
    (hptr : d.BufPtr = d.CurrentPosition) (hcap : d.BufferSize < 2 ^ 32)
    (hlo : lo ≤ 0)
    (hlo1 : h.GetExtendedEditKey = true → d.BufPtr = 0 → AT_EOL d = true → lo ≤ -1) :
    ((h.InsertKeyKeepsLine ∨ (ProcessCookedReadInput h scr d ch keyState).Completed = false) →
      (ProcessCookedReadInput h scr d ch keyState).d.BufferSize = d.BufferSize ∧
      (ProcessCookedReadInput h scr d ch keyState).d.BytesRead % 2 = 0 ∧
      (ProcessCookedReadInput h scr d ch keyState).d.BytesRead ≤ d.BufferSize ∧
      (2 * (ProcessCookedReadInput h scr d ch keyState).d.CurrentPosition
          ≤ (ProcessCookedReadInput h scr d ch keyState).d.BytesRead ∨
        (¬h.ScreenSucceeds ∧ (ProcessCookedReadInput h scr d ch keyState).Completed = true ∧
          (ProcessCookedReadInput h scr d ch keyState).d.BytesRead = 0))) ∧
    (∀ a ∈ (ProcessCookedReadInput h scr d ch keyState).log, a.Inside lo (d.BufferSize / 2)) ∧
    ((ProcessCookedReadInput h scr d ch keyState).Completed = false →
      (ch = UNICODE_CARRIAGERETURN → d.Line = true ∧
        UNICODE_CARRIAGERETURN ≠ h.EXTKEY_ERASE_PREV_WORD ∧
        UNICODE_CARRIAGERETURN ≠ h.UNICODE_BACKSPACE2) →
      (ch = UNICODE_BACKSPACE → d.Processed = true) →
      d.BytesRead + 2 * sizeof_WCHAR ≤ d.BufferSize →
      (ProcessCookedReadInput h scr d ch keyState).d.BytesRead + 2 * sizeof_WCHAR
        ≤ d.BufferSize) := by
  have hsz : sizeof_WCHAR = 2 := rfl
  obtain ⟨wch, hwch⟩ : ∃ w, (if ch = h.EXTKEY_ERASE_PREV_WORD then UNICODE_BACKSPACE else ch) = w :=
    ⟨_, rfl⟩
  obtain ⟨wch2, hwch2⟩ : ∃ w, (if wch = h.UNICODE_BACKSPACE2 then UNICODE_BACKSPACE else wch) = w :=
    ⟨_, rfl⟩
  have hBS : ch = UNICODE_BACKSPACE → wch = UNICODE_BACKSPACE ∧ wch2 = UNICODE_BACKSPACE := by
    intro hc
    have h1 : wch = UNICODE_BACKSPACE := by
      rw [← hwch, hc, ite_self]
    refine ⟨h1, ?_⟩
    rw [← hwch2, h1, ite_self]
  have hCR1 : wch = UNICODE_CARRIAGERETURN → ch = UNICODE_CARRIAGERETURN := by
    intro hc
    rw [← hwch] at hc
    by_cases hx : ch = h.EXTKEY_ERASE_PREV_WORD
    · rw [if_pos hx] at hc
      exact absurd hc (by decide)
    · rw [if_neg hx] at hc
      exact hc
  have hCR2 : wch2 = UNICODE_CARRIAGERETURN → ch = UNICODE_CARRIAGERETURN := by
    intro hc
    rw [← hwch2] at hc
    by_cases hx : wch = h.UNICODE_BACKSPACE2
    · rw [if_pos hx] at hc
      exact absurd hc (by decide)
    · rw [if_neg hx] at hc
      exact hCR1 hc
  have hCRk : ch = UNICODE_CARRIAGERETURN →
      UNICODE_CARRIAGERETURN ≠ h.EXTKEY_ERASE_PREV_WORD →
      UNICODE_CARRIAGERETURN ≠ h.UNICODE_BACKSPACE2 →
      wch = UNICODE_CARRIAGERETURN ∧ wch2 = UNICODE_CARRIAGERETURN := by
    intro hc k1 k2
    have h1 : wch = UNICODE_CARRIAGERETURN := by
      rw [← hwch, hc, if_neg k1]
    refine ⟨h1, ?_⟩
    rw [← hwch2, h1, if_neg k2]
  refine ProcessCookedReadInput_induction h scr d ch keyState
    (fun f =>
      (¬(subSizeT d.BufferSize (2 * sizeof_WCHAR) ≤ d.BytesRead
          ∧ ch ≠ UNICODE_CARRIAGERETURN ∧ ch ≠ UNICODE_BACKSPACE)) ∧
      f.d.BufferSize = d.BufferSize ∧ f.d.Line = d.Line ∧
      f.d.BufPtr = f.d.CurrentPosition ∧ 2 * f.d.CurrentPosition ≤ f.d.BytesRead ∧
      f.d.BytesRead % 2 = 0 ∧ f.d.BytesRead ≤ d.BytesRead ∧
      ∀ a ∈ f.log, a.Inside lo (d.BufferSize / 2))
    (fun f =>
      (¬(subSizeT d.BufferSize (2 * sizeof_WCHAR) ≤ d.BytesRead
          ∧ ch ≠ UNICODE_CARRIAGERETURN ∧ ch ≠ UNICODE_BACKSPACE)) ∧
      f.d.BufferSize = d.BufferSize ∧ f.d.Line = d.Line ∧
      2 * f.d.BufPtr ≤ f.d.BytesRead ∧ 2 * f.d.CurrentPosition ≤ f.d.BytesRead ∧
      f.d.BytesRead % 2 = 0 ∧ f.d.BytesRead ≤ d.BytesRead + 2 ∧
      (ch = UNICODE_BACKSPACE → d.Processed = true → f.d.BytesRead ≤ d.BytesRead) ∧
      ∀ a ∈ f.log, a.Inside lo (d.BufferSize / 2))
    (fun f =>
      (¬(subSizeT d.BufferSize (2 * sizeof_WCHAR) ≤ d.BytesRead
          ∧ ch ≠ UNICODE_CARRIAGERETURN ∧ ch ≠ UNICODE_BACKSPACE)) ∧
      f.d.BufferSize = d.BufferSize ∧ f.d.Line = d.Line ∧
      2 * f.d.BufPtr ≤ f.d.BytesRead ∧ 2 * f.d.CurrentPosition ≤ f.d.BytesRead ∧
      f.d.BytesRead % 2 = 0 ∧ f.d.BytesRead ≤ d.BytesRead + 2 ∧
      (ch = UNICODE_BACKSPACE → d.Processed = true → f.d.BytesRead ≤ d.BytesRead) ∧
      ∀ a ∈ f.log, a.Inside lo (d.BufferSize / 2))
    (fun t =>
      ((h.InsertKeyKeepsLine ∨ t.Completed = false) →
        t.d.BufferSize = d.BufferSize ∧ t.d.BytesRead % 2 = 0 ∧ t.d.BytesRead ≤ d.BufferSize ∧
        (2 * t.d.CurrentPosition ≤ t.d.BytesRead
          ∨ (¬h.ScreenSucceeds ∧ t.Completed = true ∧ t.d.BytesRead = 0))) ∧
      (∀ a ∈ t.log, a.Inside lo (d.BufferSize / 2)) ∧
      (t.Completed = false →
        (ch = UNICODE_CARRIAGERETURN → d.Line = true ∧
          UNICODE_CARRIAGERETURN ≠ h.EXTKEY_ERASE_PREV_WORD ∧
          UNICODE_CARRIAGERETURN ≠ h.UNICODE_BACKSPACE2) →
        (ch = UNICODE_BACKSPACE → d.Processed = true) →
        d.BytesRead + 2 * sizeof_WCHAR ≤ d.BufferSize →
        t.d.BytesRead + 2 * sizeof_WCHAR ≤ d.BufferSize)) wch wch2 hwch hwch2
    ?_ ?_ ?_ ?_ ?_ ?_ ?_ ?_ ?_ ?_ ?_ ?_ ?_ ?_ ?_ ?_
  · -- the buffer-full guard
    intro _ _ _
    refine ⟨fun _ => ⟨rfl, hn2, le_of_lt hlt, Or.inl hcp⟩, ?_, fun _ _ _ hr => hr⟩
    intro a ha
    exact absurd ha (List.not_mem_nil a)
  · -- a wake-up character
    intro _ _ _
    have e : toULONG (d.BytesRead + sizeof_WCHAR) = d.BytesRead + 2 := by
      unfold toULONG
      rw [hsz]
      exact Nat.mod_eq_of_lt (by omega)
    have e2 : toULONG (d.CurrentPosition + 1) = d.CurrentPosition + 1 := by
      unfold toULONG
      exact Nat.mod_eq_of_lt (by omega)
    refine ⟨fun _ => ⟨rfl, ?_, ?_, Or.inl ?_⟩, ?_, fun hc => Bool.noConfusion hc⟩
    · show toULONG (d.BytesRead + sizeof_WCHAR) % 2 = 0
      rw [e]
      omega
    · show toULONG (d.BytesRead + sizeof_WCHAR) ≤ d.BufferSize
      rw [e]
      omega
    · show 2 * toULONG (d.CurrentPosition + 1) ≤ toULONG (d.BytesRead + sizeof_WCHAR)
      rw [e, e2]
      omega
    · intro a ha
      rw [List.mem_singleton.1 ha]
      show (0 : Int) ≤ (d.BufPtr : Int) ∧ (d.BufPtr : Int) + (1 : Nat) ≤ ((d.BufferSize / 2 : Nat) : Int)
      omega
  · -- entry
    intro hg _
    exact ⟨hg, rfl, rfl, hptr, hcp, hn2, le_refl _, fun a ha => absurd ha (List.not_mem_nil a)⟩
  · -- the first load of `BufPtr[-1]`
    intro hP hx hcase
    obtain ⟨hg, h1, h2, h3, h4, h5, h6, h7⟩ := hP
    refine ⟨hg, h1, h2, h3, h4, h5, h6, Inside_append_one _ _ _ _ h7 ?_⟩
    show lo ≤ (d.BufPtr : Int) - 1 ∧ (d.BufPtr : Int) - 1 + (1 : Nat) ≤ ((d.BufferSize / 2 : Nat) : Int)
    refine ⟨?_, by omega⟩
    rcases hcase with hc | hc
    · omega
    · by_cases hz : d.BufPtr = 0
      · have := hlo1 hx hz hc.1
        omega
      · omega
  · -- a later load of `BufPtr[-1]`
    intro f hP hne _ _
    obtain ⟨hg, h1, h2, h3, h4, h5, h6, h7⟩ := hP
    refine ⟨hg, h1, h2, h3, h4, h5, h6, Inside_append_one _ _ _ _ h7 ?_⟩
    show lo ≤ (f.d.BufPtr : Int) - 1
      ∧ (f.d.BufPtr : Int) - 1 + (1 : Nat) ≤ ((d.BufferSize / 2 : Nat) : Int)
    omega
  · -- a pass of `eol_repeat` that erases
    intro _ _ f hP hne _
    obtain ⟨hg, h1, h2, h3, h4, h5, h6, h7⟩ := hP
    obtain ⟨y, v, hd, hl⟩ := eolErase_shape h UNICODE_BACKSPACE f
    have e1 : subULONG f.d.BytesRead sizeof_WCHAR = f.d.BytesRead - 2 := by
      rw [hsz]
      exact subULONG_eq _ _ (by omega) (by omega)
    have e2 : subULONG f.d.CurrentPosition 1 = f.d.CurrentPosition - 1 :=
      subULONG_eq _ _ (by omega) (by omega)
    rw [hd, hl]
    dsimp only
    rw [e1, e2]
    refine ⟨hg, h1, h2, by omega, by omega, by omega, by omega, Inside_append_one _ _ _ _ h7 ?_⟩
    show (0 : Int) ≤ (f.d.BufPtr : Int)
      ∧ (f.d.BufPtr : Int) + (1 : Nat) ≤ ((d.BufferSize / 2 : Nat) : Int)
    omega
  · -- a character stored at end of line
    intro _ hns f hP hfd
    obtain ⟨hg, h1, h2, h3, h4, h5, h6, h7⟩ := hP
    obtain ⟨y, v, hd, hl⟩ := eolStore_shape h wch2 f
    have e1 : toULONG (d.BytesRead + sizeof_WCHAR) = d.BytesRead + 2 := by
      unfold toULONG
      rw [hsz]
      exact Nat.mod_eq_of_lt (by omega)
    have e2 : toULONG (d.CurrentPosition + 1) = d.CurrentPosition + 1 := by
      unfold toULONG
      exact Nat.mod_eq_of_lt (by omega)
    rw [hfd] at hd hl
    rw [hd, hl]
    dsimp only
    rw [e1, e2]
    refine ⟨hg, rfl, rfl, by omega, by omega, by omega, by omega,
      fun hb hp => absurd ⟨(hBS hb).2, hp⟩ hns, Inside_append_one _ _ _ _ h7 ?_⟩
    show (0 : Int) ≤ (d.BufPtr : Int)
      ∧ (d.BufPtr : Int) + (1 : Nat) ≤ ((d.BufferSize / 2 : Nat) : Int)
    omega
  · -- a pass of `bs_repeat`
    intro _ _ f hP hne _
    obtain ⟨hg, h1, h2, h3, h4, h5, h6, h7⟩ := hP
    obtain ⟨hd, hl⟩ := bsErase_shape h UNICODE_BACKSPACE f
    have e1 : subULONG f.d.BytesRead sizeof_WCHAR = f.d.BytesRead - 2 := by
      rw [hsz]
      exact subULONG_eq _ _ (by omega) (by omega)
    have e2 : subULONG f.d.CurrentPosition 1 = f.d.CurrentPosition - 1 :=
      subULONG_eq _ _ (by omega) (by omega)
    have e3 : subSizeT (f.d.BytesRead - 2) ((f.d.CurrentPosition - 1) * sizeof_WCHAR)
        = f.d.BytesRead - 2 * f.d.CurrentPosition := by
      rw [hsz, subSizeT_eq _ _ (by omega) (by omega)]
      omega
    rw [hd, hl]
    dsimp only
    rw [e1, e2, e3, hsz]
    refine ⟨hg, h1, h2, by omega, by omega, by omega, by omega, ?_⟩
    intro a ha
    rcases List.mem_append.1 ha with ha | ha
    · exact h7 a ha
    · simp only [List.mem_cons, List.mem_singleton, List.not_mem_nil, or_false] at ha
      rcases ha with ha | ha | ha
      · rw [ha]
        show lo ≤ ((f.d.BufPtr - 1 : Nat) : Int) + 1
          ∧ ((f.d.BufPtr - 1 : Nat) : Int) + 1
              + (((f.d.BytesRead - 2 * f.d.CurrentPosition) / 2 : Nat) : Int)
            ≤ ((d.BufferSize / 2 : Nat) : Int)
        omega
      · rw [ha]
        show (0 : Int) ≤ ((f.d.BufPtr - 1 : Nat) : Int)
          ∧ ((f.d.BufPtr - 1 : Nat) : Int)
              + (((f.d.BytesRead - 2 * f.d.CurrentPosition) / 2 : Nat) : Int)
            ≤ ((d.BufferSize / 2 : Nat) : Int)
        omega
      · rw [ha]
        show (0 : Int) ≤ (((f.d.BytesRead - 2) / 2 : Nat) : Int)
          ∧ (((f.d.BytesRead - 2) / 2 : Nat) : Int) + (1 : Nat)
            ≤ ((d.BufferSize / 2 : Nat) : Int)
        omega
  · -- from the passes to the closing block
    intro _ f hP
    obtain ⟨hg, h1, h2, h3, h4, h5, h6, h7⟩ := hP
    exact ⟨hg, h1, h2, by omega, h4, h5, by omega, fun _ _ => h6, h7⟩
  · intro hP
    obtain ⟨hg, h1, h2, h3, h4, h5, h6, h7⟩ := hP
    exact ⟨hg, h1, h2, by omega, h4, h5, by omega, fun _ _ => h6, h7⟩
  · intro f hP
    obtain ⟨hg, h1, h2, h3, h4, h5, h6, h7⟩ := hP
    exact ⟨hg, h1, h2, by omega, h4, h5, by omega, fun _ _ => h6, h7⟩
  · -- a character stored in the middle of the line
    intro heol hbs hP
    obtain ⟨hg, -, -, -, -, -, -, -⟩ := hP
    have hmidpos : 2 * d.CurrentPosition + 2 ≤ d.BytesRead := by
      have hne : d.CurrentPosition ≠ d.BytesRead / 2 := by
        intro hc
        apply heol
        unfold AT_EOL
        rw [hsz]
        exact decide_eq_true hc
      omega
    have hef : (entryFrame scr d).d = d := rfl
    have hel : (entryFrame scr d).log = [] := rfl
    have e2 : toULONG (d.CurrentPosition + 1) = d.CurrentPosition + 1 := by
      unfold toULONG
      exact Nat.mod_eq_of_lt (by omega)
    have e1 : toULONG (d.BytesRead + sizeof_WCHAR) = d.BytesRead + 2 := by
      unfold toULONG
      rw [hsz]
      exact Nat.mod_eq_of_lt (by omega)
    have hnobs : ch = UNICODE_BACKSPACE → d.Processed = true → False :=
      fun hb hp => hbs ⟨(hBS hb).1, hp⟩
    by_cases hcr : wch = UNICODE_CARRIAGERETURN
    · obtain ⟨hd, hl⟩ := midEdit_cr_shape h wch ch (entryFrame scr d) hbs hcr
      rw [hef] at hd hl
      rw [hel] at hl
      rw [hd, hl]
      dsimp only
      rw [e1, e2, hsz]
      refine ⟨hg, rfl, rfl, by omega, by omega, by omega, by omega,
        fun hb hp => absurd (hnobs hb hp) id, ?_⟩
      intro a ha
      rw [List.nil_append, List.mem_singleton] at ha
      rw [ha]
      show (0 : Int) ≤ ((d.BytesRead / 2 : Nat) : Int)
        ∧ ((d.BytesRead / 2 : Nat) : Int) + (1 : Nat) ≤ ((d.BufferSize / 2 : Nat) : Int)
      omega
    · obtain ⟨hd, tail, hl, htail⟩ := midEdit_char_shape h wch ch (entryFrame scr d) hbs hcr
      rw [hef] at hd hl
      rw [hel] at hl
      rw [hef] at htail
      have e3 : subSizeT d.BytesRead (d.CurrentPosition * sizeof_WCHAR)
          = d.BytesRead - 2 * d.CurrentPosition := by
        rw [hsz, subSizeT_eq _ _ (by omega) (by omega)]
        omega
      have e4 : subULONG (toULONG (d.CurrentPosition + 1)) 1 = d.CurrentPosition := by
        rw [e2, subULONG_eq _ _ (by omega) (by omega)]
        omega
      have htl : ∀ a ∈ tail, a.Inside lo (d.BufferSize / 2) := by
        intro a ha
        rw [e4] at htail
        rcases htail with ht | ht | ht
        · rw [ht] at ha
          exact absurd ha (List.not_mem_nil a)
        · rw [ht, List.mem_singleton] at ha
          rw [ha]
          show lo ≤ ((d.CurrentPosition : Nat) : Int)
            ∧ ((d.CurrentPosition : Nat) : Int) + (1 : Nat) ≤ ((d.BufferSize / 2 : Nat) : Int)
          omega
        · rw [ht] at ha
          simp only [List.mem_cons, List.mem_singleton, List.not_mem_nil, or_false] at ha
          rcases ha with ha | ha
          · rw [ha]
            show lo ≤ ((d.CurrentPosition : Nat) : Int)
              ∧ ((d.CurrentPosition : Nat) : Int) + (1 : Nat) ≤ ((d.BufferSize / 2 : Nat) : Int)
            omega
          · rw [ha]
            show lo ≤ (0 : Int)
              ∧ (0 : Int) + ((d.CurrentPosition + 1 : Nat) : Int) ≤ ((d.BufferSize / 2 : Nat) : Int)
            omega
      have hw1 : (Access.write (d.BufPtr : Int) 1).Inside lo (d.BufferSize / 2) := by
        show (0 : Int) ≤ (d.BufPtr : Int)
          ∧ (d.BufPtr : Int) + (1 : Nat) ≤ ((d.BufferSize / 2 : Nat) : Int)
        omega
      rw [hd, hl]
      dsimp only
      rw [e2, e3]
      by_cases hi : d.InsertMode = true
      · rw [if_pos hi, if_pos hi, e1]
        refine ⟨hg, rfl, rfl, by omega, by omega, by omega, by omega,
          fun hb hp => absurd (hnobs hb hp) id, ?_⟩
        refine Inside_append _ _ _ _ (Inside_append_one _ _ _ _ ?_ hw1) htl
        intro a ha
        simp only [List.nil_append, List.mem_cons, List.mem_singleton, List.not_mem_nil,
          or_false] at ha
        rcases ha with ha | ha
        · rw [ha, hsz]
          show lo ≤ (d.BufPtr : Int)
            ∧ (d.BufPtr : Int) + (((d.BytesRead - 2 * d.CurrentPosition) / 2 : Nat) : Int)
              ≤ ((d.BufferSize / 2 : Nat) : Int)
          omega
        · rw [ha, hsz]
          show (0 : Int) ≤ (d.BufPtr : Int) + 1
            ∧ (d.BufPtr : Int) + 1 + (((d.BytesRead - 2 * d.CurrentPosition) / 2 : Nat) : Int)
              ≤ ((d.BufferSize / 2 : Nat) : Int)
          omega
      · rw [if_neg hi, if_neg hi]
        refine ⟨hg, rfl, rfl, by omega, by omega, by omega, by omega,
          fun hb hp => absurd (hnobs hb hp) id, ?_⟩
        refine Inside_append _ _ _ _ (Inside_append_one _ _ _ _ ?_ hw1) htl
        intro a ha
        exact absurd ha (List.not_mem_nil a)
  · -- the repaint returns early
    intro f hM _ hret
    obtain ⟨hg, h1, h2, h3, h4, h5, h6, h7, h8⟩ := hM
    obtain ⟨y, v, hl, hd | hd⟩ := midRepaint_shape h wch f
    · rw [hd.1] at hret
      exact Bool.noConfusion hret
    · refine ⟨fun _ => ?_, ?_, fun hc => Bool.noConfusion hc⟩
      · show (midRepaint h wch f).1.d.BufferSize = d.BufferSize
          ∧ (midRepaint h wch f).1.d.BytesRead % 2 = 0
          ∧ (midRepaint h wch f).1.d.BytesRead ≤ d.BufferSize
          ∧ (2 * (midRepaint h wch f).1.d.CurrentPosition ≤ (midRepaint h wch f).1.d.BytesRead
            ∨ (¬h.ScreenSucceeds ∧ true = true ∧ (midRepaint h wch f).1.d.BytesRead = 0))
        rw [hd.2]
        exact ⟨h1, rfl, Nat.zero_le _, Or.inr ⟨midRepaint_early h wch f hret, rfl, rfl⟩⟩
      · show ∀ a ∈ (midRepaint h wch f).1.log, a.Inside lo (d.BufferSize / 2)
        rw [hl]
        exact h8
  · -- the repaint
    intro f hM _ hret
    obtain ⟨hg, h1, h2, h3, h4, h5, h6, h7, h8⟩ := hM
    obtain ⟨y, v, hl, hd | hd⟩ := midRepaint_shape h wch f
    · rw [hd.2, hl]
      exact ⟨hg, h1, h2, h3, h4, h5, h6, h7, h8⟩
    · rw [hd.1] at hret
      exact Bool.noConfusion hret
  · intro f hM _
    exact hM
  · -- the closing block
    intro f w hQ hw
    obtain ⟨hg, h1, h2, h3, h4, h5, h6, h7, h8⟩ := hQ
    have hwcr : w = UNICODE_CARRIAGERETURN → ch = UNICODE_CARRIAGERETURN := by
      intro hc
      rcases hw with hw | hw
      · exact hCR2 (hw.2 ▸ hc)
      · exact hCR1 (hw.2 ▸ hc)
    have hwk : ch = UNICODE_CARRIAGERETURN →
        UNICODE_CARRIAGERETURN ≠ h.EXTKEY_ERASE_PREV_WORD →
        UNICODE_CARRIAGERETURN ≠ h.UNICODE_BACKSPACE2 → w = UNICODE_CARRIAGERETURN := by
      intro hc k1 k2
      rcases hw with hw | hw
      · rw [hw.2]
        exact (hCRk hc k1 k2).2
      · rw [hw.2]
        exact (hCRk hc k1 k2).1
    rcases crCompletion_shape h w f with hs | ⟨hwc, d1, lg, hd1, hlg, hfin⟩
    · rw [hs.2]
      dsimp only
      refine ⟨fun _ => ⟨h1, h5, by omega, Or.inl h4⟩, h8, fun _ hcr hbp hr => ?_⟩
      show f.d.BytesRead + 2 * sizeof_WCHAR ≤ d.BufferSize
      rw [hsz] at hr ⊢
      by_cases hb : ch = UNICODE_BACKSPACE
      · have := h7 hb (hbp hb)
        omega
      · have hnc : ch ≠ UNICODE_CARRIAGERETURN :=
          fun hc => hs.1 (hwk hc (hcr hc).2.1 (hcr hc).2.2)
        have hng : ¬(subSizeT d.BufferSize (2 * sizeof_WCHAR) ≤ d.BytesRead) :=
          fun hc => hg ⟨hc, hnc, hb⟩
        rw [hsz, subSizeT_eq _ _ (by omega) (by omega)] at hng
        omega
    · have hd1f : d1.BufferSize = d.BufferSize ∧ d1.BytesRead % 2 = 0
          ∧ d1.BytesRead ≤ d.BufferSize ∧ 2 * d1.CurrentPosition ≤ d1.BytesRead
          ∧ ∀ a ∈ lg, a.Inside lo (d.BufferSize / 2) := by
        rcases hd1 with hd1 | hd1
        · rw [hd1.2.1, hd1.2.2]
          exact ⟨h1, h5, by omega, h4, h8⟩
        · have e1 : toULONG (f.d.BytesRead + sizeof_WCHAR) = f.d.BytesRead + 2 := by
            unfold toULONG
            rw [hsz]
            exact Nat.mod_eq_of_lt (by omega)
          have e2 : toULONG (f.d.CurrentPosition + 1) = f.d.CurrentPosition + 1 := by
            unfold toULONG
            exact Nat.mod_eq_of_lt (by omega)
          have hlt1 := hd1.2.1
          rw [h1] at hlt1
          rw [hd1.2.2.1, hd1.2.2.2]
          dsimp only
          rw [e1, e2]
          refine ⟨h1, by omega, by omega, by omega, Inside_append_one _ _ _ _ h8 ?_⟩
          show (0 : Int) ≤ (f.d.BufPtr : Int)
            ∧ (f.d.BufPtr : Int) + (1 : Nat) ≤ ((d.BufferSize / 2 : Nat) : Int)
          omega
      obtain ⟨g1, g2, g3, g4, g5⟩ := hd1f
      refine ⟨?_, ?_, ?_⟩
      · intro hk
        rcases hfin with hfin | hfin
        · rw [hfin.2.2]
          exact ⟨g1, g2, g3, Or.inl g4⟩
        · rcases hfin.2.2 with hfd | ⟨scr1, hfd⟩
          · rw [hfd]
            exact ⟨g1, g2, g3, Or.inl g4⟩
          · have hcmd : h.InsertKeyKeepsLine := by
              rcases hk with hk | hk
              · exact hk
              · rw [hfin.1] at hk
                exact Bool.noConfusion hk
            obtain ⟨c1, c2, c3, -⟩ := hcmd scr1 d1
            rw [hfd, c1, c2, c3]
            exact ⟨g1, g2, g3, Or.inl g4⟩
      · rw [hlg]
        exact g5
      · intro hc hcr _ _
        rcases hfin with hfin | hfin
        · have hline := (hcr (hwcr hwc)).1
          rw [← h2, hfin.2.1] at hline
          exact Bool.noConfusion hline
        · rw [hfin.1] at hc
          exact Bool.noConfusion hc
/-! ## `SetConsoleInputModeImpl` -/

/-- C31, amended. For every input mode that sets `ECHO_INPUT` without `LINE_INPUT` and every
earlier state, `SetConsoleInputModeImpl` returns `E_INVALIDARG` and nevertheless commits the
flags: the stored `InputMode` is the requested mode without its
QUICK_EDIT/AUTO_POSITION/INSERT/EXTENDED bits; quick-edit, auto-position and insert mode
equal the requested bits when the requested mode has at least one of these four bits, and
keep their earlier values when it has none of them. -/
theorem SetConsoleInputModeImpl_echo_without_line (validModes : Nat) (c : InputModeState)
    (Mode : Nat)
    (hecho : IsFlagSet Mode ENABLE_ECHO_INPUT = true)
    (hline : IsFlagSet Mode ENABLE_LINE_INPUT = false) :
    (SetConsoleInputModeImpl validModes c Mode).1 = E_INVALIDARG ∧
    (SetConsoleInputModeImpl validModes c Mode).2.InputMode = ClearAllFlags Mode PRIVATE_MODES ∧
    (IsAnyFlagSet Mode PRIVATE_MODES = true →
      (SetConsoleInputModeImpl validModes c Mode).2.QuickEdit
        = IsFlagSet Mode ENABLE_QUICK_EDIT_MODE ∧
      (SetConsoleInputModeImpl validModes c Mode).2.AutoPosition
        = IsFlagSet Mode ENABLE_AUTO_POSITION ∧
      (SetConsoleInputModeImpl validModes c Mode).2.InsertMode
        = IsFlagSet Mode ENABLE_INSERT_MODE) ∧
    (IsAnyFlagSet Mode PRIVATE_MODES = false →
      (SetConsoleInputModeImpl validModes c Mode).2.QuickEdit = c.QuickEdit ∧
      (SetConsoleInputModeImpl validModes c Mode).2.AutoPosition = c.AutoPosition ∧
      (SetConsoleInputModeImpl validModes c Mode).2.InsertMode = c.InsertMode) := by
  unfold SetConsoleInputModeImpl
  simp only [hecho, hline, and_self, if_true]
  refine ⟨?_, ?_, ?_, ?_⟩
  · split_ifs <;> rfl
  · split_ifs <;> rfl
  · intro hp
    rw [if_pos hp]
    split_ifs <;> exact ⟨rfl, rfl, rfl⟩
  · intro hp
    have hn : ¬(IsAnyFlagSet Mode PRIVATE_MODES = true) := by
      rw [hp]
      exact Bool.false_ne_true
    rw [if_neg hn]
    split_ifs <;> exact ⟨rfl, rfl, rfl⟩

/-- The two calls of the tests `ApiSetConsoleInputModeImplEchoOnLineOff` and
`ApiSetConsoleInputModeImplPSReadlineScenario`: the mode `ENABLE_ECHO_INPUT` set from the
mode 0, and the mode 0x1E4 set from the mode 0x1F7. -/
theorem SetConsoleInputModeImpl_echo_without_line_witness :
    (IsFlagSet 0x1E4 ENABLE_ECHO_INPUT = true ∧ IsFlagSet 0x1E4 ENABLE_LINE_INPUT = false) ∧
    ((SetConsoleInputModeImpl exampleValidModes (PrepVerifySetConsoleInputModeImpl 0x1F7) 0x1E4).1
        = E_INVALIDARG ∧
      (SetConsoleInputModeImpl exampleValidModes (PrepVerifySetConsoleInputModeImpl 0x1F7)
        0x1E4).2 = { InputMode := 0x4, QuickEdit := true, AutoPosition := true,
                     InsertMode := true }) ∧
    (SetConsoleInputModeImpl exampleValidModes (PrepVerifySetConsoleInputModeImpl 0)
        ENABLE_ECHO_INPUT) = (E_INVALIDARG, { InputMode := 0x4, QuickEdit := false,
                                              AutoPosition := false, InsertMode := false }) :=
  have w := SetConsoleInputModeImpl_echo_without_line exampleValidModes
    (PrepVerifySetConsoleInputModeImpl 0x1F7) 0x1E4 (by decide) (by decide)
  ⟨⟨by decide, by decide⟩, ⟨w.1, by decide⟩, by decide⟩

/-- C31 as stated fails for a mode without any of the four bits when one of the three
settings was on before: `ENABLE_ECHO_INPUT` set from the mode 0x1F7 returns the error code
and stores `InputMode = 0x4`, but quick-edit, auto-position and insert mode stay on, though
their bits are clear in the requested mode. -/
theorem SetConsoleInputModeImpl_echo_without_line_counterexample :
    (IsFlagSet ENABLE_ECHO_INPUT ENABLE_ECHO_INPUT = true ∧
     IsFlagSet ENABLE_ECHO_INPUT ENABLE_LINE_INPUT = false ∧
     IsFlagSet ENABLE_ECHO_INPUT ENABLE_QUICK_EDIT_MODE = false ∧
     IsFlagSet ENABLE_ECHO_INPUT ENABLE_AUTO_POSITION = false ∧
     IsFlagSet ENABLE_ECHO_INPUT ENABLE_INSERT_MODE = false) ∧
    SetConsoleInputModeImpl exampleValidModes (PrepVerifySetConsoleInputModeImpl 0x1F7)
        ENABLE_ECHO_INPUT
      = (E_INVALIDARG, { InputMode := 0x4, QuickEdit := true, AutoPosition := true,
                         InsertMode := true }) := by
  decide

theorem lineOf_append_left (A B : List Nat) (i : Nat) (hi : i < A.length) :
    lineOf (A ++ B) i = lineOf A i := by
  simp only [lineOf, Int.toNat_ofNat, List.getD_eq_getElem?_getD]
  rw [List.getElem?_append_left hi]

theorem lineOf_append_right (A B : List Nat) (j : Nat) :
    lineOf (A ++ B) ((j : Int) + A.length) = lineOf B j := by
  have h0 : (0 : Int) ≤ (j : Int) + A.length := by omega
  have h1 : ((j : Int) + A.length).toNat = A.length + j := by omega
  simp only [lineOf, h0, if_true, h1, Int.toNat_ofNat, List.getD_eq_getElem?_getD,
    Int.natCast_nonneg]
  rw [List.getElem?_append_right (Nat.le_add_right _ _), Nat.add_sub_cancel_left]

/-- C40. Additivity of the cell accounting: for every starting column `x0` and buffers `A`,
`B` of `|A| + |B| < 2^29` characters in all (as they are whenever the columns stay within
the range of `SHORT`, a character taking at least one cell),
`RetrieveTotalNumberOfSpaces(x0, A ++ B, |A|+|B|)` is `RetrieveTotalNumberOfSpaces(x0, A,
|A|)` plus `RetrieveTotalNumberOfSpaces(x0 + RetrieveTotalNumberOfSpaces(x0, A, |A|), B,
|B|)`; and for every buffer of `n < 2^29` characters the total lies between `n` and
`8 * n`. -/
theorem RetrieveTotalNumberOfSpaces_append (t : CharTables) (x0 : Int) (A B : List Nat)
    (hn : 8 * (A.length + B.length) < 2 ^ 32) :
    RetrieveTotalNumberOfSpaces t x0 (lineOf (A ++ B)) (A.length + B.length) =
      RetrieveTotalNumberOfSpaces t x0 (lineOf A) A.length +
        RetrieveTotalNumberOfSpaces t
          (x0 + (RetrieveTotalNumberOfSpaces t x0 (lineOf A) A.length : Nat))
          (lineOf B) B.length ∧
    (∀ (L : Mem) (n : Nat), 8 * n < 2 ^ 32 →
      n ≤ RetrieveTotalNumberOfSpaces t x0 L n ∧ RetrieveTotalNumberOfSpaces t x0 L n ≤ 8 * n) := by
  refine ⟨?_, fun L n h => RetrieveTotalNumberOfSpaces_bounds t x0 L n h⟩
  have hA : totalSpacesLoop t x0 (lineOf (A ++ B)) A.length
      = totalSpacesLoop t x0 (lineOf A) A.length :=
    totalSpacesLoop_congr t x0 _ _ _ (fun i hi => lineOf_append_left A B i hi)
  have hB : ∀ x : Int, totalSpacesLoop t x (fun i => lineOf (A ++ B) (i + A.length)) B.length
      = totalSpacesLoop t x (lineOf B) B.length :=
    fun x => totalSpacesLoop_congr t x _ _ _ (fun j _ => lineOf_append_right A B j)
  have hadd := (totalSpacesLoop_add t x0 (lineOf (A ++ B)) A.length B.length).2
  rw [hA, hB] at hadd
  -- the column the first loop ends in and the column of the claim agree modulo 8
  have hcol : (totalSpacesLoop t x0 (lineOf A) A.length).1 % 8
      = (x0 + ((totalSpacesLoop t x0 (lineOf A) A.length).2 : Nat)) % 8 := by
    rw [totalSpacesLoop_fst_mod, totalSpacesLoop_snd]
    omega
  have hsame := (totalSpacesLoop_column t _ _ (lineOf B) hcol B.length).1
  have bA := RetrieveTotalNumberOfSpaces_bounds t x0 (lineOf A) A.length (by omega)
  have bB := RetrieveTotalNumberOfSpaces_bounds t
    (x0 + ((totalSpacesLoop t x0 (lineOf A) A.length).2 : Nat)) (lineOf B) B.length (by omega)
  unfold RetrieveTotalNumberOfSpaces at bA bB ⊢
  rw [hadd, hsame]
  unfold toULONG
  exact Nat.mod_eq_of_lt (by omega)

/-- An instance of C40: the line `a TAB` followed by `TAB b`, from column 3. The first part
takes 5 cells and ends in column 8, the second part takes 9 cells from there, and the whole
line takes 14. -/
theorem RetrieveTotalNumberOfSpaces_append_witness :
    8 * ([0x61, 0x09].length + [0x09, 0x62].length) < 2 ^ 32 ∧
    RetrieveTotalNumberOfSpaces exampleTables 3 (lineOf ([0x61, 0x09] ++ [0x09, 0x62]))
        ([0x61, 0x09].length + [0x09, 0x62].length) = 14 ∧
    RetrieveTotalNumberOfSpaces exampleTables 3 (lineOf [0x61, 0x09]) [0x61, 0x09].length = 5 ∧
    RetrieveTotalNumberOfSpaces exampleTables (3 + (5 : Nat)) (lineOf [0x09, 0x62])
      [0x09, 0x62].length = 9 ∧
    RetrieveTotalNumberOfSpaces exampleTables 3 (lineOf ([0x61, 0x09] ++ [0x09, 0x62]))
        ([0x61, 0x09].length + [0x09, 0x62].length) =
      RetrieveTotalNumberOfSpaces exampleTables 3 (lineOf [0x61, 0x09]) [0x61, 0x09].length +
        RetrieveTotalNumberOfSpaces exampleTables
          (3 + (RetrieveTotalNumberOfSpaces exampleTables 3 (lineOf [0x61, 0x09])
            [0x61, 0x09].length : Nat))
          (lineOf [0x09, 0x62]) [0x09, 0x62].length :=
  ⟨by decide, by decide, by decide, by decide,
    (RetrieveTotalNumberOfSpaces_append exampleTables 3 [0x61, 0x09] [0x09, 0x62]
      (by decide)).1⟩

/-! ## `ReadChars`: the bytes taken from the carry -/

theorem ReadCharsCarry_bytes {W : Type} (s : Server W) (con : Console W) (msg : CONSOLE_API_MSG)
    (pwchBuffer BufferSize : Nat) (fUnicode : Bool)
    (hlead : fUnicode = true ∨ con.ReadConInpDbcsLeadByte = 0)
    (havail : con.pClientInput.BytesAvailable < 2 ^ 32)
    (hcap : BufferSize ≠ 0)
    (hmulti : con.pClientInput.HANDLE_MULTI_LINE_INPUT = true → ∃ j : Nat,
      (∀ i : Nat, i < j → wcharAt con.pClientInput.BufPtr (con.pClientInput.CurrentBufPtr + 2 * i)
        ≠ UNICODE_LINEFEED) ∧
      wcharAt con.pClientInput.BufPtr (con.pClientInput.CurrentBufPtr + 2 * j) = UNICODE_LINEFEED ∧
      2 * (j + 1) ≤ con.pClientInput.BytesAvailable) :
    ∃ n : Nat, n ≤ BufferSize ∧ n ≤ con.pClientInput.BytesAvailable ∧
      (ReadCharsCarry s con msg pwchBuffer BufferSize fUnicode).con.pClientInput.BytesAvailable
        = con.pClientInput.BytesAvailable - n ∧
      ((ReadCharsCarry s con msg pwchBuffer BufferSize fUnicode).con.copies = con.copies ∧ n = 0 ∨
        ∃ rest, (ReadCharsCarry s con msg pwchBuffer BufferSize fUnicode).con.copies
          = con.copies ++ (pwchBuffer, n) :: rest) ∧
      ((ReadCharsCarry s con msg pwchBuffer BufferSize fUnicode).con.pClientInput.BytesAvailable ≠ 0 →
        (ReadCharsCarry s con msg pwchBuffer BufferSize fUnicode).con.pClientInput.CurrentBufPtr
          = con.pClientInput.CurrentBufPtr + n) ∧
      (fUnicode = true →
        (ReadCharsCarry s con msg pwchBuffer BufferSize fUnicode).con.copies
          = con.copies ++ [(pwchBuffer, n)] ∧
        (ReadCharsCarry s con msg pwchBuffer BufferSize fUnicode).msg.ReadConsole.NumBytes = n ∧
        (ReadCharsCarry s con msg pwchBuffer BufferSize fUnicode).msg.OutputBuffer
          = copyBytes msg.OutputBuffer pwchBuffer
              (fun b => byteOf con.pClientInput.BufPtr (con.pClientInput.CurrentBufPtr + b)) n ∧
        (con.pClientInput.HANDLE_MULTI_LINE_INPUT = false →
          n = min BufferSize con.pClientInput.BytesAvailable)) := by
  have hsz : sizeof_WCHAR = 2 := rfl
  unfold ReadCharsCarry
  lift_lets
  intro multi fAdd p1 B1 buf1 src1 h1 lead1 src2 NumToBytes n0 NumToWrite buf2 h2 h3 con3 msg3 r n
    src3
  have hf : fAdd = false := by
    show (!fUnicode && decide (con.ReadConInpDbcsLeadByte ≠ 0)) = false
    rcases hlead with hl | hl
    · rw [hl]
      rfl
    · rw [hl]
      cases fUnicode <;> rfl
  have hft : ¬(fAdd = true) := by
    rw [hf]
    exact Bool.false_ne_true
  have hp1 : p1 = pwchBuffer := if_neg hft
  have hB1 : B1 = BufferSize := if_neg hft
  have hbuf1 : buf1 = msg.OutputBuffer := if_neg hft
  have hh1 : h1 = con.pClientInput := if_neg hft
  clear_value p1 B1 buf1 h1
  subst hp1 hB1 hbuf1 hh1
  have hN : NumToWrite ≤ B1 ∧ NumToWrite ≤ con.pClientInput.BytesAvailable ∧
      (multi = false → NumToWrite = min B1 con.pClientInput.BytesAvailable) := by
    by_cases hm : multi = true
    · obtain ⟨j, hne, hlf, hj⟩ := hmulti hm
      have hline := carryLine_eq con.pClientInput.BufPtr con.pClientInput.CurrentBufPtr
        con.pClientInput.BytesAvailable j hne hlf j 0 con.pClientInput.BytesAvailable (by omega)
        (by omega) (by omega)
      have hn0 : n0 = 2 * (j + 1) := by
        show toULONG (carryLine con.pClientInput.BufPtr con.pClientInput.CurrentBufPtr
          con.pClientInput.BytesAvailable con.pClientInput.BytesAvailable 0 + sizeof_WCHAR) = _
        rw [show (0 : Nat) = 2 * 0 from rfl, hline, hsz]
        unfold toULONG
        omega
      have hval : NumToWrite = if B1 < n0 then B1 else n0 := if_pos hm
      rw [hval, hn0]
      refine ⟨?_, ?_, fun hc => absurd (hm.symm.trans hc) (by decide)⟩
      · split_ifs <;> omega
      · split_ifs <;> omega
    · have hval : NumToWrite = if B1 < con.pClientInput.BytesAvailable then B1
          else con.pClientInput.BytesAvailable := if_neg hm
      rw [hval]
      refine ⟨?_, ?_, fun _ => ?_⟩
      · split_ifs <;> omega
      · split_ifs <;> omega
      · split_ifs <;> omega
  obtain ⟨hN1, hN2, hN3⟩ := hN
  have hsub : subULONG con.pClientInput.BytesAvailable NumToWrite
      = con.pClientInput.BytesAvailable - NumToWrite := subULONG_eq _ _ hN2 havail
  have hh3a : h3.BytesAvailable = con.pClientInput.BytesAvailable - NumToWrite := by
    show (if h2.BytesAvailable = 0 then releaseCarry h2 else _).BytesAvailable = _
    split_ifs <;> exact hsub
  have hh3b : h3.BytesAvailable ≠ 0 →
      h3.CurrentBufPtr = con.pClientInput.CurrentBufPtr + NumToWrite := by
    intro hne
    have h2ne : ¬(h2.BytesAvailable = 0) := by
      intro hc
      apply hne
      rw [hh3a, ← hsub]
      exact hc
    show (if h2.BytesAvailable = 0 then releaseCarry h2 else _).CurrentBufPtr = _
    rw [if_neg h2ne]
  by_cases hearly : fUnicode = false ∧ (con.pClientInput.BytesAvailable = 0 ∨ multi = true ∧ B1 = 0)
  · rw [if_pos hearly]
    have h0 : con.pClientInput.BytesAvailable = 0 := by
      rcases hearly.2 with h0 | h0
      · exact h0
      · exact absurd h0.2 hcap
    refine ⟨0, Nat.zero_le _, Nat.zero_le _, ?_, Or.inl ⟨rfl, rfl⟩, ?_, ?_⟩
    · exact h0.trans (by omega)
    · intro hne
      exact absurd h0 hne
    · intro hu
      exact absurd (hu.symm.trans hearly.1) (by decide)
  · rw [if_neg hearly]
    by_cases hu : fUnicode = false
    · rw [if_pos hu]
      by_cases hnew : s.newBYTE NumToBytes = false
      · rw [if_pos hnew]
        exact ⟨NumToWrite, hN1, hN2, hh3a, Or.inr ⟨[], rfl⟩, hh3b,
          fun hc => absurd (hc.symm.trans hu) (by decide)⟩
      · rw [if_neg hnew]
        refine ⟨NumToWrite, hN1, hN2, hh3a, Or.inr ⟨[(p1, n)], ?_⟩, hh3b,
          fun hc => absurd (hc.symm.trans hu) (by decide)⟩
        show (con.copies ++ [(p1, NumToWrite)]) ++ [(p1, n)] = _
        simp
    · rw [if_neg hu]
      exact ⟨NumToWrite, hN1, hN2, hh3a, Or.inr ⟨[], rfl⟩, hh3b, fun _ => ⟨rfl, rfl, rfl, hN3⟩⟩

/-- C39, amended. For every carry-first read in `ReadChars` (`InputPending` set, capacity
at least `sizeof(WCHAR)`) that is in Unicode or finds no lead byte waiting, and for which,
when `MultiLineInput` is set, the carry holds an LF among its remaining code units: the
number `n` of bytes copied out of the carry is at most the capacity and at most
`CarryRemaining`, `CarryRemaining` afterwards is `CarryRemaining` before minus `n` without
wrap-around, and `CarryCursor` has advanced by `n` when bytes remain. In Unicode mode the
bytes are copied to the start of the caller's buffer in order from `CarryCursor` and `n`
is the byte count reported, and without `MultiLineInput` `n` is exactly `min(capacity,
CarryRemaining)`. -/
theorem ReadChars_carry_bytes {W : Type} (s : Server W) (con : Console W) (msg : CONSOLE_API_MSG)
    (pwchBuffer dwInitialNumBytes dwCtrlWakeupMask hIndex usExeNameLength : Nat)
    (fUnicode : Bool)
    (hpend : con.pClientInput.HANDLE_INPUT_PENDING = true)
    (hcap : sizeof_WCHAR ≤ msg.ReadConsole.NumBytes)
    (hlead : fUnicode = true ∨ con.ReadConInpDbcsLeadByte = 0)
    (havail : con.pClientInput.BytesAvailable < 2 ^ 32)
    (hmulti : con.pClientInput.HANDLE_MULTI_LINE_INPUT = true → ∃ j : Nat,
      (∀ i : Nat, i < j → wcharAt con.pClientInput.BufPtr (con.pClientInput.CurrentBufPtr + 2 * i)
        ≠ UNICODE_LINEFEED) ∧
      wcharAt con.pClientInput.BufPtr (con.pClientInput.CurrentBufPtr + 2 * j) = UNICODE_LINEFEED ∧
      2 * (j + 1) ≤ con.pClientInput.BytesAvailable) :
    ∃ r, ReadChars s con msg pwchBuffer dwInitialNumBytes dwCtrlWakeupMask hIndex
        usExeNameLength fUnicode = some r ∧
      ∃ n : Nat, n ≤ msg.ReadConsole.NumBytes ∧ n ≤ con.pClientInput.BytesAvailable ∧
        r.con.pClientInput.BytesAvailable = con.pClientInput.BytesAvailable - n ∧
        (r.con.copies = con.copies ∧ n = 0 ∨
          ∃ rest, r.con.copies = con.copies ++ (pwchBuffer, n) :: rest) ∧
        (r.con.pClientInput.BytesAvailable ≠ 0 →
          r.con.pClientInput.CurrentBufPtr = con.pClientInput.CurrentBufPtr + n) ∧
        (fUnicode = true →
          r.con.copies = con.copies ++ [(pwchBuffer, n)] ∧
          r.msg.ReadConsole.NumBytes = n ∧
          r.msg.OutputBuffer = copyBytes msg.OutputBuffer pwchBuffer
            (fun b => byteOf con.pClientInput.BufPtr (con.pClientInput.CurrentBufPtr + b)) n ∧
          (con.pClientInput.HANDLE_MULTI_LINE_INPUT = false →
            n = min msg.ReadConsole.NumBytes con.pClientInput.BytesAvailable)) :=
  ⟨_, ReadChars_of_pending s con msg pwchBuffer dwInitialNumBytes dwCtrlWakeupMask hIndex
      usExeNameLength fUnicode hpend hcap,
    ReadCharsCarry_bytes s con { msg with ReadConsole := { msg.ReadConsole with NumBytes := 0 } }
      pwchBuffer msg.ReadConsole.NumBytes fUnicode hlead havail
      (fun h0 => by
        rw [h0] at hcap
        exact absurd hcap (by decide))
      hmulti⟩

/-- An instance of C39: the carry holds `abc`, none of it delivered yet; a Unicode read
with a buffer of 4 bytes takes the 4 bytes of `ab` from it in one copy, 2 bytes remain and
the cursor of the carry stands at byte 4. -/
theorem ReadChars_carry_bytes_witness :
    (∃ r, ReadChars (exampleServer true false)
        (exampleConsole 7 [] 0 (carryOf [0x61, 0x62, 0x63] 0 false))
        (exampleMsg true 4 0) 0 0 0 1 0 true = some r ∧
      ∃ n : Nat, n ≤ 4 ∧ n ≤ 6 ∧ r.con.pClientInput.BytesAvailable = 6 - n ∧
        r.msg.ReadConsole.NumBytes = n ∧ n = min 4 6) ∧
    (ReadChars (exampleServer true false)
        (exampleConsole 7 [] 0 (carryOf [0x61, 0x62, 0x63] 0 false))
        (exampleMsg true 4 0) 0 0 0 1 0 true).map
        (fun r => (r.msg.ReadConsole.NumBytes, outputBytes r.msg 6,
          r.con.pClientInput.BytesAvailable, r.con.pClientInput.CurrentBufPtr))
      = some (4, [0x61, 0, 0x62, 0, 0, 0], 2, 4) ∧
    (ReadChars (exampleServer true false)
        (exampleConsole 7 [] 0 (carryOf [0x61, 0x62, 0x63] 0 false))
        (exampleMsg true 4 0) 0 0 0 1 0 true).map (fun r => r.con.copies) = some [(0, 4)] :=
  ⟨(ReadChars_carry_bytes (exampleServer true false)
      (exampleConsole 7 [] 0 (carryOf [0x61, 0x62, 0x63] 0 false))
      (exampleMsg true 4 0) 0 0 0 1 0 true rfl (by decide) (Or.inl rfl) (by decide)
      (fun hm => absurd hm (by decide))).elim
      fun r hr => ⟨r, hr.1, hr.2.elim fun n hn =>
        ⟨n, hn.1, hn.2.1, hn.2.2.1, (hn.2.2.2.2.2 rfl).2.1, (hn.2.2.2.2.2 rfl).2.2.2 rfl⟩⟩,
    by decide, by decide⟩

/-- C39 as stated fails in two cases. A read that is not in Unicode and finds a lead byte
waiting (here 0x81, the carry holding `ab`, a buffer of 4 bytes) takes `sizeof(WCHAR)` off
`CarryRemaining` for the lead byte before it copies: 2 bytes are copied out of the carry
and `CarryRemaining` falls from 4 to 0. A Unicode read with `MultiLineInput` set whose
carry holds no LF (here `ab`, a buffer of 80 bytes) copies `sizeof(WCHAR)` more than
`CarryRemaining`, 6 bytes for 4, and `CarryRemaining` wraps around to `2^32 - 2`. -/
theorem ReadChars_carry_bytes_counterexample :
    ((carryOf [0x61, 0x62] 0 false).BytesAvailable = 4 ∧
     (ReadChars (exampleServer true false)
        (exampleConsole 7 [] 0x81 (carryOf [0x61, 0x62] 0 false))
        (exampleMsg false 4 0) 0 0 0 1 0 false).map
        (fun r => (r.Status, r.con.copies.head?, r.con.pClientInput.BytesAvailable))
      = some (STATUS_SUCCESS, some (2, 2), 0)) ∧
    ((carryOf [0x61, 0x62] 0 true).BytesAvailable = 4 ∧
     (ReadChars (exampleServer true false)
        (exampleConsole 7 [] 0 (carryOf [0x61, 0x62] 0 true))
        (exampleMsg true 80 0) 0 0 0 1 0 true).map
        (fun r => (r.Status, r.con.copies, r.msg.ReadConsole.NumBytes,
          r.con.pClientInput.BytesAvailable))
      = some (STATUS_SUCCESS, [(0, 6)], 6, 2 ^ 32 - 2)) := by
  decide
/-! ## The second backspace -/

/-- The passes of `eol_repeat` depend on the character as received only through the test
whether it is the erase-previous-word key, which is made with extended edit keys on. -/
theorem eol_repeat_orig {W : Type} (h : Host W) (wch o1 o2 : Nat) (b : Bool)
    (hsame : h.GetExtendedEditKey = true →
      (o1 = h.EXTKEY_ERASE_PREV_WORD ↔ o2 = h.EXTKEY_ERASE_PREV_WORD)) :
    ∀ (fuel : Nat) (f : Frame W), eol_repeat h wch o1 b fuel f = eol_repeat h wch o2 b fuel f := by
  intro fuel
  induction fuel with
  | zero =>
    intro f
    unfold eol_repeat
    dsimp only
    by_cases hx : h.GetExtendedEditKey = true
    · by_cases ho : o1 = h.EXTKEY_ERASE_PREV_WORD
      · rw [ho, (hsame hx).1 ho]
      · have ho2 : ¬(o2 = h.EXTKEY_ERASE_PREV_WORD) := fun hc => ho ((hsame hx).2 hc)
        simp only [ho, ho2, false_and, and_false, if_false]
    · simp only [hx, Bool.false_eq_true, false_and, if_false]
  | succ n ih =>
    intro f
    unfold eol_repeat
    dsimp only
    by_cases hx : h.GetExtendedEditKey = true
    · by_cases ho : o1 = h.EXTKEY_ERASE_PREV_WORD
      · simp only [ho, (hsame hx).1 ho, ih]
      · have ho2 : ¬(o2 = h.EXTKEY_ERASE_PREV_WORD) := fun hc => ho ((hsame hx).2 hc)
        simp only [ho, ho2, false_and, and_false, if_false]
    · simp only [hx, Bool.false_eq_true, false_and, if_false]

/-- C35, amended. With the cursor at end of line, the buffer not full (`BytesUsed <
Capacity - 2*sizeof(WCHAR)`) and BS no wake-up character of the session, processing the
second backspace yields exactly the same session, screen, status and return value as
processing BS, whether `Processed` is set or not: the routine maps it to BS inside the
end-of-line branch. The code points are those of a console in which the second backspace
is a character from U+0020 up and, when extended edit keys are on, neither it nor BS is the
erase-previous-word key. -/
theorem second_backspace_at_eol {W : Type} (h : Host W) (scr : W) (d : COOKED_READ_DATA)
    (keyState : Nat)
    (heol : AT_EOL d = true)
    (hroom : ¬(subSizeT d.BufferSize (2 * sizeof_WCHAR) ≤ d.BytesRead))
    (hbit : d.CtrlWakeupMask.testBit UNICODE_BACKSPACE = false)
    (h2 : UNICODE_SPACE ≤ h.UNICODE_BACKSPACE2)
    (hkeys : h.GetExtendedEditKey = true →
      h.UNICODE_BACKSPACE2 ≠ h.EXTKEY_ERASE_PREV_WORD ∧
      UNICODE_BACKSPACE ≠ h.EXTKEY_ERASE_PREV_WORD) :
    ProcessCookedReadInput h scr d h.UNICODE_BACKSPACE2 keyState
      = ProcessCookedReadInput h scr d UNICODE_BACKSPACE keyState := by
  have hg2 : ¬(subSizeT d.BufferSize (2 * sizeof_WCHAR) ≤ d.BytesRead
      ∧ h.UNICODE_BACKSPACE2 ≠ UNICODE_CARRIAGERETURN ∧ h.UNICODE_BACKSPACE2 ≠ UNICODE_BACKSPACE) :=
    fun hc => hroom hc.1
  have hg : ¬(subSizeT d.BufferSize (2 * sizeof_WCHAR) ≤ d.BytesRead
      ∧ UNICODE_BACKSPACE ≠ UNICODE_CARRIAGERETURN ∧ UNICODE_BACKSPACE ≠ UNICODE_BACKSPACE) :=
    fun hc => hroom hc.1
  have hw2 : ¬(d.CtrlWakeupMask ≠ 0 ∧ h.UNICODE_BACKSPACE2 < UNICODE_SPACE
      ∧ d.CtrlWakeupMask &&& (1 <<< h.UNICODE_BACKSPACE2) ≠ 0) :=
    fun hc => absurd hc.2.1 (not_lt.2 h2)
  have hw := not_wakeup_of_testBit hbit
  have hne : h.UNICODE_BACKSPACE2 ≠ UNICODE_BACKSPACE := by
    intro hc
    rw [hc] at h2
    exact absurd h2 (by decide)
  rw [ProcessCookedReadInput_eol h scr d h.UNICODE_BACKSPACE2 keyState hg2 hw2 heol _ rfl _ rfl,
    ProcessCookedReadInput_eol h scr d UNICODE_BACKSPACE keyState hg hw heol _ rfl _ rfl]
  rw [ite_self]
  have hbranch : ∀ w : Nat, (w = h.UNICODE_BACKSPACE2 ∨ w = UNICODE_BACKSPACE) →
      eolBranch h w h.UNICODE_BACKSPACE2 (entryFrame scr d)
        = eolBranch h UNICODE_BACKSPACE UNICODE_BACKSPACE (entryFrame scr d) := by
    intro w hw'
    have hwch : ∀ v : Nat, (v = h.UNICODE_BACKSPACE2 ∨ v = UNICODE_BACKSPACE) →
        (if v = h.UNICODE_BACKSPACE2 then UNICODE_BACKSPACE else v) = UNICODE_BACKSPACE := by
      intro v hv
      rcases hv with hv | hv
      · rw [if_pos hv]
      · rw [hv, ite_self]
    unfold eolBranch
    dsimp only
    rw [hwch w hw', hwch UNICODE_BACKSPACE (Or.inr rfl)]
    rw [eol_repeat_orig h UNICODE_BACKSPACE h.UNICODE_BACKSPACE2 UNICODE_BACKSPACE _
      (fun hx => ⟨fun hc => absurd hc (hkeys hx).1, fun hc => absurd hc (hkeys hx).2⟩)]
  rw [hbranch _ (by split_ifs <;> [exact Or.inr rfl; exact Or.inl rfl])]

/-- An instance of C35, amended: processed input, the line `x y` with the cursor at its
end; the second backspace (U+25D8) and BS both erase the `y`. -/
theorem second_backspace_at_eol_witness :
    ProcessCookedReadInput (exampleHost true false) [] xySession 0x25D8 0
      = ProcessCookedReadInput (exampleHost true false) [] xySession UNICODE_BACKSPACE 0 ∧
    (ProcessCookedReadInput (exampleHost true false) [] xySession 0x25D8 0).Completed = false ∧
    (ProcessCookedReadInput (exampleHost true false) [] xySession 0x25D8 0).d.CurrentPosition = 1 ∧
    content (ProcessCookedReadInput (exampleHost true false) [] xySession 0x25D8 0).d = [0x78] :=
  ⟨second_backspace_at_eol (exampleHost true false) [] xySession 0
      (by decide) (by decide) (by decide) (by decide) (fun _ => ⟨by decide, by decide⟩),
    by decide, by decide, by decide⟩

set_option maxRecDepth 20000 in
/-- C35 as stated fails in the middle of the line and when the buffer is full. On the line
`abc` with the cursor between `b` and `c` and `Processed` set, BS removes the `b`, while the
second backspace is stored over the `c` as an ordinary character and the cursor advances.
With 254 characters in a 512-byte buffer and the cursor at end of line, BS erases the last
character, while the second backspace is dropped by the buffer-full guard. -/
theorem second_backspace_at_eol_counterexample :
    ((sessionAt (newSession 512 0 true false true) [0x61, 0x62, 0x63] 2).Processed = true ∧
     content (ProcessCookedReadInput (exampleHost true false) []
        (sessionAt (newSession 512 0 true false true) [0x61, 0x62, 0x63] 2)
        UNICODE_BACKSPACE 0).d = [0x61, 0x63] ∧
     (ProcessCookedReadInput (exampleHost true false) []
        (sessionAt (newSession 512 0 true false true) [0x61, 0x62, 0x63] 2)
        UNICODE_BACKSPACE 0).d.CurrentPosition = 1 ∧
     content (ProcessCookedReadInput (exampleHost true false) []
        (sessionAt (newSession 512 0 true false true) [0x61, 0x62, 0x63] 2)
        (exampleHost true false).UNICODE_BACKSPACE2 0).d = [0x61, 0x62, 0x25D8] ∧
     (ProcessCookedReadInput (exampleHost true false) []
        (sessionAt (newSession 512 0 true false true) [0x61, 0x62, 0x63] 2)
        (exampleHost true false).UNICODE_BACKSPACE2 0).d.CurrentPosition = 3) ∧
    (fullSession.Processed = true ∧ AT_EOL fullSession = true ∧
     (ProcessCookedReadInput (exampleHost true false) [] fullSession
        UNICODE_BACKSPACE 0).d.CurrentPosition = 253 ∧
     (ProcessCookedReadInput (exampleHost true false) [] fullSession
        (exampleHost true false).UNICODE_BACKSPACE2 0).d.CurrentPosition = 254) := by
  decide
/-! ## Backspace at end of line -/

/-- C32, amended. For every session with `Processed` set, the cursor at end of line (both
forms of the write cursor agreeing) and `WriteCursor > 0`, a BS that is not a wake-up
character of the session decrements the write cursor and `BytesUsed/sizeof(WCHAR)` by one,
leaves `Storage[0 .. new WriteCursor)` unchanged, and reports continue. -/
theorem backspace_at_eol {W : Type} (h : Host W) (scr : W) (d : COOKED_READ_DATA)
    (keyState : Nat)
    (hproc : d.Processed = true) (heol : AT_EOL d = true)
    (hptr : d.BufPtr = d.CurrentPosition) (hpos : 0 < d.CurrentPosition)
    (hbytes : d.BytesRead < 2 ^ 32)
    (hbit : d.CtrlWakeupMask.testBit UNICODE_BACKSPACE = false)
    (hkey : UNICODE_BACKSPACE ≠ h.EXTKEY_ERASE_PREV_WORD) :
    (ProcessCookedReadInput h scr d UNICODE_BACKSPACE keyState).Completed = false ∧
    (ProcessCookedReadInput h scr d UNICODE_BACKSPACE keyState).d.CurrentPosition
      = d.CurrentPosition - 1 ∧
    (ProcessCookedReadInput h scr d UNICODE_BACKSPACE keyState).d.BufPtr = d.BufPtr - 1 ∧
    (ProcessCookedReadInput h scr d UNICODE_BACKSPACE keyState).d.BytesRead / sizeof_WCHAR
      = d.BytesRead / sizeof_WCHAR - 1 ∧
    (∀ i : Int, i < (d.CurrentPosition : Int) - 1 →
      (ProcessCookedReadInput h scr d UNICODE_BACKSPACE keyState).d.BackupLimit i
        = d.BackupLimit i) := by
  have hsz : sizeof_WCHAR = 2 := rfl
  have hg : ¬(subSizeT d.BufferSize (2 * sizeof_WCHAR) ≤ d.BytesRead
      ∧ UNICODE_BACKSPACE ≠ UNICODE_CARRIAGERETURN ∧ UNICODE_BACKSPACE ≠ UNICODE_BACKSPACE) :=
    fun hc => hc.2.2 rfl
  have hw := not_wakeup_of_testBit hbit
  have hp : d.BufPtr ≠ 0 := by omega
  have hcp : d.CurrentPosition = d.BytesRead / 2 := by
    have := heol
    unfold AT_EOL at this
    rw [hsz] at this
    exact of_decide_eq_true this
  rw [ProcessCookedReadInput_eol h scr d UNICODE_BACKSPACE keyState hg hw heol UNICODE_BACKSPACE
    (if_neg hkey) _ rfl]
  obtain ⟨f0, hf0, hd0⟩ : ∃ f0 : Frame W,
      (if h.GetExtendedEditKey = true
        then (entryFrame scr d).noteRead (((entryFrame scr d).d.BufPtr : Int) - 1)
        else entryFrame scr d) = f0 ∧ f0.d = d := by
    refine ⟨_, rfl, ?_⟩
    split_ifs <;> rfl
  have hbr : eolBranch h UNICODE_BACKSPACE UNICODE_BACKSPACE (entryFrame scr d)
      = (UNICODE_BACKSPACE, eol_repeat h UNICODE_BACKSPACE UNICODE_BACKSPACE
          (h.GetExtendedEditKey && h.IS_WORD_DELIM (d.BackupLimit ((d.BufPtr : Int) - 1)))
          d.BufPtr f0) := by
    unfold eolBranch
    dsimp only
    rw [ite_self, if_pos (Or.inr (show (entryFrame scr d).d.BufPtr ≠ 0 from hp)), hf0]
    rfl
  rw [hbr]
  dsimp only
  rw [crCompletion_of_ne h UNICODE_BACKSPACE _ (by decide)]
  have hstop := eol_repeat_stop h UNICODE_BACKSPACE
    (h.GetExtendedEditKey && h.IS_WORD_DELIM (d.BackupLimit ((d.BufPtr : Int) - 1)))
    d.BufPtr f0 (hd0 ▸ hproc) (fun hc => hkey hc.2.1)
  obtain ⟨e1, e2, e3, e4, -⟩ := eolErase_eolEcho_fields h UNICODE_BACKSPACE f0
  rw [hd0] at e1 e2 e3 e4
  show false = false ∧
    (eol_repeat h UNICODE_BACKSPACE UNICODE_BACKSPACE _ d.BufPtr f0).d.CurrentPosition = _ ∧
    (eol_repeat h UNICODE_BACKSPACE UNICODE_BACKSPACE _ d.BufPtr f0).d.BufPtr = _ ∧
    (eol_repeat h UNICODE_BACKSPACE UNICODE_BACKSPACE _ d.BufPtr f0).d.BytesRead / sizeof_WCHAR = _ ∧
    ∀ i : Int, i < (d.CurrentPosition : Int) - 1 →
      (eol_repeat h UNICODE_BACKSPACE UNICODE_BACKSPACE _ d.BufPtr f0).d.BackupLimit i = _
  rw [hstop, e1, e2, e3, e4]
  refine ⟨rfl, ?_, rfl, ?_, ?_⟩
  · exact subULONG_eq _ _ (by omega) (by omega)
  · rw [hsz, subULONG_eq _ _ (by omega) hbytes]
    omega
  · intro i hi
    unfold poke
    rw [if_neg (by omega)]

/-- An instance of C32, amended: processed input, the line `x y` with the cursor at its
end; BS leaves the line `x` with the write cursor at 1. -/
theorem backspace_at_eol_witness :
    (ProcessCookedReadInput (exampleHost true false) [] xySession UNICODE_BACKSPACE 0).Completed
      = false ∧
    (ProcessCookedReadInput (exampleHost true false) [] xySession UNICODE_BACKSPACE 0).d.CurrentPosition
      = 2 - 1 ∧
    (ProcessCookedReadInput (exampleHost true false) [] xySession UNICODE_BACKSPACE 0).d.BytesRead
      / sizeof_WCHAR = 4 / sizeof_WCHAR - 1 ∧
    content (ProcessCookedReadInput (exampleHost true false) [] xySession UNICODE_BACKSPACE 0).d
      = [0x78] :=
  have w := backspace_at_eol (exampleHost true false) [] xySession 0
    (by decide) (by decide) (by decide) (by decide) (by decide) (by decide) (by decide)
  ⟨w.1, w.2.1, w.2.2.2.1, by decide⟩

/-- C32 as stated fails in two ways. With BS a wake-up character of the session (bit 8 of
the mask), processed input and the line `x y` with the cursor at its end, the BS is stored
at the write cursor, which advances to 3, and the read completes. And when BS does erase
(no wake-up character; the line `x y` with the cursor at its end, the slot after it still
holding the `z` that an earlier BS erased), the freed slot at the new write cursor 1 still
holds the `y`: the space is written at index 2, the old write cursor. -/
theorem backspace_at_eol_counterexample :
    ((sessionAt (newSession 512 0x100 true false true) [0x78, 0x79] 2).Processed = true ∧
     AT_EOL (sessionAt (newSession 512 0x100 true false true) [0x78, 0x79] 2) = true ∧
     (ProcessCookedReadInput (exampleHost true false) []
        (sessionAt (newSession 512 0x100 true false true) [0x78, 0x79] 2)
        UNICODE_BACKSPACE 0).Completed = true ∧
     (ProcessCookedReadInput (exampleHost true false) []
        (sessionAt (newSession 512 0x100 true false true) [0x78, 0x79] 2)
        UNICODE_BACKSPACE 0).d.CurrentPosition = 3) ∧
    (({ xySession with BackupLimit := lineOf [0x78, 0x79, 0x7A] } : COOKED_READ_DATA).Processed
       = true ∧
     AT_EOL { xySession with BackupLimit := lineOf [0x78, 0x79, 0x7A] } = true ∧
     (ProcessCookedReadInput (exampleHost true false) []
        { xySession with BackupLimit := lineOf [0x78, 0x79, 0x7A] }
        UNICODE_BACKSPACE 0).d.CurrentPosition = 1 ∧
     (ProcessCookedReadInput (exampleHost true false) []
        { xySession with BackupLimit := lineOf [0x78, 0x79, 0x7A] }
        UNICODE_BACKSPACE 0).d.BackupLimit 1 = 0x79 ∧
     (ProcessCookedReadInput (exampleHost true false) []
        { xySession with BackupLimit := lineOf [0x78, 0x79, 0x7A] }
        UNICODE_BACKSPACE 0).d.BackupLimit 2 = UNICODE_SPACE ∧
     0x79 ≠ UNICODE_SPACE) := by
  decide

/-! ## The two forms of the write cursor -/

/-- C36, amended. If `BufPtr = BackupLimit + CurrentPosition` holds before a call of
`ProcessCookedReadInput`, it holds after it, for every character and every cursor position
except CR in the middle of the line (when CR is no wake-up character of the session): an
ordinary character, BS, the erase-previous-word key, a wake-up character, and CR at end of
line. `CurrentPosition` is a `ULONG` with room for the two slots of CR and LF, and
`ProcessCommandLine`, called for the INSERT key when the read completes, leaves the line
alone. -/
theorem write_cursor_forms_agree {W : Type} (h : Host W) (hcmd : h.InsertKeyKeepsLine)
    (scr : W) (d : COOKED_READ_DATA) (ch keyState : Nat)
    (hptr : d.BufPtr = d.CurrentPosition)
    (hrange : d.CurrentPosition + 2 < 2 ^ 32)
    (hcr : ch = UNICODE_CARRIAGERETURN →
      AT_EOL d = true ∨ d.CtrlWakeupMask.testBit UNICODE_CARRIAGERETURN = true) :
    (ProcessCookedReadInput h scr d ch keyState).d.BufPtr
      = (ProcessCookedReadInput h scr d ch keyState).d.CurrentPosition := by
  have hsz : sizeof_WCHAR = 2 := rfl
  refine ProcessCookedReadInput_induction h scr d ch keyState
    (fun f => ¬(d.CtrlWakeupMask ≠ 0 ∧ ch < UNICODE_SPACE ∧ d.CtrlWakeupMask &&& (1 <<< ch) ≠ 0)
      ∧ f.d.BufPtr = f.d.CurrentPosition ∧ f.d.CurrentPosition ≤ d.CurrentPosition)
    (fun f => f.d.BufPtr = f.d.CurrentPosition ∧ f.d.CurrentPosition ≤ d.CurrentPosition + 1)
    (fun f => f.d.BufPtr = f.d.CurrentPosition ∧ f.d.CurrentPosition ≤ d.CurrentPosition + 1)
    (fun t => t.d.BufPtr = t.d.CurrentPosition) _ _ rfl rfl
    ?_ ?_ ?_ ?_ ?_ ?_ ?_ ?_ ?_ ?_ ?_ ?_ ?_ ?_ ?_ ?_
  · -- the buffer-full guard
    intro _ _ _
    exact hptr
  · -- a wake-up character
    intro _ _ _
    show d.BufPtr + 1 = toULONG (d.CurrentPosition + 1)
    unfold toULONG
    rw [hptr, Nat.mod_eq_of_lt (by omega)]
  · intro _ hw
    exact ⟨hw, hptr, le_refl _⟩
  · intro hP _ _
    exact hP
  · intro f hP _ _ _
    exact hP
  · -- a pass of `eol_repeat` that erases
    intro _ _ f hP hne _
    obtain ⟨y, v, hd, -⟩ := eolErase_shape h UNICODE_BACKSPACE f
    rw [hd]
    refine ⟨hP.1, ?_, ?_⟩
    · show f.d.BufPtr - 1 = subULONG f.d.CurrentPosition 1
      rw [subULONG_eq _ _ (by omega) (by omega), hP.2.1]
    · show subULONG f.d.CurrentPosition 1 ≤ d.CurrentPosition
      rw [subULONG_eq _ _ (by omega) (by omega)]
      omega
  · -- a character stored at end of line
    intro _ _ f hP hfd
    obtain ⟨y, v, hd, -⟩ := eolStore_shape h (if (if ch = h.EXTKEY_ERASE_PREV_WORD
      then UNICODE_BACKSPACE else ch) = h.UNICODE_BACKSPACE2 then UNICODE_BACKSPACE
      else if ch = h.EXTKEY_ERASE_PREV_WORD then UNICODE_BACKSPACE else ch) f
    rw [hd, hfd]
    have e : toULONG (d.CurrentPosition + 1) = d.CurrentPosition + 1 := by
      unfold toULONG
      exact Nat.mod_eq_of_lt (by omega)
    refine ⟨?_, ?_⟩
    · show d.BufPtr + 1 = toULONG (d.CurrentPosition + 1)
      rw [e, hptr]
    · show toULONG (d.CurrentPosition + 1) ≤ d.CurrentPosition + 1
      rw [e]
  · -- a pass of `bs_repeat`
    intro _ _ f hP hne _
    rw [(bsErase_shape h UNICODE_BACKSPACE f).1]
    refine ⟨hP.1, ?_, ?_⟩
    · show f.d.BufPtr - 1 = subULONG f.d.CurrentPosition 1
      rw [subULONG_eq _ _ (by omega) (by omega), hP.2.1]
    · show subULONG f.d.CurrentPosition 1 ≤ d.CurrentPosition
      rw [subULONG_eq _ _ (by omega) (by omega)]
      omega
  · intro _ f hP
    exact ⟨hP.2.1, by omega⟩
  · intro hP
    exact ⟨hP.2.1, by omega⟩
  · intro f hP
    exact ⟨hP.2.1, by omega⟩
  · -- a character stored in the middle of the line
    intro heol hbs hP
    have hne : (if ch = h.EXTKEY_ERASE_PREV_WORD then UNICODE_BACKSPACE else ch)
        ≠ UNICODE_CARRIAGERETURN := by
      intro hc
      have hch : ch = UNICODE_CARRIAGERETURN := by
        by_cases hx : ch = h.EXTKEY_ERASE_PREV_WORD
        · rw [if_pos hx] at hc
          exact absurd hc (by decide)
        · rw [if_neg hx] at hc
          exact hc
      rcases hcr hch with h1 | h1
      · exact heol h1
      · apply hP.1
        rw [hch]
        exact (wakeup_test_iff _ _).2 ⟨by decide, h1⟩
    rw [(midEdit_char_shape h _ ch (entryFrame scr d) hbs hne).1]
    have e : toULONG (d.CurrentPosition + 1) = d.CurrentPosition + 1 := by
      unfold toULONG
      exact Nat.mod_eq_of_lt (by omega)
    refine ⟨?_, ?_⟩
    · show d.BufPtr + 1 = toULONG (d.CurrentPosition + 1)
      rw [e, hptr]
    · show toULONG (d.CurrentPosition + 1) ≤ d.CurrentPosition + 1
      rw [e]
  · -- the repaint returns early
    intro f hM _ _
    obtain ⟨y, v, -, hd | hd⟩ := midRepaint_shape h
      (if ch = h.EXTKEY_ERASE_PREV_WORD then UNICODE_BACKSPACE else ch) f
    · show (midRepaint h _ f).1.d.BufPtr = (midRepaint h _ f).1.d.CurrentPosition
      rw [hd.2]
      exact hM.1
    · show (midRepaint h _ f).1.d.BufPtr = (midRepaint h _ f).1.d.CurrentPosition
      rw [hd.2]
      exact hM.1
  · -- the repaint
    intro f hM _ _
    obtain ⟨y, v, -, hd | hd⟩ := midRepaint_shape h
      (if ch = h.EXTKEY_ERASE_PREV_WORD then UNICODE_BACKSPACE else ch) f
    · rw [hd.2]
      exact hM
    · rw [hd.2]
      exact hM
  · intro f hM _
    exact hM
  · -- the closing block
    intro f w hQ _
    rcases crCompletion_shape h w f with hs | ⟨-, d1, lg, hd1, -, hfin⟩
    · rw [hs.2]
      exact hQ.1
    · have h1 : d1.BufPtr = d1.CurrentPosition := by
        rcases hd1 with hd1 | hd1
        · rw [hd1.2.1]
          exact hQ.1
        · rw [hd1.2.2.1]
          show f.d.BufPtr + 1 = toULONG (f.d.CurrentPosition + 1)
          unfold toULONG
          rw [Nat.mod_eq_of_lt (by omega), hQ.1]
      rcases hfin with hfin | hfin
      · rw [hfin.2.2]
        exact h1
      · rcases hfin.2.2 with hfin | ⟨scr1, hfin⟩
        · rw [hfin]
          exact h1
        · rw [hfin, (hcmd scr1 d1).2.2.2.1, (hcmd scr1 d1).2.2.1]
          exact h1

/-- An instance of C36, amended: on the line `abc` with the cursor between `a` and `b`, BS
takes both forms of the write cursor to 0; on the line `x y` with the cursor at its end,
CR takes both to 4. -/
theorem write_cursor_forms_agree_witness :
    ((ProcessCookedReadInput (exampleHost true false) []
        (sessionAt (newSession 512 0 true false true) [0x61, 0x62, 0x63] 1)
        UNICODE_BACKSPACE 0).d.BufPtr
      = (ProcessCookedReadInput (exampleHost true false) []
        (sessionAt (newSession 512 0 true false true) [0x61, 0x62, 0x63] 1)
        UNICODE_BACKSPACE 0).d.CurrentPosition ∧
     (ProcessCookedReadInput (exampleHost true false) []
        (sessionAt (newSession 512 0 true false true) [0x61, 0x62, 0x63] 1)
        UNICODE_BACKSPACE 0).d.BufPtr = 0) ∧
    ((ProcessCookedReadInput (exampleHost true false) [] xySession
        UNICODE_CARRIAGERETURN 0).d.BufPtr
      = (ProcessCookedReadInput (exampleHost true false) [] xySession
        UNICODE_CARRIAGERETURN 0).d.CurrentPosition ∧
     (ProcessCookedReadInput (exampleHost true false) [] xySession
        UNICODE_CARRIAGERETURN 0).d.BufPtr = 4) :=
  ⟨⟨write_cursor_forms_agree (exampleHost true false) (exampleHost_InsertKeyKeepsLine true false)
      [] (sessionAt (newSession 512 0 true false true) [0x61, 0x62, 0x63] 1) UNICODE_BACKSPACE 0
      (by decide) (by decide) (fun hc => absurd hc (by decide)), by decide⟩,
   ⟨write_cursor_forms_agree (exampleHost true false) (exampleHost_InsertKeyKeepsLine true false)
      [] xySession UNICODE_CARRIAGERETURN 0
      (by decide) (by decide) (fun _ => Or.inl (by decide)), by decide⟩⟩

/-- C36 as stated fails for CR in the middle of the line: on the line `abc` with both forms
of the write cursor at 1 (processed line read, CR no wake-up character), CR is stored at
the end of the line: `BufPtr` goes to the end and on past CR and LF, to 5, while
`CurrentPosition` only goes up by two, to 3. -/
theorem write_cursor_forms_agree_counterexample :
    ((sessionAt (newSession 512 0 true false true) [0x61, 0x62, 0x63] 1).BufPtr
      = (sessionAt (newSession 512 0 true false true) [0x61, 0x62, 0x63] 1).CurrentPosition) ∧
    (ProcessCookedReadInput (exampleHost true false) []
        (sessionAt (newSession 512 0 true false true) [0x61, 0x62, 0x63] 1)
        UNICODE_CARRIAGERETURN 0).d.BufPtr = 5 ∧
    (ProcessCookedReadInput (exampleHost true false) []
        (sessionAt (newSession 512 0 true false true) [0x61, 0x62, 0x63] 1)
        UNICODE_CARRIAGERETURN 0).d.CurrentPosition = 3 ∧
    content (ProcessCookedReadInput (exampleHost true false) []
        (sessionAt (newSession 512 0 true false true) [0x61, 0x62, 0x63] 1)
        UNICODE_CARRIAGERETURN 0).d = [0x61, 0x62, 0x63, 0x0D, 0x0A] := by
  decide
/-! ## One tick stays inside the line buffer -/

/-- C37, amended. For a session with even `Capacity`, even `BytesUsed < Capacity`,
`2*WriteCursor <= BytesUsed` and `BufPtr = BackupLimit + WriteCursor`, every write that
one call of `ProcessCookedReadInput` makes into the line buffer is at indices in `[0,
Capacity/sizeof(WCHAR))`; afterwards `Capacity` is as it was, `BytesUsed` is even and at
most `Capacity`, and `2*WriteCursor <= BytesUsed`, unless the screen writer has failed
during the repaint of the middle of the line: the call then gives the read up, reporting
complete with `BytesUsed = 0` and the write cursor where the edit left it. `Capacity` is a
`ULONG`, and `ProcessCommandLine`, called for the INSERT key when the read completes,
leaves the line alone. -/
theorem tick_stays_in_buffer {W : Type} (h : Host W) (hcmd : h.InsertKeyKeepsLine) (scr : W)
    (d : COOKED_READ_DATA) (ch keyState : Nat)
    (hB2 : d.BufferSize % 2 = 0) (hn2 : d.BytesRead % 2 = 0)
    (hlt : d.BytesRead < d.BufferSize) (hcp : 2 * d.CurrentPosition ≤ d.BytesRead)
    (hptr : d.BufPtr = d.CurrentPosition) (hcap : d.BufferSize < 2 ^ 32) :
    (∀ (i : Int) (n : Nat), Access.write i n ∈ (ProcessCookedReadInput h scr d ch keyState).log →
      0 ≤ i ∧ i + n ≤ ((d.BufferSize / sizeof_WCHAR : Nat) : Int)) ∧
    (ProcessCookedReadInput h scr d ch keyState).d.BufferSize = d.BufferSize ∧
    (ProcessCookedReadInput h scr d ch keyState).d.BytesRead % 2 = 0 ∧
    (ProcessCookedReadInput h scr d ch keyState).d.BytesRead ≤ d.BufferSize ∧
    (2 * (ProcessCookedReadInput h scr d ch keyState).d.CurrentPosition
        ≤ (ProcessCookedReadInput h scr d ch keyState).d.BytesRead ∨
      (¬h.ScreenSucceeds ∧ (ProcessCookedReadInput h scr d ch keyState).Completed = true ∧
        (ProcessCookedReadInput h scr d ch keyState).d.BytesRead = 0)) := by
  obtain ⟨hA, hL, -⟩ := tick_invariant h scr d ch keyState (-1) hB2 hn2 hlt hcp hptr hcap
    (by decide) (fun _ _ _ => le_refl _)
  obtain ⟨a1, a2, a3, a4⟩ := hA (Or.inl hcmd)
  exact ⟨fun i n hin => hL _ hin, a1, a2, a3, a4⟩

/-- An instance of C37, amended: insert mode, the line `a c` with the write cursor between
the letters, and `b` typed. The tail `c` is moved from index 1 to index 2 and `b` is stored
at index 1, inside the 256 code units of the buffer; `BytesUsed` becomes 6 and the write
cursor 2. -/
theorem tick_stays_in_buffer_witness :
    ((∀ (i : Int) (n : Nat),
        Access.write i n ∈ (ProcessCookedReadInput (exampleHost true true) []
          (sessionAt (newSession 512 0 true true true) [0x61, 0x63] 1) 0x62 0).log →
        0 ≤ i ∧ i + n ≤ ((512 / sizeof_WCHAR : Nat) : Int)) ∧
      (ProcessCookedReadInput (exampleHost true true) []
        (sessionAt (newSession 512 0 true true true) [0x61, 0x63] 1) 0x62 0).d.BytesRead % 2 = 0) ∧
    (ProcessCookedReadInput (exampleHost true true) []
      (sessionAt (newSession 512 0 true true true) [0x61, 0x63] 1) 0x62 0).log.map Access.parts
      = [(false, 1, 1), (true, 2, 1), (true, 1, 1), (false, 1, 1)] ∧
    (ProcessCookedReadInput (exampleHost true true) []
      (sessionAt (newSession 512 0 true true true) [0x61, 0x63] 1) 0x62 0).d.BytesRead = 6 ∧
    (ProcessCookedReadInput (exampleHost true true) []
      (sessionAt (newSession 512 0 true true true) [0x61, 0x63] 1) 0x62 0).d.CurrentPosition = 2 :=
  have w := tick_stays_in_buffer (exampleHost true true) (exampleHost_InsertKeyKeepsLine true true)
    [] (sessionAt (newSession 512 0 true true true) [0x61, 0x63] 1) 0x62 0
    (by decide) (by decide) (by decide) (by decide) (by decide) (by decide)
  ⟨⟨w.1, w.2.2.1⟩, by decide, by decide, by decide⟩

/-- C37 as stated fails when the screen writer fails: echo on, the line `a b` with the
write cursor at 1 (even capacity 512, `BytesUsed = 4`, both forms of the write cursor
agreeing), and `x` typed over the `b`. The repaint fails, the call sets `BytesUsed` to 0
and reports complete, and the write cursor stays at 2: `2*WriteCursor <= BytesUsed` does
not hold afterwards. -/
theorem tick_stays_in_buffer_counterexample :
    ((sessionAt (newSession 512 0 true false true) [0x61, 0x62] 1).BufferSize % 2 = 0 ∧
     (sessionAt (newSession 512 0 true false true) [0x61, 0x62] 1).BytesRead = 4 ∧
     (sessionAt (newSession 512 0 true false true) [0x61, 0x62] 1).CurrentPosition = 1 ∧
     (sessionAt (newSession 512 0 true false true) [0x61, 0x62] 1).BufPtr = 1) ∧
    (ProcessCookedReadInput (failingHost true false) []
      (sessionAt (newSession 512 0 true false true) [0x61, 0x62] 1) 0x78 0).Completed = true ∧
    (ProcessCookedReadInput (failingHost true false) []
      (sessionAt (newSession 512 0 true false true) [0x61, 0x62] 1) 0x78 0).d.BytesRead = 0 ∧
    (ProcessCookedReadInput (failingHost true false) []
      (sessionAt (newSession 512 0 true false true) [0x61, 0x62] 1) 0x78 0).d.CurrentPosition = 2 ∧
    ¬(2 * (ProcessCookedReadInput (failingHost true false) []
        (sessionAt (newSession 512 0 true false true) [0x61, 0x62] 1) 0x78 0).d.CurrentPosition
      ≤ (ProcessCookedReadInput (failingHost true false) []
        (sessionAt (newSession 512 0 true false true) [0x61, 0x62] 1) 0x78 0).d.BytesRead) := by
  decide

/-! ## The two slots kept for CR and LF -/

/-- C33, amended. Two slots stay reserved for CR and LF: starting from a well-formed
session (`Capacity` and `BytesUsed` even, the write cursor inside the contents, both of its
forms agreeing) with `BytesUsed <= Capacity - 2*sizeof(WCHAR)`, every call of
`ProcessCookedReadInput` that reports continue leaves `BytesUsed <= Capacity -
2*sizeof(WCHAR)`, for every character with two provisos: BS only in a session with
`Processed` set, where it erases, and CR only in a session in line mode, where it
completes the read (CR being neither the erase-previous-word key nor the second
backspace). -/
theorem reserved_slots_stay_free {W : Type} (h : Host W) (scr : W) (d : COOKED_READ_DATA)
    (ch keyState : Nat)
    (hB2 : d.BufferSize % 2 = 0) (hn2 : d.BytesRead % 2 = 0)
    (hroom : d.BytesRead + 2 * sizeof_WCHAR ≤ d.BufferSize)
    (hcp : 2 * d.CurrentPosition ≤ d.BytesRead) (hptr : d.BufPtr = d.CurrentPosition)
    (hcap : d.BufferSize < 2 ^ 32)
    (hbs : ch = UNICODE_BACKSPACE → d.Processed = true)
    (hcr : ch = UNICODE_CARRIAGERETURN → d.Line = true ∧
      UNICODE_CARRIAGERETURN ≠ h.EXTKEY_ERASE_PREV_WORD ∧
      UNICODE_CARRIAGERETURN ≠ h.UNICODE_BACKSPACE2)
    (hcont : (ProcessCookedReadInput h scr d ch keyState).Completed = false) :
    (ProcessCookedReadInput h scr d ch keyState).d.BytesRead + 2 * sizeof_WCHAR
      ≤ (ProcessCookedReadInput h scr d ch keyState).d.BufferSize := by
  have hsz : sizeof_WCHAR = 2 := rfl
  obtain ⟨hA, -, hC⟩ := tick_invariant h scr d ch keyState (-1) hB2 hn2
    (by rw [hsz] at hroom; omega) hcp hptr hcap (by decide) (fun _ _ _ => le_refl _)
  rw [(hA (Or.inr hcont)).1]
  exact hC hcont hcr hbs hroom

set_option maxRecDepth 20000 in
/-- An instance of C33, amended: 254 characters fill a 512-byte buffer up to the two
reserved slots. The letter `b` is rejected, and BS (processed) erases a character; both
calls report continue and leave `BytesUsed` at 508 and 506. -/
theorem reserved_slots_stay_free_witness :
    ((ProcessCookedReadInput (exampleHost true false) [] fullSession 0x62 0).d.BytesRead
        + 2 * sizeof_WCHAR
      ≤ (ProcessCookedReadInput (exampleHost true false) [] fullSession 0x62 0).d.BufferSize ∧
     (ProcessCookedReadInput (exampleHost true false) [] fullSession 0x62 0).d.BytesRead = 508) ∧
    ((ProcessCookedReadInput (exampleHost true false) [] fullSession UNICODE_BACKSPACE 0).d.BytesRead
        + 2 * sizeof_WCHAR
      ≤ (ProcessCookedReadInput (exampleHost true false) [] fullSession
          UNICODE_BACKSPACE 0).d.BufferSize ∧
     (ProcessCookedReadInput (exampleHost true false) [] fullSession
        UNICODE_BACKSPACE 0).d.BytesRead = 506) :=
  ⟨⟨reserved_slots_stay_free (exampleHost true false) [] fullSession 0x62 0
      (by decide) (by decide) (by decide) (by decide) (by decide) (by decide)
      (fun hc => absurd hc (by decide)) (fun hc => absurd hc (by decide)) (by decide),
    by decide⟩,
   ⟨reserved_slots_stay_free (exampleHost true false) [] fullSession UNICODE_BACKSPACE 0
      (by decide) (by decide) (by decide) (by decide) (by decide) (by decide)
      (fun _ => by decide) (fun hc => absurd hc (by decide)) (by decide),
    by decide⟩⟩

set_option maxRecDepth 20000 in
/-- C33 as stated fails in three ways. With `Processed` clear, a BS is a character to
store and the guard lets it through: from `BytesUsed = 508` in a 512-byte buffer the call
reports continue with `BytesUsed = 510`. Without line mode, CR and LF are stored and the
call reports continue: from 508 to 512. And with an odd capacity of 9 bytes and
`BytesUsed = 4 <= 9 - 4`, the letter `c` passes the guard and leaves `BytesUsed = 6`. -/
theorem reserved_slots_stay_free_counterexample :
    ((sessionAt (newSession 512 0x80 true false false) (List.replicate 254 0x61) 254).BytesRead
        + 2 * sizeof_WCHAR
      ≤ (sessionAt (newSession 512 0x80 true false false) (List.replicate 254 0x61) 254).BufferSize ∧
     (ProcessCookedReadInput (exampleHost true false) []
        (sessionAt (newSession 512 0x80 true false false) (List.replicate 254 0x61) 254)
        UNICODE_BACKSPACE 0).Completed = false ∧
     (ProcessCookedReadInput (exampleHost true false) []
        (sessionAt (newSession 512 0x80 true false false) (List.replicate 254 0x61) 254)
        UNICODE_BACKSPACE 0).d.BytesRead = 510 ∧
     (ProcessCookedReadInput (exampleHost true false) []
        (sessionAt (newSession 512 0x80 true false false) (List.replicate 254 0x61) 254)
        UNICODE_BACKSPACE 0).d.BufferSize = 512) ∧
    ((ProcessCookedReadInput (exampleHost true false) [] { fullSession with Line := false }
        UNICODE_CARRIAGERETURN 0).Completed = false ∧
     (ProcessCookedReadInput (exampleHost true false) [] { fullSession with Line := false }
        UNICODE_CARRIAGERETURN 0).d.BytesRead = 512 ∧
     (ProcessCookedReadInput (exampleHost true false) [] { fullSession with Line := false }
        UNICODE_CARRIAGERETURN 0).d.BufferSize = 512) ∧
    ((sessionAt (newSession 9 0 true false true) [0x61, 0x62] 2).BytesRead + 2 * sizeof_WCHAR
      ≤ (sessionAt (newSession 9 0 true false true) [0x61, 0x62] 2).BufferSize ∧
     (ProcessCookedReadInput (exampleHost true false) []
        (sessionAt (newSession 9 0 true false true) [0x61, 0x62] 2) 0x63 0).Completed = false ∧
     (ProcessCookedReadInput (exampleHost true false) []
        (sessionAt (newSession 9 0 true false true) [0x61, 0x62] 2) 0x63 0).d.BytesRead = 6 ∧
     (ProcessCookedReadInput (exampleHost true false) []
        (sessionAt (newSession 9 0 true false true) [0x61, 0x62] 2) 0x63 0).d.BufferSize = 9) := by
  decide
/-! ## The loads of one tick -/

/-- The closing block keeps on the log what is on it. -/
theorem crCompletion_log_mem {W : Type} (h : Host W) (w : Nat) (f : Frame W) (a : Access)
    (ha : a ∈ f.log) : a ∈ (crCompletion h w f).log := by
  rcases crCompletion_shape h w f with hs | ⟨-, d1, lg, hd1, hlg, -⟩
  · rw [hs.2]
    exact ha
  · rw [hlg]
    rcases hd1 with hd1 | hd1
    · rw [hd1.2.2]
      exact ha
    · rw [hd1.2.2.2]
      exact List.mem_append_left _ ha

/-- C38, as the code has it. On a well-formed session (`Capacity` and `BytesUsed` even,
`BytesUsed < Capacity`, the write cursor inside the contents, both of its forms agreeing)
every load that one call of `ProcessCookedReadInput` makes from the line buffer covers
indices from -1 up and below `Capacity/sizeof(WCHAR)`, and indices from 0 up unless
extended edit keys are on and the cursor is at end of an empty line. In that case a
character that is stored (not BS, the erase-previous-word key or the second backspace, not
a wake-up character, the buffer not being full) makes the routine evaluate the
word-delimiter test on `BufPtr[-1]` with the write cursor at 0: it loads the code unit at
index -1, before the base of the buffer. -/
theorem loads_of_one_tick {W : Type} (h : Host W) (scr : W) (d : COOKED_READ_DATA)
    (ch keyState : Nat)
    (hB2 : d.BufferSize % 2 = 0) (hn2 : d.BytesRead % 2 = 0)
    (hlt : d.BytesRead < d.BufferSize) (hcp : 2 * d.CurrentPosition ≤ d.BytesRead)
    (hptr : d.BufPtr = d.CurrentPosition) (hcap : d.BufferSize < 2 ^ 32) :
    (∀ (i : Int) (n : Nat), Access.read i n ∈ (ProcessCookedReadInput h scr d ch keyState).log →
      -1 ≤ i ∧ i + n ≤ ((d.BufferSize / sizeof_WCHAR : Nat) : Int)) ∧
    (¬(h.GetExtendedEditKey = true ∧ d.BufPtr = 0 ∧ AT_EOL d = true) →
      ∀ (i : Int) (n : Nat), Access.read i n ∈ (ProcessCookedReadInput h scr d ch keyState).log →
        0 ≤ i) ∧
    (h.GetExtendedEditKey = true → d.BufPtr = 0 → AT_EOL d = true →
      ¬(subSizeT d.BufferSize (2 * sizeof_WCHAR) ≤ d.BytesRead ∧ ch ≠ UNICODE_CARRIAGERETURN) →
      ¬(ch < 0x20 ∧ d.CtrlWakeupMask.testBit ch = true) →
      ch ≠ UNICODE_BACKSPACE → ch ≠ h.EXTKEY_ERASE_PREV_WORD → ch ≠ h.UNICODE_BACKSPACE2 →
      Access.read (-1) 1 ∈ (ProcessCookedReadInput h scr d ch keyState).log) := by
  refine ⟨?_, ?_, ?_⟩
  · intro i n hin
    exact (tick_invariant h scr d ch keyState (-1) hB2 hn2 hlt hcp hptr hcap
      (by decide) (fun _ _ _ => le_refl _)).2.1 _ hin
  · intro hno i n hin
    exact ((tick_invariant h scr d ch keyState 0 hB2 hn2 hlt hcp hptr hcap
      (le_refl _) (fun hx hz he => absurd ⟨hx, hz, he⟩ hno)).2.1 _ hin).1
  · intro hx hz heol hfull hwake hbs hext h2
    have hg : ¬(subSizeT d.BufferSize (2 * sizeof_WCHAR) ≤ d.BytesRead
        ∧ ch ≠ UNICODE_CARRIAGERETURN ∧ ch ≠ UNICODE_BACKSPACE) :=
      fun hc => hfull ⟨hc.1, hc.2.1⟩
    have hw : ¬(d.CtrlWakeupMask ≠ 0 ∧ ch < UNICODE_SPACE
        ∧ d.CtrlWakeupMask &&& (1 <<< ch) ≠ 0) :=
      fun hc => hwake ((wakeup_test_iff _ _).1 hc)
    rw [ProcessCookedReadInput_eol h scr d ch keyState hg hw heol ch (if_neg hext) _ rfl]
    apply crCompletion_log_mem
    unfold eolBranch
    dsimp only
    rw [if_neg h2, if_pos (Or.inl hbs), if_pos hx, eol_repeat_store h ch ch _ _ _ hbs]
    obtain ⟨y, v, -, hl⟩ := eolStore_shape h ch
      ((entryFrame scr d).noteRead (((entryFrame scr d).d.BufPtr : Int) - 1))
    rw [hl]
    apply List.mem_append_left
    have hz' : (entryFrame scr d).d.BufPtr = 0 := hz
    rw [hz']
    exact List.mem_append_right _ (List.mem_singleton.2 rfl)

/-- An instance of C38, as the code has it: on the line `abc` with the cursor between `b`
and `c`, BS loads the code units at the indices 1 and 2 and none before the base. -/
theorem loads_of_one_tick_witness :
    (∀ (i : Int) (n : Nat),
      Access.read i n ∈ (ProcessCookedReadInput (exampleHost true false) []
        (sessionAt (newSession 512 0 true true true) [0x61, 0x62, 0x63] 2)
        UNICODE_BACKSPACE 0).log → 0 ≤ i) ∧
    (ProcessCookedReadInput (exampleHost true false) []
        (sessionAt (newSession 512 0 true true true) [0x61, 0x62, 0x63] 2)
        UNICODE_BACKSPACE 0).log.map Access.parts
      = [(false, 1, 1), (false, 2, 1), (true, 1, 1), (true, 2, 1)] :=
  ⟨(loads_of_one_tick (exampleHost true false) []
      (sessionAt (newSession 512 0 true true true) [0x61, 0x62, 0x63] 2) UNICODE_BACKSPACE 0
      (by decide) (by decide) (by decide) (by decide) (by decide) (by decide)).2.1 (by decide),
    by decide⟩

/-- C38 fails on the code: extended edit keys on, a fresh read (empty line, write cursor
0) and the letter `a` typed. The call loads the code unit at index -1, one before the base
of the line buffer, for the word-delimiter test, and then stores the `a` at index 0. -/
theorem loads_of_one_tick_counterexample :
    (exampleHost true false).GetExtendedEditKey = true ∧
    (newSession 512 0 true true true).CurrentPosition = 0 ∧
    (newSession 512 0 true true true).BufPtr = 0 ∧
    (ProcessCookedReadInput (exampleHost true false) [] (newSession 512 0 true true true)
        0x61 0).log.map Access.parts
      = [(false, -1, 1), (true, 0, 1)] := by
  decide

/-! ## The count of visible cells -/

/-- A `ULONG` count at `a` is at `b` after the difference `b - a` is added to it. -/
theorem toULONG_add_subULONG (a b : Nat) (hb : b < 2 ^ 32) :
    toULONG (a + subULONG b a) = b := by
  unfold toULONG subULONG
  omega

/-- The count of `RetrieveTotalNumberOfSpaces` is a `ULONG`. -/
theorem RetrieveTotalNumberOfSpaces_lt (t : CharTables) (x0 : Int) (L : Mem) (n : Nat) :
    RetrieveTotalNumberOfSpaces t x0 L n < 2 ^ 32 := by
  unfold RetrieveTotalNumberOfSpaces
  rw [totalSpacesLoop_snd]
  exact Nat.mod_lt _ (by norm_num)

/-- `RetrieveTotalNumberOfSpaces` looks at the first `n` code units only. -/
theorem RetrieveTotalNumberOfSpaces_congr (t : CharTables) (x0 : Int) (L M : Mem) (n : Nat)
    (hLM : ∀ i : Nat, i < n → L i = M i) :
    RetrieveTotalNumberOfSpaces t x0 L n = RetrieveTotalNumberOfSpaces t x0 M n := by
  unfold RetrieveTotalNumberOfSpaces
  rw [totalSpacesLoop_congr t x0 L M n hLM]

/-- The echo at the head of `eol_repeat` with `Echo` set: the count reported by the screen
writer is added to the count of visible cells. -/
theorem eolEcho_echo {W : Type} (h : Host W) (wch : Nat) (f : Frame W)
    (he : f.d.Echo = true) :
    ∃ y : Int,
      (eolEcho h wch f).d =
        { f.d with
          OriginalCursorPosition := { X := f.d.OriginalCursorPosition.X, Y := y }
          NumberOfVisibleChars := toULONG (f.d.NumberOfVisibleChars +
            (h.WriteCharsLegacy f.scr
              { pwchBufferBackupLimit := f.d.BackupLimit
                pwchBuffer := f.d.BufPtr
                pwchRealUnicode := [wch]
                cb := sizeof_WCHAR
                wantSpaces := true
                sOriginalXPosition := f.d.OriginalCursorPosition.X
                dwFlags := { DESTRUCTIVE_BACKSPACE := true, KEEP_CURSOR_VISIBLE := true,
                             ECHO := true }
                wantScrollY := true }).2.NumSpaces) } := by
  unfold eolEcho
  dsimp only
  rw [if_pos he]
  split_ifs
  · exact ⟨_, rfl⟩
  · exact ⟨f.d.OriginalCursorPosition.Y, rfl⟩

/-- The repaint of the middle-of-line branch that does not return early: the count of
visible cells is the count reported by the screen writer for the whole line, and the
buffer, `BytesRead` and the column of the anchor are as before. -/
theorem midRepaint_visible {W : Type} (h : Host W) (wch : Nat) (f : Frame W)
    (hret : (midRepaint h wch f).2 = false) :
    (midRepaint h wch f).1.d.NumberOfVisibleChars =
      (h.WriteCharsLegacy (h.DeleteCommandLine f.scr f.d false)
        { pwchBufferBackupLimit := f.d.BackupLimit
          pwchBuffer := 0
          pwchRealUnicode := (List.range (f.d.BytesRead / sizeof_WCHAR)).map
            (fun (i : Nat) => f.d.BackupLimit (i : Int))
          cb := f.d.BytesRead
          wantSpaces := true
          sOriginalXPosition := f.d.OriginalCursorPosition.X
          dwFlags := { DESTRUCTIVE_BACKSPACE := true
                       KEEP_CURSOR_VISIBLE := decide (wch = UNICODE_CARRIAGERETURN)
                       ECHO := true }
          wantScrollY := true }).2.NumSpaces ∧
    (midRepaint h wch f).1.d.BackupLimit = f.d.BackupLimit ∧
    (midRepaint h wch f).1.d.BytesRead = f.d.BytesRead ∧
    (midRepaint h wch f).1.d.OriginalCursorPosition.X = f.d.OriginalCursorPosition.X := by
  unfold midRepaint at hret ⊢
  dsimp only at hret ⊢
  split_ifs at hret ⊢
  all_goals exact ⟨rfl, rfl, rfl, rfl⟩

/-- The exact count for the repaint of a whole line is the count of the line. -/
theorem exactCells_line (t : CharTables) (mem : Mem) (n cb : Nat) (x : Int) (fl : WriteFlags)
    (b1 b2 : Bool) :
    exactCells t
      { pwchBufferBackupLimit := mem
        pwchBuffer := 0
        pwchRealUnicode := (List.range n).map (fun (i : Nat) => mem (i : Int))
        cb := cb
        wantSpaces := b1
        sOriginalXPosition := x
        dwFlags := fl
        wantScrollY := b2 } = RetrieveTotalNumberOfSpaces t x mem n := by
  have hcongr : ∀ k : Nat, RetrieveTotalNumberOfSpaces t x
      (place mem 0 ((List.range n).map (fun (i : Nat) => mem (i : Int)))) k
      = RetrieveTotalNumberOfSpaces t x mem k := by
    intro k
    apply RetrieveTotalNumberOfSpaces_congr
    intro i _
    unfold place
    by_cases hi : i < n
    · rw [if_pos (by simp; omega)]
      simp [List.getD_eq_getElem?_getD, hi]
    · rw [if_neg (by simp; omega)]
  have hz : RetrieveTotalNumberOfSpaces t x mem 0 = 0 := rfl
  have hlt := RetrieveTotalNumberOfSpaces_lt t x mem n
  unfold exactCells
  dsimp only
  rw [if_neg (fun hb => hb.2.2 rfl), hz, hcongr]
  simp only [List.length_map, List.length_range, Nat.zero_add]
  unfold subULONG
  omega

/-- The exact count for a character other than BS written at index `p`: the count of the
line with the character stored there goes up from the count of the line before it. -/
theorem exactCells_store (t : CharTables) (mem : Mem) (p cb : Nat) (x : Int) (fl : WriteFlags)
    (b1 b2 : Bool) (wch : Nat) (hne : wch ≠ UNICODE_BACKSPACE) :
    toULONG (RetrieveTotalNumberOfSpaces t x mem p +
      exactCells t
        { pwchBufferBackupLimit := mem
          pwchBuffer := p
          pwchRealUnicode := [wch]
          cb := cb
          wantSpaces := b1
          sOriginalXPosition := x
          dwFlags := fl
          wantScrollY := b2 })
      = RetrieveTotalNumberOfSpaces t x (poke mem p wch) (p + 1) := by
  have hcongr : RetrieveTotalNumberOfSpaces t x (place mem p [wch]) (p + 1)
      = RetrieveTotalNumberOfSpaces t x (poke mem p wch) (p + 1) := by
    apply RetrieveTotalNumberOfSpaces_congr
    intro i hi
    unfold place poke
    by_cases hip : i = p
    · subst hip
      simp
    · have h1 : ¬((p : Int) ≤ (i : Int) ∧ (i : Int) < (p : Int) + ([wch].length : Nat)) := by
        simp only [List.length_singleton]
        omega
      have h2 : ¬((i : Int) = (p : Int)) := by omega
      rw [if_neg h1, if_neg h2]
  unfold exactCells
  dsimp only
  rw [if_neg (fun hb => hne (List.singleton_inj.mp hb.1)), List.length_singleton, hcongr]
  exact toULONG_add_subULONG _ _ (RetrieveTotalNumberOfSpaces_lt _ _ _ _)

/-- The exact count for a destructive BS written behind `p` code units, `p` not 0: the
count of the line goes down to the count of the line without its last code unit. -/
theorem exactCells_erase (t : CharTables) (mem : Mem) (p cb : Nat) (x : Int)
    (b1 b2 b3 b4 : Bool) (hp : p ≠ 0) :
    toULONG (RetrieveTotalNumberOfSpaces t x mem p +
      exactCells t
        { pwchBufferBackupLimit := mem
          pwchBuffer := p
          pwchRealUnicode := [UNICODE_BACKSPACE]
          cb := cb
          wantSpaces := b1
          sOriginalXPosition := x
          dwFlags := { DESTRUCTIVE_BACKSPACE := true, KEEP_CURSOR_VISIBLE := b3, ECHO := b4 }
          wantScrollY := b2 })
      = RetrieveTotalNumberOfSpaces t x (poke mem p UNICODE_SPACE) (p - 1) := by
  have hcongr : RetrieveTotalNumberOfSpaces t x (poke mem p UNICODE_SPACE) (p - 1)
      = RetrieveTotalNumberOfSpaces t x mem (p - 1) := by
    apply RetrieveTotalNumberOfSpaces_congr
    intro i hi
    unfold poke
    have h2 : ¬((i : Int) = (p : Int)) := by omega
    rw [if_neg h2]
  unfold exactCells
  dsimp only
  rw [if_pos ⟨rfl, rfl, hp⟩, hcongr]
  exact toULONG_add_subULONG _ _ (RetrieveTotalNumberOfSpaces_lt _ _ _ _)

/-- The console `exactHost` reports exact cell counts and its screen calls succeed. -/
theorem exactHost_ExactCells (extendedEditKey insertMode : Bool) :
    (exactHost extendedEditKey insertMode).ExactCells ∧
    (exactHost extendedEditKey insertMode).ScreenSucceeds :=
  ⟨fun _ _ _ => rfl, fun _ _ => rfl, fun _ _ _ => rfl⟩

/-- Claim C34, as the code has it. With `Echo` set and a screen writer that succeeds and
reports exact cell counts, a tick of `ProcessCookedReadInput` keeps the count of visible
cells equal to `RetrieveTotalNumberOfSpaces` of the line, counted from the column of the
anchor: when the equality holds before the tick, both forms of the write cursor agree,
`BytesRead` can go up by one `WCHAR` without wrapping, and the character is not a wake-up
character, not CR and, unless `Processed` is set, none of the three backspace characters,
the equality holds after the tick. -/
theorem visible_cells_exact {W : Type} (h : Host W) (scr : W) (d : COOKED_READ_DATA)
    (ch keyState : Nat)
    (hs : h.ScreenSucceeds) (hx : h.ExactCells)
    (hecho : d.Echo = true)
    (hptr : d.BufPtr = d.CurrentPosition)
    (hcap : d.BytesRead + sizeof_WCHAR < 2 ^ 32)
    (hnw : ¬(ch < UNICODE_SPACE ∧ d.CtrlWakeupMask &&& (1 <<< ch) ≠ 0))
    (hcr : ch ≠ UNICODE_CARRIAGERETURN)
    (hbs : d.Processed = true ∨
      (ch ≠ UNICODE_BACKSPACE ∧ ch ≠ h.EXTKEY_ERASE_PREV_WORD ∧ ch ≠ h.UNICODE_BACKSPACE2))
    (hinv : d.NumberOfVisibleChars =
      RetrieveTotalNumberOfSpaces h.toCharTables d.OriginalCursorPosition.X d.BackupLimit
        (d.BytesRead / sizeof_WCHAR)) :
    (ProcessCookedReadInput h scr d ch keyState).d.NumberOfVisibleChars =
      RetrieveTotalNumberOfSpaces h.toCharTables
        (ProcessCookedReadInput h scr d ch keyState).d.OriginalCursorPosition.X
        (ProcessCookedReadInput h scr d ch keyState).d.BackupLimit
        ((ProcessCookedReadInput h scr d ch keyState).d.BytesRead / sizeof_WCHAR) := by
  have hsz : sizeof_WCHAR = 2 := rfl
  obtain ⟨wch, hwch⟩ : ∃ w, (if ch = h.EXTKEY_ERASE_PREV_WORD then UNICODE_BACKSPACE else ch) = w :=
    ⟨_, rfl⟩
  obtain ⟨wch2, hwch2⟩ : ∃ w, (if wch = h.UNICODE_BACKSPACE2 then UNICODE_BACKSPACE else wch) = w :=
    ⟨_, rfl⟩
  have hCR1 : wch ≠ UNICODE_CARRIAGERETURN := by
    intro hc
    rw [← hwch] at hc
    by_cases hxk : ch = h.EXTKEY_ERASE_PREV_WORD
    · rw [if_pos hxk] at hc
      exact absurd hc (by decide)
    · rw [if_neg hxk] at hc
      exact hcr hc
  have hCR2 : wch2 ≠ UNICODE_CARRIAGERETURN := by
    intro hc
    rw [← hwch2] at hc
    by_cases hxk : wch = h.UNICODE_BACKSPACE2
    · rw [if_pos hxk] at hc
      exact absurd hc (by decide)
    · rw [if_neg hxk] at hc
      exact hCR1 hc
  have hBS2 : ¬(wch2 = UNICODE_BACKSPACE ∧ d.Processed = true) → wch2 ≠ UNICODE_BACKSPACE := by
    intro hnb hw2
    rcases hbs with hp | ⟨n1, n2, n3⟩
    · exact hnb ⟨hw2, hp⟩
    · rw [← hwch2, ← hwch, if_neg n2, if_neg n3] at hw2
      exact n1 hw2
  refine ProcessCookedReadInput_induction h scr d ch keyState
    (fun f => f.d.Echo = true ∧ (AT_EOL d = true →
      f.d.BufPtr = f.d.CurrentPosition ∧
      f.d.CurrentPosition = f.d.BytesRead / sizeof_WCHAR ∧
      f.d.BytesRead ≤ d.BytesRead ∧
      f.d.NumberOfVisibleChars =
        RetrieveTotalNumberOfSpaces h.toCharTables f.d.OriginalCursorPosition.X
          f.d.BackupLimit (f.d.BytesRead / sizeof_WCHAR)))
    (fun f => f.d.Echo = true)
    (fun f => f.d.NumberOfVisibleChars =
      RetrieveTotalNumberOfSpaces h.toCharTables f.d.OriginalCursorPosition.X
        f.d.BackupLimit (f.d.BytesRead / sizeof_WCHAR))
    (fun t => t.d.NumberOfVisibleChars =
      RetrieveTotalNumberOfSpaces h.toCharTables t.d.OriginalCursorPosition.X
        t.d.BackupLimit (t.d.BytesRead / sizeof_WCHAR))
    wch wch2 hwch hwch2
    ?_ ?_ ?_ ?_ ?_ ?_ ?_ ?_ ?_ ?_ ?_ ?_ ?_ ?_ ?_ ?_
  · -- the buffer-full guard
    intro _ _ _
    exact hinv
  · -- a wake-up character
    intro _ h1 h2
    exact absurd ⟨h1, h2⟩ hnw
  · -- on entry
    intro _ _
    refine ⟨hecho, fun heol => ⟨hptr, ?_, le_refl _, hinv⟩⟩
    unfold AT_EOL at heol
    exact of_decide_eq_true heol
  · intro hP _ _
    exact hP
  · intro f hP _ _ _
    exact hP
  · -- a pass of `eol_repeat` that erases
    intro heol _ f hP hne _
    obtain ⟨he, hE⟩ := hP
    obtain ⟨h1, h2, h3, h4⟩ := hE heol
    obtain ⟨y, hd⟩ := eolEcho_echo h UNICODE_BACKSPACE f he
    have hd2 : (eolErase (eolEcho h UNICODE_BACKSPACE f)).d =
        { f.d with
          OriginalCursorPosition := { X := f.d.OriginalCursorPosition.X, Y := y }
          NumberOfVisibleChars := toULONG (f.d.NumberOfVisibleChars +
            (h.WriteCharsLegacy f.scr
              { pwchBufferBackupLimit := f.d.BackupLimit
                pwchBuffer := f.d.BufPtr
                pwchRealUnicode := [UNICODE_BACKSPACE]
                cb := sizeof_WCHAR
                wantSpaces := true
                sOriginalXPosition := f.d.OriginalCursorPosition.X
                dwFlags := { DESTRUCTIVE_BACKSPACE := true, KEEP_CURSOR_VISIBLE := true,
                             ECHO := true }
                wantScrollY := true }).2.NumSpaces)
          BytesRead := subULONG f.d.BytesRead sizeof_WCHAR
          BackupLimit := poke f.d.BackupLimit f.d.BufPtr UNICODE_SPACE
          BufPtr := f.d.BufPtr - 1
          CurrentPosition := subULONG f.d.CurrentPosition 1 } := by
      unfold eolErase
      rw [hd]
    rw [hsz] at h2 h4 hcap
    have e1 : subULONG f.d.BytesRead sizeof_WCHAR = f.d.BytesRead - 2 := by
      rw [hsz]
      exact subULONG_eq _ _ (by omega) (by omega)
    have e2 : subULONG f.d.CurrentPosition 1 = f.d.CurrentPosition - 1 :=
      subULONG_eq _ _ (by omega) (by omega)
    have e3 : f.d.BytesRead / 2 = f.d.BufPtr := by omega
    refine ⟨?_, fun _ => ⟨?_, ?_, ?_, ?_⟩⟩
    · rw [hd2]
      exact he
    · rw [hd2]
      dsimp only
      rw [e2, h1]
    · rw [hd2]
      dsimp only
      rw [e1, e2, hsz]
      omega
    · rw [hd2]
      dsimp only
      rw [e1]
      omega
    · rw [hd2]
      dsimp only
      rw [hx _ _ rfl, h4, e3, exactCells_erase _ _ _ _ _ _ _ _ _ hne, e1, hsz]
      congr 1
      omega
  · -- a pass of `eol_repeat` that stores
    intro heol hnb f hP hfd
    obtain ⟨he, hE⟩ := hP
    obtain ⟨h1, h2, h3, h4⟩ := hE heol
    obtain ⟨y, hd⟩ := eolEcho_echo h wch2 f he
    have hd2 : (eolStore wch2 (eolEcho h wch2 f)).d =
        { f.d with
          OriginalCursorPosition := { X := f.d.OriginalCursorPosition.X, Y := y }
          NumberOfVisibleChars := toULONG (f.d.NumberOfVisibleChars +
            (h.WriteCharsLegacy f.scr
              { pwchBufferBackupLimit := f.d.BackupLimit
                pwchBuffer := f.d.BufPtr
                pwchRealUnicode := [wch2]
                cb := sizeof_WCHAR
                wantSpaces := true
                sOriginalXPosition := f.d.OriginalCursorPosition.X
                dwFlags := { DESTRUCTIVE_BACKSPACE := true, KEEP_CURSOR_VISIBLE := true,
                             ECHO := true }
                wantScrollY := true }).2.NumSpaces)
          BackupLimit := poke f.d.BackupLimit f.d.BufPtr wch2
          BytesRead := toULONG (f.d.BytesRead + sizeof_WCHAR)
          BufPtr := f.d.BufPtr + 1
          CurrentPosition := toULONG (f.d.CurrentPosition + 1) } := by
      unfold eolStore
      rw [hd]
    rw [hsz] at h2 h4 hcap
    have e1 : toULONG (f.d.BytesRead + sizeof_WCHAR) = f.d.BytesRead + 2 := by
      rw [hsz]
      unfold toULONG
      omega
    have e3 : f.d.BytesRead / 2 = f.d.BufPtr := by omega
    show (eolStore wch2 (eolEcho h wch2 f)).d.NumberOfVisibleChars = _
    rw [hd2]
    dsimp only
    rw [hx _ _ rfl, h4, e3, exactCells_store _ _ _ _ _ _ _ _ _ (hBS2 hnb), e1, hsz]
    congr 1
    omega
  · -- a pass of `bs_repeat`
    intro hne _ f hP _ _
    refine ⟨?_, fun heol => absurd heol hne⟩
    rw [(bsErase_shape h UNICODE_BACKSPACE f).1]
    exact hP.1
  · intro heol f hP
    exact (hP.2 heol).2.2.2
  · intro _
    exact hinv
  · intro f hP
    exact hP.1
  · -- the first half of the middle-of-line branch
    intro _ hnb _
    show (midEdit h wch ch (entryFrame scr d)).1.d.Echo = true
    rw [(midEdit_char h wch ch (entryFrame scr d) hnb hCR1).2.1]
    exact hecho
  · -- the repaint cannot return early
    intro f _ _ hret
    exact absurd hs (midRepaint_early h wch f hret)
  · -- the repaint
    intro f _ _ hret
    obtain ⟨v1, v2, v3, v4⟩ := midRepaint_visible h wch f hret
    show (midRepaint h wch f).1.d.NumberOfVisibleChars = _
    rw [v1, v2, v3, v4, hx _ _ rfl, exactCells_line]
  · intro f hM he
    rw [hM] at he
    exact Bool.noConfusion he
  · -- the closing block
    intro f w hQ hw
    have hne : w ≠ UNICODE_CARRIAGERETURN := by
      rcases hw with ⟨_, hw⟩ | ⟨_, hw⟩
      · rw [hw]
        exact hCR2
      · rw [hw]
        exact hCR1
    rw [crCompletion_of_ne h w f hne]
    exact hQ

/-- An instance of C34, amended, on a console that counts cells exactly, the line starting
in column 0: after `a`, a TAB typed at the end of the line takes the count of visible
cells from 1 to 8, the count of the line `a TAB`; on the line `abc` with the cursor on
`b`, a full-width character typed over `b` takes the count from 3 to 4. -/
theorem visible_cells_exact_witness :
    ((ProcessCookedReadInput (exactHost false false) []
        { sessionAt (newSession 512 0 true false true) [0x61] 1 with
          OriginalCursorPosition := { X := 0, Y := 0 } } UNICODE_TAB 0).d.NumberOfVisibleChars
      = RetrieveTotalNumberOfSpaces exampleTables 0 (lineOf [0x61, 0x09]) 2 ∧
     (ProcessCookedReadInput (exactHost false false) []
        { sessionAt (newSession 512 0 true false true) [0x61] 1 with
          OriginalCursorPosition := { X := 0, Y := 0 } } UNICODE_TAB 0).d.NumberOfVisibleChars
      = 8) ∧
    ((ProcessCookedReadInput (exactHost false false) []
        (sessionAt (newSession 512 0 true false true) [0x61, 0x62, 0x63] 1)
        0x4E2D 0).d.NumberOfVisibleChars
      = RetrieveTotalNumberOfSpaces exampleTables
          (ProcessCookedReadInput (exactHost false false) []
            (sessionAt (newSession 512 0 true false true) [0x61, 0x62, 0x63] 1)
            0x4E2D 0).d.OriginalCursorPosition.X
          (ProcessCookedReadInput (exactHost false false) []
            (sessionAt (newSession 512 0 true false true) [0x61, 0x62, 0x63] 1)
            0x4E2D 0).d.BackupLimit
          ((ProcessCookedReadInput (exactHost false false) []
            (sessionAt (newSession 512 0 true false true) [0x61, 0x62, 0x63] 1)
            0x4E2D 0).d.BytesRead / sizeof_WCHAR) ∧
     (ProcessCookedReadInput (exactHost false false) []
        (sessionAt (newSession 512 0 true false true) [0x61, 0x62, 0x63] 1)
        0x4E2D 0).d.NumberOfVisibleChars = 4 ∧
     content (ProcessCookedReadInput (exactHost false false) []
        (sessionAt (newSession 512 0 true false true) [0x61, 0x62, 0x63] 1)
        0x4E2D 0).d = [0x61, 0x4E2D, 0x63]) :=
  ⟨⟨(visible_cells_exact (exactHost false false) []
        { sessionAt (newSession 512 0 true false true) [0x61] 1 with
          OriginalCursorPosition := { X := 0, Y := 0 } } UNICODE_TAB 0
        ⟨fun _ _ => rfl, fun _ _ _ => rfl⟩ (fun _ _ _ => rfl) rfl rfl (by decide) (by decide)
        (by decide) (Or.inl rfl) (by decide)).trans (by decide), by decide⟩,
   ⟨visible_cells_exact (exactHost false false) []
        (sessionAt (newSession 512 0 true false true) [0x61, 0x62, 0x63] 1) 0x4E2D 0
        ⟨fun _ _ => rfl, fun _ _ _ => rfl⟩ (fun _ _ _ => rfl) rfl rfl (by decide) (by decide)
        (by decide) (Or.inl rfl) (by decide), by decide, by decide⟩⟩

/-- C34 as stated fails with `Echo` off and for the characters that the tick stores
without counting them, on a console that counts cells exactly, the equality holding
before the tick in each case. With `Echo` off the letter `a` typed on an empty line is
stored and the count of visible cells stays 0, the line `a` taking 1 cell. With `Echo`
on, after `x y`: the wake-up character CTRL+G is stored and the count stays 2, the line
taking 4 cells; CR brings CR and LF into the line, the LF is not counted, the count is 4
and the line takes 6 cells; and on a read without `Processed`, BS takes the count down to
1 and is stored, the line `x y BS` taking 4 cells. -/
theorem visible_cells_exact_counterexample :
    ((newSession 512 0 false false true).NumberOfVisibleChars
        = RetrieveTotalNumberOfSpaces exampleTables (-1) (lineOf []) 0 ∧
     content (ProcessCookedReadInput (exactHost false false) []
        (newSession 512 0 false false true) 0x61 0).d = [0x61] ∧
     (ProcessCookedReadInput (exactHost false false) []
        (newSession 512 0 false false true) 0x61 0).d.NumberOfVisibleChars = 0 ∧
     RetrieveTotalNumberOfSpaces exampleTables
        (ProcessCookedReadInput (exactHost false false) []
          (newSession 512 0 false false true) 0x61 0).d.OriginalCursorPosition.X
        (ProcessCookedReadInput (exactHost false false) []
          (newSession 512 0 false false true) 0x61 0).d.BackupLimit
        ((ProcessCookedReadInput (exactHost false false) []
          (newSession 512 0 false false true) 0x61 0).d.BytesRead / sizeof_WCHAR) = 1) ∧
    (xySession.NumberOfVisibleChars
        = RetrieveTotalNumberOfSpaces exampleTables xySession.OriginalCursorPosition.X
            xySession.BackupLimit (xySession.BytesRead / sizeof_WCHAR) ∧
     content (ProcessCookedReadInput (exactHost false false) [] xySession 0x07 0).d
        = [0x78, 0x79, 0x07] ∧
     (ProcessCookedReadInput (exactHost false false) [] xySession 0x07 0).d.NumberOfVisibleChars
        = 2 ∧
     RetrieveTotalNumberOfSpaces exampleTables
        (ProcessCookedReadInput (exactHost false false) [] xySession 0x07
          0).d.OriginalCursorPosition.X
        (ProcessCookedReadInput (exactHost false false) [] xySession 0x07 0).d.BackupLimit
        ((ProcessCookedReadInput (exactHost false false) [] xySession 0x07 0).d.BytesRead
          / sizeof_WCHAR) = 4) ∧
    (content (ProcessCookedReadInput (exactHost false false) [] xySession
        UNICODE_CARRIAGERETURN 0).d = [0x78, 0x79, 0x0D, 0x0A] ∧
     (ProcessCookedReadInput (exactHost false false) [] xySession
        UNICODE_CARRIAGERETURN 0).d.NumberOfVisibleChars = 4 ∧
     RetrieveTotalNumberOfSpaces exampleTables
        (ProcessCookedReadInput (exactHost false false) [] xySession
          UNICODE_CARRIAGERETURN 0).d.OriginalCursorPosition.X
        (ProcessCookedReadInput (exactHost false false) [] xySession
          UNICODE_CARRIAGERETURN 0).d.BackupLimit
        ((ProcessCookedReadInput (exactHost false false) [] xySession
          UNICODE_CARRIAGERETURN 0).d.BytesRead / sizeof_WCHAR) = 6) ∧
    (content (ProcessCookedReadInput (exactHost false false) []
        (sessionAt (newSession 512 0 true false false) [0x78, 0x79] 2)
        UNICODE_BACKSPACE 0).d = [0x78, 0x79, 0x08] ∧
     (ProcessCookedReadInput (exactHost false false) []
        (sessionAt (newSession 512 0 true false false) [0x78, 0x79] 2)
        UNICODE_BACKSPACE 0).d.NumberOfVisibleChars = 1 ∧
     RetrieveTotalNumberOfSpaces exampleTables
        (ProcessCookedReadInput (exactHost false false) []
          (sessionAt (newSession 512 0 true false false) [0x78, 0x79] 2)
          UNICODE_BACKSPACE 0).d.OriginalCursorPosition.X
        (ProcessCookedReadInput (exactHost false false) []
          (sessionAt (newSession 512 0 true false false) [0x78, 0x79] 2)
          UNICODE_BACKSPACE 0).d.BackupLimit
        ((ProcessCookedReadInput (exactHost false false) []
          (sessionAt (newSession 512 0 true false false) [0x78, 0x79] 2)
          UNICODE_BACKSPACE 0).d.BytesRead / sizeof_WCHAR) = 4) := by
  refine ⟨?_, ?_, ?_, ?_⟩ <;> decide

end Stream
